import Mathlib

/-!
# Powder Sandbox Classic: simulation engine

A shallow embedding of the simulation engine of `src/powder_sandbox.cpp`
(element taxonomy, grid, `explode`, `place_brush`, `step_sim`) together with
theorems about it.

Modelling conventions.

* `int` is `Int`: the engine only forms coordinates next to the grid and lives
  next to small constants, so no arithmetic of the model leaves the range of a
  C++ `int` unless a caller passes a coordinate or radius near `INT_MAX`.
* The globals `gWidth`, `gHeight`, `grid`, `rng` and the tick-local mask
  `updated` are the fields of one record `World`, threaded through every
  function by the state monad `SimM`.
* `grid[y][x]` and `updated[y][x]` are accesses into a `vector<vector<..>>`;
  an index outside the vector makes the embedded function return `none`.
* `rng` is an arbitrary stream of draws: `rint a b` consumes one element of the
  stream and maps it into `[a, b]`, so quantifying over the stream quantifies
  over every sequence of outcomes of the generator.
* A C++ reference such as `Cell &cell = grid[y][x]` is a position: every use of
  it reads or writes the grid at that position again.
-/

namespace PowderSandbox

/-! ## Elements -/

/-- The element kinds, `enum class Element`. -/
inductive Element where
  | EMPTY
  | SAND | GUNPOWDER | ASH | SNOW
  | WATER | SALTWATER | OIL | ETHANOL | ACID | LAVA | MERCURY
  | STONE | GLASS | WALL | WOOD | PLANT | METAL | WIRE | ICE | COAL
  | DIRT | WET_DIRT | SEAWEED
  | SMOKE | STEAM | GAS | TOXIC_GAS | HYDROGEN | CHLORINE
  | FIRE | LIGHTNING | HUMAN | ZOMBIE
  deriving DecidableEq, Repr

open Element

/-- The cell record, `struct Cell`: an element kind and the integer `life`. -/
structure Cell where
  type : Element
  life : Int
  deriving DecidableEq, Repr

/-- The value of `Cell{}`: `EMPTY` with life 0. -/
def Cell.blank : Cell := ⟨EMPTY, 0⟩

instance : Inhabited Cell := ⟨Cell.blank⟩

/-- The helper `empty(const Cell&)`. -/
def empty (c : Cell) : Bool := decide (c.type = EMPTY)

/-- The classification `sandlike`. -/
def sandlike : Element → Bool
  | SAND | GUNPOWDER | ASH | SNOW => true
  | _ => false

/-- The classification `liquid`. -/
def liquid : Element → Bool
  | WATER | SALTWATER | OIL | ETHANOL | ACID | LAVA | MERCURY => true
  | _ => false

/-- The classification `gas`. -/
def gas : Element → Bool
  | SMOKE | STEAM | GAS | TOXIC_GAS | HYDROGEN | CHLORINE => true
  | _ => false

/-- The classification `flammable`. -/
def flammable : Element → Bool
  | WOOD | PLANT | OIL | ETHANOL | GUNPOWDER | COAL | SEAWEED => true
  | _ => false

/-- The classification `conductor`. -/
def conductor : Element → Bool
  | METAL | WIRE | MERCURY | SALTWATER => true
  | _ => false

/-- The classification `dissolvable`. -/
def dissolvable : Element → Bool
  | SAND | STONE | GLASS | WOOD | PLANT | METAL | WIRE | ASH | COAL
  | SEAWEED | DIRT | WET_DIRT => true
  | _ => false

/-- The relative density `density`. -/
def density : Element → Int
  | ETHANOL => 85
  | OIL => 90
  | GAS | HYDROGEN => 1
  | STEAM => 2
  | SMOKE => 3
  | CHLORINE => 5
  | WATER => 100
  | SALTWATER => 103
  | ACID => 110
  | LAVA => 160
  | MERCURY => 200
  | _ => 999

/-- The classification `is_hazard`. -/
def is_hazard : Element → Bool
  | FIRE | LAVA | ACID | TOXIC_GAS | CHLORINE | LIGHTNING => true
  | _ => false

/-! ## Vectors of vectors -/

/-- The element `v[i]` of a vector indexed by an `int`; `none` outside `0 .. size-1`. -/
def nth? {α : Type} (l : List α) (i : Int) : Option α :=
  if 0 ≤ i then l.get? i.toNat else none

/-- The vector `v` after `v[i] = a`; unchanged when `i` is outside the vector. -/
def setNth {α : Type} (l : List α) (i : Int) (a : α) : List α :=
  if 0 ≤ i then l.set i.toNat a else l

/-- The element `m[y][x]` of a vector of vectors. -/
def at? {α : Type} (m : List (List α)) (x y : Int) : Option α :=
  (nth? m y).bind fun row => nth? row x

/-- The vector of vectors `m` after `m[y][x] = a`; unchanged outside it. -/
def setAt {α : Type} (m : List (List α)) (x y : Int) (a : α) : List (List α) :=
  match nth? m y with
  | some row => setNth m y (setNth row x a)
  | none => m

/-! ## Arithmetic of `int`

The source computes with 32-bit `int`. Where a result can leave the range of `int` it
is taken modulo `2^32` (two's complement), as the compiled program does. -/

/-- The `int` whose value is `n` modulo `2^32`: the result of an `int` operation whose
exact result is `n`. -/
def wrap32 (n : Int) : Int := (n + 2147483648) % 4294967296 - 2147483648

/-- The value of `n` after `++n`, for an `int` `n`: `INT_MAX` becomes `INT_MIN`. -/
def inc32 (n : Int) : Int := if n = 2147483647 then -2147483648 else n + 1

/-- The value of `n` after `--n`, for an `int` `n`: `INT_MIN` becomes `INT_MAX`. -/
def dec32 (n : Int) : Int := if n = -2147483648 then 2147483647 else n - 1

/-- The integers `lo, lo+1, .., hi` in increasing order (empty when `hi < lo`):
the values a loop `for (int i = lo; i <= hi; ++i)` runs through. -/
def irange (lo hi : Int) : List Int :=
  (List.range (hi - lo + 1).toNat).map fun (i : Nat) => lo + (i : Int)

/-! ## The state and its monad -/

/-- The mutable state of the engine: the globals `gWidth`, `gHeight`, `grid`,
the random generator (a stream `draws` and the number `pos` of draws consumed so
far), and the mask `updated` that `step_sim` allocates for one tick. -/
structure World where
  gWidth : Int
  gHeight : Int
  grid : List (List Cell)
  updated : List (List Bool)
  draws : Nat → Nat
  pos : Nat

/-- State-passing computations over `World` that fail (`none`) on an access
outside a vector. -/
def SimM (α : Type) : Type := World → Option (α × World)

instance : Monad SimM where
  pure a := fun w => some (a, w)
  bind m f := fun w =>
    match m w with
    | some (a, w1) => f a w1
    | none => none

/-- The bounds test `in_bounds(x, y)` against the globals `gWidth`, `gHeight`. -/
def World.inb (w : World) (x y : Int) : Bool :=
  decide (0 ≤ x) && decide (x < w.gWidth) && decide (0 ≤ y) && decide (y < w.gHeight)

/-- The cell `grid[y][x]`, `Cell.blank` outside the vectors (total reading used
in statements; the engine itself reads through `getCell`). -/
def World.cell (w : World) (x y : Int) : Cell :=
  (at? w.grid x y).getD Cell.blank

/-- The flag `updated[y][x]`, `false` outside the vectors. -/
def World.upd (w : World) (x y : Int) : Bool :=
  (at? w.updated x y).getD false

/-- The state after `grid[y][x] = c`. -/
def World.put (w : World) (x y : Int) (c : Cell) : World :=
  { w with grid := setAt w.grid x y c }

/-- The state after `updated[y][x] = true`. -/
def World.mark (w : World) (x y : Int) : World :=
  { w with updated := setAt w.updated x y true }

/-- The call `in_bounds(x, y)`. -/
def in_bounds (x y : Int) : SimM Bool := fun w => some (w.inb x y, w)

/-- Read the global `gWidth`. -/
def getWidth : SimM Int := fun w => some (w.gWidth, w)

/-- Read the global `gHeight`. -/
def getHeight : SimM Int := fun w => some (w.gHeight, w)

/-- Read `grid[y][x]`; fails outside the vectors. -/
def getCell (x y : Int) : SimM Cell := fun w =>
  match at? w.grid x y with
  | some c => some (c, w)
  | none => none

/-- Write `grid[y][x] = c`; fails outside the vectors. -/
def setCell (x y : Int) (c : Cell) : SimM Unit := fun w =>
  match at? w.grid x y with
  | some _ => some ((), w.put x y c)
  | none => none

/-- Write `grid[y][x].life = v`, keeping the kind; fails outside the vectors. -/
def setLife (x y : Int) (v : Int) : SimM Unit := fun w =>
  match at? w.grid x y with
  | some c => some ((), w.put x y ⟨c.type, v⟩)
  | none => none

/-- Read `updated[y][x]`; fails outside the vectors. -/
def getUpdated (x y : Int) : SimM Bool := fun w =>
  match at? w.updated x y with
  | some b => some (b, w)
  | none => none

/-- Write `updated[y][x] = true`; fails outside the vectors. -/
def setUpdated (x y : Int) : SimM Unit := fun w =>
  match at? w.updated x y with
  | some _ => some ((), w.mark x y)
  | none => none

/-- The draw `rint(a, b)`: one element of the stream, mapped into `[a, b]`. -/
def rint (a b : Int) : SimM Int := fun w =>
  some (a + ((w.draws w.pos : Nat) : Int) % (b - a + 1), { w with pos := w.pos + 1 })

/-- The draw `chance(p)`: a roll in `[1, 100]` compared with `p`. -/
def chance (p : Int) : SimM Bool := do
  let v ← rint 1 100
  pure (decide (v ≤ p))

/-- A loop over the values of `l` in order, running `body` on each. -/
def forEach {β : Type} : List β → (β → SimM Unit) → SimM Unit
  | [], _ => pure ()
  | b :: bs, body => do
    body b
    forEach bs body

/-- A loop over the values of `l` in order that stops as soon as `body` returns
`true` (a `break`, or a loop condition `&& !flag`); returns whether one did. -/
def firstM {β : Type} : List β → (β → SimM Bool) → SimM Bool
  | [], _ => pure false
  | b :: bs, body => do
    let r ← body b
    if r then pure true else firstM bs body

/-- A loop over the values of `l` in order that stops at the first value for
which `body` finds something, and returns what it found. -/
def findM {β γ : Type} : List β → (β → SimM (Option γ)) → SimM (Option γ)
  | [], _ => pure none
  | b :: bs, body => do
    let r ← body b
    match r with
    | some c => pure (some c)
    | none => findM bs body

/-- The offsets `-k, .., k` of a loop `for (int d = -k; d <= k; ++d)` whose bound `k` is
a literal of the source (1, 2 or 6), so that neither `-k` nor `++d` can overflow. -/
def span (k : Int) : List Int := irange (-k) k

/-- The nested loops `for (int dy = -k; dy <= k; ++dy)` (outer) and
`for (int dx = -k; dx <= k; ++dx)` (inner). For `k = INT_MAX` the condition `d <= k`
never fails (`++d` wraps around), so the loop does not end and there is no result;
the start `-k` is computed in `int`. -/
def forBox (k : Int) (body : Int → Int → SimM Unit) : SimM Unit :=
  if k = 2147483647 then fun _ => none
  else
    forEach (irange (wrap32 (-k)) k) fun dy =>
      forEach (irange (wrap32 (-k)) k) fun dx => body dx dy

/-! ## Helpers: `explode` and `place_brush` -/

/-- The kinds `explode` leaves alone. -/
def blastproof : Element → Bool
  | WALL | STONE | GLASS | METAL | WIRE | ICE => true
  | _ => false

/-- The body of the two loops of `explode` at the offset `(dx, dy)`. -/
def explodeCell (cx cy r dx dy : Int) : SimM Unit := do
  let x := wrap32 (cx + dx)
  let y := wrap32 (cy + dy)
  let ib ← in_bounds x y
  if !ib then pure ()
  else if wrap32 (wrap32 (dx * dx) + wrap32 (dy * dy)) > wrap32 (r * r) then pure ()
  else do
    let c ← getCell x y
    if c.type = WALL then pure ()
    else if c.type = STONE ∨ c.type = GLASS ∨ c.type = METAL ∨ c.type = WIRE ∨ c.type = ICE then
      pure ()
    else do
      let roll ← rint 1 100
      if roll ≤ 50 then do
        let k ← rint 0 10
        setCell x y ⟨FIRE, 15 + k⟩
      else if roll ≤ 80 then setCell x y ⟨SMOKE, 20⟩
      else setCell x y ⟨GAS, 20⟩

/-- The function `explode(cx, cy, r)`. -/
def explode (cx cy r : Int) : SimM Unit :=
  forBox r fun dx dy => explodeCell cx cy r dx dy

/-- The `while (y+1 < gHeight)` loop of the lightning brush: starting at row `y`
of column `x`, move down while the cell below is `EMPTY` or a gas; returns the
last row reached. `fuel` bounds the number of iterations; running out of it is a
failure. -/
def boltEnd (x : Int) : Nat → Int → SimM Int
  | 0, _ => fun _ => none
  | fuel + 1, y => do
    let h ← getHeight
    if y + 1 < h then do
      let below ← getCell x (y + 1)
      if !empty below && !gas below.type then pure y
      else boltEnd x fuel (y + 1)
    else pure y

/-- The body of the two loops of `place_brush` at the offset `(dx, dy)`. -/
def brushCell (cx cy rad : Int) (e : Element) (dx dy : Int) : SimM Unit := do
  let x := wrap32 (cx + dx)
  let y := wrap32 (cy + dy)
  let ib ← in_bounds x y
  if !ib then pure ()
  else if wrap32 (wrap32 (dx * dx) + wrap32 (dy * dy)) ≤ wrap32 (rad * rad) then do
    setCell x y ⟨e, 0⟩
    (if gas e then setLife x y 25 else pure ())
    if e = FIRE then setLife x y 20
  else pure ()

/-- The lightning branch of `place_brush`. -/
def strike (cx cy : Int) : SimM Unit := do
  let ib ← in_bounds cx cy
  if !ib then pure ()
  else do
    let h ← getHeight
    let y ← boltEnd cx (h.toNat + 1) cy
    forEach (irange cy y) fun yy => setCell cx yy ⟨LIGHTNING, 2⟩
    if y + 1 < h then do
      let below ← getCell cx (y + 1)
      if below.type = WATER ∨ below.type = SALTWATER then
        setLife cx (y + 1) (max below.life 8)

/-- The function `place_brush(cx, cy, rad, e)`. -/
def place_brush (cx cy rad : Int) (e : Element) : SimM Unit :=
  if e = LIGHTNING then strike cx cy
  else forBox rad fun dx dy => brushCell cx cy rad e dx dy

/-! ## Simulation: the pieces of `step_sim`

Throughout, `(x, y)` is the position of the visited cell (the reference `cell`)
and `t` the kind it had when the visit started. -/

/-- The lambda `swap_to(nx, ny)`: `std::swap(grid[ny][nx], cell)` and
`updated[ny][nx] = true`. -/
def swap_to (x y nx ny : Int) : SimM Unit := do
  let a ← getCell nx ny
  let b ← getCell x y
  setCell nx ny b
  setCell x y a
  setUpdated nx ny

/-- One move attempt of a powder: into `(nx, ny)` if that is in bounds and
`EMPTY` or a liquid. Returns whether it moved. -/
def powderTry (x y nx ny : Int) : SimM Bool := do
  let ib ← in_bounds nx ny
  if !ib then pure false
  else do
    let d ← getCell nx ny
    if empty d || liquid d.type then do
      swap_to x y nx ny
      pure true
    else pure false

/-- The movement of a powder: straight down, else the two diagonals in a random
order. Returns `moved`. -/
def powderMove (x y : Int) : SimM Bool := do
  let m0 ← powderTry x y x (y + 1)
  if m0 then pure true
  else do
    let r ← rint 0 1
    let dir : Int := if r ≠ 0 then 1 else -1
    let m1 ← powderTry x y (x + dir) (y + 1)
    if m1 then pure true
    else powderTry x y (x - dir) (y + 1)

/-- The block `snow melts near heat`. -/
def snowMelt (x y : Int) : SimM Unit :=
  forBox 1 fun dx dy => do
    let nx := x + dx
    let ny := y + dy
    let ib ← in_bounds nx ny
    if !ib then pure ()
    else do
      let n ← getCell nx ny
      if n.type = FIRE ∨ n.type = LAVA then setCell x y ⟨WATER, 0⟩

/-- The condition `in_bounds(x,y-1) && grid[y-1][x].type==Element::WATER`. -/
def waterAbove (x y : Int) : SimM Bool := do
  let ib ← in_bounds x (y - 1)
  if !ib then pure false
  else do
    let c ← getCell x (y - 1)
    pure (decide (c.type = WATER))

/-- The scan of the 5x5 square for `SEAWEED` (the flag `nearbyWeed`). -/
def weedNear (x y : Int) : SimM Bool :=
  firstM (span 2) fun wy => firstM (span 2) fun wx => do
    let sx := x + wx
    let sy := y + wy
    let ib ← in_bounds sx sy
    if !ib then pure false
    else do
      let c ← getCell sx sy
      pure (decide (c.type = SEAWEED))

/-- The block `seaweed seed: sand under persistent water, spaced apart`. -/
def sandSeed (x y : Int) : SimM Unit := do
  let wa ← waterAbove x y
  if wa then do
    let c ← getCell x y
    setLife x y (inc32 c.life)
    let c1 ← getCell x y
    if c1.life > 220 then do
      let nearbyWeed ← weedNear x y
      (if !nearbyWeed then do
        let wa2 ← waterAbove x y
        if wa2 then setCell x (y - 1) ⟨SEAWEED, 0⟩
      else pure ())
      setLife x y 0
  else setLife x y 0

/-- The branch `powders` of `step_sim`. -/
def powderRule (x y : Int) (t : Element) : SimM Unit := do
  let moved ← powderMove x y
  (if !moved then setUpdated x y else pure ())
  (if t = SNOW then snowMelt x y else pure ())
  if t = SAND then sandSeed x y

/-- The downward move of a liquid of kind `t`. Returns whether it moved. -/
def liquidDown (x y : Int) (t : Element) : SimM Bool := do
  let ib ← in_bounds x (y + 1)
  if !ib then pure false
  else do
    let b ← getCell x (y + 1)
    if empty b || gas b.type then do
      swap_to x y x (y + 1)
      pure true
    else if liquid b.type && decide (density t > density b.type) then do
      swap_to x y x (y + 1)
      pure true
    else pure false

/-- One sideways move attempt of a liquid of kind `t`, into column `nx`. -/
def liquidSide (x y : Int) (t : Element) (nx : Int) : SimM Bool := do
  let ib ← in_bounds nx y
  if !ib then pure false
  else do
    let s ← getCell nx y
    if empty s || gas s.type then do
      swap_to x y nx y
      pure true
    else if liquid s.type && decide (density t > density s.type) then do
      let c ← chance 50
      if c then do
        swap_to x y nx y
        pure true
      else pure false
    else pure false

/-- The movement of a liquid: down, else left and right in a random order. -/
def liquidMove (x y : Int) (t : Element) : SimM Bool := do
  let m0 ← liquidDown x y t
  if m0 then pure true
  else do
    let r ← rint 0 1
    let o : Int := if r ≠ 0 then 1 else -1
    let m1 ← liquidSide x y t (x + o)
    if m1 then pure true
    else liquidSide x y t (x - o)

/-- The block `water vs fire/lava` for the neighbour `(nx, ny)`. -/
def waterReact (x y nx ny : Int) : SimM Unit := do
  let n ← getCell nx ny
  if n.type = FIRE then setCell nx ny ⟨SMOKE, 15⟩
  else if n.type = LAVA then do
    setCell nx ny ⟨STONE, 0⟩
    let c ← chance 50
    if c then setCell x y ⟨STEAM, 20⟩
    else setCell x y ⟨STONE, 0⟩

/-- The block `oil/ethanol ignite` for the neighbour `(nx, ny)`. -/
def oilReact (x y nx ny : Int) : SimM Unit := do
  let n ← getCell nx ny
  if n.type = FIRE ∨ n.type = LAVA then setCell x y ⟨FIRE, 25⟩

/-- The block `acid eats stuff` for the neighbour `(nx, ny)`. -/
def acidReact (x y nx ny : Int) : SimM Unit := do
  let n ← getCell nx ny
  (if dissolvable n.type then do
    let c ← chance 30
    (if c then setCell nx ny ⟨TOXIC_GAS, 25⟩
    else setCell nx ny ⟨EMPTY, 0⟩)
    let c2 ← chance 25
    if c2 then setCell x y ⟨EMPTY, 0⟩
  else pure ())
  let n1 ← getCell nx ny
  if n1.type = WATER then do
    let c ← chance 30
    if c then do
      setCell x y ⟨SALTWATER, 0⟩
      let c2 ← chance 30
      if c2 then setCell nx ny ⟨STEAM, 20⟩

/-- The block `lava` for the neighbour `(nx, ny)`. -/
def lavaReact (x y nx ny : Int) : SimM Unit := do
  let n ← getCell nx ny
  if flammable n.type then setCell nx ny ⟨FIRE, 25⟩
  else if n.type = SAND ∨ n.type = SNOW then setCell nx ny ⟨GLASS, 0⟩
  else if n.type = WATER ∨ n.type = SALTWATER then do
    setCell nx ny ⟨STONE, 0⟩
    let c ← chance 50
    if c then setCell x y ⟨STEAM, 20⟩
    else setCell x y ⟨STONE, 0⟩
  else if n.type = ICE then setCell nx ny ⟨WATER, 0⟩

/-- The body of the `interactions` loops of a liquid at the offset `(dx, dy)`. -/
def liquidReact (x y : Int) (t : Element) (dx dy : Int) : SimM Unit := do
  if dx = 0 ∧ dy = 0 then pure ()
  else do
    let nx := x + dx
    let ny := y + dy
    let ib ← in_bounds nx ny
    if !ib then pure ()
    else do
      (if t = WATER ∨ t = SALTWATER then waterReact x y nx ny else pure ())
      (if t = OIL ∨ t = ETHANOL then oilReact x y nx ny else pure ())
      (if t = ACID then acidReact x y nx ny else pure ())
      if t = LAVA then lavaReact x y nx ny

/-- The block `lava cools`. -/
def lavaCool (x y : Int) : SimM Unit := do
  let c ← getCell x y
  setLife x y (inc32 c.life)
  let c1 ← getCell x y
  if c1.life > 200 then setCell x y ⟨STONE, 0⟩

/-- The block `hydrate dirt`. -/
def hydrate (x y : Int) : SimM Unit :=
  forBox 1 fun dx dy => do
    let nx := x + dx
    let ny := y + dy
    let ib ← in_bounds nx ny
    if !ib then pure ()
    else do
      let n ← getCell nx ny
      if n.type = DIRT ∨ n.type = WET_DIRT then setCell nx ny ⟨WET_DIRT, 300⟩

/-- The body of the loops of the electrified water pulse, with charge `q`. -/
def pulseCell (x y q dx dy : Int) : SimM Unit := do
  if dx = 0 ∧ dy = 0 then pure ()
  else do
    let nx := x + dx
    let ny := y + dy
    let ib ← in_bounds nx ny
    if !ib then pure ()
    else do
      let n ← getCell nx ny
      (if n.type = WATER ∨ n.type = SALTWATER then
        if n.life < q - 1 then setLife nx ny (q - 1) else pure ()
      else pure ())
      if n.type = HUMAN ∨ n.type = ZOMBIE then setCell nx ny ⟨ASH, 0⟩

/-- The block `electrified water pulse` (entered for `WATER` / `SALTWATER`). -/
def waterPulse (x y : Int) : SimM Unit := do
  let c ← getCell x y
  if c.life > 0 then do
    let q := c.life
    forBox 1 fun dx dy => pulseCell x y q dx dy
    let c1 ← getCell x y
    setLife x y (c1.life - 1)
    let c2 ← getCell x y
    if c2.life < 0 then setLife x y 0

/-- The branch `liquids` of `step_sim`. -/
def liquidRule (x y : Int) (t : Element) : SimM Unit := do
  let moved ← liquidMove x y t
  (if !moved then setUpdated x y else pure ())
  forBox 1 fun dx dy => liquidReact x y t dx dy
  (if t = LAVA then lavaCool x y else pure ())
  (if t = WATER ∨ t = SALTWATER then hydrate x y else pure ())
  if t = WATER ∨ t = SALTWATER then waterPulse x y

/-- One upward attempt of a gas: `if(in_bounds(x,y-1) && empty(grid[y-1][x]))`. -/
def gasUp (x y : Int) : SimM Bool := do
  let ib ← in_bounds x (y - 1)
  if !ib then pure false
  else do
    let a ← getCell x (y - 1)
    if empty a then do
      swap_to x y x (y - 1)
      pure true
    else pure false

/-- The loop `for(int i=0;i<tries && !moved;++i)` of upward attempts. -/
def gasRise (x y : Int) : Nat → SimM Bool
  | 0 => pure false
  | tries + 1 => do
    let m ← gasUp x y
    if m then pure true
    else gasRise x y tries

/-- One sideways attempt of a gas towards column `nx`, on a random row. -/
def gasSide (x y nx : Int) : SimM Bool := do
  let c ← chance 50
  let ny : Int := y - (if c then 1 else 0)
  let ib ← in_bounds nx ny
  if !ib then pure false
  else do
    let d ← getCell nx ny
    if empty d then do
      swap_to x y nx ny
      pure true
    else pure false

/-- The movement of a gas of kind `t`; returns `moved`. -/
def gasMove (x y : Int) (t : Element) : SimM Bool := do
  let m0 ← gasRise x y (if t = HYDROGEN then 2 else 1)
  if m0 then pure true
  else do
    let r ← rint 0 1
    let o : Int := if r ≠ 0 then 1 else -1
    let m1 ← gasSide x y (x + o)
    if m1 then pure true
    else gasSide x y (x - o)

/-- The ignition loops of `HYDROGEN` and `GAS`. -/
def gasIgnite (x y : Int) (t : Element) : SimM Unit :=
  forBox 1 fun dx dy => do
    if dx = 0 ∧ dy = 0 then pure ()
    else do
      let nx := x + dx
      let ny := y + dy
      let ib ← in_bounds nx ny
      if !ib then pure ()
      else do
        let n ← getCell nx ny
        if n.type = FIRE ∨ n.type = LAVA then
          if t = HYDROGEN then explode x y 4
          else setCell x y ⟨FIRE, 12⟩

/-- The loops of `CHLORINE` that poison plants. -/
def chlorineRule (x y : Int) : SimM Unit :=
  forBox 1 fun dx dy => do
    let nx := x + dx
    let ny := y + dy
    let ib ← in_bounds nx ny
    if !ib then pure ()
    else do
      let n ← getCell nx ny
      if n.type = PLANT then do
        let c ← chance 35
        if c then setCell nx ny ⟨TOXIC_GAS, 25⟩

/-- The lifetime block that ends the gas branch. -/
def gasDecay (x y : Int) (t : Element) (moved : Bool) : SimM Unit := do
  let c ← getCell x y
  setLife x y (dec32 c.life)
  let c1 ← getCell x y
  if c1.life ≤ 0 then do
    let toWater ← (if t = STEAM then chance 15 else pure false)
    if toWater then setCell x y ⟨WATER, 0⟩
    else do
      let toAsh ← (if t = SMOKE then chance 8 else pure false)
      if toAsh then setCell x y ⟨ASH, 0⟩
      else setCell x y ⟨EMPTY, 0⟩
  else if !moved then setUpdated x y

/-- The branch `gases` of `step_sim`. -/
def gasRule (x y : Int) (t : Element) : SimM Unit := do
  let moved ← gasMove x y t
  (if t = HYDROGEN ∨ t = GAS then gasIgnite x y t else pure ())
  (if t = CHLORINE then chlorineRule x y else pure ())
  gasDecay x y t moved

/-- The block `flicker upward` of fire. -/
def fireRise (x y : Int) : SimM Unit := do
  let ib ← in_bounds x (y - 1)
  if ib then do
    let a ← getCell x (y - 1)
    if empty a || gas a.type then do
      let c ← chance 50
      if c then swap_to x y x (y - 1)

/-- The body of the neighbour loops of fire at the offset `(dx, dy)`. -/
def fireSpread (x y dx dy : Int) : SimM Unit := do
  if dx = 0 ∧ dy = 0 then pure ()
  else do
    let nx := x + dx
    let ny := y + dy
    let ib ← in_bounds nx ny
    if !ib then pure ()
    else do
      let n ← getCell nx ny
      (if flammable n.type then do
        let c ← chance 40
        if c then
          if n.type = GUNPOWDER then explode nx ny 5
          else do
            let k ← rint 0 10
            setCell nx ny ⟨FIRE, 15 + k⟩
      else pure ())
      let n1 ← getCell nx ny
      (if n1.type = WATER ∨ n1.type = SALTWATER then setCell x y ⟨SMOKE, 15⟩ else pure ())
      let n2 ← getCell nx ny
      if n2.type = WIRE ∨ n2.type = METAL then do
        let c ← chance 5
        if c then setLife nx ny (max n2.life 5)

/-- The branch `fire` of `step_sim`. -/
def fireRule (x y : Int) : SimM Unit := do
  fireRise x y
  forBox 1 fun dx dy => fireSpread x y dx dy
  let c ← getCell x y
  setLife x y (dec32 c.life)
  let c1 ← getCell x y
  (if c1.life ≤ 0 then setCell x y ⟨SMOKE, 15⟩ else pure ())
  setUpdated x y

/-- The body of the 5x5 loops of lightning at the offset `(dx, dy)`. -/
def boltCell (x y dx dy : Int) : SimM Unit := do
  if dx = 0 ∧ dy = 0 then pure ()
  else do
    let nx := x + dx
    let ny := y + dy
    let ib ← in_bounds nx ny
    if !ib then pure ()
    else do
      let n ← getCell nx ny
      let ne := n.type
      (if ne = WIRE ∨ ne = METAL then setLife nx ny (max n.life 12) else pure ())
      (if ne = WATER ∨ ne = SALTWATER then setLife nx ny (max n.life 8) else pure ())
      (if flammable ne then
        if ne = GUNPOWDER then explode nx ny 6
        else do
          let k ← rint 0 10
          setCell nx ny ⟨FIRE, 20 + k⟩
      else pure ())
      if ne = HYDROGEN ∨ ne = GAS then explode nx ny 4

/-- The branch `lightning` of `step_sim`. -/
def lightningRule (x y : Int) : SimM Unit := do
  forBox 2 fun dx dy => boltCell x y dx dy
  let c ← getCell x y
  setLife x y (dec32 c.life)
  let c1 ← getCell x y
  (if c1.life ≤ 0 then setCell x y ⟨EMPTY, 0⟩ else pure ())
  setUpdated x y

/-- The lambda `walk_try(tx, ty)`: swap the visited cell with `(tx, ty)` if that
is in bounds and `EMPTY` or a gas. It does not touch `updated`. -/
def walk_try (x y tx ty : Int) : SimM Bool := do
  let ib ← in_bounds tx ty
  if !ib then pure false
  else do
    let d ← getCell tx ty
    if empty d || gas d.type then do
      let c ← getCell x y
      setCell tx ty c
      setCell x y d
      pure true
    else pure false

/-- The test of the hazard scans: a hazard kind, or charged water. -/
def deadly (n : Cell) : Bool :=
  is_hazard n.type || ((decide (n.type = WATER) || decide (n.type = SALTWATER)) && decide (n.life > 0))

/-- The block `gravity: only fall through air/gas`; returns whether the agent fell. -/
def agentFall (x y : Int) : SimM Bool := do
  let ib ← in_bounds x (y + 1)
  if !ib then pure false
  else do
    let b ← getCell x (y + 1)
    if empty b || gas b.type then do
      swap_to x y x (y + 1)
      pure true
    else pure false

/-- The 13x13 search for the first cell of kind `target`, rows top to bottom. -/
def seek (x y : Int) (target : Element) : SimM (Option (Int × Int)) :=
  findM (span 6) fun ry => findM (span 6) fun rx => do
    let nx := x + rx
    let ny := y + ry
    let ib ← in_bounds nx ny
    if !ib then pure none
    else do
      let c ← getCell nx ny
      if c.type = target then pure (some (nx, ny))
      else pure none

/-- The condition of the hop:
`in_bounds(x+dir,y-1) && empty(grid[y-1][x+dir]) && empty(grid[y-1][x]) && chance(70)`. -/
def hopReady (x y dir : Int) : SimM Bool := do
  let ib ← in_bounds (x + dir) (y - 1)
  if !ib then pure false
  else do
    let a ← getCell (x + dir) (y - 1)
    if !empty a then pure false
    else do
      let b ← getCell x (y - 1)
      if !empty b then pure false
      else chance 70

/-- The walk of an agent in direction `dir`, with the hop and the random step. -/
def agentStep (x y dir : Int) : SimM Unit := do
  let walked ← walk_try x y (x + dir) y
  if !walked then do
    let hop ← hopReady x y dir
    if hop then do
      let a ← getCell x (y - 1)
      let c ← getCell x y
      setCell x (y - 1) c
      setCell x y a
    else do
      let r ← rint 0 1
      let _ ← walk_try x y (x + (if r ≠ 0 then 1 else -1)) y
      pure ()

/-- The hazard scan of a human: the first deadly neighbour kills it. -/
def humanHazard (x y : Int) : SimM Bool :=
  firstM (span 1) fun dy => firstM (span 1) fun dx => do
    let nx := x + dx
    let ny := y + dy
    let ib ← in_bounds nx ny
    if !ib then pure false
    else do
      let n ← getCell nx ny
      if deadly n then do
        setCell x y ⟨ASH, 0⟩
        pure true
      else pure false

/-- The loops `attack adjacent zombies`. -/
def humanAttack (x y : Int) : SimM Unit :=
  forBox 1 fun dx dy => do
    if dx = 0 ∧ dy = 0 then pure ()
    else do
      let nx := x + dx
      let ny := y + dy
      let ib ← in_bounds nx ny
      if !ib then pure ()
      else do
        let n ← getCell nx ny
        if n.type = ZOMBIE then do
          let c ← chance 35
          if c then do
            let c2 ← chance 60
            if c2 then do
              let k ← rint 0 10
              setCell nx ny ⟨FIRE, 10 + k⟩
            else setCell nx ny ⟨ASH, 0⟩

/-- The branch `HUMAN` of `step_sim`. -/
def humanRule (x y : Int) : SimM Unit := do
  let killed ← humanHazard x y
  if killed then setUpdated x y
  else do
    let c ← getCell x y
    setLife x y (inc32 c.life)
    let fell ← agentFall x y
    if fell then pure ()
    else do
      let seen ← seek x y ZOMBIE
      humanAttack x y
      let r ← rint 0 1
      let dir : Int :=
        match seen with
        | some (zx, _) => if zx < x then 1 else -1
        | none => if r ≠ 0 then 1 else -1
      agentStep x y dir
      setUpdated x y

/-- The hazard scan of a zombie: every deadly neighbour sets it on fire. -/
def zombieHazard (x y : Int) : SimM Unit :=
  forBox 1 fun dx dy => do
    let nx := x + dx
    let ny := y + dy
    let ib ← in_bounds nx ny
    if !ib then pure ()
    else do
      let n ← getCell nx ny
      if deadly n then setCell x y ⟨FIRE, 15⟩

/-- The loops `infect/attack adjacent humans`. -/
def zombieAttack (x y : Int) : SimM Unit :=
  forBox 1 fun dx dy => do
    if dx = 0 ∧ dy = 0 then pure ()
    else do
      let nx := x + dx
      let ny := y + dy
      let ib ← in_bounds nx ny
      if !ib then pure ()
      else do
        let n ← getCell nx ny
        if n.type = HUMAN then do
          let c ← chance 70
          if c then setCell nx ny ⟨ZOMBIE, 0⟩
          else setCell nx ny ⟨FIRE, 10⟩

/-- The branch `ZOMBIE` of `step_sim`. -/
def zombieRule (x y : Int) : SimM Unit := do
  zombieHazard x y
  let c0 ← getCell x y
  if c0.type ≠ ZOMBIE then setUpdated x y
  else do
    setLife x y (inc32 c0.life)
    let fell ← agentFall x y
    if fell then pure ()
    else do
      let seen ← seek x y HUMAN
      zombieAttack x y
      let dir : Int ←
        (match seen with
        | some (hx, _) => pure (if hx > x then 1 else -1)
        | none => do
          let r ← rint 0 1
          pure (if r ≠ 0 then 1 else -1))
      agentStep x y dir
      setUpdated x y

/-- The scan `nearWater` of wet dirt. -/
def nearWater (x y : Int) : SimM Bool :=
  firstM (span 1) fun dy => firstM (span 1) fun dx => do
    let nx := x + dx
    let ny := y + dy
    let ib ← in_bounds nx ny
    if !ib then pure false
    else do
      let n ← getCell nx ny
      pure (decide (n.type = WATER) || decide (n.type = SALTWATER))

/-- The branch `wet dirt drying` of `step_sim`. -/
def wetDirtRule (x y : Int) : SimM Unit := do
  let nw ← nearWater x y
  (if !nw then do
    let c ← getCell x y
    setLife x y (dec32 c.life)
    let c1 ← getCell x y
    if c1.life ≤ 0 then setCell x y ⟨DIRT, 0⟩
  else pure ())
  setUpdated x y

/-- The loops that set the visited cell on fire (life `l`) next to `FIRE` or
`LAVA`; shared shape of the plant, wood and coal branches. -/
def catchFire (x y l : Int) : SimM Unit :=
  forBox 1 fun dx dy => do
    if dx = 0 ∧ dy = 0 then pure ()
    else do
      let nx := x + dx
      let ny := y + dy
      let ib ← in_bounds nx ny
      if !ib then pure ()
      else do
        let n ← getCell nx ny
        if n.type = FIRE ∨ n.type = LAVA then setCell x y ⟨FIRE, l⟩

/-- The growth block of `PLANT`. -/
def plantGrow (x y : Int) : SimM Unit := do
  let ib ← in_bounds x (y + 1)
  let goodSoil ← (if ib then do
      let b ← getCell x (y + 1)
      pure (decide (b.type = WET_DIRT))
    else pure false)
  if goodSoil then do
    let c ← chance 2
    if c then do
      let ib2 ← in_bounds x (y - 1)
      if ib2 then do
        let a ← getCell x (y - 1)
        if empty a then setCell x (y - 1) ⟨PLANT, 0⟩

/-- The growth block of `SEAWEED`. -/
def weedGrow (x y : Int) : SimM Unit := do
  let ib ← in_bounds x (y - 1)
  let underwater ← (if ib then do
      let a ← getCell x (y - 1)
      pure (decide (a.type = WATER) || decide (a.type = SALTWATER))
    else pure false)
  let isTop ← (if !ib then pure true else do
      let a ← getCell x (y - 1)
      pure (decide (a.type ≠ SEAWEED)))
  if underwater && isTop then do
    let c ← chance 2
    if c then do
      let ib2 ← in_bounds x (y - 1)
      if ib2 then do
        let a ← getCell x (y - 1)
        if a.type = WATER ∨ a.type = SALTWATER then setCell x (y - 1) ⟨SEAWEED, 0⟩

/-- The branch `plants & seaweed` of `step_sim`. -/
def plantRule (x y : Int) (t : Element) : SimM Unit := do
  catchFire x y 20
  let c ← getCell x y
  if c.type = FIRE then setUpdated x y
  else do
    (if t = PLANT then plantGrow x y
    else weedGrow x y)
    setUpdated x y

/-- The branch `wood/coal burn` of `step_sim`. -/
def woodRule (x y : Int) (t : Element) : SimM Unit := do
  catchFire x y (if t = COAL then 35 else 25)
  setUpdated x y

/-- The branch `gunpowder` of `step_sim`: in each row of the 3x3 square the
first `FIRE` or `LAVA` neighbour triggers `explode(x,y,5)` and ends that row
(the `break` leaves the inner loop only). -/
def gunpowderRule (x y : Int) : SimM Unit := do
  forEach (span 1) fun dy => do
    let _ ← firstM (span 1) fun dx => do
      if dx = 0 ∧ dy = 0 then pure false
      else do
        let nx := x + dx
        let ny := y + dy
        let ib ← in_bounds nx ny
        if !ib then pure false
        else do
          let n ← getCell nx ny
          if n.type = FIRE ∨ n.type = LAVA then do
            explode x y 5
            pure true
          else pure false
    pure ()
  setUpdated x y

/-- The body of the conduction loops of a wire or metal with charge `q`. -/
def conductCell (x y q dx dy : Int) : SimM Unit := do
  if dx = 0 ∧ dy = 0 then pure ()
  else do
    let nx := x + dx
    let ny := y + dy
    let ib ← in_bounds nx ny
    if !ib then pure ()
    else do
      let n ← getCell nx ny
      (if n.type = WIRE ∨ n.type = METAL then
        if n.life < q - 1 then setLife nx ny (q - 1) else pure ()
      else pure ())
      (if n.type = WATER ∨ n.type = SALTWATER then
        if n.life < q - 1 then setLife nx ny (q - 1) else pure ()
      else pure ())
      (if flammable n.type then do
        let c ← chance 15
        if c then
          if n.type = GUNPOWDER then explode nx ny 5
          else do
            let k ← rint 0 10
            setCell nx ny ⟨FIRE, 15 + k⟩
      else pure ())
      let n1 ← getCell nx ny
      if n1.type = HYDROGEN ∨ n1.type = GAS then do
        let c ← chance 35
        if c then explode nx ny 4

/-- The branch `wire / metal conduction` of `step_sim`. -/
def wireRule (x y : Int) : SimM Unit := do
  let c ← getCell x y
  (if c.life > 0 then do
    let q := c.life
    forBox 1 fun dx dy => conductCell x y q dx dy
    let c1 ← getCell x y
    setLife x y (c1.life - 1)
    let c2 ← getCell x y
    if c2.life < 0 then setLife x y 0
  else pure ())
  setUpdated x y

/-- The branch `ice` of `step_sim`. -/
def iceRule (x y : Int) : SimM Unit := do
  forBox 1 fun dx dy => do
    let nx := x + dx
    let ny := y + dy
    let ib ← in_bounds nx ny
    if !ib then pure ()
    else do
      let n ← getCell nx ny
      if n.type = FIRE ∨ n.type = LAVA ∨ n.type = STEAM then do
        let c ← chance 25
        if c then setCell x y ⟨WATER, 0⟩
  setUpdated x y

/-- The body of the two loops of `step_sim`: the visit of the cell `(x, y)`. -/
def visit (x y : Int) : SimM Unit := do
  let u ← getUpdated x y
  if u then pure ()
  else do
    let cell ← getCell x y
    let t := cell.type
    if t = EMPTY ∨ t = WALL then setUpdated x y
    else if sandlike t then powderRule x y t
    else if liquid t then liquidRule x y t
    else if gas t then gasRule x y t
    else if t = FIRE then fireRule x y
    else if t = LIGHTNING then lightningRule x y
    else if t = HUMAN then humanRule x y
    else if t = ZOMBIE then zombieRule x y
    else if t = WET_DIRT then wetDirtRule x y
    else if t = PLANT ∨ t = SEAWEED then plantRule x y t
    else if t = WOOD ∨ t = COAL then woodRule x y t
    else if t = GUNPOWDER then gunpowderRule x y
    else if t = WIRE ∨ t = METAL then wireRule x y
    else if t = ICE then iceRule x y
    else setUpdated x y

/-- The allocation `updated(gHeight, std::vector<bool>(gWidth,false))`. -/
def allocUpdated : SimM Unit := fun w =>
  some ((), { w with updated := List.replicate w.gHeight.toNat (List.replicate w.gWidth.toNat false) })

/-- The function `step_sim()`: one tick. -/
def step_sim : SimM Unit := do
  let wd ← getWidth
  let h ← getHeight
  if wd ≤ 0 ∨ h ≤ 0 then pure ()
  else do
    allocUpdated
    forEach (irange 0 (h - 1)).reverse fun y =>
      forEach (irange 0 (wd - 1)) fun x => visit x y

/-- The state after `n` calls of `step_sim`, if none fails. -/
def ticks : Nat → SimM Unit
  | 0 => pure ()
  | n + 1 => do
    step_sim
    ticks n

/-! ## Vocabulary of the statements -/

/-- The grid is a `gHeight`-by-`gWidth` array: `grid` has `gHeight` rows of
`gWidth` cells each (what `init_grid` establishes). -/
def World.WF (w : World) : Prop :=
  (w.grid.length : Int) = w.gHeight ∧ ∀ row ∈ w.grid, (row.length : Int) = w.gWidth

instance (w : World) : Decidable w.WF := by
  unfold World.WF
  exact inferInstance

/-- The mask `updated` is a `gHeight`-by-`gWidth` array. -/
def World.WFU (w : World) : Prop :=
  (w.updated.length : Int) = w.gHeight ∧ ∀ row ∈ w.updated, (row.length : Int) = w.gWidth

instance (w : World) : Decidable w.WFU := by
  unfold World.WFU
  exact inferInstance

/-- The state after one draw from the generator. -/
def World.draw (w : World) : World := { w with pos := w.pos + 1 }

/-- The value `rint(a, b)` returns in state `w`. -/
def World.roll (w : World) (a b : Int) : Int :=
  a + ((w.draws w.pos : Nat) : Int) % (b - a + 1)

/-- Total correctness of a computation: started in `w`, `m` returns (no access
outside a vector happens) and its result and final state satisfy `Q`. -/
def wp {α : Type} (m : SimM α) (Q : α → World → Prop) (w : World) : Prop :=
  ∃ a w1, m w = some (a, w1) ∧ Q a w1

/-- The two states have the same dimensions `gWidth`, `gHeight`. -/
def SameDims (w w1 : World) : Prop :=
  w1.gWidth = w.gWidth ∧ w1.gHeight = w.gHeight

/-- The kinds `HUMAN` and `ZOMBIE`. -/
def agent : Element → Bool
  | HUMAN | ZOMBIE => true
  | _ => false

/-- A loop bound for which the loops `for (int d = -k; d <= k; ++d)` run through exactly
the offsets `-k, .., k`: an `int` other than `INT_MIN` (so that `-k` is exact) and
`INT_MAX` (so that the loop ends). -/
def Small (k : Int) : Prop := -2147483648 < k ∧ k < 2147483647

instance small_one : Fact (Small 1) := ⟨⟨by decide, by decide⟩⟩

instance small_two : Fact (Small 2) := ⟨⟨by decide, by decide⟩⟩

instance small_four : Fact (Small 4) := ⟨⟨by decide, by decide⟩⟩

instance small_five : Fact (Small 5) := ⟨⟨by decide, by decide⟩⟩

instance small_six : Fact (Small 6) := ⟨⟨by decide, by decide⟩⟩

/-- The test `dx*dx+dy*dy <= r*r` for the cell `(x, y)` and the centre `(cx, cy)`. -/
def InDisk (cx cy r x y : Int) : Prop :=
  (x - cx) * (x - cx) + (y - cy) * (y - cy) ≤ r * r

instance (cx cy r x y : Int) : Decidable (InDisk cx cy r x y) := by
  unfold InDisk
  exact inferInstance

/-- Arguments of `explode` and `place_brush` for which no `int` operation of the two loops
overflows: a radius between 0 and 32767 (so that `dx*dx+dy*dy` stays below `2^31`) and
a centre for which `cx-r`, `cx+r`, `cy-r` and `cy+r` are `int`s. All calls in the
source satisfy it on a grid less than `2^31 - 8` cells wide and high (centre in bounds,
radius at most 8). -/
def NoOverflow (cx cy r : Int) : Prop :=
  0 ≤ r ∧ r ≤ 32767 ∧ -2147483648 ≤ cx - r ∧ cx + r ≤ 2147483647 ∧
    -2147483648 ≤ cy - r ∧ cy + r ≤ 2147483647

/-- The cell `(x, y)` of `w1` is the outcome of one roll of `explode` drawn
between the states `w` and `w1`: the roll is a draw in `[1, 100]` at a stream
position `k` consumed in between, and the cell is `FIRE` with life in `[15, 25]`
if the roll is at most 50, `SMOKE` with life 20 if it is in `(50, 80]`, and
`GAS` with life 20 otherwise. -/
def Blasted (w w1 : World) (x y : Int) : Prop :=
  ∃ k : Nat, w.pos ≤ k ∧ k < w1.pos ∧
    (1 + ((w.draws k : Nat) : Int) % 100 ≤ 50 →
      (w1.cell x y).type = FIRE ∧ 15 ≤ (w1.cell x y).life ∧ (w1.cell x y).life ≤ 25) ∧
    (50 < 1 + ((w.draws k : Nat) : Int) % 100 → 1 + ((w.draws k : Nat) : Int) % 100 ≤ 80 →
      w1.cell x y = ⟨SMOKE, 20⟩) ∧
    (80 < 1 + ((w.draws k : Nat) : Int) % 100 → w1.cell x y = ⟨GAS, 20⟩)

/-- The cell `(x, y)` of `w1` is the outcome of the roll drawn at position `k` of the
stream: with `roll = 1 + draws k % 100`, the cell is `FIRE` with life
`15 + draws (k+1) % 11` if `roll ≤ 50` (two draws consumed), `SMOKE` with life 20 if
`50 < roll ≤ 80`, and `GAS` with life 20 otherwise (one draw consumed). -/
def BlastedAt (w w1 : World) (k : Nat) (x y : Int) : Prop :=
  w.pos ≤ k ∧ k < w1.pos ∧
    (1 + ((w.draws k : Nat) : Int) % 100 ≤ 50 →
      w1.cell x y = ⟨FIRE, 15 + ((w.draws (k + 1) : Nat) : Int) % 11⟩ ∧ k + 2 ≤ w1.pos) ∧
    (50 < 1 + ((w.draws k : Nat) : Int) % 100 → 1 + ((w.draws k : Nat) : Int) % 100 ≤ 80 →
      w1.cell x y = ⟨SMOKE, 20⟩) ∧
    (80 < 1 + ((w.draws k : Nat) : Int) % 100 → w1.cell x y = ⟨GAS, 20⟩)

/-- The cells `explode(cx, cy, r)` rewrites in state `w`. -/
def BlastTarget (w : World) (cx cy r x y : Int) : Prop :=
  w.inb x y = true ∧ InDisk cx cy r x y ∧ blastproof (w.cell x y).type = false

/-- Invariant of the loops of `explode`: the offsets before `(i, j)` (rows
before `j`, and the columns before `i` of row `j`) are done. Each target done is the
outcome of the roll at its own position `κ x y` of the stream, and these positions
increase in the order of the loops. -/
def ExplodeInv (w : World) (cx cy r j i : Int) (w1 : World) : Prop :=
  SameDims w w1 ∧ w1.WF ∧ w1.updated = w.updated ∧ w1.draws = w.draws ∧ w.pos ≤ w1.pos ∧
  ∃ κ : Int → Int → Nat,
    (∀ x y, (((y - cy < j ∨ (y - cy = j ∧ x - cx < i)) ∧ BlastTarget w cx cy r x y) →
        BlastedAt w w1 (κ x y) x y) ∧
      (¬ ((y - cy < j ∨ (y - cy = j ∧ x - cx < i)) ∧ BlastTarget w cx cy r x y) →
        w1.cell x y = w.cell x y)) ∧
    ∀ x y a b, ((y - cy < j ∨ (y - cy = j ∧ x - cx < i)) ∧ BlastTarget w cx cy r x y) →
      ((b - cy < j ∨ (b - cy = j ∧ a - cx < i)) ∧ BlastTarget w cx cy r a b) →
      (y < b ∨ (y = b ∧ x < a)) → κ x y < κ a b

/-- What `explode` does to a cell, whatever the arguments: the cell is untouched, or it
was not blastproof and is the outcome of a roll drawn during the call. -/
def Scorched (w w1 : World) : Prop :=
  SameDims w w1 ∧ w1.WF ∧ w1.updated = w.updated ∧ w1.draws = w.draws ∧ w.pos ≤ w1.pos ∧
  ∀ x y, w1.cell x y = w.cell x y ∨
    (w.inb x y = true ∧ blastproof (w.cell x y).type = false ∧ Blasted w w1 x y)

/-- A 1x1 grid holding `SAND`. -/
def oneSand : World := ⟨1, 1, [[⟨SAND, 0⟩]], [], fun n => n, 0⟩

/-- The life `place_brush` gives a painted cell of kind `e`. -/
def brushLife (e : Element) : Int :=
  if e = FIRE then 20 else if gas e = true then 25 else 0

/-- The positions the loops of `place_brush(cx, cy, rad, e)` write to: those the body
reaches at some offset `(dx, dy)` of the loops that passes the test
`dx*dx+dy*dy <= rad*rad`, everything computed in `int`. -/
def Painted (cx cy rad x y : Int) : Prop :=
  ∃ dx dy, dx ∈ irange (wrap32 (-rad)) rad ∧ dy ∈ irange (wrap32 (-rad)) rad ∧
    wrap32 (cx + dx) = x ∧ wrap32 (cy + dy) = y ∧
    wrap32 (wrap32 (dx * dx) + wrap32 (dy * dy)) ≤ wrap32 (rad * rad)

/-- Invariant of the loops of `place_brush`: a cell is untouched, or it is in bounds, one
of the positions the loops write to, and painted. -/
def Daubed (w : World) (cx cy rad : Int) (e : Element) (w1 : World) : Prop :=
  SameDims w w1 ∧ w1.WF ∧ w1.updated = w.updated ∧ w1.draws = w.draws ∧ w1.pos = w.pos ∧
  ∀ x y, w1.cell x y = w.cell x y ∨
    (w1.cell x y = ⟨e, brushLife e⟩ ∧ w.inb x y = true ∧ Painted cx cy rad x y)

/-- The test of the lightning brush for a cell the bolt passes through:
`EMPTY` or a gas. -/
def passable (c : Cell) : Bool := empty c || gas c.type

/-- Every cell of the grid has a nonnegative life. -/
def NonNeg (w : World) : Prop :=
  ∀ x y, w.inb x y = true → 0 ≤ (w.cell x y).life

/-- Every cell of the grid that is not a `HUMAN` or `ZOMBIE` has life at most 300. -/
def Capped (w : World) : Prop :=
  ∀ x y, w.inb x y = true → agent (w.cell x y).type = false → (w.cell x y).life ≤ 300

/-- What the engine may write into a cell: never a `WALL`; when `Ln` holds a
nonnegative life that is at most `300 + A`; and when `Lu` holds a life of at most 300
unless the cell is an agent. (`Ln` and `Lu` stand for "the tick started with
nonnegative lives" and "the tick started with lives of non-agents at most 300"; `A`
counts the increments `life++` of the agents, which must not pass `INT_MAX`.) -/
def Good (Ln Lu : Prop) (A : Nat) (c : Cell) : Prop :=
  c.type ≠ WALL ∧ (Ln → 0 ≤ c.life) ∧ (Lu → agent c.type = false → c.life ≤ 300) ∧
  (Ln → c.life ≤ 300 + (A : Int))

/-- The invariant of a tick started in `w0`: same dimensions, rectangular grid and
mask, every cell that was a `WALL` in `w0` is untouched, and every other cell is
`Good`. -/
def Inv (Ln Lu : Prop) (A : Nat) (w0 w : World) : Prop :=
  SameDims w0 w ∧ w.WF ∧ w.WFU ∧
  ∀ x y, w.inb x y = true →
    ((w0.cell x y).type = WALL → w.cell x y = w0.cell x y) ∧
    ((w0.cell x y).type ≠ WALL → Good Ln Lu A (w.cell x y))

/-- The state `w1` has the dimensions of `w`, and its grid and mask are
rectangular if those of `w` are. -/
def Frame (w w1 : World) : Prop :=
  SameDims w w1 ∧ (w.WF → w1.WF) ∧ (w.WFU → w1.WFU)

/-- The tick invariant together with the fact that the visited cell `(x, y)` does not
hold an agent (true throughout the visit of a liquid). -/
def InvNA (Ln Lu : Prop) (A : Nat) (w0 : World) (x y : Int) (w : World) : Prop :=
  Inv Ln Lu A w0 w ∧ agent (w.cell x y).type = false

/-- A state with the grid `g` of width `wd` and height `h`, no mask allocated, and
a fresh generator over the stream `d`. -/
def World.ofGrid (wd h : Int) (g : List (List Cell)) (d : Nat → Nat) : World :=
  ⟨wd, h, g, [], d, 0⟩

/-- The grid of the state `m` ends in, if it returns. -/
def gridAfter (m : SimM Unit) (w : World) : Option (List (List Cell)) :=
  (m w).map fun p => p.2.grid

/-- The grid and the number of draws consumed when `m` returns. -/
def outcome (m : SimM Unit) (w : World) : Option (List (List Cell) × Nat) :=
  (m w).map fun p => (p.2.grid, p.2.pos)

/-- A 3x2 grid with a `WALL` of life 7 next to sand, water and fire. -/
def wallWorld : World :=
  World.ofGrid 3 2
    [[⟨SAND, 0⟩, ⟨WALL, 7⟩, ⟨WATER, 0⟩],
     [⟨FIRE, 20⟩, ⟨EMPTY, 0⟩, ⟨GUNPOWDER, 0⟩]] (fun n => n)

/-- A 1x1 grid holding a `HUMAN` whose life is 300. -/
def oldHuman : World :=
  World.ofGrid 1 1 [[⟨HUMAN, 300⟩]] (fun _ => 0)

/-- A 1x1 grid holding an `EMPTY` cell. -/
def oneEmpty : World :=
  World.ofGrid 1 1 [[⟨EMPTY, 0⟩]] (fun _ => 0)

/-- A column of water from `(3,5)` to `(3,9)` on an otherwise empty 7x10 grid. -/
def waterColumn : World :=
  World.ofGrid 7 10
    ((List.replicate 5 (List.replicate 7 ⟨EMPTY, 0⟩)) ++
      List.replicate 5 [⟨EMPTY, 0⟩, ⟨EMPTY, 0⟩, ⟨EMPTY, 0⟩, ⟨WATER, 0⟩, ⟨EMPTY, 0⟩, ⟨EMPTY, 0⟩,
        ⟨EMPTY, 0⟩]) (fun _ => 0)

/-- A 1x2 column: `LAVA` (life 0) above an `EMPTY` cell. -/
def lavaOverEmpty : World :=
  World.ofGrid 1 2 [[⟨LAVA, 0⟩], [⟨EMPTY, 0⟩]] (fun _ => 0)

/-- A 2x1 row: a `HUMAN` (life 0) left of an `EMPTY` cell, with a stream whose draws
`rint(0,1)` all give 1 (the human walks right). -/
def walker : World :=
  World.ofGrid 2 1 [[⟨HUMAN, 0⟩, ⟨EMPTY, 0⟩]] (fun _ => 1)

/-- A 2x2 grid: a `ZOMBIE` (life 0) on the floor left of a `STONE`, the top row empty,
with a stream whose draws `rint(0,1)` give 1 and whose `chance(70)` succeeds (the zombie
hops). -/
def hopper : World :=
  World.ofGrid 2 2 [[⟨EMPTY, 0⟩, ⟨EMPTY, 0⟩], [⟨ZOMBIE, 0⟩, ⟨STONE, 0⟩]] (fun _ => 1)

/-- The kinds that no rule of `step_sim` transforms when only they are present:
`EMPTY`, the powders, the liquids other than water, acid and lava, and the static
`STONE`, `GLASS` and `WALL`. -/
def inert : Element → Bool
  | EMPTY | SAND | GUNPOWDER | ASH | SNOW | SALTWATER | OIL | ETHANOL | MERCURY | STONE
  | GLASS | WALL => true
  | _ => false

/-- The number of cells of kind `k` in the grid `g`. -/
def countKind (k : Element) (g : List (List Cell)) : Nat :=
  (g.map fun row => row.countP fun c => decide (c.type = k)).sum

/-- Every cell of the grid has an inert kind and life 0. -/
def Inert (w : World) : Prop :=
  ∀ x y, w.inb x y = true → inert (w.cell x y).type = true ∧ (w.cell x y).life = 0

/-- The invariant of a tick started in an inert state `w0`: same dimensions, rectangular
grid and mask, every cell inert with life 0, and as many cells of each kind as in `w0`. -/
def Keeps (w0 w : World) : Prop :=
  SameDims w0 w ∧ w.WF ∧ w.WFU ∧ Inert w ∧ ∀ k, countKind k w.grid = countKind k w0.grid

/-- A 3x3 grid of inert material: oil and sand over saltwater, mercury and snow over
stone, glass and a wall. -/
def inertWorld : World :=
  World.ofGrid 3 3
    [[⟨OIL, 0⟩, ⟨SAND, 0⟩, ⟨MERCURY, 0⟩],
     [⟨SALTWATER, 0⟩, ⟨EMPTY, 0⟩, ⟨SNOW, 0⟩],
     [⟨STONE, 0⟩, ⟨EMPTY, 0⟩, ⟨WALL, 0⟩]] (fun n => n)

/-- The visit of `(x, y)` can change nothing but the mask: the cell is flagged as
updated, or it is `EMPTY` or a `WALL`. -/
def Quiet (w : World) (x y : Int) : Prop :=
  w.upd x y = true ∨ (w.cell x y).type = EMPTY ∨ (w.cell x y).type = WALL

/-- The state `w1` differs from `w` at most by new flags of the mask, all of them at
positions of the region `R`. -/
def Calm (R : Int → Int → Prop) (w w1 : World) : Prop :=
  SameDims w w1 ∧ w1.grid = w.grid ∧ w1.draws = w.draws ∧ w1.pos = w.pos ∧ w1.WFU ∧
    (∀ x y, w.upd x y = true → w1.upd x y = true) ∧ ∀ x y, ¬ R x y → w1.upd x y = w.upd x y

/-- The grid holds `c` at `(sx, sy)` and `EMPTY` cells of life 0 everywhere else. -/
def Lone (c : Cell) (sx sy : Int) (w : World) : Prop :=
  ∀ x y, w.inb x y = true → w.cell x y = if x = sx ∧ y = sy then c else ⟨EMPTY, 0⟩

/-- The 5x5 grid that is `EMPTY` except for `SAND` at `(2, 0)`, with a fresh generator
over the stream `d`. -/
def sandStart (d : Nat → Nat) : World :=
  World.ofGrid 5 5
    [[⟨EMPTY, 0⟩, ⟨EMPTY, 0⟩, ⟨SAND, 0⟩, ⟨EMPTY, 0⟩, ⟨EMPTY, 0⟩],
     [⟨EMPTY, 0⟩, ⟨EMPTY, 0⟩, ⟨EMPTY, 0⟩, ⟨EMPTY, 0⟩, ⟨EMPTY, 0⟩],
     [⟨EMPTY, 0⟩, ⟨EMPTY, 0⟩, ⟨EMPTY, 0⟩, ⟨EMPTY, 0⟩, ⟨EMPTY, 0⟩],
     [⟨EMPTY, 0⟩, ⟨EMPTY, 0⟩, ⟨EMPTY, 0⟩, ⟨EMPTY, 0⟩, ⟨EMPTY, 0⟩],
     [⟨EMPTY, 0⟩, ⟨EMPTY, 0⟩, ⟨EMPTY, 0⟩, ⟨EMPTY, 0⟩, ⟨EMPTY, 0⟩]] d

/-- The states met while the water at `(0, 0)` next to the fire at `(1, 0)` is visited:
the dimensions of `w0`, rectangular grid and mask, the cell `(1, 0)` not flagged, every
other cell `EMPTY` or `WATER` with life 0, and the rest of row 0 `EMPTY`. -/
def Damp (w0 w : World) : Prop :=
  SameDims w0 w ∧ w.WF ∧ w.WFU ∧ w.upd 1 0 = false ∧
    (∀ x y, w.inb x y = true → ¬ (x = 1 ∧ y = 0) →
      w.cell x y = ⟨EMPTY, 0⟩ ∨ w.cell x y = ⟨WATER, 0⟩) ∧
    ∀ x, 2 ≤ x → w.inb x 0 = true → w.cell x 0 = ⟨EMPTY, 0⟩

/-- The states after the smoke at `(1, 0)` has moved: the dimensions of `w0`, rectangular
grid and mask, and the rest of row 0 quiet. -/
def Drifted (w0 w : World) : Prop :=
  SameDims w0 w ∧ w.WF ∧ w.WFU ∧ ∀ x, 2 ≤ x → w.inb x 0 = true → Quiet w x 0

/-- A 2x1 grid: `WATER` at `(0, 0)` and `FIRE` with life 20 at `(1, 0)`. -/
def waterFire : World :=
  World.ofGrid 2 1 [[⟨WATER, 0⟩, ⟨FIRE, 20⟩]] (fun _ => 0)

/-- A 3x2 grid: `WATER` at `(0, 0)`, `FIRE` with life 20 at `(1, 0)`, the rest `EMPTY`. -/
def waterFireWide : World :=
  World.ofGrid 3 2
    [[⟨WATER, 0⟩, ⟨FIRE, 20⟩, ⟨EMPTY, 0⟩],
     [⟨EMPTY, 0⟩, ⟨EMPTY, 0⟩, ⟨EMPTY, 0⟩]] (fun n => n)

/-- The seven liquids in the order of the documented densities. -/
def liquidsByDensity : List Element :=
  [ETHANOL, OIL, WATER, SALTWATER, ACID, LAVA, MERCURY]

/-- A state of width 0 and height 3, with a generator that has already drawn 5 numbers. -/
def zeroWorld : World :=
  ⟨0, 3, [[], [], []], [], fun n => n, 5⟩

/-- A 2x1 grid: `LAVA` (life 0) at `(0, 0)` next to an `EMPTY` cell. -/
def lavaPair : World :=
  World.ofGrid 2 1 [[⟨LAVA, 0⟩, ⟨EMPTY, 0⟩]] (fun _ => 0)

/-- A 1x1 grid holding `LAVA` with life 0. -/
def lavaAlone : World :=
  World.ofGrid 1 1 [[⟨LAVA, 0⟩]] (fun _ => 0)

/-- A column of width 1 and height 30: `GAS` with life 25 at the bottom, `(0, 29)`, under
29 `EMPTY` cells. -/
def gasColumn : World :=
  World.ofGrid 1 30 (List.replicate 29 [⟨EMPTY, 0⟩] ++ [[⟨GAS, 25⟩]]) (fun _ => 0)

/-- A column of width 1 and height 2: `GAS` with life 1 under an `EMPTY` cell. -/
def gasUnderEmpty : World :=
  World.ofGrid 1 2 [[⟨EMPTY, 0⟩], [⟨GAS, 1⟩]] (fun _ => 0)

/-- The states met while a liquid of kind `k` at `(0, 0)` next to some other cell at
`(1, 0)` is visited on an otherwise empty grid: the dimensions of `w0`, rectangular grid
and mask, every cell other than `(1, 0)` is `EMPTY` or of kind `k`, with life 0, and the
rest of row 0 is `EMPTY`. -/
def Beside (k : Element) (w0 w : World) : Prop :=
  SameDims w0 w ∧ w.WF ∧ w.WFU ∧
    (∀ x y, w.inb x y = true → ¬ (x = 1 ∧ y = 0) →
      w.cell x y = ⟨EMPTY, 0⟩ ∨ w.cell x y = ⟨k, 0⟩) ∧
    ∀ x, 2 ≤ x → w.inb x 0 = true → w.cell x 0 = ⟨EMPTY, 0⟩

/-- A 2x1 grid: `LAVA` at `(0, 0)` and `SAND` at `(1, 0)`. -/
def lavaSand : World :=
  World.ofGrid 2 1 [[⟨LAVA, 0⟩, ⟨SAND, 0⟩]] (fun n => n)

/-- A 3x2 grid: `LAVA` at `(0, 0)`, `SAND` at `(1, 0)`, the rest `EMPTY`. -/
def lavaSandWide : World :=
  World.ofGrid 3 2
    [[⟨LAVA, 0⟩, ⟨SAND, 0⟩, ⟨EMPTY, 0⟩],
     [⟨EMPTY, 0⟩, ⟨EMPTY, 0⟩, ⟨EMPTY, 0⟩]] (fun n => n)

/-- An 11x11 grid that is `EMPTY` except for `GUNPOWDER` at `(5, 5)` and `FIRE` with life
20 at `(5, 4)`, with a fresh generator over the stream `d`. -/
def powderKeg (d : Nat → Nat) : World :=
  World.ofGrid 11 11
    ((List.range 11).map fun j => (List.range 11).map fun i =>
      if i = 5 ∧ j = 5 then (⟨GUNPOWDER, 0⟩ : Cell)
      else if i = 5 ∧ j = 4 then ⟨FIRE, 20⟩ else ⟨EMPTY, 0⟩) d

/-- The cells at `(5, 3)`, `(5, 4)`, `(5, 5)`, `(5, 6)` of a grid. -/
def column5 (g : List (List Cell)) : List (Option Cell) :=
  [at? g 5 3, at? g 5 4, at? g 5 5, at? g 5 6]

/-- A neighbour on which fire does nothing: not flammable, not water, not a conductor. -/
def Fireproof (c : Cell) : Prop :=
  flammable c.type = false ∧ c.type ≠ WATER ∧ c.type ≠ SALTWATER ∧ c.type ≠ WIRE ∧
    c.type ≠ METAL

/-- The state `w1` has the dimensions of `w`, rectangular grid and mask, `SEAWEED` in
exactly the cells where `w` has it, and the same cell above `(x, y)`. -/
def SameWeed (x y : Int) (w w1 : World) : Prop :=
  SameDims w w1 ∧ w1.WF ∧ w1.WFU ∧
    (∀ a b, (w1.cell a b).type = SEAWEED ↔ (w.cell a b).type = SEAWEED) ∧
    w1.cell x (y - 1) = w.cell x (y - 1)

/-- A column of width 1 and height 2 in the middle of a tick: `WATER` above `SAND` whose
seaweed timer has reached 220. -/
def ripeSand : World :=
  ⟨1, 2, [[⟨WATER, 0⟩], [⟨SAND, 220⟩]], [[false], [false]], fun n => n, 0⟩

/-- The kinds the rules of `step_sim` write over a powder in place: `FIRE` (ignition,
explosion, lava on gunpowder), `SMOKE` and `GAS` (explosion), `GLASS` (lava on sand or
snow), `TOXIC_GAS` and `EMPTY` (acid). -/
def byproduct : Element → Bool
  | FIRE | SMOKE | GAS | GLASS | TOXIC_GAS | EMPTY => true
  | _ => false

/-- A powder, or one of the kinds written over a powder. -/
def fragile (t : Element) : Bool := sandlike t || byproduct t

/-- While the cell `(x, y)` is visited, the position `(px, py)` is as it was in `w0`, the
state at the start of the visit: same cell, same flag (and the state keeps its dimensions
and rectangular grid and mask). -/
def Stays (px py : Int) (w0 w : World) : Prop :=
  SameDims w0 w ∧ w.WF ∧ w.WFU ∧ w.upd px py = w0.upd px py ∧ w.cell px py = w0.cell px py

/-- The position `(px, py)` has the flag it had in `w0`, and its cell is the one of `w0` or
has been overwritten with a `byproduct` kind. -/
def Hit (px py : Int) (w0 w : World) : Prop :=
  SameDims w0 w ∧ w.WF ∧ w.WFU ∧ w.upd px py = w0.upd px py ∧
    (w.cell px py = w0.cell px py ∨ byproduct (w.cell px py).type = true)

/-- The position `(a, b)` has in `w1` the cell and the flag it has in `w`. -/
def Untouched (a b : Int) (w w1 : World) : Prop :=
  w1.cell a b = w.cell a b ∧ w1.upd a b = w.upd a b

/-- A grid of width 3 and height 2: `WATER` over `SAND`, `ACID` over `GUNPOWDER`, `LAVA`
over `SNOW`. -/
def shelf : World :=
  ⟨3, 2, [[⟨WATER, 0⟩, ⟨ACID, 0⟩, ⟨LAVA, 0⟩], [⟨SAND, 0⟩, ⟨GUNPOWDER, 0⟩, ⟨SNOW, 0⟩]],
    [[false, false, false], [false, false, false]], fun n => n, 0⟩

/-- The part of a tick that precedes the visit of the cell `(a, b)`: the allocation of
the mask, the rows `gHeight-1, .., b+1` in full and the cells `0, .., a-1` of row `b`
(the two loops of `step_sim`, cut before the iteration `y = b`, `x = a`). -/
def sweepBefore (a b : Int) : SimM Unit := do
  let wd ← getWidth
  let h ← getHeight
  allocUpdated
  forEach (irange (b + 1) (h - 1)).reverse fun y =>
    forEach (irange 0 (wd - 1)) fun x => visit x y
  forEach (irange 0 (a - 1)) fun x => visit x b

/-- The visit of `(a, b)`, from the state `u` to the state `v`, replaces the powder at
`(x, y)` in place: either it is the powder's own visit and `SNOW` melts into `WATER`
with life 0, or it is the visit of another cell, which leaves the flag of `(x, y)`
untouched and overwrites the cell with `FIRE`, `SMOKE`, `GAS`, `GLASS`, `TOXIC_GAS` or
`EMPTY`. -/
def Rewritten (x y a b : Int) (u v : World) : Prop :=
  ((a = x ∧ b = y) ∧ (u.cell x y).type = SNOW ∧ v.cell x y = ⟨WATER, 0⟩) ∨
  (¬ (a = x ∧ b = y) ∧ v.upd x y = u.upd x y ∧
    (v.cell x y).type ∈ [FIRE, SMOKE, GAS, GLASS, TOXIC_GAS, EMPTY])

/-- In every state of the tick started in `w` that precedes the visit of `(a, b)`, the
cell `(x, y)` has the kind `k`. -/
def Stood (w : World) (x y : Int) (k : Element) (a b : Int) : Prop :=
  ∀ a1 b1 u, w.inb a1 b1 = true → (b < b1 ∨ (b1 = b ∧ a1 < a)) →
    sweepBefore a1 b1 w = some ((), u) → (u.cell x y).type = k

/-- Invariant of the sweep of the tick started in `w`, before the visit of `(a, b)` in the
state `u`: either the cell `(x, y)` has had the kind `k` in every state so far, or an
earlier visit has replaced it in place. -/
def Standing (w : World) (x y : Int) (k : Element) (a b : Int) (u : World) : Prop :=
  SameDims w u ∧ u.WF ∧ u.WFU ∧ sweepBefore a b w = some ((), u) ∧
  ((Stood w x y k a b ∧ (u.cell x y).type = k) ∨
    ∃ a1 b1 u1 v1, w.inb a1 b1 = true ∧ sweepBefore a1 b1 w = some ((), u1) ∧
      visit a1 b1 u1 = some ((), v1) ∧ Stood w x y k a1 b1 ∧ (u1.cell x y).type = k ∧
      Rewritten x y a1 b1 u1 v1)

/-- The grid, the mask and the number of draws consumed when `m` returns. -/
def snapshot (m : SimM Unit) (w : World) : Option (List (List Cell) × List (List Bool) × Nat) :=
  (m w).map fun p => (p.2.grid, p.2.updated, p.2.pos)

/-- A row of width 2: `GUNPOWDER` left of `LAVA`, at the start of the sweep. -/
def powderLava : World :=
  ⟨2, 1, [[⟨GUNPOWDER, 0⟩, ⟨LAVA, 0⟩]], [[false, false]], fun _ => 0, 0⟩

/-- A 2x2 grid: `SNOW` left of `FIRE` (life 20) over an empty bottom row, when the sweep
has done the bottom row. -/
def snowFire : World :=
  ⟨2, 2, [[⟨SNOW, 0⟩, ⟨FIRE, 20⟩], [⟨EMPTY, 0⟩, ⟨EMPTY, 0⟩]], [[false, false], [true, true]],
    fun _ => 0, 0⟩

/-- A row of width 2: `SNOW` left of `FIRE` (life 20), at the start of the sweep. -/
def snowOnFloor : World :=
  ⟨2, 1, [[⟨SNOW, 0⟩, ⟨FIRE, 20⟩]], [[false, false]], fun _ => 0, 0⟩

/-- A 2x2 grid at the start of the sweep: an agent of kind `k` (life 0) on the floor left
of a `STONE`, the top row empty, with a stream whose draw `rint(0,1)` gives 1 (direction
`+1`) and whose `chance(70)` succeeds. -/
def climber (k : Element) : World :=
  ⟨2, 2, [[⟨EMPTY, 0⟩, ⟨EMPTY, 0⟩], [⟨k, 0⟩, ⟨STONE, 0⟩]], [[false, false], [false, false]],
    fun _ => 1, 0⟩

/-- A 2x2 grid: `WATER` with charge 5 left of a `HUMAN`, above an `EMPTY` cell and a
`STONE`, when the sweep has done the bottom row. -/
def chargedDrop : World :=
  ⟨2, 2, [[⟨WATER, 5⟩, ⟨HUMAN, 0⟩], [⟨EMPTY, 0⟩, ⟨STONE, 0⟩]], [[false, false], [true, true]],
    fun _ => 0, 0⟩

/-- A column of width 1 and height 2: `WATER` over `OIL`, with a clear mask. -/
def waterOverOil : World :=
  ⟨1, 2, [[⟨WATER, 0⟩], [⟨OIL, 0⟩]], [[false], [false]], fun _ => 0, 0⟩

/-- The test of the hazard scans on the neighbour `(x + dx, y + dy)` of the state `w`:
the position is in bounds and holds a hazard kind or charged water. -/
def Deadly (w : World) (x y dx dy : Int) : Prop :=
  w.inb (x + dx) (y + dy) = true ∧ deadly (w.cell (x + dx) (y + dy)) = true

instance (w : World) (x y dx dy : Int) : Decidable (Deadly w x y dx dy) := by
  unfold Deadly
  exact inferInstance

/-- A row of width 2: a `HUMAN` left of `FIRE`, with a clear mask. -/
def humanByFire : World :=
  ⟨2, 1, [[⟨HUMAN, 0⟩, ⟨FIRE, 20⟩]], [[false, false]], fun _ => 0, 0⟩

/-- A row of width 2: a `ZOMBIE` left of `WATER` with charge 3, with a clear mask. -/
def zombieByWater : World :=
  ⟨2, 1, [[⟨ZOMBIE, 4⟩, ⟨WATER, 3⟩]], [[false, false]], fun _ => 0, 0⟩

/-- A cell that, if it is of a kind that takes charge (`WIRE`, `METAL`, `WATER`,
`SALTWATER`), has life at least `q - 1`. -/
def Charged (q : Int) (c : Cell) : Prop :=
  (c.type = WIRE ∨ c.type = METAL ∨ c.type = WATER ∨ c.type = SALTWATER) → q - 1 ≤ c.life

/-- The state `w1` comes from `w` by steps of a conduction loop around `(x, y)`: same
dimensions and mask, the cell `(x, y)` as before, and every cell that was `Charged`
still is. -/
def Surge (q x y : Int) (w w1 : World) : Prop :=
  SameDims w w1 ∧ w1.WF ∧ w1.updated = w.updated ∧ w1.cell x y = w.cell x y ∧
    ∀ a b, Charged q (w.cell a b) → Charged q (w1.cell a b)

/-- A rectangular state whose cell `(x, y)` is in bounds and of a kind `explode` leaves
alone. -/
def Live (x y : Int) (w : World) : Prop :=
  w.WF ∧ w.inb x y = true ∧ blastproof (w.cell x y).type = true

/-- A row of width 3: `WATER`, a `WIRE` with charge 3 and `METAL` with charge 1. -/
def liveWire : World :=
  ⟨3, 1, [[⟨WATER, 0⟩, ⟨WIRE, 3⟩, ⟨METAL, 1⟩]], [[false, false, false]], fun _ => 0, 0⟩

/-- A row of width 3: `GUNPOWDER`, a `WIRE` with charge 3 and `WATER`, with a stream
whose draws are all 0 (every `chance` succeeds, every roll of `explode` gives `FIRE`). -/
def wireByPowder : World :=
  ⟨3, 1, [[⟨GUNPOWDER, 0⟩, ⟨WIRE, 3⟩, ⟨WATER, 0⟩]], [[false, false, false]], fun _ => 0, 0⟩

/-- A row of width 3: `WATER`, a `WIRE` without charge and `METAL` with charge 1. -/
def deadWire : World :=
  ⟨3, 1, [[⟨WATER, 0⟩, ⟨WIRE, 0⟩, ⟨METAL, 1⟩]], [[false, false, false]], fun _ => 0, 0⟩

/-- The cell `(a, b)` of `w1` is the outcome of one draw of the attack of a zombie made
between the states `w` and `w1`: the draw in `[1, 100]` at a stream position `k`
consumed in between is at most 70 and the cell is `ZOMBIE` with life 0, or it is larger
and the cell is `FIRE` with life 10. -/
def Bitten (w w1 : World) (a b : Int) : Prop :=
  ∃ k : Nat, w.pos ≤ k ∧ k < w1.pos ∧
    w1.cell a b = if 1 + ((w.draws k : Nat) : Int) % 100 ≤ 70 then ⟨ZOMBIE, 0⟩ else ⟨FIRE, 10⟩

/-- The state `w1` comes from `w` by steps of the attack loops of a zombie: same
dimensions, mask and stream, and each cell is as before or was a `HUMAN` and is
`Bitten`. -/
def Bite (w w1 : World) : Prop :=
  SameDims w w1 ∧ w1.WF ∧ w1.updated = w.updated ∧ w1.draws = w.draws ∧ w.pos ≤ w1.pos ∧
    ∀ a b, w1.cell a b = w.cell a b ∨ ((w.cell a b).type = HUMAN ∧ Bitten w w1 a b)

/-- The state `w1` comes from `w` by the walk of the agent at `(x, y)`: same dimensions,
mask and stream, and each cell is as before, or was `EMPTY` or a gas and now holds the
agent, or is the cell `(x, y)` and now holds an `EMPTY` cell or a gas. -/
def Shift (x y : Int) (w w1 : World) : Prop :=
  SameDims w w1 ∧ w1.WF ∧ w1.updated = w.updated ∧ w1.draws = w.draws ∧ w.pos ≤ w1.pos ∧
    ∀ a b, w1.cell a b = w.cell a b ∨
      (passable (w.cell a b) = true ∧ w1.cell a b = w.cell x y) ∨
      ((a = x ∧ b = y) ∧ passable (w1.cell a b) = true)

/-- A row of width 3: a `ZOMBIE` between two `HUMAN`s, with a stream whose first draw
is 0 and whose later draws are 99. -/
def zombieAmidHumans : World :=
  ⟨3, 1, [[⟨HUMAN, 0⟩, ⟨ZOMBIE, 0⟩, ⟨HUMAN, 0⟩]], [[false, false, false]],
    fun n => if n = 0 then 0 else 99, 0⟩

/-- A column of width 1 and height 3: `LIGHTNING` with life 2 (as the brush writes it)
over `LIGHTNING` with life 1 over an `EMPTY` cell. -/
def boltColumn : World :=
  World.ofGrid 1 3 [[⟨LIGHTNING, 2⟩], [⟨LIGHTNING, 1⟩], [⟨EMPTY, 0⟩]] fun n => n

/-- A column of width 1 and height 2: `LIGHTNING` with life 3 over `STONE`. -/
def longBolt : World :=
  World.ofGrid 1 2 [[⟨LIGHTNING, 3⟩], [⟨STONE, 0⟩]] fun n => n

/-- A column of width 1 and height 2: `LIGHTNING` with life 2 over an `EMPTY` cell
whose life is 1. -/
def staleEmpty : World :=
  World.ofGrid 1 2 [[⟨LIGHTNING, 2⟩], [⟨EMPTY, 1⟩]] fun _ => 0

/-- The column `WATER` over `SAND` over `WATER`, every life 0, at the start of a tick. -/
def wetSand (d : Nat → Nat) : World :=
  World.ofGrid 1 3 [[⟨WATER, 0⟩], [⟨SAND, 0⟩], [⟨WATER, 0⟩]] d

/-- A 2x2 grid with a `WALL`, a `WIRE` with charge 3, `WATER` and `SAND`. -/
def mixedLives : World :=
  World.ofGrid 2 2 [[⟨WALL, 0⟩, ⟨WIRE, 3⟩], [⟨WATER, 0⟩, ⟨SAND, 7⟩]] fun n => n

/-- A 1x1 grid holding a `HUMAN` whose animation counter has reached `INT_MAX`. -/
def ancientHuman : World :=
  World.ofGrid 1 1 [[⟨HUMAN, 2147483647⟩]] fun n => n

/-- A 3x4 grid with `WATER` at the bottom of column 1, for the lightning brush. -/
def pond : World :=
  World.ofGrid 3 4
    [[⟨EMPTY, 0⟩, ⟨EMPTY, 0⟩, ⟨SAND, 0⟩], [⟨EMPTY, 0⟩, ⟨SMOKE, 3⟩, ⟨EMPTY, 0⟩],
      [⟨STONE, 0⟩, ⟨EMPTY, 0⟩, ⟨EMPTY, 0⟩], [⟨STONE, 0⟩, ⟨WATER, 0⟩, ⟨WALL, 0⟩]] fun n => n

/-- The movement of a gas with `tries` upward attempts: the loop
`for(int i=0;i<tries && !moved;++i)` followed by the sideways attempts. (The source takes
`tries = 2` for `HYDROGEN` and `tries = 1` for every other gas.) -/
def gasMoveWith (tries : Nat) (x y : Int) : SimM Bool := do
  let m0 ← gasRise x y tries
  if m0 then pure true
  else do
    let r ← rint 0 1
    let o : Int := if r ≠ 0 then 1 else -1
    let m1 ← gasSide x y (x + o)
    if m1 then pure true
    else gasSide x y (x - o)

/-- The branch `gases` of `step_sim` with `tries` upward attempts. -/
def gasRuleWith (tries : Nat) (x y : Int) (t : Element) : SimM Unit := do
  let moved ← gasMoveWith tries x y
  (if t = HYDROGEN ∨ t = GAS then gasIgnite x y t else pure ())
  (if t = CHLORINE then chlorineRule x y else pure ())
  gasDecay x y t moved

/-- The visit of one cell with `tries` upward attempts for `HYDROGEN` (and one for every
other gas): the body of the loops of `step_sim`, in which `tries` stands for the
constant 2 of `int tries = (t==Element::HYDROGEN ? 2 : 1)`. -/
def visitWith (tries : Nat) (x y : Int) : SimM Unit := do
  let u ← getUpdated x y
  if u then pure ()
  else do
    let cell ← getCell x y
    let t := cell.type
    if t = EMPTY ∨ t = WALL then setUpdated x y
    else if sandlike t then powderRule x y t
    else if liquid t then liquidRule x y t
    else if gas t then gasRuleWith (if t = HYDROGEN then tries else 1) x y t
    else if t = FIRE then fireRule x y
    else if t = LIGHTNING then lightningRule x y
    else if t = HUMAN then humanRule x y
    else if t = ZOMBIE then zombieRule x y
    else if t = WET_DIRT then wetDirtRule x y
    else if t = PLANT ∨ t = SEAWEED then plantRule x y t
    else if t = WOOD ∨ t = COAL then woodRule x y t
    else if t = GUNPOWDER then gunpowderRule x y
    else if t = WIRE ∨ t = METAL then wireRule x y
    else if t = ICE then iceRule x y
    else setUpdated x y

/-- The column `OIL` over `OIL` over `HYDROGEN` with life 25, at the start of a tick. -/
def gasUnderOil : World :=
  World.ofGrid 1 3 [[⟨OIL, 0⟩], [⟨OIL, 0⟩], [⟨HYDROGEN, 25⟩]] fun _ => 0

/-- A 2x2 grid in the sweep of a tick: `HYDROGEN` at `(0, 1)` under an `EMPTY` cell, the
bottom row not yet visited. -/
def gasBelowGap : World :=
  ⟨2, 2, [[⟨EMPTY, 0⟩, ⟨STONE, 0⟩], [⟨HYDROGEN, 25⟩, ⟨STONE, 0⟩]],
    [[false, false], [false, false]], fun n => n, 0⟩

/-- The invariant of the visit of an `ACID` cell at `(x, y)`, started in `w0`: every cell
other than `(x, y)` is untouched, or was neither dissolvable nor a `WALL` and is still
not dissolvable, or was dissolvable and is now `TOXIC_GAS` with life 25 or `EMPTY` with
life 0. -/
def Eaten (x y : Int) (w0 w : World) : Prop :=
  SameDims w0 w ∧ w.WF ∧ w.WFU ∧
    ∀ a b, ¬ (a = x ∧ b = y) →
      w.cell a b = w0.cell a b ∨
      (dissolvable (w0.cell a b).type = false ∧ (w0.cell a b).type ≠ WALL ∧
        dissolvable (w.cell a b).type = false) ∨
      (dissolvable (w0.cell a b).type = true ∧
        (w.cell a b = ⟨TOXIC_GAS, 25⟩ ∨ w.cell a b = ⟨EMPTY, 0⟩))

/-- Between `w` and `w1` no cell other than `(x, y)` has become dissolvable. -/
def Soft (x y : Int) (w w1 : World) : Prop :=
  ∀ a b, ¬ (a = x ∧ b = y) → dissolvable (w.cell a b).type = false →
    dissolvable (w1.cell a b).type = false

/-- A 3x3 grid in the sweep of a tick: `ACID` in the middle, with `SAND`, `STONE`, `WOOD`,
`METAL` and `WATER` around it, above a floor of `WALL`. -/
def acidBath : World :=
  ⟨3, 3, [[⟨SAND, 0⟩, ⟨STONE, 0⟩, ⟨WATER, 0⟩], [⟨WOOD, 0⟩, ⟨ACID, 0⟩, ⟨METAL, 0⟩],
      [⟨WALL, 0⟩, ⟨WALL, 0⟩, ⟨WALL, 0⟩]],
    [[false, false, false], [false, false, false], [true, true, true]], fun n => 7 * n, 0⟩

/-- The kinds of an isolated conductor network. -/
def NetKind (t : Element) : Prop :=
  t = WIRE ∨ t = METAL ∨ t = EMPTY ∨ t = WALL ∨ t = STONE ∨ t = GLASS

/-- Every cell of the grid is `WIRE`, `METAL`, `EMPTY`, `WALL`, `STONE` or `GLASS`, and
every cell that is neither `WIRE` nor `METAL` has life 0. -/
def Network (w : World) : Prop :=
  ∀ x y, w.inb x y = true → NetKind (w.cell x y).type ∧
    (¬ ((w.cell x y).type = WIRE ∨ (w.cell x y).type = METAL) → (w.cell x y).life = 0)

/-- The invariant of the sweep of a tick started in the network `w0` whose lives are at
most `q`: no number is drawn, kinds are unchanged, cells other than `WIRE` and `METAL`
are untouched, no life has become negative, an unflagged cell has life at most `q` (and
exactly `q` if it started with `q`), and a flagged cell has life at most `q - 1` (and
exactly `q - 1` if it started with `q`). -/
structure Wired (q : Int) (w0 w : World) : Prop where
  one : 1 ≤ q
  net : Network w0
  dims : SameDims w0 w
  wf : w.WF
  wfu : w.WFU
  pos : w.pos = w0.pos
  draws : w.draws = w0.draws
  cells : ∀ a b, w0.inb a b = true →
    (w.cell a b).type = (w0.cell a b).type ∧
    (¬ ((w0.cell a b).type = WIRE ∨ (w0.cell a b).type = METAL) → w.cell a b = w0.cell a b) ∧
    (0 ≤ (w0.cell a b).life → 0 ≤ (w.cell a b).life) ∧
    (w.upd a b = false →
      (w.cell a b).life ≤ q ∧ ((w0.cell a b).life = q → (w.cell a b).life = q)) ∧
    (w.upd a b = true →
      (w.cell a b).life ≤ q - 1 ∧ ((w0.cell a b).life = q → (w.cell a b).life = q - 1))

/-- No flag of the mask has been cleared between `w` and `w1`. -/
def Kept (w w1 : World) : Prop :=
  ∀ a b, w.upd a b = true → w1.upd a b = true

/-- A 3x2 network: a `WIRE` with charge 2 next to an uncharged `METAL`. -/
def circuit : World :=
  World.ofGrid 3 2
    [[⟨WIRE, 2⟩, ⟨METAL, 0⟩, ⟨STONE, 0⟩], [⟨WALL, 0⟩, ⟨EMPTY, 0⟩, ⟨GLASS, 0⟩]] fun n => n

/-- A column of width 1 and height 3: a `WIRE` with charge 1, an `EMPTY` cell and a
`WIRE` whose life is -1. -/
def strayWire : World :=
  World.ofGrid 1 3 [[⟨WIRE, 1⟩], [⟨EMPTY, 0⟩], [⟨WIRE, -1⟩]] fun _ => 0

/-- A 3x3 grid that is `EMPTY` except for a `FIRE` with life `L` in the middle. -/
def campfire (L : Int) (d : Nat → Nat) : World :=
  World.ofGrid 3 3
    [[⟨EMPTY, 0⟩, ⟨EMPTY, 0⟩, ⟨EMPTY, 0⟩], [⟨EMPTY, 0⟩, ⟨FIRE, L⟩, ⟨EMPTY, 0⟩],
      [⟨EMPTY, 0⟩, ⟨EMPTY, 0⟩, ⟨EMPTY, 0⟩]] d

/-! # Theorems -/

/-! ## Vectors of vectors -/

theorem nth?_setNth {α : Type} (l : List α) (i j : Int) (a : α) :
    nth? (setNth l i a) j = if j = i ∧ (nth? l i).isSome then some a else nth? l j := by
  unfold nth? setNth
  by_cases hi : 0 ≤ i
  · by_cases hj : 0 ≤ j
    · simp only [hi, hj, if_true]
      by_cases hij : j = i
      · subst hij
        by_cases hlt : j.toNat < l.length
        · simp [List.get?_eq_getElem?, List.getElem?_set, hlt]
        · simp [List.get?_eq_getElem?, List.getElem?_set, hlt]
          simp at hlt
          simp [List.getElem?_eq_none, hlt]
      · have : i.toNat ≠ j.toNat := by omega
        simp [List.get?_eq_getElem?, List.getElem?_set, this, hij]
    · have : j ≠ i := by omega
      simp [hi, hj, this]
  · have : ∀ (h : j = i), ¬ (0 ≤ j) := by omega
    simp [hi]

theorem at?_setAt {α : Type} (m : List (List α)) (x y x1 y1 : Int) (a : α) :
    at? (setAt m x y a) x1 y1 =
      if x1 = x ∧ y1 = y ∧ (at? m x y).isSome then some a else at? m x1 y1 := by
  unfold at? setAt
  cases hrow : nth? m y with
  | none => simp [hrow]
  | some row =>
    simp only [nth?_setNth, hrow, Option.isSome_some, and_true, Option.bind_some]
    by_cases hy : y1 = y
    · subst hy
      simp [hrow, nth?_setNth]
    · simp [hy]

theorem nth?_isSome {α : Type} (l : List α) (i : Int) :
    (nth? l i).isSome = (decide (0 ≤ i) && decide (i < (l.length : Int))) := by
  unfold nth?
  by_cases hi : 0 ≤ i
  · simp only [hi, if_true, decide_True, Bool.true_and]
    by_cases hlt : i.toNat < l.length
    · have : i < (l.length : Int) := by omega
      simp [List.get?_eq_getElem?, hlt, this]
    · have : ¬ i < (l.length : Int) := by omega
      simp [List.get?_eq_getElem?, this]
      omega
  · simp [hi]

theorem nth?_mem {α : Type} {l : List α} {i : Int} {a : α} (h : nth? l i = some a) : a ∈ l := by
  unfold nth? at h
  split at h
  · exact List.get?_mem h
  · cases h

theorem length_setNth {α : Type} (l : List α) (i : Int) (a : α) :
    (setNth l i a).length = l.length := by
  unfold setNth
  split <;> simp

theorem mem_setNth {α : Type} {l : List α} {i : Int} {a b : α} (h : b ∈ setNth l i a) :
    b ∈ l ∨ b = a := by
  unfold setNth at h
  split at h
  · rcases List.mem_or_eq_of_mem_set h with h1 | h1
    · exact Or.inl h1
    · exact Or.inr h1
  · exact Or.inl h

/-- In a rectangular vector of vectors, `m[y][x]` exists exactly inside the rectangle. -/
theorem at?_isSome_of_rect {α : Type} (m : List (List α)) (wd h : Int)
    (hlen : (m.length : Int) = h) (hrow : ∀ row ∈ m, (row.length : Int) = wd) (x y : Int) :
    (at? m x y).isSome = (decide (0 ≤ x) && decide (x < wd) && decide (0 ≤ y) && decide (y < h)) := by
  unfold at?
  cases hr : nth? m y with
  | none =>
    have h1 := nth?_isSome m y
    rw [hr] at h1
    simp only [Option.isSome_none] at h1
    simp only [Option.none_bind, Option.isSome_none]
    rw [hlen] at h1
    have h2 : (decide (0 ≤ y) && decide (y < h)) = false := h1.symm
    rw [Bool.and_assoc, h2]
    simp
  | some row =>
    have h1 := nth?_isSome m y
    rw [hr] at h1
    simp only [Option.isSome_some] at h1
    rw [hlen] at h1
    have h2 : (decide (0 ≤ y) && decide (y < h)) = true := h1.symm
    simp only [Option.some_bind]
    rw [nth?_isSome, hrow row (nth?_mem hr), Bool.and_assoc (decide (0 ≤ x) && decide (x < wd)), h2]
    simp

theorem rect_setAt {α : Type} (m : List (List α)) (wd h : Int) (x y : Int) (a : α)
    (hlen : (m.length : Int) = h) (hrow : ∀ row ∈ m, (row.length : Int) = wd) :
    ((setAt m x y a).length : Int) = h ∧ ∀ row ∈ setAt m x y a, (row.length : Int) = wd := by
  unfold setAt
  cases hr : nth? m y with
  | none => exact ⟨hlen, hrow⟩
  | some r =>
    refine ⟨by simpa [length_setNth] using hlen, ?_⟩
    intro row hmem
    rcases mem_setNth hmem with h1 | h1
    · exact hrow row h1
    · subst h1
      rw [length_setNth]
      exact hrow r (nth?_mem hr)

/-! ## The state: reading after writing -/

theorem World.WF.isSome {w : World} (h : w.WF) (x y : Int) :
    (at? w.grid x y).isSome = w.inb x y :=
  at?_isSome_of_rect w.grid w.gWidth w.gHeight h.1 h.2 x y

theorem World.WFU.isSomeU {w : World} (h : w.WFU) (x y : Int) :
    (at? w.updated x y).isSome = w.inb x y :=
  at?_isSome_of_rect w.updated w.gWidth w.gHeight h.1 h.2 x y

theorem World.WF.atCell {w : World} (h : w.WF) {x y : Int} (hib : w.inb x y = true) :
    PowderSandbox.at? w.grid x y = some (w.cell x y) := by
  have h1 := h.isSome x y
  rw [hib] at h1
  unfold World.cell
  cases hc : PowderSandbox.at? w.grid x y with
  | none => rw [hc] at h1; cases h1
  | some c => rfl

theorem World.WFU.atFlag {w : World} (h : w.WFU) {x y : Int} (hib : w.inb x y = true) :
    PowderSandbox.at? w.updated x y = some (w.upd x y) := by
  have h1 := h.isSomeU x y
  rw [hib] at h1
  unfold World.upd
  cases hc : PowderSandbox.at? w.updated x y with
  | none => rw [hc] at h1; cases h1
  | some c => rfl

@[simp] theorem put_gWidth (w : World) (x y : Int) (c : Cell) : (w.put x y c).gWidth = w.gWidth := rfl
@[simp] theorem put_gHeight (w : World) (x y : Int) (c : Cell) : (w.put x y c).gHeight = w.gHeight := rfl
@[simp] theorem put_updated (w : World) (x y : Int) (c : Cell) : (w.put x y c).updated = w.updated := rfl
@[simp] theorem put_draws (w : World) (x y : Int) (c : Cell) : (w.put x y c).draws = w.draws := rfl
@[simp] theorem put_pos (w : World) (x y : Int) (c : Cell) : (w.put x y c).pos = w.pos := rfl
@[simp] theorem put_inb (w : World) (x y : Int) (c : Cell) (a b : Int) : (w.put x y c).inb a b = w.inb a b := rfl
@[simp] theorem put_upd (w : World) (x y : Int) (c : Cell) (a b : Int) : (w.put x y c).upd a b = w.upd a b := rfl
@[simp] theorem put_roll (w : World) (x y : Int) (c : Cell) (a b : Int) : (w.put x y c).roll a b = w.roll a b := rfl

@[simp] theorem mark_gWidth (w : World) (x y : Int) : (w.mark x y).gWidth = w.gWidth := rfl
@[simp] theorem mark_gHeight (w : World) (x y : Int) : (w.mark x y).gHeight = w.gHeight := rfl
@[simp] theorem mark_grid (w : World) (x y : Int) : (w.mark x y).grid = w.grid := rfl
@[simp] theorem mark_draws (w : World) (x y : Int) : (w.mark x y).draws = w.draws := rfl
@[simp] theorem mark_pos (w : World) (x y : Int) : (w.mark x y).pos = w.pos := rfl
@[simp] theorem mark_inb (w : World) (x y : Int) (a b : Int) : (w.mark x y).inb a b = w.inb a b := rfl
@[simp] theorem mark_cell (w : World) (x y : Int) (a b : Int) : (w.mark x y).cell a b = w.cell a b := rfl
@[simp] theorem mark_roll (w : World) (x y : Int) (a b : Int) : (w.mark x y).roll a b = w.roll a b := rfl

@[simp] theorem draw_gWidth (w : World) : w.draw.gWidth = w.gWidth := rfl
@[simp] theorem draw_gHeight (w : World) : w.draw.gHeight = w.gHeight := rfl
@[simp] theorem draw_grid (w : World) : w.draw.grid = w.grid := rfl
@[simp] theorem draw_updated (w : World) : w.draw.updated = w.updated := rfl
@[simp] theorem draw_draws (w : World) : w.draw.draws = w.draws := rfl
@[simp] theorem draw_pos (w : World) : w.draw.pos = w.pos + 1 := rfl
@[simp] theorem draw_inb (w : World) (a b : Int) : w.draw.inb a b = w.inb a b := rfl
@[simp] theorem draw_cell (w : World) (a b : Int) : w.draw.cell a b = w.cell a b := rfl
@[simp] theorem draw_upd (w : World) (a b : Int) : w.draw.upd a b = w.upd a b := rfl

theorem World.WF.putWF {w : World} (h : w.WF) (x y : Int) (c : Cell) : (w.put x y c).WF :=
  rect_setAt w.grid w.gWidth w.gHeight x y c h.1 h.2

theorem World.WFU.markWFU {w : World} (h : w.WFU) (x y : Int) : (w.mark x y).WFU :=
  rect_setAt w.updated w.gWidth w.gHeight x y true h.1 h.2

@[simp] theorem put_WFU (w : World) (x y : Int) (c : Cell) : (w.put x y c).WFU ↔ w.WFU := Iff.rfl
@[simp] theorem mark_WF (w : World) (x y : Int) : (w.mark x y).WF ↔ w.WF := Iff.rfl
@[simp] theorem draw_WF (w : World) : w.draw.WF ↔ w.WF := Iff.rfl
@[simp] theorem draw_WFU (w : World) : w.draw.WFU ↔ w.WFU := Iff.rfl

/-- Reading the grid after a write inside it. -/
theorem cell_put {w : World} (h : w.WF) {x y : Int} (hib : w.inb x y = true) (c : Cell)
    (a b : Int) : (w.put x y c).cell a b = if a = x ∧ b = y then c else w.cell a b := by
  unfold World.cell World.put
  simp only [at?_setAt, h.isSome, hib, and_true]
  split <;> rfl

/-- Reading the mask after a write inside it. -/
theorem upd_mark {w : World} (h : w.WFU) {x y : Int} (hib : w.inb x y = true)
    (a b : Int) : (w.mark x y).upd a b = if a = x ∧ b = y then true else w.upd a b := by
  unfold World.upd World.mark
  simp only [at?_setAt, h.isSomeU, hib, and_true]
  split <;> rfl

@[simp] theorem isSome_put (w : World) (x y : Int) (c : Cell) (a b : Int) :
    (at? (w.put x y c).grid a b).isSome = (at? w.grid a b).isSome := by
  unfold World.put
  simp only [at?_setAt]
  split
  · rename_i h
    obtain ⟨rfl, rfl, h3⟩ := h
    rw [h3]
    rfl
  · rfl

@[simp] theorem isSome_mark (w : World) (x y : Int) (a b : Int) :
    (at? (w.mark x y).updated a b).isSome = (at? w.updated a b).isSome := by
  unfold World.mark
  simp only [at?_setAt]
  split
  · rename_i h
    obtain ⟨rfl, rfl, h3⟩ := h
    rw [h3]
    rfl
  · rfl

/-! ## The calculus of `wp` -/

theorem wp_pure {α : Type} (a : α) (Q : α → World → Prop) (w : World) :
    wp (pure a) Q w ↔ Q a w := by
  constructor
  · rintro ⟨a1, w1, h, hq⟩
    cases h
    exact hq
  · intro h
    exact ⟨a, w, rfl, h⟩

theorem wp_bind {α β : Type} (m : SimM α) (f : α → SimM β) (Q : β → World → Prop) (w : World) :
    wp (m >>= f) Q w ↔ wp m (fun a w1 => wp (f a) Q w1) w := by
  constructor
  · rintro ⟨b, w2, h, hq⟩
    change (match m w with | some (a, w1) => f a w1 | none => none) = some (b, w2) at h
    cases hm : m w with
    | none => rw [hm] at h; cases h
    | some p =>
      obtain ⟨a, w1⟩ := p
      rw [hm] at h
      exact ⟨a, w1, hm, b, w2, h, hq⟩
  · rintro ⟨a, w1, hm, b, w2, h, hq⟩
    refine ⟨b, w2, ?_, hq⟩
    change (match m w with | some (a, w1) => f a w1 | none => none) = some (b, w2)
    rw [hm]
    exact h

theorem wp_mono {α : Type} {m : SimM α} {Q R : α → World → Prop} {w : World}
    (h : wp m Q w) (hqr : ∀ a w1, Q a w1 → R a w1) : wp m R w := by
  obtain ⟨a, w1, hm, hq⟩ := h
  exact ⟨a, w1, hm, hqr a w1 hq⟩

/-- Two postconditions of the same run hold together. -/
theorem wp_and {α : Type} {m : SimM α} {Q R : α → World → Prop} {w : World}
    (h1 : wp m Q w) (h2 : wp m R w) : wp m (fun a w1 => Q a w1 ∧ R a w1) w := by
  obtain ⟨a, w1, hm, hq⟩ := h1
  obtain ⟨b, w2, hm2, hr⟩ := h2
  rw [hm] at hm2
  cases hm2
  exact ⟨a, w1, hm, hq, hr⟩

theorem wp_ite {α : Type} (c : Prop) [Decidable c] (m1 m2 : SimM α) (Q : α → World → Prop)
    (w : World) : wp (if c then m1 else m2) Q w ↔ if c then wp m1 Q w else wp m2 Q w := by
  split <;> rfl

theorem wp_in_bounds (x y : Int) (Q : Bool → World → Prop) (w : World) :
    wp (in_bounds x y) Q w ↔ Q (w.inb x y) w := by
  constructor
  · rintro ⟨a1, w1, h, hq⟩
    cases h
    exact hq
  · intro h
    exact ⟨_, w, rfl, h⟩

theorem wp_getWidth (Q : Int → World → Prop) (w : World) :
    wp getWidth Q w ↔ Q w.gWidth w := by
  constructor
  · rintro ⟨a1, w1, h, hq⟩
    cases h
    exact hq
  · intro h
    exact ⟨_, w, rfl, h⟩

theorem wp_getHeight (Q : Int → World → Prop) (w : World) :
    wp getHeight Q w ↔ Q w.gHeight w := by
  constructor
  · rintro ⟨a1, w1, h, hq⟩
    cases h
    exact hq
  · intro h
    exact ⟨_, w, rfl, h⟩

theorem wp_rint (a b : Int) (Q : Int → World → Prop) (w : World) :
    wp (rint a b) Q w ↔ Q (w.roll a b) w.draw := by
  constructor
  · rintro ⟨a1, w1, h, hq⟩
    cases h
    exact hq
  · intro h
    exact ⟨_, _, rfl, h⟩

theorem wp_chance (p : Int) (Q : Bool → World → Prop) (w : World) :
    wp (chance p) Q w ↔ Q (decide (w.roll 1 100 ≤ p)) w.draw := by
  unfold chance
  rw [wp_bind, wp_rint, wp_pure]

theorem wp_getCell (x y : Int) (Q : Cell → World → Prop) (w : World) :
    wp (getCell x y) Q w ↔ (at? w.grid x y).isSome = true ∧ Q (w.cell x y) w := by
  unfold wp getCell World.cell
  cases hc : at? w.grid x y with
  | none => simp
  | some c =>
    simp only [Option.isSome_some, true_and, Option.getD_some]
    constructor
    · rintro ⟨a, w1, h, hq⟩
      cases h
      exact hq
    · intro h
      exact ⟨_, _, rfl, h⟩

theorem wp_setCell (x y : Int) (c : Cell) (Q : Unit → World → Prop) (w : World) :
    wp (setCell x y c) Q w ↔ (at? w.grid x y).isSome = true ∧ Q () (w.put x y c) := by
  unfold wp setCell
  cases hc : at? w.grid x y with
  | none => simp
  | some c0 =>
    simp only [Option.isSome_some, true_and]
    constructor
    · rintro ⟨a, w1, h, hq⟩
      cases h
      exact hq
    · intro h
      exact ⟨_, _, rfl, h⟩

theorem wp_setLife (x y : Int) (v : Int) (Q : Unit → World → Prop) (w : World) :
    wp (setLife x y v) Q w ↔
      (at? w.grid x y).isSome = true ∧ Q () (w.put x y ⟨(w.cell x y).type, v⟩) := by
  unfold wp setLife World.cell
  cases hc : at? w.grid x y with
  | none => simp
  | some c0 =>
    simp only [Option.isSome_some, true_and, Option.getD_some]
    constructor
    · rintro ⟨a, w1, h, hq⟩
      cases h
      exact hq
    · intro h
      exact ⟨_, _, rfl, h⟩

theorem wp_getUpdated (x y : Int) (Q : Bool → World → Prop) (w : World) :
    wp (getUpdated x y) Q w ↔ (at? w.updated x y).isSome = true ∧ Q (w.upd x y) w := by
  unfold wp getUpdated World.upd
  cases hc : at? w.updated x y with
  | none => simp
  | some c0 =>
    simp only [Option.isSome_some, true_and, Option.getD_some]
    constructor
    · rintro ⟨a, w1, h, hq⟩
      cases h
      exact hq
    · intro h
      exact ⟨_, _, rfl, h⟩

theorem wp_setUpdated (x y : Int) (Q : Unit → World → Prop) (w : World) :
    wp (setUpdated x y) Q w ↔ (at? w.updated x y).isSome = true ∧ Q () (w.mark x y) := by
  unfold wp setUpdated
  cases hc : at? w.updated x y with
  | none => simp
  | some c0 =>
    simp only [Option.isSome_some, true_and]
    constructor
    · rintro ⟨a, w1, h, hq⟩
      cases h
      exact hq
    · intro h
      exact ⟨_, _, rfl, h⟩

/-- The loop rule: an invariant of the body is an invariant of the loop. -/
theorem wp_forEach {β : Type} (I : World → Prop) (l : List β) (body : β → SimM Unit)
    (hbody : ∀ b ∈ l, ∀ w, I w → wp (body b) (fun _ w1 => I w1) w) :
    ∀ w, I w → wp (forEach l body) (fun _ w1 => I w1) w := by
  induction l with
  | nil =>
    intro w hw
    exact (wp_pure _ _ _).2 hw
  | cons b bs ih =>
    intro w hw
    unfold forEach
    rw [wp_bind]
    refine wp_mono (hbody b (List.mem_cons_self _ _) w hw) ?_
    intro _ w1 h1
    exact ih (fun b1 hb1 => hbody b1 (List.mem_cons_of_mem _ hb1)) w1 h1

/-- The loop rule for a loop with `break`. -/
theorem wp_firstM {β : Type} (I : World → Prop) (l : List β) (body : β → SimM Bool)
    (hbody : ∀ b ∈ l, ∀ w, I w → wp (body b) (fun _ w1 => I w1) w) :
    ∀ w, I w → wp (firstM l body) (fun _ w1 => I w1) w := by
  induction l with
  | nil =>
    intro w hw
    exact (wp_pure _ _ _).2 hw
  | cons b bs ih =>
    intro w hw
    unfold firstM
    rw [wp_bind]
    refine wp_mono (hbody b (List.mem_cons_self _ _) w hw) ?_
    intro r w1 h1
    cases r with
    | true => exact (wp_pure _ _ _).2 h1
    | false => exact ih (fun b1 hb1 => hbody b1 (List.mem_cons_of_mem _ hb1)) w1 h1

/-- The loop rule for a search loop. -/
theorem wp_findM {β γ : Type} (I : World → Prop) (l : List β) (body : β → SimM (Option γ))
    (hbody : ∀ b ∈ l, ∀ w, I w → wp (body b) (fun _ w1 => I w1) w) :
    ∀ w, I w → wp (findM l body) (fun _ w1 => I w1) w := by
  induction l with
  | nil =>
    intro w hw
    exact (wp_pure _ _ _).2 hw
  | cons b bs ih =>
    intro w hw
    unfold findM
    rw [wp_bind]
    refine wp_mono (hbody b (List.mem_cons_self _ _) w hw) ?_
    intro r w1 h1
    cases r with
    | some c => exact (wp_pure _ _ _).2 h1
    | none => exact ih (fun b1 hb1 => hbody b1 (List.mem_cons_of_mem _ hb1)) w1 h1

/-- The value `wrap32 n` of an `int`-sized `n` is `n`. -/
theorem wrap32_id {n : Int} (h1 : -2147483648 ≤ n) (h2 : n ≤ 2147483647) : wrap32 n = n := by
  unfold wrap32
  omega

/-- The result of `wrap32` is an `int`. -/
theorem wrap32_range (n : Int) : -2147483648 ≤ wrap32 n ∧ wrap32 n ≤ 2147483647 := by
  unfold wrap32
  omega

/-- For a bound other than `INT_MIN` and `INT_MAX` the nested loops run through the
offsets `-k, .., k`. -/
theorem forBox_span (k : Int) [hk : Fact (Small k)] (body : Int → Int → SimM Unit) :
    forBox k body = forEach (span k) fun dy => forEach (span k) fun dx => body dx dy := by
  have h := hk.out
  unfold forBox span
  rw [if_neg (by have := h.2; omega), wrap32_id (by have := h.2; omega) (by have := h.1; omega)]

theorem wp_forBox (I : World → Prop) (k : Int) [Fact (Small k)] (body : Int → Int → SimM Unit)
    (hbody : ∀ dx ∈ span k, ∀ dy ∈ span k, ∀ w, I w → wp (body dx dy) (fun _ w1 => I w1) w) :
    ∀ w, I w → wp (forBox k body) (fun _ w1 => I w1) w := by
  rw [forBox_span]
  apply wp_forEach
  intro dy hdy
  apply wp_forEach
  intro dx hdx
  exact hbody dx hdx dy hdy

theorem mem_irange (lo hi a : Int) : a ∈ irange lo hi ↔ lo ≤ a ∧ a ≤ hi := by
  unfold irange
  simp only [List.mem_map, List.mem_range]
  constructor
  · rintro ⟨i, hi1, rfl⟩
    constructor <;> omega
  · intro h
    obtain ⟨h1, h2⟩ := h
    refine ⟨(a - lo).toNat, ?_, ?_⟩ <;> omega

theorem mem_span (k a : Int) : a ∈ span k ↔ -k ≤ a ∧ a ≤ k := mem_irange _ _ _

theorem inb_of_not {w : World} {x y : Int} (h : ¬ (!w.inb x y) = true) : w.inb x y = true := by
  simpa using h

/-! ## Loops that establish a property for each index -/

/-- A loop whose body keeps `I`, moves the state along a transitive relation `R` and
establishes `P b` for its own index, where every `P c` is stable along `R`: after the
loop `P b` holds for every index. -/
theorem wp_forEach_each {β : Type} (I : World → Prop) (R : World → World → Prop)
    (P : β → World → Prop) (hrefl : ∀ w, I w → R w w)
    (htrans : ∀ w w1 w2, R w w1 → R w1 w2 → R w w2)
    (hstab : ∀ b w w1, R w w1 → P b w → P b w1) (l : List β) (body : β → SimM Unit)
    (hbody : ∀ b ∈ l, ∀ w, I w → wp (body b) (fun _ w1 => I w1 ∧ R w w1 ∧ P b w1) w) :
    ∀ w, I w → wp (forEach l body) (fun _ w1 => I w1 ∧ R w w1 ∧ ∀ b ∈ l, P b w1) w := by
  induction l with
  | nil =>
    intro w hw
    unfold forEach
    rw [wp_pure]
    exact ⟨hw, hrefl w hw, fun b hb => absurd hb (List.not_mem_nil b)⟩
  | cons b bs ih =>
    intro w hw
    unfold forEach
    rw [wp_bind]
    refine wp_mono (hbody b (List.mem_cons_self _ _) w hw) ?_
    rintro _ w1 ⟨hI1, hR1, hP1⟩
    refine wp_mono (ih (fun c hc => hbody c (List.mem_cons_of_mem _ hc)) w1 hI1) ?_
    rintro _ w2 ⟨hI2, hR2, hP2⟩
    refine ⟨hI2, htrans _ _ _ hR1 hR2, fun c hc => ?_⟩
    rcases List.mem_cons.1 hc with rfl | hc1
    · exact hstab _ _ _ hR2 hP1
    · exact hP2 c hc1

/-- The rule `wp_forEach_each` for the two nested loops over a box of offsets. -/
theorem wp_forBox_each (I : World → Prop) (R : World → World → Prop)
    (P : Int → Int → World → Prop) (hrefl : ∀ w, I w → R w w)
    (htrans : ∀ w w1 w2, R w w1 → R w1 w2 → R w w2)
    (hstab : ∀ dx dy w w1, R w w1 → P dx dy w → P dx dy w1) (k : Int) [Fact (Small k)]
    (body : Int → Int → SimM Unit)
    (hbody : ∀ dx ∈ span k, ∀ dy ∈ span k, ∀ w, I w →
      wp (body dx dy) (fun _ w1 => I w1 ∧ R w w1 ∧ P dx dy w1) w) :
    ∀ w, I w → wp (forBox k body) (fun _ w1 => I w1 ∧ R w w1 ∧
      ∀ dx ∈ span k, ∀ dy ∈ span k, P dx dy w1) w := by
  intro w hw
  rw [forBox_span]
  refine wp_mono (wp_forEach_each I R (fun dy w1 => ∀ dx ∈ span k, P dx dy w1) hrefl htrans
    (fun dy w1 w2 hR hP dx hdx => hstab dx dy w1 w2 hR (hP dx hdx)) (span k) _ ?_ w hw) ?_
  · intro dy hdy w1 hw1
    exact wp_forEach_each I R (fun dx w2 => P dx dy w2) hrefl htrans
      (fun dx w2 w3 hR hP => hstab dx dy w2 w3 hR hP) (span k) _
      (fun dx hdx w2 hw2 => hbody dx hdx dy hdy w2 hw2) w1 hw1
  · rintro _ w1 ⟨hI, hR, hP⟩
    exact ⟨hI, hR, fun dx hdx dy hdy => hP dy hdy dx hdx⟩

theorem irange_nil {lo hi : Int} (h : hi < lo) : irange lo hi = [] := by
  unfold irange
  have : (hi - lo + 1).toNat = 0 := by omega
  rw [this]
  rfl

theorem irange_cons {lo hi : Int} (h : lo ≤ hi) : irange lo hi = lo :: irange (lo + 1) hi := by
  unfold irange
  have h1 : (hi - lo + 1).toNat = (hi - (lo + 1) + 1).toNat + 1 := by omega
  rw [h1, List.range_succ_eq_map]
  simp only [List.map_cons, List.map_map, Nat.cast_zero, add_zero, List.cons.injEq, true_and]
  apply List.map_congr_left
  intro i _
  simp only [Function.comp_apply, Nat.cast_succ]
  omega

theorem irange_snoc {lo hi : Int} (h : lo ≤ hi) : irange lo hi = irange lo (hi - 1) ++ [hi] := by
  unfold irange
  have h1 : (hi - lo + 1).toNat = (hi - 1 - lo + 1).toNat + 1 := by omega
  rw [h1, List.range_succ]
  simp only [List.map_append, List.map_cons, List.map_nil, List.append_cancel_left_eq, List.cons.injEq, and_true]
  omega

theorem irange_split {lo hi : Int} (a : Int) (h1 : lo ≤ a) (h2 : a ≤ hi) :
    irange lo hi = irange lo (a - 1) ++ a :: irange (a + 1) hi := by
  unfold irange
  have e : (hi - lo + 1).toNat = (a - 1 - lo + 1).toNat + ((hi - (a + 1) + 1).toNat + 1) := by omega
  rw [e, List.range_add, List.range_succ_eq_map]
  simp only [List.map_append, List.map_map, List.map_cons, List.append_cancel_left_eq, List.cons.injEq]
  constructor
  · simp
    omega
  · apply List.map_congr_left
    intro i _
    simp only [Function.comp_apply, Nat.cast_succ, Nat.cast_add]
    omega

/-- The rule for a counting loop: `I i` holds before the iteration at `i`. -/
theorem wp_forRange (body : Int → SimM Unit) (I : Int → World → Prop) (hi : Int) :
    ∀ (n : Nat) (lo : Int), (hi + 1 - lo).toNat = n → lo ≤ hi + 1 →
      (∀ i, lo ≤ i → i ≤ hi → ∀ w, I i w → wp (body i) (fun _ w1 => I (i + 1) w1) w) →
      ∀ w, I lo w → wp (forEach (irange lo hi) body) (fun _ w1 => I (hi + 1) w1) w := by
  intro n
  induction n with
  | zero =>
    intro lo hn hle _ w hw
    have : lo = hi + 1 := by omega
    subst this
    rw [irange_nil (by omega)]
    exact (wp_pure _ _ _).2 hw
  | succ n ih =>
    intro lo hn hle hbody w hw
    rw [irange_cons (by omega)]
    unfold forEach
    rw [wp_bind]
    refine wp_mono (hbody lo (le_refl _) (by omega) w hw) ?_
    intro _ w1 h1
    exact ih (lo + 1) (by omega) (by omega) (fun i hi1 hi2 => hbody i (by omega) hi2) w1 h1

theorem inDisk_box {cx cy r x y : Int} (hr : 0 ≤ r) (h : InDisk cx cy r x y) :
    -r ≤ x - cx ∧ x - cx ≤ r ∧ -r ≤ y - cy ∧ y - cy ≤ r := by
  unfold InDisk at h
  refine ⟨?_, ?_, ?_, ?_⟩ <;> nlinarith [mul_self_nonneg (x - cx), mul_self_nonneg (y - cy)]

theorem blastproof_iff (t : Element) :
    blastproof t = false ↔
      ¬ t = WALL ∧ ¬ (t = STONE ∨ t = GLASS ∨ t = METAL ∨ t = WIRE ∨ t = ICE) := by
  cases t <;> simp [blastproof]

theorem Blasted.keep {w w1 w2 : World} {x y : Int} (h : Blasted w w1 x y)
    (hc : w2.cell x y = w1.cell x y) (hp : w1.pos ≤ w2.pos) : Blasted w w2 x y := by
  obtain ⟨k, h1, h2, h3⟩ := h
  refine ⟨k, h1, by omega, ?_⟩
  rw [hc]
  exact h3

theorem BlastedAt.keepAt {w w1 w2 : World} {k : Nat} {x y : Int} (h : BlastedAt w w1 k x y)
    (hc : w2.cell x y = w1.cell x y) (hp : w1.pos ≤ w2.pos) : BlastedAt w w2 k x y := by
  obtain ⟨h1, h2, h3, h4, h5⟩ := h
  refine ⟨h1, by omega, fun a => ?_, fun a b => ?_, fun a => ?_⟩
  · rw [hc]
    exact ⟨(h3 a).1, by have := (h3 a).2; omega⟩
  · rw [hc]
    exact h4 a b
  · rw [hc]
    exact h5 a

/-- The outcome of the roll at a given position is the outcome of some roll. -/
theorem BlastedAt.toBlasted {w w1 : World} {k : Nat} {x y : Int} (h : BlastedAt w w1 k x y) :
    Blasted w w1 x y := by
  obtain ⟨h1, h2, h3, h4, h5⟩ := h
  refine ⟨k, h1, h2, fun a => ?_, h4, h5⟩
  rw [(h3 a).1]
  have e1 : 0 ≤ ((w.draws (k + 1) : Nat) : Int) % 11 := Int.emod_nonneg _ (by omega)
  have e2 : ((w.draws (k + 1) : Nat) : Int) % 11 < 11 := Int.emod_lt_of_pos _ (by omega)
  exact ⟨rfl, by show 15 ≤ 15 + _; omega, by show 15 + _ ≤ 25; omega⟩

/-- Under `NoOverflow` the `int` expressions of the loop body have their exact values. -/
theorem noOverflow_exact {cx cy r dx dy : Int} (hx : NoOverflow cx cy r)
    (h1 : -r ≤ dx ∧ dx ≤ r) (h2 : -r ≤ dy ∧ dy ≤ r) :
    wrap32 (cx + dx) = cx + dx ∧ wrap32 (cy + dy) = cy + dy ∧
      wrap32 (wrap32 (dx * dx) + wrap32 (dy * dy)) = dx * dx + dy * dy ∧
      wrap32 (r * r) = r * r := by
  obtain ⟨r0, r1, a1, a2, b1, b2⟩ := hx
  have hdx : 0 ≤ dx * dx ∧ dx * dx ≤ 1073676289 := by
    constructor <;> nlinarith [mul_self_nonneg dx]
  have hdy : 0 ≤ dy * dy ∧ dy * dy ≤ 1073676289 := by
    constructor <;> nlinarith [mul_self_nonneg dy]
  have hrr : 0 ≤ r * r ∧ r * r ≤ 1073676289 := by
    constructor <;> nlinarith [mul_self_nonneg r]
  generalize dx * dx = p at hdx ⊢
  generalize dy * dy = q at hdy ⊢
  generalize r * r = s at hrr ⊢
  refine ⟨wrap32_id (by omega) (by omega), wrap32_id (by omega) (by omega), ?_,
    wrap32_id (by omega) (by omega)⟩
  rw [wrap32_id (show -2147483648 ≤ p by omega) (by omega),
    wrap32_id (show -2147483648 ≤ q by omega) (by omega), wrap32_id (by omega) (by omega)]

theorem explodeCell_step (w : World) (cx cy r : Int) (hx : NoOverflow cx cy r) (j i : Int)
    (hj : -r ≤ j ∧ j ≤ r) (hi : -r ≤ i ∧ i ≤ r) (w1 : World)
    (h : ExplodeInv w cx cy r j i w1) :
    wp (explodeCell cx cy r i j) (fun _ w2 => ExplodeInv w cx cy r j (i + 1) w2) w1 := by
  obtain ⟨hd, hwf, hu, hdr, hpos, κ, hcells, hord⟩ := h
  obtain ⟨x1, x2, x3, x4⟩ := noOverflow_exact hx hi hj
  have hinb : ∀ a b, w1.inb a b = w.inb a b := by
    intro a b
    unfold World.inb
    rw [hd.1, hd.2]
  have hcur : w1.cell (cx + i) (cy + j) = w.cell (cx + i) (cy + j) := by
    apply (hcells _ _).2
    intro hcon
    rcases hcon.1 with h1 | h1 <;> omega
  have hiff : ∀ x y, ¬ (x = cx + i ∧ y = cy + j) →
      ((y - cy < j ∨ (y - cy = j ∧ x - cx < i + 1)) ↔
        (y - cy < j ∨ (y - cy = j ∧ x - cx < i))) := by
    intro x y hne
    constructor
    · rintro (h1 | ⟨h1, h2⟩)
      · exact Or.inl h1
      · by_cases hx : x - cx = i
        · exact absurd ⟨by omega, by omega⟩ hne
        · exact Or.inr ⟨h1, by omega⟩
    · rintro (h1 | ⟨h1, h2⟩)
      · exact Or.inl h1
      · exact Or.inr ⟨h1, by omega⟩
  -- the case where the current cell is left alone
  have hskip : ¬ BlastTarget w cx cy r (cx + i) (cy + j) →
      ExplodeInv w cx cy r j (i + 1) w1 := by
    intro hnt
    have hdone : ∀ x y, ((y - cy < j ∨ (y - cy = j ∧ x - cx < i + 1)) ∧
        BlastTarget w cx cy r x y) ↔
        ((y - cy < j ∨ (y - cy = j ∧ x - cx < i)) ∧ BlastTarget w cx cy r x y) := by
      intro x y
      by_cases hxy : x = cx + i ∧ y = cy + j
      · obtain ⟨rfl, rfl⟩ := hxy
        exact ⟨fun h => absurd h.2 hnt, fun h => absurd h.2 hnt⟩
      · rw [hiff x y hxy]
    refine ⟨hd, hwf, hu, hdr, hpos, κ, fun x y => ?_, fun x y a b h1 h2 h3 => ?_⟩
    · rw [hdone]
      exact hcells x y
    · rw [hdone] at h1 h2
      exact hord x y a b h1 h2 h3
  -- the case where the current cell is rewritten
  have hhit : ∀ (w2 : World) (c : Cell), w2.WF → SameDims w w2 → w2.updated = w.updated →
      w2.draws = w.draws → w1.pos < w2.pos → (∀ a b, w2.cell a b = w1.cell a b) →
      BlastTarget w cx cy r (cx + i) (cy + j) →
      (1 + ((w.draws w1.pos : Nat) : Int) % 100 ≤ 50 →
        c = ⟨FIRE, 15 + ((w.draws (w1.pos + 1) : Nat) : Int) % 11⟩ ∧ w1.pos + 2 ≤ w2.pos) →
      (50 < 1 + ((w.draws w1.pos : Nat) : Int) % 100 →
        1 + ((w.draws w1.pos : Nat) : Int) % 100 ≤ 80 → c = ⟨SMOKE, 20⟩) →
      (80 < 1 + ((w.draws w1.pos : Nat) : Int) % 100 → c = ⟨GAS, 20⟩) →
      ExplodeInv w cx cy r j (i + 1) (w2.put (cx + i) (cy + j) c) := by
    intro w2 c hwf2 hd2 hu2 hdr2 hp2 hsame ht hc1 hc2 hc3
    have hib2 : w2.inb (cx + i) (cy + j) = true := by
      have : w2.inb (cx + i) (cy + j) = w.inb (cx + i) (cy + j) := by
        unfold World.inb
        rw [hd2.1, hd2.2]
      rw [this]
      exact ht.1
    refine ⟨hd2, hwf2.putWF _ _ _, hu2, hdr2, by simp only [put_pos]; omega,
      fun a b => if a = cx + i ∧ b = cy + j then w1.pos else κ a b, fun x y => ?_,
      fun x y a b h1 h2 h3 => ?_⟩
    · by_cases hxy : x = cx + i ∧ y = cy + j
      · obtain ⟨rfl, rfl⟩ := hxy
        constructor
        · intro _
          simp only [and_self, if_true]
          refine ⟨hpos, by simp only [put_pos]; omega, ?_⟩
          rw [cell_put hwf2 hib2]
          simp only [and_self, if_true, put_pos]
          exact ⟨hc1, hc2, hc3⟩
        · intro hcon
          exact absurd ⟨Or.inr ⟨by omega, by omega⟩, ht⟩ hcon
      · simp only [hiff x y hxy, if_neg hxy]
        constructor
        · intro ht2
          refine ((hcells x y).1 ht2).keepAt ?_ (by simp only [put_pos]; omega)
          rw [cell_put hwf2 hib2, if_neg hxy]
          exact hsame x y
        · intro ht2
          rw [cell_put hwf2 hib2, if_neg hxy, hsame x y]
          exact (hcells x y).2 ht2
    · by_cases hxy : x = cx + i ∧ y = cy + j
      · -- nothing done lies after the current cell
        obtain ⟨rfl, rfl⟩ := hxy
        exfalso
        rcases h2.1 with e | e <;> rcases h3 with f | f <;> omega
      · rw [hiff x y hxy] at h1
        have k1 := ((hcells x y).1 h1).2.1
        by_cases hab : a = cx + i ∧ b = cy + j
        · simp only [if_neg hxy, if_pos hab]
          exact k1
        · rw [hiff a b hab] at h2
          simp only [if_neg hxy, if_neg hab]
          exact hord x y a b h1 h2 h3
  simp only [explodeCell, x1, x2, x3, x4, wp_bind, wp_in_bounds, wp_ite, wp_pure, wp_getCell,
    wp_rint, wp_setCell, hwf.isSome, draw_grid, draw_WF, draw_inb, put_inb]
  by_cases hib : w1.inb (cx + i) (cy + j) = true
  · simp only [hib, Bool.not_true, Bool.false_eq_true, if_false, true_and]
    by_cases hdisk : i * i + j * j > r * r
    · simp only [hdisk, if_true]
      apply hskip
      intro ht
      have := ht.2.1
      unfold InDisk at this
      have e1 : cx + i - cx = i := by omega
      have e2 : cy + j - cy = j := by omega
      rw [e1, e2] at this
      omega
    · simp only [hdisk, if_false]
      by_cases hbp : blastproof (w.cell (cx + i) (cy + j)).type = false
      · have hbp2 := (blastproof_iff _).1 hbp
        rw [← hcur] at hbp2
        have ht : BlastTarget w cx cy r (cx + i) (cy + j) := by
          refine ⟨by rw [← hinb]; exact hib, ?_, hbp⟩
          unfold InDisk
          have e1 : cx + i - cx = i := by omega
          have e2 : cy + j - cy = j := by omega
          rw [e1, e2]
          omega
        have hroll : w1.roll 1 100 = 1 + ((w.draws w1.pos : Nat) : Int) % 100 := by
          unfold World.roll
          rw [hdr]
          norm_num
        have hroll2 : w1.draw.roll 0 10 = ((w.draws (w1.pos + 1) : Nat) : Int) % 11 := by
          unfold World.roll World.draw
          rw [hdr]
          norm_num
        simp only [hbp2.1, hbp2.2, if_false, hroll]
        by_cases h50 : 1 + ((w.draws w1.pos : Nat) : Int) % 100 ≤ 50
        · simp only [h50, if_true]
          apply hhit w1.draw.draw _ hwf hd hu hdr (by simp only [draw_pos]; omega)
            (fun _ _ => rfl) ht
          · intro _
            rw [hroll2]
            exact ⟨rfl, by simp only [draw_pos]; omega⟩
          · intro h1
            omega
          · intro h1
            omega
        · simp only [h50, if_false]
          by_cases h80 : 1 + ((w.draws w1.pos : Nat) : Int) % 100 ≤ 80
          · simp only [h80, if_true]
            apply hhit w1.draw _ hwf hd hu hdr (by simp only [draw_pos]; omega)
              (fun _ _ => rfl) ht
            · intro h1
              exact absurd h1 h50
            · intro _ _
              rfl
            · intro h1
              omega
          · simp only [h80, if_false]
            apply hhit w1.draw _ hwf hd hu hdr (by simp only [draw_pos]; omega)
              (fun _ _ => rfl) ht
            · intro h1
              exact absurd h1 h50
            · intro _ h1
              exact absurd h1 h80
            · intro _
              rfl
      · have hbp2 : ¬ (¬ (w1.cell (cx + i) (cy + j)).type = WALL ∧
            ¬ ((w1.cell (cx + i) (cy + j)).type = STONE ∨ (w1.cell (cx + i) (cy + j)).type = GLASS ∨
              (w1.cell (cx + i) (cy + j)).type = METAL ∨ (w1.cell (cx + i) (cy + j)).type = WIRE ∨
              (w1.cell (cx + i) (cy + j)).type = ICE)) := by
          rw [hcur, ← blastproof_iff]
          exact hbp
        have hs := hskip (fun ht => hbp ht.2.2)
        by_cases hw : (w1.cell (cx + i) (cy + j)).type = WALL
        · simp only [hw, if_true]
          exact hs
        · simp only [hw, if_false]
          have h5 := not_not.1 (fun hn => hbp2 ⟨hw, hn⟩)
          simp only [h5, if_true]
          exact hs
  · simp only [hib, Bool.not_false, if_true]
    apply hskip
    intro ht
    rw [hinb] at hib
    exact hib ht.1

/-- A radius between 0 and 32767 is a bound for which the loops run through `-r, .., r`. -/
theorem small_of_noOverflow {cx cy r : Int} (hx : NoOverflow cx cy r) : Small r :=
  ⟨by have := hx.1; omega, by have := hx.2.1; omega⟩

theorem explode_loops (w : World) (hwf : w.WF) (cx cy r : Int) (hx : NoOverflow cx cy r) :
    wp (explode cx cy r) (fun _ w1 => ExplodeInv w cx cy r (r + 1) (-r) w1) w := by
  have hr : 0 ≤ r := hx.1
  haveI : Fact (Small r) := ⟨small_of_noOverflow hx⟩
  unfold explode
  rw [forBox_span]
  unfold span
  have hrow : ∀ j, -r ≤ j → j ≤ r → ∀ w1, ExplodeInv w cx cy r j (-r) w1 →
      wp (forEach (irange (-r) r) fun dx => explodeCell cx cy r dx j)
        (fun _ w2 => ExplodeInv w cx cy r (j + 1) (-r) w2) w1 := by
    intro j hj1 hj2 w1 h1
    have h2 := wp_forRange (fun dx => explodeCell cx cy r dx j)
      (fun i w2 => ExplodeInv w cx cy r j i w2) r _ (-r) rfl (by omega)
      (fun i hi1 hi2 w2 hw2 => explodeCell_step w cx cy r hx j i ⟨hj1, hj2⟩ ⟨hi1, hi2⟩ w2 hw2)
      w1 h1
    refine wp_mono h2 ?_
    intro _ w2 ⟨hd, hwf2, hu, hdr, hpos, κ, hcells, hord⟩
    have hiff : ∀ x y,
        ((y - cy < j + 1 ∨ (y - cy = j + 1 ∧ x - cx < -r)) ∧ BlastTarget w cx cy r x y) ↔
        ((y - cy < j ∨ (y - cy = j ∧ x - cx < r + 1)) ∧ BlastTarget w cx cy r x y) := by
      intro x y
      constructor
      · rintro ⟨h3, ht⟩
        have hb := inDisk_box hr ht.2.1
        refine ⟨?_, ht⟩
        rcases h3 with h3 | h3
        · by_cases h4 : y - cy < j
          · exact Or.inl h4
          · exact Or.inr ⟨by omega, by omega⟩
        · omega
      · rintro ⟨h3, ht⟩
        refine ⟨?_, ht⟩
        rcases h3 with h3 | h3
        · exact Or.inl (by omega)
        · exact Or.inl (by omega)
    refine ⟨hd, hwf2, hu, hdr, hpos, κ, fun x y => ?_, fun x y a b h3 h4 h5 => ?_⟩
    · rw [hiff]
      exact hcells x y
    · rw [hiff] at h3 h4
      exact hord x y a b h3 h4 h5
  have h0 : ExplodeInv w cx cy r (-r) (-r) w := by
    refine ⟨⟨rfl, rfl⟩, hwf, rfl, rfl, le_refl _, fun _ _ => 0, fun x y => ?_,
      fun x y a b h3 _ _ => ?_⟩
    · constructor
      · rintro ⟨h3, ht⟩
        have hb := inDisk_box hr ht.2.1
        omega
      · intro _
        rfl
    · have hb := inDisk_box hr h3.2.2.1
      omega
  exact wp_forRange (fun dy => forEach (irange (-r) r) fun dx => explodeCell cx cy r dx dy)
    (fun j w2 => ExplodeInv w cx cy r j (-r) w2) r _ (-r) rfl (by omega) hrow w h0

/-- C6: the postcondition of `explode(cx, cy, r)`. For every rectangular grid, every
stream and all arguments for which the `int` arithmetic of the loops does not overflow
(`NoOverflow`: radius between 0 and 32767, `cx ± r` and `cy ± r` in the range of `int`;
this holds for every call the program makes), `explode` returns; it keeps the
dimensions, the mask and the stream; every in-bounds cell of the disk
`(x-cx)^2 + (y-cy)^2 ≤ r^2` whose kind is not `WALL`, `STONE`, `GLASS`, `METAL`, `WIRE`,
`ICE` is the outcome of its own roll, drawn at the position `κ x y` of the stream
(`FIRE` with life `15 + d`, `d` the next draw in `[0, 10]`, for a roll `≤ 50`, `SMOKE`
with life 20 for a roll in `(50, 80]`, else `GAS` with life 20), the positions `κ`
increasing in the order in which the loops reach the cells; every other cell keeps its
kind and life. -/
theorem explode_spec (w : World) (hwf : w.WF) (cx cy r : Int) (hx : NoOverflow cx cy r) :
    wp (explode cx cy r) (fun _ w1 =>
      w1.gWidth = w.gWidth ∧ w1.gHeight = w.gHeight ∧ w1.WF ∧
      w1.updated = w.updated ∧ w1.draws = w.draws ∧
      ∃ κ : Int → Int → Nat,
        (∀ x y,
          ((w.inb x y = true ∧ InDisk cx cy r x y ∧ blastproof (w.cell x y).type = false) →
            BlastedAt w w1 (κ x y) x y ∧ Blasted w w1 x y) ∧
          (¬ (w.inb x y = true ∧ InDisk cx cy r x y ∧ blastproof (w.cell x y).type = false) →
            w1.cell x y = w.cell x y)) ∧
        ∀ x y a b,
          (w.inb x y = true ∧ InDisk cx cy r x y ∧ blastproof (w.cell x y).type = false) →
          (w.inb a b = true ∧ InDisk cx cy r a b ∧ blastproof (w.cell a b).type = false) →
          (y < b ∨ (y = b ∧ x < a)) → κ x y < κ a b) w := by
  have hr : 0 ≤ r := hx.1
  refine wp_mono (explode_loops w hwf cx cy r hx) ?_
  intro _ w1 ⟨hd, hwf1, hu, hdr, _, κ, hcells, hord⟩
  have hdone : ∀ x y, BlastTarget w cx cy r x y →
      ((y - cy < r + 1 ∨ (y - cy = r + 1 ∧ x - cx < -r)) ∧ BlastTarget w cx cy r x y) := by
    intro x y ht
    have hb := inDisk_box hr ht.2.1
    exact ⟨Or.inl (by omega), ht⟩
  refine ⟨hd.1, hd.2, hwf1, hu, hdr, κ, fun x y => ⟨fun ht => ?_, fun hnt => ?_⟩,
    fun x y a b h1 h2 h3 => hord x y a b (hdone x y h1) (hdone a b h2) h3⟩
  · have hb := (hcells x y).1 (hdone x y ht)
    exact ⟨hb, hb.toBlasted⟩
  · apply (hcells x y).2
    intro hcon
    exact hnt hcon.2

/-- The body of the loops of `explode` leaves a cell untouched or rewrites a cell that
is not blastproof, for all arguments and offsets. -/
theorem explodeCell_scorched (w : World) (cx cy r dx dy : Int) (w1 : World)
    (h : Scorched w w1) :
    wp (explodeCell cx cy r dx dy) (fun _ w2 => Scorched w w2) w1 := by
  obtain ⟨hd, hwf, hu, hdr, hpos, hcells⟩ := h
  have hhit : ∀ (w2 : World) (c : Cell), w2.WF → SameDims w w2 → w2.updated = w.updated →
      w2.draws = w.draws → w1.pos < w2.pos → (∀ a b, w2.cell a b = w1.cell a b) →
      w1.inb (wrap32 (cx + dx)) (wrap32 (cy + dy)) = true →
      ¬ (w1.cell (wrap32 (cx + dx)) (wrap32 (cy + dy))).type = WALL →
      ¬ ((w1.cell (wrap32 (cx + dx)) (wrap32 (cy + dy))).type = STONE ∨
        (w1.cell (wrap32 (cx + dx)) (wrap32 (cy + dy))).type = GLASS ∨
        (w1.cell (wrap32 (cx + dx)) (wrap32 (cy + dy))).type = METAL ∨
        (w1.cell (wrap32 (cx + dx)) (wrap32 (cy + dy))).type = WIRE ∨
        (w1.cell (wrap32 (cx + dx)) (wrap32 (cy + dy))).type = ICE) →
      (1 + ((w.draws w1.pos : Nat) : Int) % 100 ≤ 50 →
        c.type = FIRE ∧ 15 ≤ c.life ∧ c.life ≤ 25) →
      (50 < 1 + ((w.draws w1.pos : Nat) : Int) % 100 →
        1 + ((w.draws w1.pos : Nat) : Int) % 100 ≤ 80 → c = ⟨SMOKE, 20⟩) →
      (80 < 1 + ((w.draws w1.pos : Nat) : Int) % 100 → c = ⟨GAS, 20⟩) →
      Scorched w (w2.put (wrap32 (cx + dx)) (wrap32 (cy + dy)) c) := by
    intro w2 c hwf2 hd2 hu2 hdr2 hp2 hsame hib hnw hns hc1 hc2 hc3
    have hib0 : w.inb (wrap32 (cx + dx)) (wrap32 (cy + dy)) = true := by
      have : w1.inb (wrap32 (cx + dx)) (wrap32 (cy + dy)) =
          w.inb (wrap32 (cx + dx)) (wrap32 (cy + dy)) := by
        unfold World.inb
        rw [hd.1, hd.2]
      rw [← this]
      exact hib
    have hib2 : w2.inb (wrap32 (cx + dx)) (wrap32 (cy + dy)) = true := by
      have : w2.inb (wrap32 (cx + dx)) (wrap32 (cy + dy)) =
          w.inb (wrap32 (cx + dx)) (wrap32 (cy + dy)) := by
        unfold World.inb
        rw [hd2.1, hd2.2]
      rw [this]
      exact hib0
    -- the cell was not blastproof when the call started
    have hbp0 : blastproof (w.cell (wrap32 (cx + dx)) (wrap32 (cy + dy))).type = false := by
      rcases hcells (wrap32 (cx + dx)) (wrap32 (cy + dy)) with e | ⟨_, e, _⟩
      · rw [← e]
        exact (blastproof_iff _).2 ⟨hnw, hns⟩
      · exact e
    refine ⟨hd2, hwf2.putWF _ _ _, hu2, hdr2, by simp only [put_pos]; omega, fun x y => ?_⟩
    rw [cell_put hwf2 hib2]
    by_cases hxy : x = wrap32 (cx + dx) ∧ y = wrap32 (cy + dy)
    · obtain ⟨rfl, rfl⟩ := hxy
      refine Or.inr ⟨hib0, hbp0, w1.pos, hpos, by simp only [put_pos]; omega, ?_⟩
      rw [cell_put hwf2 hib2]
      simp only [and_self, if_true]
      exact ⟨hc1, hc2, hc3⟩
    · rw [if_neg hxy, hsame x y]
      rcases hcells x y with e | ⟨e1, e2, e3⟩
      · exact Or.inl e
      · refine Or.inr ⟨e1, e2, e3.keep ?_ (by simp only [put_pos]; omega)⟩
        rw [cell_put hwf2 hib2, if_neg hxy]
        exact hsame x y
  have hsame : Scorched w w1 := ⟨hd, hwf, hu, hdr, hpos, hcells⟩
  simp only [explodeCell, wp_bind, wp_in_bounds, wp_ite, wp_pure, wp_getCell, wp_rint,
    wp_setCell, hwf.isSome, draw_grid, draw_WF, draw_inb, put_inb]
  have hroll : w1.roll 1 100 = 1 + ((w.draws w1.pos : Nat) : Int) % 100 := by
    unfold World.roll
    rw [hdr]
    norm_num
  split_ifs with h1 h2 h3 h4 h5 h6
  · exact hsame
  · exact hsame
  · exact ⟨inb_of_not h1, hsame⟩
  · exact ⟨inb_of_not h1, hsame⟩
  · refine ⟨inb_of_not h1, inb_of_not h1, ?_⟩
    rw [hroll] at h5
    apply hhit w1.draw.draw _ hwf hd hu hdr (by simp only [draw_pos]; omega) (fun _ _ => rfl)
      (inb_of_not h1) h3 h4
    · intro _
      have hk : 0 ≤ w1.draw.roll 0 10 ∧ w1.draw.roll 0 10 ≤ 10 := by
        unfold World.roll
        constructor <;> omega
      simp only [true_and]
      constructor <;> omega
    · intro a
      omega
    · intro a
      omega
  · refine ⟨inb_of_not h1, inb_of_not h1, ?_⟩
    rw [hroll] at h5 h6
    apply hhit w1.draw _ hwf hd hu hdr (by simp only [draw_pos]; omega) (fun _ _ => rfl)
      (inb_of_not h1) h3 h4
    · intro a
      exact absurd a h5
    · intro _ _
      rfl
    · intro a
      omega
  · refine ⟨inb_of_not h1, inb_of_not h1, ?_⟩
    rw [hroll] at h5 h6
    apply hhit w1.draw _ hwf hd hu hdr (by simp only [draw_pos]; omega) (fun _ _ => rfl)
      (inb_of_not h1) h3 h4
    · intro a
      exact absurd a h5
    · intro _ a
      exact absurd a h6
    · intro _
      rfl

/-- The outcome of `explode`, cell by cell, for all arguments except the radius
`INT_MAX`, for which the loops do not end: every cell is untouched, or it was not
blastproof and is the outcome of a roll drawn during the call (the form used by the
rules that set off an explosion). -/
theorem explode_outcome (w : World) (hwf : w.WF) (cx cy r : Int) (hr : r ≠ 2147483647) :
    wp (explode cx cy r) (fun _ w1 => Scorched w w1) w := by
  unfold explode forBox
  rw [if_neg hr]
  refine wp_forEach (fun w1 => Scorched w w1) _ _ (fun dy _ => ?_) w
    ⟨⟨rfl, rfl⟩, hwf, rfl, rfl, le_refl _, fun _ _ => Or.inl rfl⟩
  exact wp_forEach (fun w1 => Scorched w w1) _ _
    (fun dx _ w1 h1 => explodeCell_scorched w cx cy r dx dy w1 h1)

/-- With the radius `INT_MAX` the loops of `explode` do not end: there is no result. -/
theorem explode_endless (w : World) (cx cy : Int) : explode cx cy 2147483647 w = none :=
  rfl

/-- The wrap-around of `r*r`: with `r = 46341` the square `r*r` is negative as an `int`,
the test `dx*dx+dy*dy > r*r` holds at the centre, and `explode(0, 0, 46341)` changes
nothing on the 1x1 grid, although the centre lies in the disk. -/
theorem explode_wraps : wp (explode 0 0 46341) (fun _ w1 => w1 = oneSand) oneSand := by
  haveI : Fact (Small 46341) := ⟨⟨by decide, by decide⟩⟩
  unfold explode
  refine wp_forBox (fun w1 => w1 = oneSand) 46341 _ ?_ oneSand rfl
  rintro dx hdx dy hdy w rfl
  have h1 := (mem_span _ _).1 hdx
  have h2 := (mem_span _ _).1 hdy
  have e1 : wrap32 (0 + dx) = dx := by
    rw [zero_add]
    exact wrap32_id (by omega) (by omega)
  have e2 : wrap32 (0 + dy) = dy := by
    rw [zero_add]
    exact wrap32_id (by omega) (by omega)
  simp only [explodeCell, e1, e2, wp_bind, wp_in_bounds, wp_ite, wp_pure]
  by_cases hib : oneSand.inb dx dy = true
  · have h3 := (show (0 ≤ dx ∧ dx < 1) ∧ 0 ≤ dy ∧ dy < 1 by
      unfold World.inb at hib
      simpa [oneSand, and_assoc] using hib)
    have hx : dx = 0 := by omega
    have hy : dy = 0 := by omega
    subst hx hy
    rw [if_neg (by decide), if_pos (by decide)]
    trivial
  · rw [if_pos (by simpa using hib)]
    trivial

/-- The body of the loops of `place_brush` at an offset of the loops: it keeps the
invariant, keeps painted cells painted, and paints its own position if that is in
bounds and passes the test. -/
theorem brushCell_daubed (w : World) (cx cy rad : Int) (e : Element) (dx dy : Int)
    (hdx : dx ∈ irange (wrap32 (-rad)) rad) (hdy : dy ∈ irange (wrap32 (-rad)) rad)
    (w1 : World) (h : Daubed w cx cy rad e w1) :
    wp (brushCell cx cy rad e dx dy) (fun _ w2 => Daubed w cx cy rad e w2 ∧
      (∀ x y, w1.cell x y = ⟨e, brushLife e⟩ → w2.cell x y = ⟨e, brushLife e⟩) ∧
      (w.inb (wrap32 (cx + dx)) (wrap32 (cy + dy)) = true →
        wrap32 (wrap32 (dx * dx) + wrap32 (dy * dy)) ≤ wrap32 (rad * rad) →
        w2.cell (wrap32 (cx + dx)) (wrap32 (cy + dy)) = ⟨e, brushLife e⟩)) w1 := by
  obtain ⟨hd, hwf, hu, hdr, hpos, hcells⟩ := h
  have hinb : ∀ a b, w1.inb a b = w.inb a b := by
    intro a b
    unfold World.inb
    rw [hd.1, hd.2]
  have hskip : (¬ (w.inb (wrap32 (cx + dx)) (wrap32 (cy + dy)) = true ∧
      wrap32 (wrap32 (dx * dx) + wrap32 (dy * dy)) ≤ wrap32 (rad * rad))) →
      Daubed w cx cy rad e w1 ∧
      (∀ x y, w1.cell x y = ⟨e, brushLife e⟩ → w1.cell x y = ⟨e, brushLife e⟩) ∧
      (w.inb (wrap32 (cx + dx)) (wrap32 (cy + dy)) = true →
        wrap32 (wrap32 (dx * dx) + wrap32 (dy * dy)) ≤ wrap32 (rad * rad) →
        w1.cell (wrap32 (cx + dx)) (wrap32 (cy + dy)) = ⟨e, brushLife e⟩) :=
    fun hnt => ⟨⟨hd, hwf, hu, hdr, hpos, hcells⟩, fun _ _ a => a,
      fun a b => absurd ⟨a, b⟩ hnt⟩
  have hhit : ∀ (w2 : World), w2.WF → SameDims w w2 → w2.updated = w.updated →
      w2.draws = w.draws → w2.pos = w.pos →
      (∀ a b, w2.cell a b = if a = wrap32 (cx + dx) ∧ b = wrap32 (cy + dy)
        then ⟨e, brushLife e⟩ else w1.cell a b) →
      w.inb (wrap32 (cx + dx)) (wrap32 (cy + dy)) = true →
      wrap32 (wrap32 (dx * dx) + wrap32 (dy * dy)) ≤ wrap32 (rad * rad) →
      Daubed w cx cy rad e w2 ∧
      (∀ x y, w1.cell x y = ⟨e, brushLife e⟩ → w2.cell x y = ⟨e, brushLife e⟩) ∧
      (w.inb (wrap32 (cx + dx)) (wrap32 (cy + dy)) = true →
        wrap32 (wrap32 (dx * dx) + wrap32 (dy * dy)) ≤ wrap32 (rad * rad) →
        w2.cell (wrap32 (cx + dx)) (wrap32 (cy + dy)) = ⟨e, brushLife e⟩) := by
    intro w2 hwf2 hd2 hu2 hdr2 hp2 hsame hin htest
    refine ⟨⟨hd2, hwf2, hu2, hdr2, hp2, fun x y => ?_⟩, fun x y a => ?_, fun _ _ => ?_⟩
    · rw [hsame]
      split
      · rename_i hxy
        obtain ⟨rfl, rfl⟩ := hxy
        exact Or.inr ⟨rfl, hin, dx, dy, hdx, hdy, rfl, rfl, htest⟩
      · exact hcells x y
    · rw [hsame]
      split
      · rfl
      · exact a
    · rw [hsame, if_pos ⟨rfl, rfl⟩]
  simp only [brushCell, wp_bind, wp_in_bounds, wp_ite, wp_pure, wp_setCell, wp_setLife,
    isSome_put, hwf.isSome, put_inb]
  by_cases hib : w1.inb (wrap32 (cx + dx)) (wrap32 (cy + dy)) = true
  · simp only [hib, Bool.not_true, Bool.false_eq_true, if_false, true_and]
    by_cases hdisk : wrap32 (wrap32 (dx * dx) + wrap32 (dy * dy)) ≤ wrap32 (rad * rad)
    · rw [if_pos hdisk]
      have hin : w.inb (wrap32 (cx + dx)) (wrap32 (cy + dy)) = true := by
        rw [← hinb]
        exact hib
      have hw2 := hwf.putWF (wrap32 (cx + dx)) (wrap32 (cy + dy)) ⟨e, 0⟩
      have hc0 := cell_put hwf hib (⟨e, 0⟩ : Cell)
      have hibp : (w1.put (wrap32 (cx + dx)) (wrap32 (cy + dy)) ⟨e, 0⟩).inb
          (wrap32 (cx + dx)) (wrap32 (cy + dy)) = true := hib
      by_cases hf : e = FIRE
      · subst hf
        simp only [gas, Bool.false_eq_true, if_false, if_true, true_and]
        apply hhit _ (hw2.putWF _ _ _) hd hu hdr hpos _ hin hdisk
        intro a b
        simp only [cell_put hw2 hibp, hc0, brushLife, and_self, if_true]
        split <;> rfl
      · by_cases hg : gas e = true
        · simp only [hg, hf, if_true, if_false, true_and]
          apply hhit _ (hw2.putWF _ _ _) hd hu hdr hpos _ hin hdisk
          intro a b
          simp only [cell_put hw2 hibp, hc0, brushLife, and_self, if_true, hf, if_false, hg]
          split <;> rfl
        · simp only [hg, hf, if_false]
          apply hhit _ hw2 hd hu hdr hpos _ hin hdisk
          intro a b
          rw [hc0]
          unfold brushLife
          simp only [hf, if_false, hg, Bool.false_eq_true]
    · rw [if_neg hdisk]
      exact hskip fun ht => hdisk ht.2
  · simp only [hib, Bool.not_false, if_true]
    apply hskip
    intro ht
    rw [hinb] at hib
    exact hib ht.1

/-- The outcome of the brush of a kind other than `LIGHTNING`, cell by cell, for all
arguments except the radius `INT_MAX`, for which the loops do not end: the in-bounds
cells at the positions the loops write to are painted, every other cell is untouched. -/
theorem brush_outcome (w : World) (hwf : w.WF) (cx cy rad : Int) (e : Element)
    (he : e ≠ LIGHTNING) (hr : rad ≠ 2147483647) :
    wp (place_brush cx cy rad e) (fun _ w1 =>
      SameDims w w1 ∧ w1.WF ∧ w1.updated = w.updated ∧ w1.draws = w.draws ∧ w1.pos = w.pos ∧
      ∀ x y,
        ((w.inb x y = true ∧ Painted cx cy rad x y) → w1.cell x y = ⟨e, brushLife e⟩) ∧
        (¬ (w.inb x y = true ∧ Painted cx cy rad x y) → w1.cell x y = w.cell x y)) w := by
  unfold place_brush forBox
  rw [if_neg he, if_neg hr]
  have h0 : Daubed w cx cy rad e w := ⟨⟨rfl, rfl⟩, hwf, rfl, rfl, rfl, fun _ _ => Or.inl rfl⟩
  refine wp_mono (wp_forEach_each (fun w1 => Daubed w cx cy rad e w1)
    (fun w1 w2 => ∀ x y, w1.cell x y = ⟨e, brushLife e⟩ → w2.cell x y = ⟨e, brushLife e⟩)
    (fun dy w1 => ∀ dx ∈ irange (wrap32 (-rad)) rad,
      w.inb (wrap32 (cx + dx)) (wrap32 (cy + dy)) = true →
      wrap32 (wrap32 (dx * dx) + wrap32 (dy * dy)) ≤ wrap32 (rad * rad) →
      w1.cell (wrap32 (cx + dx)) (wrap32 (cy + dy)) = ⟨e, brushLife e⟩)
    (fun _ _ _ _ a => a) (fun _ _ _ h1 h2 x y a => h2 x y (h1 x y a))
    (fun dy w1 w2 hR hP dx hdx a b => hR _ _ (hP dx hdx a b))
    (irange (wrap32 (-rad)) rad) _ ?_ w h0) ?_
  · intro dy hdy w1 h1
    refine wp_mono (wp_forEach_each (fun w2 => Daubed w cx cy rad e w2)
      (fun w2 w3 => ∀ x y, w2.cell x y = ⟨e, brushLife e⟩ → w3.cell x y = ⟨e, brushLife e⟩)
      (fun dx w2 => w.inb (wrap32 (cx + dx)) (wrap32 (cy + dy)) = true →
        wrap32 (wrap32 (dx * dx) + wrap32 (dy * dy)) ≤ wrap32 (rad * rad) →
        w2.cell (wrap32 (cx + dx)) (wrap32 (cy + dy)) = ⟨e, brushLife e⟩)
      (fun _ _ _ _ a => a) (fun _ _ _ h1 h2 x y a => h2 x y (h1 x y a))
      (fun dx w2 w3 hR hP a b => hR _ _ (hP a b))
      (irange (wrap32 (-rad)) rad) _
      (fun dx hdx w2 h2 => brushCell_daubed w cx cy rad e dx dy hdx hdy w2 h2) w1 h1) ?_
    rintro _ w2 ⟨a1, a2, a3⟩
    exact ⟨a1, a2, a3⟩
  · rintro _ w1 ⟨⟨hd, hwf1, hu, hdr, hpos, hcells⟩, _, hP⟩
    refine ⟨hd, hwf1, hu, hdr, hpos, fun x y => ⟨?_, fun hnt => ?_⟩⟩
    · rintro ⟨hin, dx, dy, hdx, hdy, rfl, rfl, htest⟩
      exact hP dy hdy dx hdx hin htest
    · rcases hcells x y with e1 | ⟨_, e2, e3⟩
      · exact e1
      · exact absurd ⟨e2, e3⟩ hnt

/-- Under `NoOverflow` the positions the loops write to are those of the disk. -/
theorem painted_iff {cx cy rad : Int} (hx : NoOverflow cx cy rad) (x y : Int) :
    Painted cx cy rad x y ↔ InDisk cx cy rad x y := by
  have hr : 0 ≤ rad := hx.1
  have hlo : wrap32 (-rad) = -rad :=
    wrap32_id (by have := hx.2.1; omega) (by omega)
  unfold Painted
  rw [hlo]
  constructor
  · rintro ⟨dx, dy, hdx, hdy, e1, e2, htest⟩
    have h1 := (mem_irange _ _ _).1 hdx
    have h2 := (mem_irange _ _ _).1 hdy
    obtain ⟨x1, x2, x3, x4⟩ := noOverflow_exact hx h1 h2
    rw [x1] at e1
    rw [x2] at e2
    rw [x3, x4] at htest
    unfold InDisk
    have e3 : x - cx = dx := by omega
    have e4 : y - cy = dy := by omega
    rw [e3, e4]
    exact htest
  · intro h
    have hb := inDisk_box hr h
    have h1 : -rad ≤ x - cx ∧ x - cx ≤ rad := ⟨hb.1, hb.2.1⟩
    have h2 : -rad ≤ y - cy ∧ y - cy ≤ rad := ⟨hb.2.2.1, hb.2.2.2⟩
    obtain ⟨x1, x2, x3, x4⟩ := noOverflow_exact hx h1 h2
    refine ⟨x - cx, y - cy, (mem_irange _ _ _).2 h1, (mem_irange _ _ _).2 h2, ?_, ?_, ?_⟩
    · rw [x1]
      omega
    · rw [x2]
      omega
    · rw [x3, x4]
      exact h

/-- C7: `place_brush` for a kind `e` other than `LIGHTNING`. For every rectangular grid
and all arguments for which the `int` arithmetic of the loops does not overflow
(`NoOverflow`: radius between 0 and 32767, `cx ± rad` and `cy ± rad` in the range of
`int`; the centre may lie outside the grid and the radius may exceed it; this holds for
every call the program makes), `place_brush(cx, cy, rad, e)` returns, consumes no
random draw and keeps the dimensions and the mask; every in-bounds cell of the disk
ends with kind `e` and life 25 if `e` is a gas, 20 if `e` is `FIRE`, 0 otherwise;
every other cell is unchanged. -/
theorem place_brush_spec (w : World) (hwf : w.WF) (cx cy rad : Int) (e : Element)
    (he : e ≠ LIGHTNING) (hx : NoOverflow cx cy rad) :
    wp (place_brush cx cy rad e) (fun _ w1 =>
      w1.gWidth = w.gWidth ∧ w1.gHeight = w.gHeight ∧ w1.WF ∧
      w1.updated = w.updated ∧ w1.draws = w.draws ∧ w1.pos = w.pos ∧
      ∀ x y,
        ((w.inb x y = true ∧ InDisk cx cy rad x y) →
          w1.cell x y = ⟨e, if e = FIRE then 20 else if gas e = true then 25 else 0⟩) ∧
        (¬ (w.inb x y = true ∧ InDisk cx cy rad x y) → w1.cell x y = w.cell x y)) w := by
  refine wp_mono (brush_outcome w hwf cx cy rad e he (by have := hx.2.1; omega)) ?_
  intro _ w1 ⟨hd, hwf1, hu, hdr, hpos, hcells⟩
  refine ⟨hd.1, hd.2, hwf1, hu, hdr, hpos, fun x y => ?_⟩
  rw [← painted_iff hx]
  exact hcells x y

/-- With the radius `INT_MAX` the loops of `place_brush` do not end: there is no
result. -/
theorem brush_endless (w : World) (cx cy : Int) (e : Element) (he : e ≠ LIGHTNING) :
    place_brush cx cy 2147483647 e w = none := by
  unfold place_brush forBox
  rw [if_neg he, if_pos rfl]

/-- The wrap-around of `rad*rad`: with `rad = 46341` the square is negative as an `int`,
the test `dx*dx+dy*dy <= rad*rad` fails at the centre, and
`place_brush(0, 0, 46341, WATER)` paints nothing on the 1x1 grid. -/
theorem brush_wraps :
    wp (place_brush 0 0 46341 WATER) (fun _ w1 => w1 = oneSand) oneSand := by
  haveI : Fact (Small 46341) := ⟨⟨by decide, by decide⟩⟩
  unfold place_brush
  rw [if_neg (by decide)]
  refine wp_forBox (fun w1 => w1 = oneSand) 46341 _ ?_ oneSand rfl
  rintro dx hdx dy hdy w rfl
  have h1 := (mem_span _ _).1 hdx
  have h2 := (mem_span _ _).1 hdy
  have e1 : wrap32 (0 + dx) = dx := by
    rw [zero_add]
    exact wrap32_id (by omega) (by omega)
  have e2 : wrap32 (0 + dy) = dy := by
    rw [zero_add]
    exact wrap32_id (by omega) (by omega)
  simp only [brushCell, e1, e2, wp_bind, wp_in_bounds, wp_ite, wp_pure]
  by_cases hib : oneSand.inb dx dy = true
  · have h3 := (show (0 ≤ dx ∧ dx < 1) ∧ 0 ≤ dy ∧ dy < 1 by
      unfold World.inb at hib
      simpa [oneSand, and_assoc] using hib)
    have hx : dx = 0 := by omega
    have hy : dy = 0 := by omega
    subst hx hy
    rw [if_neg (by decide), if_neg (by decide)]
    trivial
  · rw [if_pos (by simpa using hib)]
    trivial

/-- The `while` loop of the lightning brush returns the end of the bolt and
changes nothing, given enough fuel. -/
theorem boltEnd_spec (w : World) (hwf : w.WF) (x : Int) (hx : 0 ≤ x ∧ x < w.gWidth) :
    ∀ (fuel : Nat) (y : Int), 0 ≤ y → y < w.gHeight → (w.gHeight - y).toNat ≤ fuel →
      wp (boltEnd x fuel y) (fun yEnd w1 => w1 = w ∧ y ≤ yEnd ∧ yEnd < w.gHeight ∧
        (∀ y1, y < y1 → y1 ≤ yEnd → passable (w.cell x y1) = true) ∧
        (yEnd + 1 < w.gHeight → passable (w.cell x (yEnd + 1)) = false)) w := by
  intro fuel
  induction fuel with
  | zero =>
    intro y h0 h1 h2
    omega
  | succ n ih =>
    intro y h0 h1 h2
    unfold boltEnd
    simp only [wp_bind, wp_getHeight, wp_ite, wp_getCell, wp_pure, hwf.isSome]
    by_cases hlt : y + 1 < w.gHeight
    · have hib : w.inb x (y + 1) = true := by
        unfold World.inb
        simp only [Bool.and_eq_true, decide_eq_true_eq]
        omega
      simp only [hlt, if_true, hib, true_and]
      by_cases hp : passable (w.cell x (y + 1)) = true
      · have hc : ¬ ((!empty (w.cell x (y + 1)) && !gas (w.cell x (y + 1)).type) = true) := by
          unfold passable at hp
          cases h3 : empty (w.cell x (y + 1)) <;> cases h4 : gas (w.cell x (y + 1)).type <;>
            simp_all
        simp only [hc, if_false]
        refine wp_mono (ih (y + 1) (by omega) hlt (by omega)) ?_
        intro yEnd w1 ⟨e1, e2, e3, e4, e5⟩
        refine ⟨e1, by omega, e3, ?_, e5⟩
        intro y1 h5 h6
        by_cases h7 : y1 = y + 1
        · rw [h7]
          exact hp
        · exact e4 y1 (by omega) h6
      · have hc : (!empty (w.cell x (y + 1)) && !gas (w.cell x (y + 1)).type) = true := by
          unfold passable at hp
          cases h3 : empty (w.cell x (y + 1)) <;> cases h4 : gas (w.cell x (y + 1)).type <;>
            simp_all
        simp only [hc, if_true]
        have hp2 : passable (w.cell x (y + 1)) = false := by simpa using hp
        simp only [hp2, le_refl, h1, true_and, implies_true, and_true]
        intro y1 h5 h6
        omega
    · simp only [hlt, if_false, le_refl, h1, true_and, false_implies, and_true]
      intro y1 h5 h6
      omega

/-- The loop of the lightning brush that paints the bolt. -/
theorem bolt_paint (w : World) (hwf : w.WF) (cx cy yEnd : Int)
    (hx : 0 ≤ cx ∧ cx < w.gWidth) (h0 : 0 ≤ cy) (h1 : cy ≤ yEnd) (h2 : yEnd < w.gHeight) :
    wp (forEach (irange cy yEnd) fun yy => setCell cx yy ⟨LIGHTNING, 2⟩)
      (fun _ w1 => SameDims w w1 ∧ w1.WF ∧ w1.updated = w.updated ∧ w1.draws = w.draws ∧
        w1.pos = w.pos ∧
        ∀ x y, w1.cell x y =
          if x = cx ∧ cy ≤ y ∧ y ≤ yEnd then ⟨LIGHTNING, 2⟩ else w.cell x y) w := by
  have h := wp_forRange (fun yy => setCell cx yy ⟨LIGHTNING, 2⟩)
    (fun i w1 => SameDims w w1 ∧ w1.WF ∧ w1.updated = w.updated ∧ w1.draws = w.draws ∧
        w1.pos = w.pos ∧
        ∀ x y, w1.cell x y = if x = cx ∧ cy ≤ y ∧ y < i then ⟨LIGHTNING, 2⟩ else w.cell x y)
    yEnd _ cy rfl (by omega) ?_ w ?_
  · refine wp_mono h ?_
    intro _ w1 ⟨e1, e2, e3, e4, e5, e6⟩
    refine ⟨e1, e2, e3, e4, e5, ?_⟩
    intro x y
    rw [e6]
    have : (y < yEnd + 1) ↔ y ≤ yEnd := by omega
    simp only [this]
  · intro i hi1 hi2 w1 ⟨e1, e2, e3, e4, e5, e6⟩
    have hib : w1.inb cx i = true := by
      unfold World.inb
      rw [e1.1, e1.2]
      simp only [Bool.and_eq_true, decide_eq_true_eq]
      omega
    simp only [wp_setCell, e2.isSome, hib, true_and]
    refine ⟨e1, e2.putWF _ _ _, e3, e4, e5, ?_⟩
    intro x y
    rw [cell_put e2 hib, e6]
    by_cases hxy : x = cx ∧ y = i
    · obtain ⟨rfl, rfl⟩ := hxy
      have : cy ≤ y ∧ y < y + 1 := by omega
      simp [this]
    · rw [if_neg hxy]
      have : (x = cx ∧ cy ≤ y ∧ y < i + 1) ↔ (x = cx ∧ cy ≤ y ∧ y < i) := by
        constructor
        · rintro ⟨a, b, c⟩
          refine ⟨a, b, ?_⟩
          by_cases hy : y = i
          · exact absurd ⟨a, hy⟩ hxy
          · omega
        · rintro ⟨a, b, c⟩
          exact ⟨a, b, by omega⟩
      simp only [this]
  · refine ⟨⟨rfl, rfl⟩, hwf, rfl, rfl, rfl, ?_⟩
    intro x y
    have : ¬ (x = cx ∧ cy ≤ y ∧ y < cy) := by omega
    rw [if_neg this]

/-- The lightning brush at an in-bounds position: the bolt runs from `(cx, cy)` down to the
last row `yEnd` reached through `EMPTY` or gas cells. -/
theorem strike_inb (w : World) (hwf : w.WF) (cx cy rad : Int)
    (hin : w.inb cx cy = true) :
    wp (place_brush cx cy rad LIGHTNING) (fun _ w1 =>
      w1.gWidth = w.gWidth ∧ w1.gHeight = w.gHeight ∧ w1.WF ∧
      w1.updated = w.updated ∧ w1.draws = w.draws ∧ w1.pos = w.pos ∧
      ∃ yEnd, cy ≤ yEnd ∧ yEnd < w.gHeight ∧
        (∀ y1, cy < y1 → y1 ≤ yEnd → passable (w.cell cx y1) = true) ∧
        (yEnd + 1 < w.gHeight → passable (w.cell cx (yEnd + 1)) = false) ∧
        ∀ x y, w1.cell x y =
          if x = cx ∧ cy ≤ y ∧ y ≤ yEnd then ⟨LIGHTNING, 2⟩
          else if x = cx ∧ y = yEnd + 1 ∧ yEnd + 1 < w.gHeight ∧
              ((w.cell x y).type = WATER ∨ (w.cell x y).type = SALTWATER) then
            ⟨(w.cell x y).type, max (w.cell x y).life 8⟩
          else w.cell x y) w := by
  have hb : (0 ≤ cx ∧ cx < w.gWidth) ∧ 0 ≤ cy ∧ cy < w.gHeight := by
    unfold World.inb at hin
    simp only [Bool.and_eq_true, decide_eq_true_eq] at hin
    omega
  unfold place_brush strike
  simp only [if_true, wp_bind, wp_in_bounds, hin, Bool.not_true, Bool.false_eq_true, if_false,
    wp_getHeight]
  refine wp_mono (boltEnd_spec w hwf cx hb.1 _ cy hb.2.1 hb.2.2 (by omega)) ?_
  intro yEnd w0 ⟨e0, e1, e2, e3, e4⟩
  subst e0
  refine wp_mono (bolt_paint w0 hwf cx cy yEnd hb.1 hb.2.1 e1 e2) ?_
  intro _ w1 ⟨d1, d2, d3, d4, d5, d6⟩
  simp only [wp_ite, wp_bind, wp_getCell, wp_setLife, wp_pure, d2.isSome]
  by_cases hlt : yEnd + 1 < w0.gHeight
  · have hib : w1.inb cx (yEnd + 1) = true := by
      unfold World.inb
      rw [d1.1, d1.2]
      simp only [Bool.and_eq_true, decide_eq_true_eq]
      omega
    have hbelow : w1.cell cx (yEnd + 1) = w0.cell cx (yEnd + 1) := by
      rw [d6]
      have : ¬ (cx = cx ∧ cy ≤ yEnd + 1 ∧ yEnd + 1 ≤ yEnd) := by omega
      rw [if_neg this]
    simp only [hlt, if_true, hib, true_and, hbelow]
    by_cases hwt : (w0.cell cx (yEnd + 1)).type = WATER ∨ (w0.cell cx (yEnd + 1)).type = SALTWATER
    · simp only [hwt, if_true, true_and]
      refine ⟨d1.1, d1.2, d2.putWF _ _ _, d3, d4, d5, yEnd, e1, e2, e3, e4, ?_⟩
      intro x y
      rw [cell_put d2 hib, d6]
      by_cases hxy : x = cx ∧ y = yEnd + 1
      · obtain ⟨rfl, rfl⟩ := hxy
        have h5 : ¬ (cy ≤ yEnd + 1 ∧ yEnd + 1 ≤ yEnd) := by omega
        simp only [and_self, if_true, if_neg h5, true_and, hlt, hwt]
      · rw [if_neg hxy]
        have h5 : ¬ (x = cx ∧ y = yEnd + 1 ∧ yEnd + 1 < w0.gHeight ∧
            ((w0.cell x y).type = WATER ∨ (w0.cell x y).type = SALTWATER)) := by
          intro hc
          exact hxy ⟨hc.1, hc.2.1⟩
        rw [if_neg h5]
    · simp only [hwt, if_false]
      refine ⟨d1.1, d1.2, d2, d3, d4, d5, yEnd, e1, e2, e3, e4, ?_⟩
      intro x y
      rw [d6]
      have h5 : ¬ (x = cx ∧ y = yEnd + 1 ∧ yEnd + 1 < w0.gHeight ∧
          ((w0.cell x y).type = WATER ∨ (w0.cell x y).type = SALTWATER)) := by
        rintro ⟨rfl, rfl, _, hc⟩
        exact hwt hc
      rw [if_neg h5]
  · simp only [hlt, if_false]
    refine ⟨d1.1, d1.2, d2, d3, d4, d5, yEnd, e1, e2, e3, e4, ?_⟩
    intro x y
    rw [d6]
    have h5 : ¬ (x = cx ∧ y = yEnd + 1 ∧ yEnd + 1 < w0.gHeight ∧
        ((w0.cell x y).type = WATER ∨ (w0.cell x y).type = SALTWATER)) := by
      rintro ⟨_, _, hc, _⟩
      exact hlt hc
    rw [if_neg h5]

/-- The lightning brush at a position outside the grid does nothing. -/
theorem strike_oob (w : World) (cx cy rad : Int) (hin : w.inb cx cy = false)
    (Q : Unit → World → Prop) :
    wp (place_brush cx cy rad LIGHTNING) Q w ↔ Q () w := by
  unfold place_brush strike
  rw [if_pos rfl, wp_bind, wp_in_bounds, hin, if_pos (by rfl), wp_pure]

/-! ## The invariant of a tick -/

theorem Frame.same (w : World) : Frame w w :=
  ⟨⟨rfl, rfl⟩, id, id⟩

theorem Frame.afterPut {w w1 : World} (h : Frame w w1) (x y : Int) (c : Cell) :
    Frame w (w1.put x y c) :=
  ⟨h.1, fun hw => (h.2.1 hw).putWF x y c, h.2.2⟩

theorem Frame.afterMark {w w1 : World} (h : Frame w w1) (x y : Int) : Frame w (w1.mark x y) :=
  ⟨h.1, h.2.1, fun hw => (h.2.2 hw).markWFU x y⟩

theorem Frame.afterDraw {w w1 : World} (h : Frame w w1) : Frame w w1.draw :=
  ⟨h.1, h.2.1, h.2.2⟩

/-- Reading the grid after a write, with the existence of the written cell as a
condition. -/
theorem cell_put_if (w : World) (x y : Int) (c : Cell) (a b : Int) :
    (w.put x y c).cell a b =
      if a = x ∧ b = y ∧ (at? w.grid x y).isSome = true then c else w.cell a b := by
  unfold World.cell World.put
  simp only [at?_setAt]
  split <;> rfl

theorem Inv.inb {Ln Lu : Prop} {A : Nat} {w0 w : World} (h : Inv Ln Lu A w0 w) (x y : Int) :
    w.inb x y = w0.inb x y := by
  unfold World.inb
  rw [h.1.1, h.1.2]

/-- A cell that is not a `WALL` now was not one when the tick started. -/
theorem Inv.nw {Ln Lu : Prop} {A : Nat} {w0 w : World} (h : Inv Ln Lu A w0 w) {x y : Int}
    (hib : w.inb x y = true) (hc : (w.cell x y).type ≠ WALL) : (w0.cell x y).type ≠ WALL := by
  intro hw
  apply hc
  rw [(h.2.2.2 x y hib).1 hw]
  exact hw

/-- A cell that was not a `WALL` when the tick started is `Good` now. -/
theorem Inv.good {Ln Lu : Prop} {A : Nat} {w0 w : World} (h : Inv Ln Lu A w0 w) {x y : Int}
    (hib : w.inb x y = true) (hc : (w0.cell x y).type ≠ WALL) : Good Ln Lu A (w.cell x y) :=
  (h.2.2.2 x y hib).2 hc

/-- The invariant survives any change of state that keeps the frame and in which
every cell either keeps its value or was not a `WALL` and becomes `Good`. -/
theorem Inv.step {Ln Lu : Prop} {A : Nat} {w0 w w1 : World} (h : Inv Ln Lu A w0 w) (hf : Frame w w1)
    (hc : ∀ a b, w.inb a b = true →
      w1.cell a b = w.cell a b ∨ ((w.cell a b).type ≠ WALL ∧ Good Ln Lu A (w1.cell a b))) :
    Inv Ln Lu A w0 w1 := by
  obtain ⟨hd, hwf, hwfu, hcells⟩ := h
  refine ⟨⟨hf.1.1.trans hd.1, hf.1.2.trans hd.2⟩, hf.2.1 hwf, hf.2.2 hwfu, ?_⟩
  intro x y hib
  have hib0 : w.inb x y = true := by
    unfold World.inb at hib ⊢
    rw [hf.1.1, hf.1.2] at hib
    exact hib
  rcases hc x y hib0 with h1 | ⟨h1, h2⟩
  · rw [h1]
    exact hcells x y hib0
  · constructor
    · intro hw
      exfalso
      apply h1
      rw [(hcells x y hib0).1 hw]
      exact hw
    · intro _
      exact h2

theorem Inv.draw {Ln Lu : Prop} {A : Nat} {w0 w : World} (h : Inv Ln Lu A w0 w) : Inv Ln Lu A w0 w.draw :=
  h

theorem Inv.mark {Ln Lu : Prop} {A : Nat} {w0 w : World} (h : Inv Ln Lu A w0 w) (x y : Int) :
    Inv Ln Lu A w0 (w.mark x y) :=
  ⟨h.1, h.2.1, h.2.2.1.markWFU x y, h.2.2.2⟩

theorem Inv.put {Ln Lu : Prop} {A : Nat} {w0 w : World} (h : Inv Ln Lu A w0 w) {x y : Int} {c : Cell}
    (hib : w.inb x y = true) (hnw : (w.cell x y).type ≠ WALL) (hg : Good Ln Lu A c) :
    Inv Ln Lu A w0 (w.put x y c) := by
  refine h.step ((Frame.same w).afterPut x y c) ?_
  intro a b _
  rw [cell_put h.2.1 hib]
  split
  · rename_i hab
    obtain ⟨rfl, rfl⟩ := hab
    exact Or.inr ⟨hnw, hg⟩
  · exact Or.inl rfl

/-- The cell at a position that was not a `WALL` when the tick started is not one now. -/
theorem Inv.nwall {Ln Lu : Prop} {A : Nat} {w0 w : World} (h : Inv Ln Lu A w0 w) {x y : Int}
    (hib : w.inb x y = true) (hc : (w0.cell x y).type ≠ WALL) : (w.cell x y).type ≠ WALL :=
  (h.good hib hc).1

theorem roll_bounds (w : World) (a b : Int) (hab : a ≤ b) :
    a ≤ w.roll a b ∧ w.roll a b ≤ b := by
  unfold World.roll
  have h1 : 0 ≤ ((w.draws w.pos : Nat) : Int) % (b - a + 1) := Int.emod_nonneg _ (by omega)
  have h2 : ((w.draws w.pos : Nat) : Int) % (b - a + 1) < b - a + 1 :=
    Int.emod_lt_of_pos _ (by omega)
  constructor <;> omega

theorem Good.mk_lit {Ln Lu : Prop} {A : Nat} {t : Element} {l : Int} (ht : t ≠ WALL) (h0 : 0 ≤ l)
    (h1 : l ≤ 300) : Good Ln Lu A ⟨t, l⟩ :=
  ⟨ht, fun _ => h0, fun _ _ => h1, fun _ => by show l ≤ 300 + (A : Int); omega⟩

/-- A larger bound on the counters admits more values. -/
theorem Good.relax {Ln Lu : Prop} {A B : Nat} {c : Cell} (hab : A ≤ B) (h : Good Ln Lu A c) :
    Good Ln Lu B c :=
  ⟨h.1, h.2.1, h.2.2.1, fun hl => by have := h.2.2.2 hl; omega⟩

theorem Inv.widen {Ln Lu : Prop} {A B : Nat} {w0 w : World} (hab : A ≤ B) (h : Inv Ln Lu A w0 w) :
    Inv Ln Lu B w0 w :=
  ⟨h.1, h.2.1, h.2.2.1, fun x y hib =>
    ⟨(h.2.2.2 x y hib).1, fun hnw => ((h.2.2.2 x y hib).2 hnw).relax hab⟩⟩

/-- The increment `life++` of a value that has not reached `INT_MAX` adds one. -/
theorem inc32_of {n : Int} (h : n < 2147483647) : inc32 n = n + 1 := by
  unfold inc32
  rw [if_neg (by omega)]

/-- The decrement `life--` of a value above `INT_MIN` subtracts one. -/
theorem dec32_of {n : Int} (h : -2147483648 < n) : dec32 n = n - 1 := by
  unfold dec32
  rw [if_neg (by omega)]

theorem explodeCell_inv {Ln Lu : Prop} {A : Nat} {w0 w : World} (h : Inv Ln Lu A w0 w)
    (cx cy r dx dy : Int) :
    wp (explodeCell cx cy r dx dy) (fun _ w1 => Inv Ln Lu A w0 w1) w := by
  have hwf := h.2.1
  simp only [explodeCell, wp_bind, wp_in_bounds, wp_ite, wp_pure, wp_getCell, wp_rint, wp_setCell,
    isSome_put, draw_grid, hwf.isSome]
  split_ifs with h1 h2 h3 h4 h5 h6
  · exact h
  · exact h
  · exact ⟨inb_of_not h1, h⟩
  · exact ⟨inb_of_not h1, h⟩
  · have hk := roll_bounds w.draw 0 10 (by omega)
    exact ⟨inb_of_not h1, inb_of_not h1,
      h.draw.draw.put (inb_of_not h1) h3 (Good.mk_lit (by simp) (by omega) (by omega))⟩
  · exact ⟨inb_of_not h1, inb_of_not h1,
      h.draw.put (inb_of_not h1) h3 (Good.mk_lit (by simp) (by omega) (by omega))⟩
  · exact ⟨inb_of_not h1, inb_of_not h1,
      h.draw.put (inb_of_not h1) h3 (Good.mk_lit (by simp) (by omega) (by omega))⟩

theorem explode_inv {Ln Lu : Prop} {A : Nat} {w0 : World} (cx cy r : Int) [Fact (Small r)]
    (w : World)
    (h : Inv Ln Lu A w0 w) : wp (explode cx cy r) (fun _ w1 => Inv Ln Lu A w0 w1) w := by
  unfold explode
  exact wp_forBox _ _ _ (fun dx _ dy _ w1 h1 => explodeCell_inv h1 cx cy r dx dy) w h

theorem Inv.good_now {Ln Lu : Prop} {A : Nat} {w0 w : World} (h : Inv Ln Lu A w0 w) {x y : Int}
    (hib : w.inb x y = true) (hc : (w.cell x y).type ≠ WALL) : Good Ln Lu A (w.cell x y) :=
  h.good hib (h.nw hib hc)

theorem put_cell_nw {w : World} {x y a b : Int} {c : Cell} (hnw : (w.cell x y).type ≠ WALL)
    (hc : c.type ≠ WALL) : ((w.put a b c).cell x y).type ≠ WALL := by
  rw [cell_put_if]
  split
  · exact hc
  · exact hnw

theorem nw_of_soft {t : Element} (h : t = EMPTY ∨ liquid t = true ∨ gas t = true) :
    t ≠ WALL := by
  cases t <;> simp_all [liquid, gas]

theorem nw_of_empty_or_liquid {c : Cell} (h : (empty c || liquid c.type) = true) :
    c.type ≠ WALL := by
  apply nw_of_soft
  unfold empty at h
  simp only [Bool.or_eq_true, decide_eq_true_eq] at h
  rcases h with h | h
  · exact Or.inl h
  · exact Or.inr (Or.inl h)

theorem nw_of_empty_or_gas {c : Cell} (h : (empty c || gas c.type) = true) :
    c.type ≠ WALL := by
  apply nw_of_soft
  unfold empty at h
  simp only [Bool.or_eq_true, decide_eq_true_eq] at h
  rcases h with h | h
  · exact Or.inl h
  · exact Or.inr (Or.inr h)

theorem nw_of_empty {c : Cell} (h : empty c = true) : c.type ≠ WALL := by
  apply nw_of_soft
  unfold empty at h
  simp only [decide_eq_true_eq] at h
  exact Or.inl h

theorem nw_of_liquid {t : Element} (h : liquid t = true) : t ≠ WALL :=
  nw_of_soft (Or.inr (Or.inl h))

/-- Swapping two cells neither of which is a `WALL` keeps the invariant. -/
theorem swap_to_inv {Ln Lu : Prop} {A : Nat} {w0 w : World} (h : Inv Ln Lu A w0 w) {x y nx ny : Int}
    (hib : w.inb x y = true) (hnw : (w.cell x y).type ≠ WALL)
    (hib2 : w.inb nx ny = true) (hnw2 : (w.cell nx ny).type ≠ WALL) :
    wp (swap_to x y nx ny) (fun _ w1 => Inv Ln Lu A w0 w1) w := by
  simp only [swap_to, wp_bind, wp_getCell, wp_setCell, wp_setUpdated, isSome_put, put_updated,
    h.2.1.isSome, h.2.2.1.isSomeU, hib, hib2, true_and, put_inb]
  refine Inv.mark ?_ _ _
  exact (h.put hib2 hnw2 (h.good_now hib hnw)).put hib (put_cell_nw hnw (h.good_now hib hnw).1)
    (h.good_now hib2 hnw2)

theorem powderTry_inv {Ln Lu : Prop} {A : Nat} {w0 : World} {x y : Int} (hx : w0.inb x y = true)
    (hs : (w0.cell x y).type ≠ WALL) (nx ny : Int) (w : World) (h : Inv Ln Lu A w0 w) :
    wp (powderTry x y nx ny) (fun _ w1 => Inv Ln Lu A w0 w1) w := by
  have hib : w.inb x y = true := (h.inb x y).trans hx
  simp only [powderTry, wp_bind, wp_in_bounds, wp_ite, wp_pure, wp_getCell, h.2.1.isSome]
  split_ifs with h1 h2
  · exact h
  · exact ⟨inb_of_not h1,
      swap_to_inv h hib (h.nwall hib hs) (inb_of_not h1) (nw_of_empty_or_liquid h2)⟩
  · exact ⟨inb_of_not h1, h⟩

theorem powderMove_inv {Ln Lu : Prop} {A : Nat} {w0 : World} {x y : Int} (hx : w0.inb x y = true)
    (hs : (w0.cell x y).type ≠ WALL) (w : World) (h : Inv Ln Lu A w0 w) :
    wp (powderMove x y) (fun _ w1 => Inv Ln Lu A w0 w1) w := by
  unfold powderMove
  rw [wp_bind]
  refine wp_mono (powderTry_inv hx hs _ _ w h) ?_
  intro m0 w1 h1
  cases m0
  · simp only [Bool.false_eq_true, if_false, wp_bind, wp_rint]
    refine wp_mono (powderTry_inv hx hs _ _ _ h1.draw) ?_
    intro m1 w2 h2
    cases m1
    · simp only [Bool.false_eq_true, if_false]
      exact powderTry_inv hx hs _ _ _ h2
    · simp only [if_true, wp_pure]
      exact h2
  · simp only [if_true, wp_pure]
    exact h1

theorem snowMelt_inv {Ln Lu : Prop} {A : Nat} {w0 : World} {x y : Int} (hx : w0.inb x y = true)
    (hs : (w0.cell x y).type ≠ WALL) (w : World) (h : Inv Ln Lu A w0 w) :
    wp (snowMelt x y) (fun _ w1 => Inv Ln Lu A w0 w1) w := by
  unfold snowMelt
  refine wp_forBox _ _ _ ?_ w h
  intro dx _ dy _ w1 h1
  have hib : w1.inb x y = true := (h1.inb x y).trans hx
  simp only [wp_bind, wp_in_bounds, wp_ite, wp_pure, wp_getCell, wp_setCell, h1.2.1.isSome]
  split_ifs with h2 h3
  · exact h1
  · exact ⟨inb_of_not h2, hib,
      h1.put hib (h1.nwall hib hs) (Good.mk_lit (by simp) (by omega) (by omega))⟩
  · exact ⟨inb_of_not h2, h1⟩

/-- The test for water above reads only. -/
theorem waterAbove_ro (x y : Int) (w : World) (hwf : w.WF) :
    wp (waterAbove x y) (fun r w1 => w1 = w ∧
      (r = true → w.inb x (y - 1) = true ∧ (w.cell x (y - 1)).type = WATER)) w := by
  simp only [waterAbove, wp_bind, wp_in_bounds, wp_ite, wp_pure, wp_getCell, hwf.isSome]
  split_ifs with h1
  · simp
  · simp [inb_of_not h1]

/-- The scan for seaweed reads only. -/
theorem weedNear_ro (x y : Int) (w : World) (hwf : w.WF) :
    wp (weedNear x y) (fun _ w1 => w1 = w) w := by
  unfold weedNear
  refine wp_firstM (fun w1 => w1 = w) _ _ ?_ w rfl
  intro wy _ w1 e1
  refine wp_firstM (fun w1 => w1 = w) _ _ ?_ w1 e1
  intro wx _ w2 e2
  subst e2
  simp only [wp_bind, wp_in_bounds, wp_ite, wp_pure, wp_getCell, hwf.isSome]
  split_ifs with h1
  all_goals first | rfl | exact ⟨inb_of_not h1, trivial⟩

theorem put_put_same (w : World) (x y : Int) (c c1 : Cell) :
    (w.put x y c).put x y c1 = w.put x y c1 := by
  have hg : ∀ m : List (List Cell), setAt (setAt m x y c) x y c1 = setAt m x y c1 := by
    intro m
    unfold setAt
    cases hr : nth? m y with
    | none => simp [hr]
    | some row =>
      have h1 : nth? (setNth m y (setNth row x c)) y = some (setNth row x c) := by
        rw [nth?_setNth]
        simp [hr]
      simp only [h1]
      unfold setNth
      by_cases hy : 0 ≤ y <;> by_cases hx0 : 0 ≤ x <;> simp [hy, hx0, List.set_set]
  unfold World.put
  simp only [hg]

/-- The invariant after a write of a life to the visited cell. -/
theorem Inv.setLife {Ln Lu : Prop} {A : Nat} {w0 w : World} (h : Inv Ln Lu A w0 w) {x y : Int} {v : Int}
    (hib : w.inb x y = true) (hnw : (w.cell x y).type ≠ WALL) (h0 : Ln → 0 ≤ v)
    (h1 : Lu → agent (w.cell x y).type = false → v ≤ 300) (h2 : Ln → v ≤ 300 + (A : Int)) :
    Inv Ln Lu A w0 (w.put x y ⟨(w.cell x y).type, v⟩) :=
  h.put hib hnw ⟨hnw, h0, h1, h2⟩

theorem sandSeed_inv {Ln Lu : Prop} {A : Nat} {w0 : World} {x y : Int} (hx : w0.inb x y = true)
    (hs : (w0.cell x y).type ≠ WALL) (hA : Ln → 300 + (A : Int) < 2147483647) (w : World)
    (h : Inv Ln Lu A w0 w) :
    wp (sandSeed x y) (fun _ w1 => Inv Ln Lu A w0 w1) w := by
  have hib : w.inb x y = true := (h.inb x y).trans hx
  have hnw := h.nwall hib hs
  have hg := h.good_now hib hnw
  unfold sandSeed
  rw [wp_bind]
  refine wp_mono (waterAbove_ro x y w h.2.1) ?_
  rintro wa w1 ⟨rfl, hwa⟩
  cases wa
  · simp only [Bool.false_eq_true, if_false, wp_setLife, h.2.1.isSome, hib, true_and]
    exact h.setLife hib hnw (fun _ => le_refl _) (fun _ _ => by omega) (fun _ => by omega)
  · obtain ⟨hib2, hw2⟩ := hwa rfl
    have hup : (w1.cell x (y - 1)).type ≠ WALL := by
      rw [hw2]
      simp
    simp only [if_true, wp_bind, wp_getCell, wp_setLife, wp_ite, wp_pure, isSome_put,
      h.2.1.isSome, hib, true_and]
    have hc1 : (w1.put x y ⟨(w1.cell x y).type, inc32 (w1.cell x y).life⟩).cell x y =
        ⟨(w1.cell x y).type, inc32 (w1.cell x y).life⟩ := by
      rw [cell_put h.2.1 hib]
      simp
    simp only [hc1]
    split_ifs with h1
    · refine wp_mono (weedNear_ro x y _ (h.2.1.putWF _ _ _)) ?_
      rintro near w2 rfl
      cases near
      · simp only [Bool.not_false, if_true, wp_bind]
        refine wp_mono (waterAbove_ro x y _ (h.2.1.putWF _ _ _)) ?_
        rintro wa2 w3 ⟨rfl, _⟩
        cases wa2
        · simp only [Bool.false_eq_true, if_false, wp_pure, wp_setLife, isSome_put,
            h.2.1.isSome, hib, true_and, hc1, put_put_same]
          exact h.setLife hib hnw (fun _ => le_refl _) (fun _ _ => by omega) (fun _ => by omega)
        · simp only [if_true, wp_setCell, wp_setLife, isSome_put, h.2.1.isSome, hib, hib2,
            true_and]
          refine h.step ((((Frame.same _).afterPut _ _ _).afterPut _ _ _).afterPut _ _ _) ?_
          intro a b _
          simp only [cell_put_if, isSome_put, h.2.1.isSome, hib, hib2, and_true]
          by_cases hab : a = x ∧ b = y
          · right
            obtain ⟨rfl, rfl⟩ := hab
            have hne : ¬ (b = b - 1) := by omega
            simp only [and_self, if_true, hne, and_false, if_false]
            exact ⟨hnw, Good.mk_lit hnw (le_refl _) (by omega)⟩
          · simp only [hab, if_false]
            by_cases hab2 : a = x ∧ b = y - 1
            · right
              obtain ⟨rfl, rfl⟩ := hab2
              simp only [and_self, if_true]
              exact ⟨hup, Good.mk_lit (by simp) (by omega) (by omega)⟩
            · left
              simp only [hab2, if_false]
      · simp only [Bool.not_true, Bool.false_eq_true, if_false, wp_pure, wp_setLife, isSome_put,
          h.2.1.isSome, hib, true_and, hc1, wp_bind, put_put_same]
        exact h.setLife hib hnw (fun _ => le_refl _) (fun _ _ => by omega) (fun _ => by omega)
    · refine h.setLife hib hnw (fun hl => ?_) (fun _ _ => by omega) (fun _ => by omega)
      have := hg.2.1 hl
      have h3 := hg.2.2.2 hl
      have h4 := hA hl
      rw [inc32_of (by omega)]
      omega

theorem powderRule_inv {Ln Lu : Prop} {A : Nat} {w0 : World} {x y : Int} (hx : w0.inb x y = true)
    (hs : (w0.cell x y).type ≠ WALL) (hA : Ln → 300 + (A : Int) < 2147483647) (t : Element) (w : World)
    (h : Inv Ln Lu A w0 w) :
    wp (powderRule x y t) (fun _ w1 => Inv Ln Lu A w0 w1) w := by
  unfold powderRule
  rw [wp_bind]
  refine wp_mono (powderMove_inv hx hs w h) ?_
  intro moved w1 h1
  have hib : w1.inb x y = true := (h1.inb x y).trans hx
  have hmark : wp (if (!moved) = true then setUpdated x y else pure ())
      (fun _ w2 => Inv Ln Lu A w0 w2) w1 := by
    simp only [wp_ite, wp_setUpdated, wp_pure, h1.2.2.1.isSomeU, hib, true_and]
    split_ifs
    · exact h1.mark x y
    · exact h1
  rw [wp_bind]
  refine wp_mono hmark ?_
  intro _ w2 h2
  rw [wp_bind]
  have hsnow : wp (if t = SNOW then snowMelt x y else pure ())
      (fun _ w3 => Inv Ln Lu A w0 w3) w2 := by
    rw [wp_ite]
    split_ifs
    · exact snowMelt_inv hx hs w2 h2
    · exact (wp_pure _ _ _).2 h2
  refine wp_mono hsnow ?_
  intro _ w3 h3
  rw [wp_ite]
  split_ifs
  · exact sandSeed_inv hx hs hA w3 h3
  · exact (wp_pure _ _ _).2 h3

/-- Sequencing under an invariant. -/
theorem wp_seq {α β : Type} {m : SimM α} {f : α → SimM β} {I : World → Prop}
    {Q : β → World → Prop} {w : World} (h1 : wp m (fun _ w1 => I w1) w)
    (h2 : ∀ a w1, I w1 → wp (f a) Q w1) : wp (m >>= f) Q w := by
  rw [wp_bind]
  exact wp_mono h1 h2

theorem nw_of_liquid_and {c : Cell} {p : Bool} (h : (liquid c.type && p) = true) :
    c.type ≠ WALL := by
  simp only [Bool.and_eq_true] at h
  exact nw_of_liquid h.1

theorem InvNA.drawNA {Ln Lu : Prop} {A : Nat} {w0 w : World} {x y : Int} (h : InvNA Ln Lu A w0 x y w) :
    InvNA Ln Lu A w0 x y w.draw :=
  h

theorem InvNA.markNA {Ln Lu : Prop} {A : Nat} {w0 w : World} {x y : Int} (h : InvNA Ln Lu A w0 x y w)
    (a b : Int) : InvNA Ln Lu A w0 x y (w.mark a b) :=
  ⟨h.1.mark a b, h.2⟩

/-- Writing a `Good` value that is not an agent keeps `InvNA`. -/
theorem InvNA.putNA {Ln Lu : Prop} {A : Nat} {w0 w : World} {x y : Int} (h : InvNA Ln Lu A w0 x y w)
    {a b : Int} {c : Cell} (hib : w.inb a b = true) (hnw : (w.cell a b).type ≠ WALL)
    (hg : Good Ln Lu A c) (hna : agent c.type = false) : InvNA Ln Lu A w0 x y (w.put a b c) := by
  refine ⟨h.1.put hib hnw hg, ?_⟩
  rw [cell_put_if]
  split
  · exact hna
  · exact h.2

theorem na_of_soft {t : Element} (h : t = EMPTY ∨ liquid t = true ∨ gas t = true) :
    agent t = false := by
  cases t <;> simp_all [liquid, gas, agent]

theorem na_of_empty_or_gas {c : Cell} (h : (empty c || gas c.type) = true) :
    agent c.type = false := by
  apply na_of_soft
  unfold empty at h
  simp only [Bool.or_eq_true, decide_eq_true_eq] at h
  rcases h with h | h
  · exact Or.inl h
  · exact Or.inr (Or.inr h)

theorem na_of_liquid_and {c : Cell} {p : Bool} (h : (liquid c.type && p) = true) :
    agent c.type = false := by
  simp only [Bool.and_eq_true] at h
  exact na_of_soft (Or.inr (Or.inl h.1))

/-- Swapping the visited cell with a cell that is neither a `WALL` nor an agent. -/
theorem swap_to_invNA {Ln Lu : Prop} {A : Nat} {w0 w : World} {x y nx ny : Int}
    (h : InvNA Ln Lu A w0 x y w)
    (hib : w.inb x y = true) (hnw : (w.cell x y).type ≠ WALL)
    (hib2 : w.inb nx ny = true) (hnw2 : (w.cell nx ny).type ≠ WALL)
    (hna2 : agent (w.cell nx ny).type = false) :
    wp (swap_to x y nx ny) (fun _ w1 => InvNA Ln Lu A w0 x y w1) w := by
  refine wp_mono (wp_and (swap_to_inv h.1 hib hnw hib2 hnw2) ?_) (fun _ _ hh => hh)
  simp only [swap_to, wp_bind, wp_getCell, wp_setCell, wp_setUpdated, isSome_put, put_updated,
    h.1.2.1.isSome, h.1.2.2.1.isSomeU, hib, hib2, true_and, put_inb, mark_cell, cell_put_if,
    and_self, if_true]
  exact hna2

theorem liquidDown_inv {Ln Lu : Prop} {A : Nat} {w0 : World} {x y : Int} (hx : w0.inb x y = true)
    (hs : (w0.cell x y).type ≠ WALL) (t : Element) (w : World) (h : InvNA Ln Lu A w0 x y w) :
    wp (liquidDown x y t) (fun _ w1 => InvNA Ln Lu A w0 x y w1) w := by
  have hib : w.inb x y = true := (h.1.inb x y).trans hx
  simp only [liquidDown, wp_bind, wp_in_bounds, wp_ite, wp_pure, wp_getCell, h.1.2.1.isSome]
  split_ifs with h1 h2 h3
  · exact h
  · exact ⟨inb_of_not h1, swap_to_invNA h hib (h.1.nwall hib hs) (inb_of_not h1)
      (nw_of_empty_or_gas h2) (na_of_empty_or_gas h2)⟩
  · exact ⟨inb_of_not h1, swap_to_invNA h hib (h.1.nwall hib hs) (inb_of_not h1)
      (nw_of_liquid_and h3) (na_of_liquid_and h3)⟩
  · exact ⟨inb_of_not h1, h⟩

theorem liquidSide_inv {Ln Lu : Prop} {A : Nat} {w0 : World} {x y : Int} (hx : w0.inb x y = true)
    (hs : (w0.cell x y).type ≠ WALL) (t : Element) (nx : Int) (w : World)
    (h : InvNA Ln Lu A w0 x y w) :
    wp (liquidSide x y t nx) (fun _ w1 => InvNA Ln Lu A w0 x y w1) w := by
  have hib : w.inb x y = true := (h.1.inb x y).trans hx
  simp only [liquidSide, wp_bind, wp_in_bounds, wp_ite, wp_pure, wp_getCell, wp_chance,
    h.1.2.1.isSome]
  split_ifs with h1 h2 h3 h4
  · exact h
  · exact ⟨inb_of_not h1, swap_to_invNA h hib (h.1.nwall hib hs) (inb_of_not h1)
      (nw_of_empty_or_gas h2) (na_of_empty_or_gas h2)⟩
  · exact ⟨inb_of_not h1, swap_to_invNA h.drawNA hib (h.1.nwall hib hs) (inb_of_not h1)
      (nw_of_liquid_and h3) (na_of_liquid_and h3)⟩
  · exact ⟨inb_of_not h1, h.drawNA⟩
  · exact ⟨inb_of_not h1, h⟩

theorem liquidMove_inv {Ln Lu : Prop} {A : Nat} {w0 : World} {x y : Int} (hx : w0.inb x y = true)
    (hs : (w0.cell x y).type ≠ WALL) (t : Element) (w : World) (h : InvNA Ln Lu A w0 x y w) :
    wp (liquidMove x y t) (fun _ w1 => InvNA Ln Lu A w0 x y w1) w := by
  unfold liquidMove
  refine wp_seq (liquidDown_inv hx hs t w h) ?_
  intro m0 w1 h1
  cases m0
  · simp only [Bool.false_eq_true, if_false, wp_bind, wp_rint]
    refine wp_mono (liquidSide_inv hx hs t _ _ h1.drawNA) ?_
    intro m1 w2 h2
    cases m1
    · simp only [Bool.false_eq_true, if_false]
      exact liquidSide_inv hx hs t _ _ h2
    · simp only [if_true, wp_pure]
      exact h2
  · simp only [if_true, wp_pure]
    exact h1

theorem Good.lit {Ln Lu : Prop} {A : Nat} (t : Element) (l : Int) (ht : t ≠ WALL) (h0 : 0 ≤ l)
    (h1 : l ≤ 300) : Good Ln Lu A ⟨t, l⟩ :=
  ⟨ht, fun _ => h0, fun _ _ => h1, fun _ => by show l ≤ 300 + (A : Int); omega⟩

theorem waterReact_inv {Ln Lu : Prop} {A : Nat} {w0 : World} {x y : Int} (hx : w0.inb x y = true)
    (hs : (w0.cell x y).type ≠ WALL) (nx ny : Int) (w : World) (h : InvNA Ln Lu A w0 x y w)
    (hib2 : w.inb nx ny = true) :
    wp (waterReact x y nx ny) (fun _ w1 => InvNA Ln Lu A w0 x y w1) w := by
  have hib : w.inb x y = true := (h.1.inb x y).trans hx
  have hnw := h.1.nwall hib hs
  simp only [waterReact, wp_bind, wp_getCell, wp_ite, wp_setCell, wp_chance, wp_pure,
    isSome_put, draw_grid, h.1.2.1.isSome, hib, hib2, true_and]
  split_ifs with h1 h2 h3
  · exact h.putNA hib2 (by simp [h1]) (Good.lit SMOKE 15 (by simp) (by omega) (by omega)) rfl
  · exact ((h.putNA hib2 (by simp [h2]) (Good.lit STONE 0 (by simp) (by omega) (by omega))
      rfl).drawNA).putNA hib (put_cell_nw hnw (by simp))
      (Good.lit STEAM 20 (by simp) (by omega) (by omega)) rfl
  · exact ((h.putNA hib2 (by simp [h2]) (Good.lit STONE 0 (by simp) (by omega) (by omega))
      rfl).drawNA).putNA hib (put_cell_nw hnw (by simp))
      (Good.lit STONE 0 (by simp) (by omega) (by omega)) rfl
  · exact h

theorem oilReact_inv {Ln Lu : Prop} {A : Nat} {w0 : World} {x y : Int} (hx : w0.inb x y = true)
    (hs : (w0.cell x y).type ≠ WALL) (nx ny : Int) (w : World) (h : InvNA Ln Lu A w0 x y w)
    (hib2 : w.inb nx ny = true) :
    wp (oilReact x y nx ny) (fun _ w1 => InvNA Ln Lu A w0 x y w1) w := by
  have hib : w.inb x y = true := (h.1.inb x y).trans hx
  have hnw := h.1.nwall hib hs
  simp only [oilReact, wp_bind, wp_getCell, wp_ite, wp_setCell, wp_pure,
    h.1.2.1.isSome, hib, hib2, true_and]
  split_ifs with h1
  · exact h.putNA hib hnw (Good.lit FIRE 25 (by simp) (by omega) (by omega)) rfl
  · exact h

theorem nw_of_dissolvable {t : Element} (h : dissolvable t = true) : t ≠ WALL := by
  cases t <;> simp_all [dissolvable]

theorem nw_of_flammable {t : Element} (h : flammable t = true) : t ≠ WALL := by
  cases t <;> simp_all [flammable]

theorem acidReact_inv {Ln Lu : Prop} {A : Nat} {w0 : World} {x y : Int} (hx : w0.inb x y = true)
    (hs : (w0.cell x y).type ≠ WALL) (nx ny : Int) (w : World) (h : InvNA Ln Lu A w0 x y w)
    (hib2 : w.inb nx ny = true) :
    wp (acidReact x y nx ny) (fun _ w1 => InvNA Ln Lu A w0 x y w1) w := by
  have hib : w.inb x y = true := (h.1.inb x y).trans hx
  have hnw := h.1.nwall hib hs
  unfold acidReact
  rw [wp_bind, wp_getCell]
  refine ⟨by rw [h.1.2.1.isSome]; exact hib2, ?_⟩
  refine wp_seq (I := fun w1 => InvNA Ln Lu A w0 x y w1) ?_ ?_
  · simp only [wp_bind, wp_ite, wp_setCell, wp_chance, wp_pure,
      isSome_put, draw_grid, h.1.2.1.isSome, hib, hib2, true_and]
    split_ifs with h1 h2 h3 h4
    · exact ((h.drawNA.putNA hib2 (nw_of_dissolvable h1)
        (Good.lit TOXIC_GAS 25 (by simp) (by omega) (by omega)) rfl).drawNA).putNA hib
        (put_cell_nw hnw (by simp)) (Good.lit EMPTY 0 (by simp) (by omega) (by omega)) rfl
    · exact (h.drawNA.putNA hib2 (nw_of_dissolvable h1)
        (Good.lit TOXIC_GAS 25 (by simp) (by omega) (by omega)) rfl).drawNA
    · exact ((h.drawNA.putNA hib2 (nw_of_dissolvable h1)
        (Good.lit EMPTY 0 (by simp) (by omega) (by omega)) rfl).drawNA).putNA hib
        (put_cell_nw hnw (by simp)) (Good.lit EMPTY 0 (by simp) (by omega) (by omega)) rfl
    · exact (h.drawNA.putNA hib2 (nw_of_dissolvable h1)
        (Good.lit EMPTY 0 (by simp) (by omega) (by omega)) rfl).drawNA
    · exact h
  · intro _ w1 h1
    have hib' : w1.inb x y = true := (h1.1.inb x y).trans hx
    have hib2' : w1.inb nx ny = true :=
      (h1.1.inb nx ny).trans ((h.1.inb nx ny).symm.trans hib2)
    have hnw' := h1.1.nwall hib' hs
    simp only [wp_bind, wp_getCell, wp_ite, wp_setCell, wp_chance, wp_pure,
      isSome_put, draw_grid, h1.1.2.1.isSome, hib', hib2', true_and]
    split_ifs with h2 h3 h4
    · have h5 := (h1.drawNA.putNA hib' hnw'
        (Good.lit SALTWATER 0 (by simp) (by omega) (by omega)) rfl).drawNA
      refine h5.putNA hib2' ?_ (Good.lit STEAM 20 (by simp) (by omega) (by omega)) rfl
      simp only [draw_cell, cell_put_if]
      split
      · simp
      · simp [h2]
    · exact (h1.drawNA.putNA hib' hnw' (Good.lit SALTWATER 0 (by simp) (by omega) (by omega))
        rfl).drawNA
    · exact h1.drawNA
    · exact h1

theorem lavaReact_inv {Ln Lu : Prop} {A : Nat} {w0 : World} {x y : Int} (hx : w0.inb x y = true)
    (hs : (w0.cell x y).type ≠ WALL) (nx ny : Int) (w : World) (h : InvNA Ln Lu A w0 x y w)
    (hib2 : w.inb nx ny = true) :
    wp (lavaReact x y nx ny) (fun _ w1 => InvNA Ln Lu A w0 x y w1) w := by
  have hib : w.inb x y = true := (h.1.inb x y).trans hx
  have hnw := h.1.nwall hib hs
  simp only [lavaReact, wp_bind, wp_getCell, wp_ite, wp_setCell, wp_chance, wp_pure,
    isSome_put, draw_grid, h.1.2.1.isSome, hib, hib2, true_and]
  split_ifs with h1 h2 h3 h4 h5
  · exact h.putNA hib2 (nw_of_flammable h1) (Good.lit FIRE 25 (by simp) (by omega) (by omega)) rfl
  · refine h.putNA hib2 ?_ (Good.lit GLASS 0 (by simp) (by omega) (by omega)) rfl
    rcases h2 with h2 | h2 <;> simp [h2]
  · have hn : (w.cell nx ny).type ≠ WALL := by
      rcases h3 with h3 | h3 <;> simp [h3]
    exact ((h.putNA hib2 hn (Good.lit STONE 0 (by simp) (by omega) (by omega)) rfl).drawNA).putNA
      hib (put_cell_nw hnw (by simp)) (Good.lit STEAM 20 (by simp) (by omega) (by omega)) rfl
  · have hn : (w.cell nx ny).type ≠ WALL := by
      rcases h3 with h3 | h3 <;> simp [h3]
    exact ((h.putNA hib2 hn (Good.lit STONE 0 (by simp) (by omega) (by omega)) rfl).drawNA).putNA
      hib (put_cell_nw hnw (by simp)) (Good.lit STONE 0 (by simp) (by omega) (by omega)) rfl
  · exact h.putNA hib2 (by simp [h5]) (Good.lit WATER 0 (by simp) (by omega) (by omega)) rfl
  · exact h

/-- A guarded action keeps an invariant that the action keeps. -/
theorem wp_when {c : Prop} [Decidable c] {m : SimM Unit} {I : World → Prop} {w : World}
    (hw : I w) (hm : c → wp m (fun _ w1 => I w1) w) :
    wp (if c then m else pure ()) (fun _ w1 => I w1) w := by
  rw [wp_ite]
  split
  · rename_i hc
    exact hm hc
  · exact (wp_pure _ _ _).2 hw

theorem liquidReact_inv {Ln Lu : Prop} {A : Nat} {w0 : World} {x y : Int} (hx : w0.inb x y = true)
    (hs : (w0.cell x y).type ≠ WALL) (t : Element) (dx dy : Int) (w : World)
    (h : InvNA Ln Lu A w0 x y w) :
    wp (liquidReact x y t dx dy) (fun _ w1 => InvNA Ln Lu A w0 x y w1) w := by
  unfold liquidReact
  rw [wp_ite]
  split
  · exact (wp_pure _ _ _).2 h
  · rw [wp_bind, wp_in_bounds, wp_ite]
    split
    · exact (wp_pure _ _ _).2 h
    · rename_i hb
      have hib2 := inb_of_not hb
      have hkeep : ∀ w1, InvNA Ln Lu A w0 x y w1 → w1.inb (x + dx) (y + dy) = true := by
        intro w1 h1
        exact (h1.1.inb _ _).trans ((h.1.inb _ _).symm.trans hib2)
      refine wp_seq (wp_when h (fun _ => waterReact_inv hx hs _ _ w h hib2)) ?_
      intro _ w1 h1
      refine wp_seq (wp_when h1 (fun _ => oilReact_inv hx hs _ _ w1 h1 (hkeep w1 h1))) ?_
      intro _ w2 h2
      refine wp_seq (wp_when h2 (fun _ => acidReact_inv hx hs _ _ w2 h2 (hkeep w2 h2))) ?_
      intro _ w3 h3
      exact wp_when h3 (fun _ => lavaReact_inv hx hs _ _ w3 h3 (hkeep w3 h3))

theorem lavaCool_inv {Ln Lu : Prop} {A : Nat} {w0 : World} {x y : Int} (hx : w0.inb x y = true)
    (hs : (w0.cell x y).type ≠ WALL) (hA : Ln → 300 + (A : Int) < 2147483647) (w : World)
    (h : InvNA Ln Lu A w0 x y w) :
    wp (lavaCool x y) (fun _ w1 => Inv Ln Lu A w0 w1) w := by
  have hib : w.inb x y = true := (h.1.inb x y).trans hx
  have hnw := h.1.nwall hib hs
  have hg := h.1.good_now hib hnw
  simp only [lavaCool, wp_bind, wp_getCell, wp_setLife, wp_setCell, wp_ite, wp_pure, isSome_put,
    h.1.2.1.isSome, hib, true_and, cell_put_if, and_self, if_true, put_put_same]
  split_ifs with h1
  · exact h.1.put hib hnw (Good.lit STONE 0 (by simp) (by omega) (by omega))
  · refine h.1.setLife hib hnw (fun hl => ?_) (fun _ _ => by omega) (fun _ => by omega)
    have := hg.2.1 hl
    have h3 := hg.2.2.2 hl
    have h4 := hA hl
    rw [inc32_of (by omega)]
    omega

theorem hydrate_inv {Ln Lu : Prop} {A : Nat} {w0 : World} {x y : Int} (w : World)
    (h : InvNA Ln Lu A w0 x y w) :
    wp (hydrate x y) (fun _ w1 => InvNA Ln Lu A w0 x y w1) w := by
  unfold hydrate
  refine wp_forBox _ _ _ ?_ w h
  intro dx _ dy _ w1 h1
  simp only [wp_bind, wp_in_bounds, wp_ite, wp_pure, wp_getCell, wp_setCell, h1.1.2.1.isSome]
  split_ifs with h2 h3
  · exact h1
  · refine ⟨inb_of_not h2, inb_of_not h2, h1.putNA (inb_of_not h2) ?_
      (Good.lit WET_DIRT 300 (by simp) (by omega) (by omega)) rfl⟩
    rcases h3 with h3 | h3 <;> simp [h3]
  · exact ⟨inb_of_not h2, h1⟩

theorem pulseCell_inv {Ln Lu : Prop} {A : Nat} {w0 : World} (x y q dx dy : Int) (hq0 : 0 ≤ q - 1)
    (hq1 : Lu → q - 1 ≤ 300) (hq2 : Ln → q - 1 ≤ 300 + (A : Int)) (w : World)
    (h : Inv Ln Lu A w0 w) :
    wp (pulseCell x y q dx dy) (fun _ w1 => Inv Ln Lu A w0 w1) w := by
  simp only [pulseCell, wp_bind, wp_in_bounds, wp_ite, wp_pure, wp_getCell, wp_setCell,
    wp_setLife, isSome_put, h.2.1.isSome]
  split_ifs with h1 h2 h3 h4 h5 h6 h7
  · exact h
  · exact h
  · exfalso
    rcases h3 with h3 | h3 <;> rcases h5 with h5 | h5 <;> rw [h3] at h5 <;> cases h5
  · refine ⟨inb_of_not h2, inb_of_not h2, h.setLife (inb_of_not h2) ?_ (fun _ => hq0)
      (fun hl _ => hq1 hl) hq2⟩
    rcases h3 with h3 | h3 <;> simp [h3]
  · exfalso
    rcases h3 with h3 | h3 <;> rcases h6 with h6 | h6 <;> rw [h3] at h6 <;> cases h6
  · exact ⟨inb_of_not h2, h⟩
  · refine ⟨inb_of_not h2, inb_of_not h2, h.put (inb_of_not h2) ?_
      (Good.lit ASH 0 (by simp) (by omega) (by omega))⟩
    rcases h7 with h7 | h7 <;> simp [h7]
  · exact ⟨inb_of_not h2, h⟩

/-- The decrement `cell.life--; if(cell.life<0) cell.life=0;` keeps the invariant. -/
theorem decFloor_inv {Ln Lu : Prop} {A : Nat} {w0 : World} {x y : Int} (hx : w0.inb x y = true)
    (hs : (w0.cell x y).type ≠ WALL) (w : World) (h : Inv Ln Lu A w0 w) :
    wp (do
        let c1 ← getCell x y
        setLife x y (c1.life - 1)
        let c2 ← getCell x y
        if c2.life < 0 then setLife x y 0 else pure PUnit.unit)
      (fun _ w1 => Inv Ln Lu A w0 w1) w := by
  have hib : w.inb x y = true := (h.inb x y).trans hx
  have hnw := h.nwall hib hs
  have hg := h.good_now hib hnw
  simp only [wp_bind, wp_getCell, wp_setLife, wp_ite, wp_pure, isSome_put,
    h.2.1.isSome, hib, true_and, cell_put_if, and_self, if_true, put_put_same]
  split_ifs with h1
  · exact h.setLife hib hnw (fun _ => le_refl _) (fun _ _ => by omega) (fun _ => by omega)
  · refine h.setLife hib hnw (fun _ => by omega) (fun hl ha => ?_) (fun hl => ?_)
    · have := hg.2.2.1 hl ha
      omega
    · have := hg.2.2.2 hl
      omega

theorem waterPulse_inv {Ln Lu : Prop} {A : Nat} {w0 : World} {x y : Int} (hx : w0.inb x y = true)
    (hs : (w0.cell x y).type ≠ WALL) (w : World) (h : InvNA Ln Lu A w0 x y w) :
    wp (waterPulse x y) (fun _ w1 => Inv Ln Lu A w0 w1) w := by
  have hib : w.inb x y = true := (h.1.inb x y).trans hx
  have hnw := h.1.nwall hib hs
  have hg := h.1.good_now hib hnw
  unfold waterPulse
  rw [wp_bind, wp_getCell]
  refine ⟨by rw [h.1.2.1.isSome]; exact hib, ?_⟩
  rw [wp_ite]
  split
  · rename_i hpos
    refine wp_seq (I := fun w1 => Inv Ln Lu A w0 w1) ?_ ?_
    · refine wp_forBox _ _ _ ?_ w h.1
      intro dx _ dy _ w1 h1
      refine pulseCell_inv x y _ dx dy (by omega) (fun hl => ?_) (fun hl => ?_) w1 h1
      · have := hg.2.2.1 hl h.2
        omega
      · have := hg.2.2.2 hl
        omega
    · intro _ w1 h1
      exact decFloor_inv hx hs w1 h1
  · exact (wp_pure _ _ _).2 h.1

theorem na_of_liquid {t : Element} (h : liquid t = true) : agent t = false :=
  na_of_soft (Or.inr (Or.inl h))

theorem liquidRule_inv {Ln Lu : Prop} {A : Nat} {w0 : World} {x y : Int} (hx : w0.inb x y = true)
    (hs : (w0.cell x y).type ≠ WALL) (hA : Ln → 300 + (A : Int) < 2147483647) (t : Element) (w : World)
    (h : Inv Ln Lu A w0 w) (ht : liquid (w.cell x y).type = true) :
    wp (liquidRule x y t) (fun _ w1 => Inv Ln Lu A w0 w1) w := by
  unfold liquidRule
  refine wp_seq (liquidMove_inv hx hs t w ⟨h, na_of_liquid ht⟩) ?_
  intro moved w1 h1
  have hib1 : w1.inb x y = true := (h1.1.inb x y).trans hx
  refine wp_seq (I := fun w2 => InvNA Ln Lu A w0 x y w2) (wp_when h1 (fun _ => ?_)) ?_
  · simp only [wp_setUpdated, h1.1.2.2.1.isSomeU, hib1, true_and]
    exact h1.markNA x y
  intro _ w2 h2
  refine wp_seq (I := fun w3 => InvNA Ln Lu A w0 x y w3) ?_ ?_
  · exact wp_forBox _ _ _ (fun dx _ dy _ w3 h3 => liquidReact_inv hx hs t dx dy w3 h3) w2 h2
  intro _ w3 h3
  refine wp_seq (I := fun w4 => InvNA Ln Lu A w0 x y w4) ?_ ?_
  · rw [wp_ite]
    split
    · refine wp_mono (wp_and (lavaCool_inv hx hs hA w3 h3) ?_) (fun _ _ hh => hh)
      have hib3 : w3.inb x y = true := (h3.1.inb x y).trans hx
      simp only [lavaCool, wp_bind, wp_getCell, wp_setLife, wp_setCell, wp_ite, wp_pure,
        isSome_put, h3.1.2.1.isSome, hib3, true_and, cell_put_if, and_self, if_true]
      split_ifs
      · rfl
      · exact h3.2
    · exact (wp_pure _ _ _).2 h3
  intro _ w4 h4
  refine wp_seq (I := fun w5 => InvNA Ln Lu A w0 x y w5) (wp_when h4 (fun _ => ?_)) ?_
  · exact hydrate_inv w4 h4
  intro _ w5 h5
  rw [wp_ite]
  split
  · exact waterPulse_inv hx hs w5 h5
  · exact (wp_pure _ _ _).2 h5.1

theorem draw_put (w : World) (x y : Int) (c : Cell) : (w.put x y c).draw = w.draw.put x y c :=
  rfl

theorem mark_put (w : World) (x y : Int) (c : Cell) (a b : Int) :
    (w.put x y c).mark a b = (w.mark a b).put x y c :=
  rfl

theorem gasUp_inv {Ln Lu : Prop} {A : Nat} {w0 : World} {x y : Int} (hx : w0.inb x y = true)
    (hs : (w0.cell x y).type ≠ WALL) (w : World) (h : Inv Ln Lu A w0 w) :
    wp (gasUp x y) (fun _ w1 => Inv Ln Lu A w0 w1) w := by
  have hib : w.inb x y = true := (h.inb x y).trans hx
  simp only [gasUp, wp_bind, wp_in_bounds, wp_ite, wp_pure, wp_getCell, h.2.1.isSome]
  split_ifs with h1 h2
  · exact h
  · exact ⟨inb_of_not h1, swap_to_inv h hib (h.nwall hib hs) (inb_of_not h1) (nw_of_empty h2)⟩
  · exact ⟨inb_of_not h1, h⟩

theorem gasRise_inv {Ln Lu : Prop} {A : Nat} {w0 : World} {x y : Int} (hx : w0.inb x y = true)
    (hs : (w0.cell x y).type ≠ WALL) (tries : Nat) :
    ∀ w, Inv Ln Lu A w0 w → wp (gasRise x y tries) (fun _ w1 => Inv Ln Lu A w0 w1) w := by
  induction tries with
  | zero =>
    intro w h
    exact (wp_pure _ _ _).2 h
  | succ n ih =>
    intro w h
    unfold gasRise
    refine wp_seq (gasUp_inv hx hs w h) ?_
    intro m w1 h1
    cases m
    · simp only [Bool.false_eq_true, if_false]
      exact ih w1 h1
    · simp only [if_true, wp_pure]
      exact h1

theorem gasSideAt_inv {Ln Lu : Prop} {A : Nat} {w0 : World} {x y : Int} (hx : w0.inb x y = true)
    (hs : (w0.cell x y).type ≠ WALL) (nx ny : Int) (w : World) (h : Inv Ln Lu A w0 w) :
    wp (do
        let ib ← in_bounds nx ny
        if (!ib) = true then pure false
        else do
          let d ← getCell nx ny
          if empty d = true then do
            swap_to x y nx ny
            pure true
          else pure false)
      (fun _ w1 => Inv Ln Lu A w0 w1) w := by
  have hib : w.inb x y = true := (h.inb x y).trans hx
  simp only [wp_bind, wp_in_bounds, wp_ite, wp_pure, wp_getCell, h.2.1.isSome]
  split_ifs with h1 h2
  · exact h
  · exact ⟨inb_of_not h1, swap_to_inv h hib (h.nwall hib hs) (inb_of_not h1) (nw_of_empty h2)⟩
  · exact ⟨inb_of_not h1, h⟩

theorem gasSide_inv {Ln Lu : Prop} {A : Nat} {w0 : World} {x y : Int} (hx : w0.inb x y = true)
    (hs : (w0.cell x y).type ≠ WALL) (nx : Int) (w : World) (h : Inv Ln Lu A w0 w) :
    wp (gasSide x y nx) (fun _ w1 => Inv Ln Lu A w0 w1) w := by
  unfold gasSide
  rw [wp_bind, wp_chance]
  exact gasSideAt_inv hx hs nx _ w.draw h.draw

theorem gasMove_inv {Ln Lu : Prop} {A : Nat} {w0 : World} {x y : Int} (hx : w0.inb x y = true)
    (hs : (w0.cell x y).type ≠ WALL) (t : Element) (w : World) (h : Inv Ln Lu A w0 w) :
    wp (gasMove x y t) (fun _ w1 => Inv Ln Lu A w0 w1) w := by
  unfold gasMove
  refine wp_seq (gasRise_inv hx hs _ w h) ?_
  intro m0 w1 h1
  cases m0
  · simp only [Bool.false_eq_true, if_false, wp_bind, wp_rint]
    refine wp_mono (gasSide_inv hx hs _ _ h1.draw) ?_
    intro m1 w2 h2
    cases m1
    · simp only [Bool.false_eq_true, if_false]
      exact gasSide_inv hx hs _ _ h2
    · simp only [if_true, wp_pure]
      exact h2
  · simp only [if_true, wp_pure]
    exact h1

theorem gasIgnite_inv {Ln Lu : Prop} {A : Nat} {w0 : World} {x y : Int} (hx : w0.inb x y = true)
    (hs : (w0.cell x y).type ≠ WALL) (t : Element) (w : World) (h : Inv Ln Lu A w0 w) :
    wp (gasIgnite x y t) (fun _ w1 => Inv Ln Lu A w0 w1) w := by
  unfold gasIgnite
  refine wp_forBox _ _ _ ?_ w h
  intro dx _ dy _ w1 h1
  have hib : w1.inb x y = true := (h1.inb x y).trans hx
  simp only [wp_bind, wp_in_bounds, wp_ite, wp_pure, wp_getCell, wp_setCell, h1.2.1.isSome]
  split_ifs with h2 h3 h4 h5
  · exact h1
  · exact h1
  · exact ⟨inb_of_not h3, explode_inv x y 4 w1 h1⟩
  · exact ⟨inb_of_not h3, hib,
      h1.put hib (h1.nwall hib hs) (Good.lit FIRE 12 (by simp) (by omega) (by omega))⟩
  · exact ⟨inb_of_not h3, h1⟩

theorem chlorineRule_inv {Ln Lu : Prop} {A : Nat} {w0 : World} {x y : Int} (w : World)
    (h : Inv Ln Lu A w0 w) :
    wp (chlorineRule x y) (fun _ w1 => Inv Ln Lu A w0 w1) w := by
  unfold chlorineRule
  refine wp_forBox _ _ _ ?_ w h
  intro dx _ dy _ w1 h1
  simp only [wp_bind, wp_in_bounds, wp_ite, wp_pure, wp_getCell, wp_setCell, wp_chance,
    draw_grid, h1.2.1.isSome]
  split_ifs with h2 h3 h4
  · exact h1
  · exact ⟨inb_of_not h2, inb_of_not h2, h1.draw.put (inb_of_not h2) (by simp [h3])
      (Good.lit TOXIC_GAS 25 (by simp) (by omega) (by omega))⟩
  · exact ⟨inb_of_not h2, h1.draw⟩
  · exact ⟨inb_of_not h2, h1⟩

theorem gasDecay_inv {Ln Lu : Prop} {A : Nat} {w0 : World} {x y : Int} (hx : w0.inb x y = true)
    (hs : (w0.cell x y).type ≠ WALL) (hLL : Lu → Ln) (t : Element) (moved : Bool) (w : World)
    (h : Inv Ln Lu A w0 w) :
    wp (gasDecay x y t moved) (fun _ w1 => Inv Ln Lu A w0 w1) w := by
  have hib : w.inb x y = true := (h.inb x y).trans hx
  have hnw := h.nwall hib hs
  have hg := h.good_now hib hnw
  simp only [gasDecay, wp_bind, wp_getCell, wp_setLife, wp_setCell, wp_setUpdated, wp_ite,
    wp_pure, wp_chance, isSome_put, draw_grid, draw_updated, put_updated, h.2.1.isSome,
    h.2.2.1.isSomeU, hib, true_and, cell_put_if, and_self, if_true, put_put_same, draw_put,
    put_inb, draw_inb]
  have hdec : Inv Ln Lu A w0 (w.put x y ⟨(w.cell x y).type, dec32 (w.cell x y).life⟩) ∨
      dec32 (w.cell x y).life ≤ 0 := by
    by_cases hl : dec32 (w.cell x y).life ≤ 0
    · exact Or.inr hl
    · left
      refine h.setLife hib hnw (fun _ => by omega) (fun hl2 ha => ?_) (fun hl2 => ?_)
      · have := hg.2.2.1 hl2 ha
        have h0 := hg.2.1 (hLL hl2)
        rw [dec32_of (by omega)]
        omega
      · have := hg.2.2.2 hl2
        have h0 := hg.2.1 hl2
        rw [dec32_of (by omega)]
        omega
  split_ifs
  all_goals first
    | exact h.draw.draw.put hib hnw (Good.lit _ 0 (by simp) (by omega) (by omega))
    | exact h.draw.put hib hnw (Good.lit _ 0 (by simp) (by omega) (by omega))
    | exact h.put hib hnw (Good.lit _ 0 (by simp) (by omega) (by omega))
    | exact (hdec.resolve_right (by assumption)).mark x y
    | exact hdec.resolve_right (by assumption)

theorem gasRule_inv {Ln Lu : Prop} {A : Nat} {w0 : World} {x y : Int} (hx : w0.inb x y = true)
    (hs : (w0.cell x y).type ≠ WALL) (hLL : Lu → Ln) (t : Element) (w : World)
    (h : Inv Ln Lu A w0 w) :
    wp (gasRule x y t) (fun _ w1 => Inv Ln Lu A w0 w1) w := by
  unfold gasRule
  refine wp_seq (gasMove_inv hx hs t w h) ?_
  intro moved w1 h1
  refine wp_seq (I := fun w2 => Inv Ln Lu A w0 w2)
    (wp_when h1 (fun _ => gasIgnite_inv hx hs t w1 h1)) ?_
  intro _ w2 h2
  refine wp_seq (I := fun w3 => Inv Ln Lu A w0 w3)
    (wp_when h2 (fun _ => chlorineRule_inv w2 h2)) ?_
  intro _ w3 h3
  exact gasDecay_inv hx hs hLL t moved w3 h3

theorem bound_max {a v : Int} {A : Nat} (h : a ≤ 300 + (A : Int)) (hv : v ≤ 300) :
    max a v ≤ 300 + (A : Int) := by
  omega

theorem fireRise_inv {Ln Lu : Prop} {A : Nat} {w0 : World} {x y : Int} (hx : w0.inb x y = true)
    (hs : (w0.cell x y).type ≠ WALL) (w : World) (h : Inv Ln Lu A w0 w) :
    wp (fireRise x y) (fun _ w1 => Inv Ln Lu A w0 w1) w := by
  have hib : w.inb x y = true := (h.inb x y).trans hx
  simp only [fireRise, wp_bind, wp_in_bounds, wp_ite, wp_pure, wp_getCell, wp_chance,
    h.2.1.isSome]
  split_ifs with h1 h2 h3
  · exact ⟨h1, swap_to_inv h.draw hib (h.nwall hib hs) h1 (nw_of_empty_or_gas h2)⟩
  · exact ⟨h1, h.draw⟩
  · exact ⟨h1, h⟩
  · exact h

theorem agent_false_of_wire {t : Element} (h : t = WIRE ∨ t = METAL) : agent t = false := by
  rcases h with h | h <;> subst h <;> rfl

theorem agent_false_of_water {t : Element} (h : t = WATER ∨ t = SALTWATER) :
    agent t = false := by
  rcases h with h | h <;> subst h <;> rfl

theorem nw_of_wire {t : Element} (h : t = WIRE ∨ t = METAL) : t ≠ WALL := by
  rcases h with h | h <;> subst h <;> simp

theorem nw_of_water {t : Element} (h : t = WATER ∨ t = SALTWATER) : t ≠ WALL := by
  rcases h with h | h <;> subst h <;> simp

/-- The ignition block shared by fire and charged conductors: with a draw `c`, a
flammable neighbour explodes (gunpowder, radius `r`) or catches fire. -/
theorem ignite_inv {Ln Lu : Prop} {A : Nat} {w0 : World} (nx ny p r : Int) [Fact (Small r)]
    (w : World)
    (h : Inv Ln Lu A w0 w) (hib2 : w.inb nx ny = true) :
    wp (if flammable (w.cell nx ny).type = true then do
          let c ← chance p
          if c = true then
            if (w.cell nx ny).type = GUNPOWDER then explode nx ny r
            else do
              let k ← rint 0 10
              setCell nx ny ⟨FIRE, 15 + k⟩
          else pure PUnit.unit
        else pure ())
      (fun _ w1 => Inv Ln Lu A w0 w1) w := by
  rw [wp_ite]
  split
  · rename_i hf
    rw [wp_bind, wp_chance, wp_ite]
    split
    · rw [wp_ite]
      split
      · exact explode_inv nx ny r _ h.draw
      · simp only [wp_bind, wp_rint, wp_setCell, draw_grid, h.2.1.isSome, hib2, true_and]
        have hk := roll_bounds w.draw 0 10 (by omega)
        exact h.draw.draw.put hib2 (nw_of_flammable hf)
          (Good.lit FIRE _ (by simp) (by omega) (by omega))
    · exact (wp_pure _ _ _).2 h.draw
  · exact (wp_pure _ _ _).2 h

theorem fireSpread_inv {Ln Lu : Prop} {A : Nat} {w0 : World} {x y : Int} (hx : w0.inb x y = true)
    (hs : (w0.cell x y).type ≠ WALL) (dx dy : Int) (w : World) (h : Inv Ln Lu A w0 w) :
    wp (fireSpread x y dx dy) (fun _ w1 => Inv Ln Lu A w0 w1) w := by
  unfold fireSpread
  rw [wp_ite]
  split
  · exact (wp_pure _ _ _).2 h
  · rw [wp_bind, wp_in_bounds, wp_ite]
    split
    · exact (wp_pure _ _ _).2 h
    · rename_i hb
      have hib2 := inb_of_not hb
      rw [wp_bind, wp_getCell]
      refine ⟨by rw [h.2.1.isSome]; exact hib2, ?_⟩
      refine wp_seq (ignite_inv _ _ 40 5 w h hib2) ?_
      intro _ w1 h1
      have hib : w1.inb x y = true := (h1.inb x y).trans hx
      have hib2' : w1.inb (x + dx) (y + dy) = true :=
        (h1.inb _ _).trans ((h.inb _ _).symm.trans hib2)
      have hnw := h1.nwall hib hs
      simp only [wp_bind, wp_getCell, wp_ite, wp_setCell, wp_setLife, wp_chance, wp_pure,
        isSome_put, draw_grid, draw_cell, h1.2.1.isSome, hib, hib2', true_and, cell_put_if]
      have hsm : Inv Ln Lu A w0 (w1.put x y ⟨SMOKE, 15⟩) :=
        h1.put hib hnw (Good.lit SMOKE 15 (by simp) (by omega) (by omega))
      have hwire : ∀ w2 : World, Inv Ln Lu A w0 w2 →
          ((w2.cell (x + dx) (y + dy)).type = WIRE ∨ (w2.cell (x + dx) (y + dy)).type = METAL) →
          Inv Ln Lu A w0 (w2.draw.put (x + dx) (y + dy)
            ⟨(w2.cell (x + dx) (y + dy)).type, max (w2.cell (x + dx) (y + dy)).life 5⟩) := by
        intro w2 h2 ht
        have hib3 : w2.inb (x + dx) (y + dy) = true :=
          (h2.inb _ _).trans ((h.inb _ _).symm.trans hib2)
        have hg := h2.good_now hib3 (nw_of_wire ht)
        refine h2.draw.setLife hib3 (nw_of_wire ht) (fun _ => le_max_of_le_right (by omega))
          (fun hl ha => ?_) (fun hl => bound_max (hg.2.2.2 hl) (by omega))
        have := hg.2.2.1 hl ha
        exact max_le this (by omega)
      split_ifs with h2 h3 h4 h5 h6
      all_goals first
        | exact hwire _ hsm (by assumption)
        | exact hwire _ h1 (by assumption)
        | exact hsm.draw
        | exact hsm
        | exact h1.draw
        | exact h1
        | skip
      · exact absurd h4 (by simp)
      · exfalso
        rcases h2 with h2 | h2 <;> rcases h6 with h6 | h6 <;> rw [h2] at h6 <;> cases h6

/-- The block `cell.life--; if(cell.life<=0){ cell = c; }` followed by
`updated[y][x]=true`, for a `Good` value `c`. -/
theorem burnOut_inv {Ln Lu : Prop} {A : Nat} {w0 : World} {x y : Int} (hx : w0.inb x y = true)
    (hs : (w0.cell x y).type ≠ WALL) (hLL : Lu → Ln) (c : Cell) (hc : Good Ln Lu A c)
    (w : World) (h : Inv Ln Lu A w0 w) :
    wp (do
        let c0 ← getCell x y
        setLife x y (dec32 c0.life)
        let c1 ← getCell x y
        (if c1.life ≤ 0 then setCell x y c else pure ())
        setUpdated x y)
      (fun _ w1 => Inv Ln Lu A w0 w1) w := by
  have hib : w.inb x y = true := (h.inb x y).trans hx
  have hnw := h.nwall hib hs
  have hg := h.good_now hib hnw
  simp only [wp_bind, wp_getCell, wp_setLife, wp_setCell, wp_setUpdated, wp_ite, wp_pure,
    isSome_put, put_updated, h.2.1.isSome, h.2.2.1.isSomeU, hib, true_and, cell_put_if, and_self,
    if_true, put_put_same, put_inb]
  split_ifs with h1
  · exact (h.put hib hnw hc).mark x y
  · refine (h.setLife hib hnw (fun _ => by omega) (fun hl ha => ?_) (fun hl => ?_)).mark x y
    · have := hg.2.2.1 hl ha
      have h0 := hg.2.1 (hLL hl)
      rw [dec32_of (by omega)]
      omega
    · have := hg.2.2.2 hl
      have h0 := hg.2.1 hl
      rw [dec32_of (by omega)]
      omega

theorem fireRule_inv {Ln Lu : Prop} {A : Nat} {w0 : World} {x y : Int} (hx : w0.inb x y = true)
    (hs : (w0.cell x y).type ≠ WALL) (hLL : Lu → Ln) (w : World) (h : Inv Ln Lu A w0 w) :
    wp (fireRule x y) (fun _ w1 => Inv Ln Lu A w0 w1) w := by
  unfold fireRule
  refine wp_seq (fireRise_inv hx hs w h) ?_
  intro _ w1 h1
  refine wp_seq (I := fun w2 => Inv Ln Lu A w0 w2) ?_ ?_
  · exact wp_forBox _ _ _ (fun dx _ dy _ w2 h2 => fireSpread_inv hx hs dx dy w2 h2) w1 h1
  intro _ w2 h2
  exact burnOut_inv hx hs hLL ⟨SMOKE, 15⟩ (Good.lit SMOKE 15 (by simp) (by omega) (by omega)) w2 h2

theorem boltCell_inv {Ln Lu : Prop} {A : Nat} {w0 : World} (x y dx dy : Int) (w : World)
    (h : Inv Ln Lu A w0 w) :
    wp (boltCell x y dx dy) (fun _ w1 => Inv Ln Lu A w0 w1) w := by
  unfold boltCell
  rw [wp_ite]
  split
  · exact (wp_pure _ _ _).2 h
  · rw [wp_bind, wp_in_bounds, wp_ite]
    split
    · exact (wp_pure _ _ _).2 h
    · rename_i hb
      have hib2 := inb_of_not hb
      have hkeep : ∀ w1, Inv Ln Lu A w0 w1 → w1.inb (x + dx) (y + dy) = true := by
        intro w1 h1
        exact (h1.inb _ _).trans ((h.inb _ _).symm.trans hib2)
      rw [wp_bind, wp_getCell]
      refine ⟨by rw [h.2.1.isSome]; exact hib2, ?_⟩
      have hcharge : ∀ (v : Int) (w1 : World), Inv Ln Lu A w0 w1 → 0 ≤ v → v ≤ 300 →
          (w.cell (x + dx) (y + dy)).type ≠ WALL →
          agent (w.cell (x + dx) (y + dy)).type = false →
          wp (setLife (x + dx) (y + dy) (max (w.cell (x + dx) (y + dy)).life v))
            (fun _ w2 => Inv Ln Lu A w0 w2) w1 := by
        intro v w1 h1 hv0 hv1 hn ha
        have hg := h.good_now hib2 hn
        simp only [wp_setLife, h1.2.1.isSome, hkeep w1 h1, true_and]
        refine h1.setLife (hkeep w1 h1) (h1.nwall (hkeep w1 h1) (h.nw hib2 hn))
          (fun _ => le_max_of_le_right hv0) (fun hl _ => ?_)
          (fun hl => bound_max (hg.2.2.2 hl) hv1)
        exact max_le (hg.2.2.1 hl ha) hv1
      refine wp_seq (I := fun w1 => Inv Ln Lu A w0 w1) (wp_when h (fun ht => ?_)) ?_
      · exact hcharge 12 w h (by omega) (by omega) (nw_of_wire ht) (agent_false_of_wire ht)
      intro _ w1 h1
      refine wp_seq (I := fun w2 => Inv Ln Lu A w0 w2) (wp_when h1 (fun ht => ?_)) ?_
      · exact hcharge 8 w1 h1 (by omega) (by omega) (nw_of_water ht) (agent_false_of_water ht)
      intro _ w2 h2
      refine wp_seq (I := fun w3 => Inv Ln Lu A w0 w3) (wp_when h2 (fun hf => ?_)) ?_
      · rw [wp_ite]
        split
        · exact explode_inv _ _ 6 w2 h2
        · simp only [wp_bind, wp_rint, wp_setCell, draw_grid, h2.2.1.isSome, hkeep w2 h2,
            true_and]
          have hk := roll_bounds w2 0 10 (by omega)
          exact h2.draw.put (hkeep w2 h2) (h2.nwall (hkeep w2 h2) (h.nw hib2 (nw_of_flammable hf)))
            (Good.lit FIRE _ (by simp) (by omega) (by omega))
      intro _ w3 h3
      rw [wp_ite]
      split
      · exact explode_inv _ _ 4 w3 h3
      · exact (wp_pure _ _ _).2 h3

theorem lightningRule_inv {Ln Lu : Prop} {A : Nat} {w0 : World} {x y : Int} (hx : w0.inb x y = true)
    (hs : (w0.cell x y).type ≠ WALL) (hLL : Lu → Ln) (w : World) (h : Inv Ln Lu A w0 w) :
    wp (lightningRule x y) (fun _ w1 => Inv Ln Lu A w0 w1) w := by
  unfold lightningRule
  refine wp_seq (I := fun w2 => Inv Ln Lu A w0 w2) ?_ ?_
  · exact wp_forBox _ _ _ (fun dx _ dy _ w2 h2 => boltCell_inv x y dx dy w2 h2) w h
  intro _ w2 h2
  exact burnOut_inv hx hs hLL ⟨EMPTY, 0⟩ (Good.lit EMPTY 0 (by simp) (by omega) (by omega)) w2 h2

/-- The loop rule for a loop with `break`, with one postcondition for the run that
breaks and the invariant for the run that does not. -/
theorem wp_firstM2 {β : Type} (I Q : World → Prop) (l : List β) (body : β → SimM Bool)
    (hbody : ∀ b ∈ l, ∀ w, I w →
      wp (body b) (fun r w1 => (r = true → Q w1) ∧ (r = false → I w1)) w) :
    ∀ w, I w → wp (firstM l body) (fun r w1 => (r = true → Q w1) ∧ (r = false → I w1)) w := by
  induction l with
  | nil =>
    intro w hw
    exact (wp_pure _ _ _).2 ⟨fun h => absurd h (by simp), fun _ => hw⟩
  | cons b bs ih =>
    intro w hw
    unfold firstM
    rw [wp_bind]
    refine wp_mono (hbody b (List.mem_cons_self _ _) w hw) ?_
    intro r w1 h1
    cases r with
    | true => exact (wp_pure _ _ _).2 ⟨fun _ => h1.1 rfl, fun h => absurd h (by simp)⟩
    | false => exact ih (fun b1 hb1 => hbody b1 (List.mem_cons_of_mem _ hb1)) w1 (h1.2 rfl)

theorem walk_try_inv {Ln Lu : Prop} {A : Nat} {w0 : World} {x y : Int} (hx : w0.inb x y = true)
    (hs : (w0.cell x y).type ≠ WALL) (tx ty : Int) (w : World) (h : Inv Ln Lu A w0 w) :
    wp (walk_try x y tx ty) (fun _ w1 => Inv Ln Lu A w0 w1) w := by
  have hib : w.inb x y = true := (h.inb x y).trans hx
  have hnw := h.nwall hib hs
  simp only [walk_try, wp_bind, wp_in_bounds, wp_ite, wp_pure, wp_getCell, wp_setCell,
    isSome_put, h.2.1.isSome, hib, true_and]
  split_ifs with h1 h2
  · exact h
  · have hn2 := nw_of_empty_or_gas h2
    exact ⟨inb_of_not h1, inb_of_not h1,
      (h.put (inb_of_not h1) hn2 (h.good_now hib hnw)).put hib
        (put_cell_nw hnw (h.good_now hib hnw).1) (h.good_now (inb_of_not h1) hn2)⟩
  · exact ⟨inb_of_not h1, h⟩

theorem agentFall_inv {Ln Lu : Prop} {A : Nat} {w0 : World} {x y : Int} (hx : w0.inb x y = true)
    (hs : (w0.cell x y).type ≠ WALL) (w : World) (h : Inv Ln Lu A w0 w) :
    wp (agentFall x y) (fun _ w1 => Inv Ln Lu A w0 w1) w := by
  have hib : w.inb x y = true := (h.inb x y).trans hx
  simp only [agentFall, wp_bind, wp_in_bounds, wp_ite, wp_pure, wp_getCell, h.2.1.isSome]
  split_ifs with h1 h2
  · exact h
  · exact ⟨inb_of_not h1,
      swap_to_inv h hib (h.nwall hib hs) (inb_of_not h1) (nw_of_empty_or_gas h2)⟩
  · exact ⟨inb_of_not h1, h⟩

theorem seek_inv {Ln Lu : Prop} {A : Nat} {w0 : World} (x y : Int) (target : Element) (w : World)
    (h : Inv Ln Lu A w0 w) :
    wp (seek x y target) (fun _ w1 => Inv Ln Lu A w0 w1) w := by
  unfold seek
  refine wp_findM _ _ _ ?_ w h
  intro ry _ w1 h1
  refine wp_findM _ _ _ ?_ w1 h1
  intro rx _ w2 h2
  simp only [wp_bind, wp_in_bounds, wp_ite, wp_pure, wp_getCell, h2.2.1.isSome]
  split_ifs with h3 h4
  · exact h2
  · exact ⟨inb_of_not h3, h2⟩
  · exact ⟨inb_of_not h3, h2⟩

/-- The condition of the hop reads only (and may draw); when it holds, the cell above
the agent is in bounds and `EMPTY`. -/
theorem hopReady_inv {Ln Lu : Prop} {A : Nat} {w0 : World} {x y : Int} (hx : w0.inb x y = true)
    (dir : Int) (w : World) (h : Inv Ln Lu A w0 w) :
    wp (hopReady x y dir) (fun r w1 => Inv Ln Lu A w0 w1 ∧
      (r = true → w1.inb x (y - 1) = true ∧ empty (w1.cell x (y - 1)) = true)) w := by
  have hib : w.inb x y = true := (h.inb x y).trans hx
  have hup : w.inb (x + dir) (y - 1) = true → w.inb x (y - 1) = true := by
    intro h1
    unfold World.inb at hib h1 ⊢
    simp only [Bool.and_eq_true, decide_eq_true_eq] at hib h1 ⊢
    omega
  simp only [hopReady, wp_bind, wp_in_bounds, wp_ite, wp_pure, wp_getCell, wp_chance,
    h.2.1.isSome]
  split_ifs with h1 h2 h3
  · exact ⟨h, fun hh => absurd hh (by simp)⟩
  · exact ⟨inb_of_not h1, h, fun hh => absurd hh (by simp)⟩
  · exact ⟨inb_of_not h1, hup (inb_of_not h1), h, fun hh => absurd hh (by simp)⟩
  · refine ⟨inb_of_not h1, hup (inb_of_not h1), h.draw, fun _ => ⟨hup (inb_of_not h1), ?_⟩⟩
    simpa using h3

theorem agentStep_inv {Ln Lu : Prop} {A : Nat} {w0 : World} {x y : Int} (hx : w0.inb x y = true)
    (hs : (w0.cell x y).type ≠ WALL) (dir : Int) (w : World) (h : Inv Ln Lu A w0 w) :
    wp (agentStep x y dir) (fun _ w1 => Inv Ln Lu A w0 w1) w := by
  unfold agentStep
  refine wp_seq (walk_try_inv hx hs _ _ w h) ?_
  intro walked w1 h1
  rw [wp_ite]
  split
  · rw [wp_bind]
    refine wp_mono (hopReady_inv hx dir w1 h1) ?_
    intro hop w2 ⟨h2, hh⟩
    have hib : w2.inb x y = true := (h2.inb x y).trans hx
    have hnw := h2.nwall hib hs
    cases hop
    · simp only [Bool.false_eq_true, if_false, wp_bind, wp_rint]
      refine wp_mono (walk_try_inv hx hs _ _ _ h2.draw) ?_
      intro _ w3 h3
      exact (wp_pure _ _ _).2 h3
    · obtain ⟨hib2, he⟩ := hh rfl
      simp only [if_true, wp_bind, wp_getCell, wp_setCell, isSome_put, h2.2.1.isSome, hib, hib2,
        true_and]
      exact (h2.put hib2 (nw_of_empty he) (h2.good_now hib hnw)).put hib
        (put_cell_nw hnw (h2.good_now hib hnw).1) (h2.good_now hib2 (nw_of_empty he))
  · exact (wp_pure _ _ _).2 h1

theorem humanHazard_inv {Ln Lu : Prop} {A : Nat} {w0 : World} {x y : Int} (hx : w0.inb x y = true)
    (hs : (w0.cell x y).type ≠ WALL) (w : World) (h : Inv Ln Lu A w0 w)
    (ht : (w.cell x y).type = HUMAN) :
    wp (humanHazard x y) (fun r w1 => (r = true → Inv Ln Lu A w0 w1) ∧
      (r = false → Inv Ln Lu A w0 w1 ∧ (w1.cell x y).type = HUMAN)) w := by
  unfold humanHazard
  refine wp_firstM2 (fun w1 => Inv Ln Lu A w0 w1 ∧ (w1.cell x y).type = HUMAN)
    (fun w1 => Inv Ln Lu A w0 w1) _ _ ?_ w ⟨h, ht⟩
  intro dy _ w1 h1
  refine wp_firstM2 (fun w1 => Inv Ln Lu A w0 w1 ∧ (w1.cell x y).type = HUMAN)
    (fun w1 => Inv Ln Lu A w0 w1) _ _ ?_ w1 h1
  intro dx _ w2 h2
  have hib : w2.inb x y = true := (h2.1.inb x y).trans hx
  simp only [wp_bind, wp_in_bounds, wp_ite, wp_pure, wp_getCell, wp_setCell, h2.1.2.1.isSome]
  split_ifs with h3 h4
  · exact ⟨fun hh => absurd hh (by simp), fun _ => h2⟩
  · exact ⟨inb_of_not h3, hib, fun _ => h2.1.put hib (h2.1.nwall hib hs)
      (Good.lit ASH 0 (by simp) (by omega) (by omega)), fun hh => absurd hh (by simp)⟩
  · exact ⟨inb_of_not h3, fun hh => absurd hh (by simp), fun _ => h2⟩

theorem humanAttack_inv {Ln Lu : Prop} {A : Nat} {w0 : World} (x y : Int) (w : World)
    (h : Inv Ln Lu A w0 w) :
    wp (humanAttack x y) (fun _ w1 => Inv Ln Lu A w0 w1) w := by
  unfold humanAttack
  refine wp_forBox _ _ _ ?_ w h
  intro dx _ dy _ w1 h1
  simp only [wp_bind, wp_in_bounds, wp_ite, wp_pure, wp_getCell, wp_setCell, wp_chance, wp_rint,
    draw_grid, h1.2.1.isSome]
  split_ifs with h2 h3 h4 h5 h6
  · exact h1
  · exact h1
  · have hk := roll_bounds w1.draw.draw 0 10 (by omega)
    exact ⟨inb_of_not h3, inb_of_not h3, h1.draw.draw.draw.put (inb_of_not h3) (by simp [h4])
      (Good.lit FIRE _ (by simp) (by omega) (by omega))⟩
  · exact ⟨inb_of_not h3, inb_of_not h3, h1.draw.draw.put (inb_of_not h3) (by simp [h4])
      (Good.lit ASH 0 (by simp) (by omega) (by omega))⟩
  · exact ⟨inb_of_not h3, h1.draw⟩
  · exact ⟨inb_of_not h3, h1⟩

theorem humanRule_inv {Ln Lu : Prop} {A : Nat} {w0 : World} {x y : Int} (hx : w0.inb x y = true)
    (hs : (w0.cell x y).type ≠ WALL) (hA : Ln → 300 + (A : Int) < 2147483647) (w : World)
    (h : Inv Ln Lu A w0 w) (ht : (w.cell x y).type = HUMAN) :
    wp (humanRule x y) (fun _ w1 => Inv Ln Lu (A + 1) w0 w1) w := by
  unfold humanRule
  rw [wp_bind]
  refine wp_mono (humanHazard_inv hx hs w h ht) ?_
  intro killed w1 h1
  cases killed
  · obtain ⟨h2, ht2⟩ := h1.2 rfl
    have hib : w1.inb x y = true := (h2.inb x y).trans hx
    have hnw := h2.nwall hib hs
    have hg := h2.good_now hib hnw
    simp only [Bool.false_eq_true, if_false]
    rw [wp_bind, wp_getCell]
    refine ⟨by rw [h2.2.1.isSome]; exact hib, ?_⟩
    refine wp_seq (I := fun w2 => Inv Ln Lu (A + 1) w0 w2) ?_ ?_
    · simp only [wp_setLife, h2.2.1.isSome, hib, true_and]
      have hinc : Ln → inc32 (w1.cell x y).life = (w1.cell x y).life + 1 := by
        intro hl
        have h3 := hg.2.2.2 hl
        have h4 := hA hl
        exact inc32_of (by omega)
      refine (h2.widen (Nat.le_succ A)).setLife hib hnw (fun hl => ?_) (fun _ ha => ?_)
        (fun hl => ?_)
      · have := hg.2.1 hl
        rw [hinc hl]
        omega
      · rw [ht2] at ha
        cases ha
      · have := hg.2.2.2 hl
        rw [hinc hl]
        push_cast
        omega
    intro _ w2 h3
    refine wp_seq (agentFall_inv hx hs w2 h3) ?_
    intro fell w3 h4
    cases fell
    · simp only [Bool.false_eq_true, if_false]
      refine wp_seq (seek_inv x y ZOMBIE w3 h4) ?_
      intro seen w4 h5
      refine wp_seq (humanAttack_inv x y w4 h5) ?_
      intro _ w5 h6
      rw [wp_bind, wp_rint]
      refine wp_seq (agentStep_inv hx hs _ _ h6.draw) ?_
      intro _ w6 h7
      simp only [wp_setUpdated, h7.2.2.1.isSomeU, (h7.inb x y).trans hx, true_and]
      exact h7.mark x y
    · simp only [if_true]
      exact (wp_pure _ _ _).2 h4
  · have h2 := (h1.1 rfl).widen (Nat.le_succ A)
    simp only [if_true, wp_setUpdated, h2.2.2.1.isSomeU, (h2.inb x y).trans hx, true_and]
    exact h2.mark x y

theorem zombieHazard_inv {Ln Lu : Prop} {A : Nat} {w0 : World} {x y : Int} (hx : w0.inb x y = true)
    (hs : (w0.cell x y).type ≠ WALL) (w : World) (h : Inv Ln Lu A w0 w) :
    wp (zombieHazard x y) (fun _ w1 => Inv Ln Lu A w0 w1) w := by
  unfold zombieHazard
  refine wp_forBox _ _ _ ?_ w h
  intro dx _ dy _ w1 h1
  have hib : w1.inb x y = true := (h1.inb x y).trans hx
  simp only [wp_bind, wp_in_bounds, wp_ite, wp_pure, wp_getCell, wp_setCell, h1.2.1.isSome]
  split_ifs with h2 h3
  · exact h1
  · exact ⟨inb_of_not h2, hib, h1.put hib (h1.nwall hib hs)
      (Good.lit FIRE 15 (by simp) (by omega) (by omega))⟩
  · exact ⟨inb_of_not h2, h1⟩

theorem zombieAttack_inv {Ln Lu : Prop} {A : Nat} {w0 : World} (x y : Int) (w : World)
    (h : Inv Ln Lu A w0 w) :
    wp (zombieAttack x y) (fun _ w1 => Inv Ln Lu A w0 w1) w := by
  unfold zombieAttack
  refine wp_forBox _ _ _ ?_ w h
  intro dx _ dy _ w1 h1
  simp only [wp_bind, wp_in_bounds, wp_ite, wp_pure, wp_getCell, wp_setCell, wp_chance,
    draw_grid, h1.2.1.isSome]
  split_ifs with h2 h3 h4 h5
  · exact h1
  · exact h1
  · exact ⟨inb_of_not h3, inb_of_not h3, h1.draw.put (inb_of_not h3) (by simp [h4])
      (Good.lit ZOMBIE 0 (by simp) (by omega) (by omega))⟩
  · exact ⟨inb_of_not h3, inb_of_not h3, h1.draw.put (inb_of_not h3) (by simp [h4])
      (Good.lit FIRE 10 (by simp) (by omega) (by omega))⟩
  · exact ⟨inb_of_not h3, h1⟩

theorem zombieRule_inv {Ln Lu : Prop} {A : Nat} {w0 : World} {x y : Int} (hx : w0.inb x y = true)
    (hs : (w0.cell x y).type ≠ WALL) (hA : Ln → 300 + (A : Int) < 2147483647) (w : World)
    (h : Inv Ln Lu A w0 w) :
    wp (zombieRule x y) (fun _ w1 => Inv Ln Lu (A + 1) w0 w1) w := by
  unfold zombieRule
  refine wp_seq (zombieHazard_inv hx hs w h) ?_
  intro _ w1 h1
  have hib : w1.inb x y = true := (h1.inb x y).trans hx
  have hnw := h1.nwall hib hs
  have hg := h1.good_now hib hnw
  rw [wp_bind, wp_getCell]
  refine ⟨by rw [h1.2.1.isSome]; exact hib, ?_⟩
  rw [wp_ite]
  split
  · simp only [wp_setUpdated, h1.2.2.1.isSomeU, hib, true_and]
    exact (h1.widen (Nat.le_succ A)).mark x y
  · rename_i hz
    have hz2 : (w1.cell x y).type = ZOMBIE := not_not.1 hz
    refine wp_seq (I := fun w2 => Inv Ln Lu (A + 1) w0 w2) ?_ ?_
    · simp only [wp_setLife, h1.2.1.isSome, hib, true_and]
      have hinc : Ln → inc32 (w1.cell x y).life = (w1.cell x y).life + 1 := by
        intro hl
        have h3 := hg.2.2.2 hl
        have h4 := hA hl
        exact inc32_of (by omega)
      refine (h1.widen (Nat.le_succ A)).setLife hib hnw (fun hl => ?_) (fun _ ha => ?_)
        (fun hl => ?_)
      · have := hg.2.1 hl
        rw [hinc hl]
        omega
      · rw [hz2] at ha
        cases ha
      · have := hg.2.2.2 hl
        rw [hinc hl]
        push_cast
        omega
    intro _ w2 h3
    refine wp_seq (agentFall_inv hx hs w2 h3) ?_
    intro fell w3 h4
    cases fell
    · simp only [Bool.false_eq_true, if_false]
      refine wp_seq (seek_inv x y HUMAN w3 h4) ?_
      intro seen w4 h5
      refine wp_seq (zombieAttack_inv x y w4 h5) ?_
      intro _ w5 h6
      refine wp_seq (I := fun w6 => Inv Ln Lu (A + 1) w0 w6) ?_ ?_
      · cases seen with
        | none =>
          simp only [wp_bind, wp_rint, wp_pure]
          exact h6.draw
        | some p =>
          exact (wp_pure _ _ _).2 h6
      intro dir w6 h7
      refine wp_seq (agentStep_inv hx hs _ _ h7) ?_
      intro _ w7 h8
      simp only [wp_setUpdated, h8.2.2.1.isSomeU, (h8.inb x y).trans hx, true_and]
      exact h8.mark x y
    · simp only [if_true]
      exact (wp_pure _ _ _).2 h4

/-- The scan for water next to wet dirt reads only. -/
theorem nearWater_inv {Ln Lu : Prop} {A : Nat} {w0 : World} (x y : Int) (w : World)
    (h : Inv Ln Lu A w0 w) :
    wp (nearWater x y) (fun _ w1 => Inv Ln Lu A w0 w1) w := by
  unfold nearWater
  refine wp_firstM _ _ _ ?_ w h
  intro dy _ w1 h1
  refine wp_firstM _ _ _ ?_ w1 h1
  intro dx _ w2 h2
  simp only [wp_bind, wp_in_bounds, wp_ite, wp_pure, wp_getCell, h2.2.1.isSome]
  split_ifs with h3
  · exact h2
  · exact ⟨inb_of_not h3, h2⟩

theorem wetDirtRule_inv {Ln Lu : Prop} {A : Nat} {w0 : World} {x y : Int} (hx : w0.inb x y = true)
    (hs : (w0.cell x y).type ≠ WALL) (hLL : Lu → Ln) (w : World) (h : Inv Ln Lu A w0 w) :
    wp (wetDirtRule x y) (fun _ w1 => Inv Ln Lu A w0 w1) w := by
  unfold wetDirtRule
  refine wp_seq (nearWater_inv x y w h) ?_
  intro nw w1 h1
  have hib : w1.inb x y = true := (h1.inb x y).trans hx
  have hnw := h1.nwall hib hs
  have hg := h1.good_now hib hnw
  simp only [wp_bind, wp_getCell, wp_setLife, wp_setCell, wp_setUpdated, wp_ite, wp_pure,
    isSome_put, put_updated, h1.2.1.isSome, h1.2.2.1.isSomeU, hib, true_and, cell_put_if,
    and_self, if_true, put_put_same, put_inb]
  split_ifs with h2 h3
  · exact (h1.put hib hnw (Good.lit DIRT 0 (by simp) (by omega) (by omega))).mark x y
  · refine (h1.setLife hib hnw (fun _ => by omega) (fun hl ha => ?_) (fun hl => ?_)).mark x y
    · have := hg.2.2.1 hl ha
      have h0 := hg.2.1 (hLL hl)
      rw [dec32_of (by omega)]
      omega
    · have := hg.2.2.2 hl
      have h0 := hg.2.1 hl
      rw [dec32_of (by omega)]
      omega
  · exact h1.mark x y

theorem catchFire_inv {Ln Lu : Prop} {A : Nat} {w0 : World} {x y : Int} (hx : w0.inb x y = true)
    (hs : (w0.cell x y).type ≠ WALL) (l : Int) (hl0 : 0 ≤ l) (hl1 : l ≤ 300) (w : World)
    (h : Inv Ln Lu A w0 w) :
    wp (catchFire x y l) (fun _ w1 => Inv Ln Lu A w0 w1) w := by
  unfold catchFire
  refine wp_forBox _ _ _ ?_ w h
  intro dx _ dy _ w1 h1
  have hib : w1.inb x y = true := (h1.inb x y).trans hx
  simp only [wp_bind, wp_in_bounds, wp_ite, wp_pure, wp_getCell, wp_setCell, h1.2.1.isSome]
  split_ifs with h2 h3 h4
  · exact h1
  · exact h1
  · exact ⟨inb_of_not h3, hib, h1.put hib (h1.nwall hib hs) (Good.lit FIRE l (by simp) hl0 hl1)⟩
  · exact ⟨inb_of_not h3, h1⟩

theorem plantGrow_inv {Ln Lu : Prop} {A : Nat} {w0 : World} (x y : Int) (w : World)
    (h : Inv Ln Lu A w0 w) :
    wp (plantGrow x y) (fun _ w1 => Inv Ln Lu A w0 w1) w := by
  simp only [plantGrow, wp_bind, wp_in_bounds, wp_ite, wp_pure, wp_getCell, wp_setCell,
    wp_chance, draw_grid, draw_inb, draw_cell, h.2.1.isSome]
  split_ifs with h1 h2 h3 h4 h5
  all_goals first
    | exact ⟨h1, h4, h4, h.draw.put h4 (nw_of_empty h5)
        (Good.lit PLANT 0 (by simp) (by omega) (by omega))⟩
    | exact ⟨h1, h4, h.draw⟩
    | exact ⟨h1, h.draw⟩
    | exact ⟨h1, h⟩
    | exact h
    | (exfalso; simp_all)

theorem weedGrow_inv {Ln Lu : Prop} {A : Nat} {w0 : World} (x y : Int) (w : World)
    (h : Inv Ln Lu A w0 w) :
    wp (weedGrow x y) (fun _ w1 => Inv Ln Lu A w0 w1) w := by
  simp only [weedGrow, wp_bind, wp_in_bounds, wp_ite, wp_pure, wp_getCell, wp_setCell,
    wp_chance, draw_grid, draw_inb, draw_cell, h.2.1.isSome]
  split_ifs with h1 h2 h3 h4 h5
  all_goals first
    | exact ⟨h1, h1, h1, h1, h.draw.put h1 (nw_of_water (by assumption))
        (Good.lit SEAWEED 0 (by simp) (by omega) (by omega))⟩
    | exact ⟨h1, h1, h1, h.draw⟩
    | exact ⟨h1, h1, h.draw⟩
    | exact ⟨h1, h1, h⟩
    | exact ⟨h1, h⟩
    | exact h
    | (exfalso; simp_all)

theorem plantRule_inv {Ln Lu : Prop} {A : Nat} {w0 : World} {x y : Int} (hx : w0.inb x y = true)
    (hs : (w0.cell x y).type ≠ WALL) (t : Element) (w : World) (h : Inv Ln Lu A w0 w) :
    wp (plantRule x y t) (fun _ w1 => Inv Ln Lu A w0 w1) w := by
  unfold plantRule
  refine wp_seq (catchFire_inv hx hs 20 (by omega) (by omega) w h) ?_
  intro _ w1 h1
  have hib : w1.inb x y = true := (h1.inb x y).trans hx
  rw [wp_bind, wp_getCell]
  refine ⟨by rw [h1.2.1.isSome]; exact hib, ?_⟩
  rw [wp_ite]
  split
  · simp only [wp_setUpdated, h1.2.2.1.isSomeU, hib, true_and]
    exact h1.mark x y
  · refine wp_seq (I := fun w2 => Inv Ln Lu A w0 w2) ?_ ?_
    · rw [wp_ite]
      split
      · exact plantGrow_inv x y w1 h1
      · exact weedGrow_inv x y w1 h1
    intro _ w2 h2
    simp only [wp_setUpdated, h2.2.2.1.isSomeU, (h2.inb x y).trans hx, true_and]
    exact h2.mark x y

theorem woodRule_inv {Ln Lu : Prop} {A : Nat} {w0 : World} {x y : Int} (hx : w0.inb x y = true)
    (hs : (w0.cell x y).type ≠ WALL) (t : Element) (w : World) (h : Inv Ln Lu A w0 w) :
    wp (woodRule x y t) (fun _ w1 => Inv Ln Lu A w0 w1) w := by
  unfold woodRule
  refine wp_seq (I := fun w2 => Inv Ln Lu A w0 w2) ?_ ?_
  · split
    · exact catchFire_inv hx hs 35 (by omega) (by omega) w h
    · exact catchFire_inv hx hs 25 (by omega) (by omega) w h
  intro _ w2 h2
  simp only [wp_setUpdated, h2.2.2.1.isSomeU, (h2.inb x y).trans hx, true_and]
  exact h2.mark x y

theorem gunpowderRule_inv {Ln Lu : Prop} {A : Nat} {w0 : World} {x y : Int} (hx : w0.inb x y = true)
    (w : World) (h : Inv Ln Lu A w0 w) :
    wp (gunpowderRule x y) (fun _ w1 => Inv Ln Lu A w0 w1) w := by
  unfold gunpowderRule
  refine wp_seq (I := fun w2 => Inv Ln Lu A w0 w2) ?_ ?_
  · refine wp_forEach _ _ _ ?_ w h
    intro dy _ w1 h1
    refine wp_seq (I := fun w2 => Inv Ln Lu A w0 w2) ?_ (fun _ w2 h2 => (wp_pure _ _ _).2 h2)
    refine wp_firstM _ _ _ ?_ w1 h1
    intro dx _ w2 h2
    simp only [wp_bind, wp_in_bounds, wp_ite, wp_pure, wp_getCell, h2.2.1.isSome]
    split_ifs with h3 h4 h5
    · exact h2
    · exact h2
    · refine ⟨inb_of_not h4, ?_⟩
      refine wp_mono (explode_inv x y 5 w2 h2) ?_
      intro _ w3 h3
      exact h3
    · exact ⟨inb_of_not h4, h2⟩
  intro _ w2 h2
  simp only [wp_setUpdated, h2.2.2.1.isSomeU, (h2.inb x y).trans hx, true_and]
  exact h2.mark x y

/-- The ignition block of a charged conductor for a neighbour whose kind was `ne`. -/
theorem igniteAt_inv {Ln Lu : Prop} {A : Nat} {w0 : World} (nx ny p r : Int) [Fact (Small r)]
    (ne : Element)
    (hx2 : w0.inb nx ny = true) (hs2 : flammable ne = true → (w0.cell nx ny).type ≠ WALL)
    (w : World) (h : Inv Ln Lu A w0 w) :
    wp (if flammable ne = true then do
          let c ← chance p
          if c = true then
            if ne = GUNPOWDER then explode nx ny r
            else do
              let k ← rint 0 10
              setCell nx ny ⟨FIRE, 15 + k⟩
          else pure PUnit.unit
        else pure ())
      (fun _ w1 => Inv Ln Lu A w0 w1) w := by
  have hib2 : w.inb nx ny = true := (h.inb nx ny).trans hx2
  rw [wp_ite]
  split
  · rename_i hf
    rw [wp_bind, wp_chance, wp_ite]
    split
    · rw [wp_ite]
      split
      · exact explode_inv nx ny r _ h.draw
      · simp only [wp_bind, wp_rint, wp_setCell, draw_grid, h.2.1.isSome, hib2, true_and]
        have hk := roll_bounds w.draw 0 10 (by omega)
        exact h.draw.draw.put hib2 (h.nwall hib2 (hs2 hf))
          (Good.lit FIRE _ (by simp) (by omega) (by omega))
    · exact (wp_pure _ _ _).2 h.draw
  · exact (wp_pure _ _ _).2 h

theorem conductCell_inv {Ln Lu : Prop} {A : Nat} {w0 : World} (x y q dx dy : Int) (hq0 : 0 ≤ q - 1)
    (hq1 : Lu → q - 1 ≤ 300) (hq2 : Ln → q - 1 ≤ 300 + (A : Int)) (w : World)
    (h : Inv Ln Lu A w0 w) :
    wp (conductCell x y q dx dy) (fun _ w1 => Inv Ln Lu A w0 w1) w := by
  unfold conductCell
  rw [wp_ite]
  split
  · exact (wp_pure _ _ _).2 h
  · rw [wp_bind, wp_in_bounds, wp_ite]
    split
    · exact (wp_pure _ _ _).2 h
    · rename_i hb
      have hib2 := inb_of_not hb
      have hx2 : w0.inb (x + dx) (y + dy) = true := (h.inb _ _).symm.trans hib2
      have hkeep : ∀ w1, Inv Ln Lu A w0 w1 → w1.inb (x + dx) (y + dy) = true :=
        fun w1 h1 => (h1.inb _ _).trans hx2
      rw [wp_bind, wp_getCell]
      refine ⟨by rw [h.2.1.isSome]; exact hib2, ?_⟩
      have hcharge : ∀ (w1 : World), Inv Ln Lu A w0 w1 →
          (w.cell (x + dx) (y + dy)).type ≠ WALL →
          wp (if (w.cell (x + dx) (y + dy)).life < q - 1 then setLife (x + dx) (y + dy) (q - 1)
              else pure ())
            (fun _ w2 => Inv Ln Lu A w0 w2) w1 := by
        intro w1 h1 hn
        refine wp_when h1 (fun _ => ?_)
        simp only [wp_setLife, h1.2.1.isSome, hkeep w1 h1, true_and]
        exact h1.setLife (hkeep w1 h1) (h1.nwall (hkeep w1 h1) (h.nw hib2 hn))
          (fun _ => hq0) (fun hl _ => hq1 hl) hq2
      refine wp_seq (I := fun w1 => Inv Ln Lu A w0 w1)
        (wp_when h (fun ht => hcharge w h (nw_of_wire ht))) ?_
      intro _ w1 h1
      refine wp_seq (I := fun w2 => Inv Ln Lu A w0 w2)
        (wp_when h1 (fun ht => hcharge w1 h1 (nw_of_water ht))) ?_
      intro _ w2 h2
      refine wp_seq (igniteAt_inv _ _ 15 5 _ hx2 (fun hf => h.nw hib2 (nw_of_flammable hf))
        w2 h2) ?_
      intro _ w3 h3
      simp only [wp_bind, wp_getCell, wp_ite, wp_chance, wp_pure, h3.2.1.isSome, hkeep w3 h3,
        true_and]
      split_ifs
      · exact explode_inv _ _ 4 _ h3.draw
      · exact h3.draw
      · exact h3

theorem wireRule_inv {Ln Lu : Prop} {A : Nat} {w0 : World} {x y : Int} (hx : w0.inb x y = true)
    (hs : (w0.cell x y).type ≠ WALL) (w : World) (h : Inv Ln Lu A w0 w)
    (ht : (w.cell x y).type = WIRE ∨ (w.cell x y).type = METAL) :
    wp (wireRule x y) (fun _ w1 => Inv Ln Lu A w0 w1) w := by
  have hib : w.inb x y = true := (h.inb x y).trans hx
  have hnw := h.nwall hib hs
  have hg := h.good_now hib hnw
  unfold wireRule
  rw [wp_bind, wp_getCell]
  refine ⟨by rw [h.2.1.isSome]; exact hib, ?_⟩
  refine wp_seq (I := fun w1 => Inv Ln Lu A w0 w1) (wp_when h (fun hpos => ?_)) ?_
  · refine wp_seq (I := fun w1 => Inv Ln Lu A w0 w1) ?_ ?_
    · refine wp_forBox _ _ _ ?_ w h
      intro dx _ dy _ w1 h1
      refine conductCell_inv x y _ dx dy (by omega) (fun hl => ?_) (fun hl => ?_) w1 h1
      · have := hg.2.2.1 hl (agent_false_of_wire ht)
        omega
      · have := hg.2.2.2 hl
        omega
    · intro _ w1 h1
      exact decFloor_inv hx hs w1 h1
  intro _ w2 h2
  simp only [wp_setUpdated, h2.2.2.1.isSomeU, (h2.inb x y).trans hx, true_and]
  exact h2.mark x y

theorem iceRule_inv {Ln Lu : Prop} {A : Nat} {w0 : World} {x y : Int} (hx : w0.inb x y = true)
    (hs : (w0.cell x y).type ≠ WALL) (w : World) (h : Inv Ln Lu A w0 w) :
    wp (iceRule x y) (fun _ w1 => Inv Ln Lu A w0 w1) w := by
  unfold iceRule
  refine wp_seq (I := fun w1 => Inv Ln Lu A w0 w1) ?_ ?_
  · refine wp_forBox _ _ _ ?_ w h
    intro dx _ dy _ w1 h1
    have hib : w1.inb x y = true := (h1.inb x y).trans hx
    simp only [wp_bind, wp_in_bounds, wp_ite, wp_pure, wp_getCell, wp_setCell, wp_chance,
      draw_grid, h1.2.1.isSome]
    split_ifs with h2 h3 h4
    · exact h1
    · exact ⟨inb_of_not h2, hib, h1.draw.put hib (h1.nwall hib hs)
        (Good.lit WATER 0 (by simp) (by omega) (by omega))⟩
    · exact ⟨inb_of_not h2, h1.draw⟩
    · exact ⟨inb_of_not h2, h1⟩
  intro _ w2 h2
  simp only [wp_setUpdated, h2.2.2.1.isSomeU, (h2.inb x y).trans hx, true_and]
  exact h2.mark x y

theorem wp_allocUpdated (Q : Unit → World → Prop) (w : World) :
    wp allocUpdated Q w ↔
      Q () { w with updated :=
        List.replicate w.gHeight.toNat (List.replicate w.gWidth.toNat false) } := by
  constructor
  · rintro ⟨a1, w1, h, hq⟩
    cases h
    exact hq
  · intro h
    exact ⟨_, _, rfl, h⟩

/-- Case split on the condition of a branch. -/
theorem wp_cases {α : Type} {c : Prop} [Decidable c] {m1 m2 : SimM α} {Q : α → World → Prop}
    {w : World} (h1 : c → wp m1 Q w) (h2 : ¬ c → wp m2 Q w) :
    wp (if c then m1 else m2) Q w := by
  by_cases hc : c
  · rw [if_pos hc]
    exact h1 hc
  · rw [if_neg hc]
    exact h2 hc

/-- The visit of one in-bounds cell keeps the invariant of the tick, with one more
increment `life++` counted. -/
theorem visit_inv {Ln Lu : Prop} {A : Nat} {w0 : World} {x y : Int} (hx : w0.inb x y = true)
    (hLL : Lu → Ln) (hA : Ln → 300 + (A : Int) < 2147483647) (w : World)
    (h : Inv Ln Lu A w0 w) :
    wp (visit x y) (fun _ w1 => Inv Ln Lu (A + 1) w0 w1) w := by
  have hib : w.inb x y = true := (h.inb x y).trans hx
  have up : ∀ {m : SimM Unit}, wp m (fun _ w1 => Inv Ln Lu A w0 w1) w →
      wp m (fun _ w1 => Inv Ln Lu (A + 1) w0 w1) w :=
    fun hm => wp_mono hm (fun _ _ h1 => h1.widen (Nat.le_succ A))
  unfold visit
  rw [wp_bind, wp_getUpdated]
  refine ⟨by rw [h.2.2.1.isSomeU]; exact hib, ?_⟩
  refine wp_cases (fun _ => (wp_pure _ _ _).2 (h.widen (Nat.le_succ A))) (fun _ => ?_)
  rw [wp_bind, wp_getCell]
  refine ⟨by rw [h.2.1.isSome]; exact hib, ?_⟩
  have hmark : wp (setUpdated x y) (fun _ w1 => Inv Ln Lu A w0 w1) w := by
    simp only [wp_setUpdated, h.2.2.1.isSomeU, hib, true_and]
    exact h.mark x y
  refine wp_cases (fun _ => up hmark) (fun hew => ?_)
  have hs : (w0.cell x y).type ≠ WALL := h.nw hib (fun hw => hew (Or.inr hw))
  refine wp_cases (fun _ => up (powderRule_inv hx hs hA _ w h)) (fun _ => ?_)
  refine wp_cases (fun hl => up (liquidRule_inv hx hs hA _ w h hl)) (fun _ => ?_)
  refine wp_cases (fun _ => up (gasRule_inv hx hs hLL _ w h)) (fun _ => ?_)
  refine wp_cases (fun _ => up (fireRule_inv hx hs hLL w h)) (fun _ => ?_)
  refine wp_cases (fun _ => up (lightningRule_inv hx hs hLL w h)) (fun _ => ?_)
  refine wp_cases (fun ht => humanRule_inv hx hs hA w h ht) (fun _ => ?_)
  refine wp_cases (fun _ => zombieRule_inv hx hs hA w h) (fun _ => ?_)
  refine wp_cases (fun _ => up (wetDirtRule_inv hx hs hLL w h)) (fun _ => ?_)
  refine wp_cases (fun _ => up (plantRule_inv hx hs _ w h)) (fun _ => ?_)
  refine wp_cases (fun _ => up (woodRule_inv hx hs _ w h)) (fun _ => ?_)
  refine wp_cases (fun _ => up (gunpowderRule_inv hx w h)) (fun _ => ?_)
  refine wp_cases (fun ht => up (wireRule_inv hx hs w h ht)) (fun _ => ?_)
  exact wp_cases (fun _ => up (iceRule_inv hx hs w h)) (fun _ => up hmark)

/-- A loop whose body advances a counted invariant by `k` advances it by `k` times the
number of iterations. -/
theorem wp_forEach_count {α : Type} (I : Nat → World → Prop) (k : Nat) (xs : List α)
    (body : α → SimM Unit)
    (hbody : ∀ n, n < xs.length → ∀ x ∈ xs, ∀ w, I (k * n) w → wp (body x) (fun _ w1 => I (k * (n + 1)) w1) w)
    (w : World) (h : I 0 w) :
    wp (forEach xs body) (fun _ w1 => I (k * xs.length) w1) w := by
  suffices hs : ∀ (ys : List α) (n : Nat), n + ys.length ≤ xs.length → (∀ x ∈ ys, x ∈ xs) →
      ∀ w, I (k * n) w → wp (forEach ys body) (fun _ w1 => I (k * (n + ys.length)) w1) w by
    have := hs xs 0 (by omega) (fun _ hx => hx) w (by rw [Nat.mul_zero]; exact h)
    rw [Nat.zero_add] at this
    exact this
  intro ys
  induction ys with
  | nil =>
    intro n _ _ w1 h1
    exact (wp_pure _ _ _).2 h1
  | cons y ys ih =>
    intro n hn hmem w1 h1
    unfold forEach
    rw [wp_bind]
    rw [List.length_cons] at hn
    refine wp_mono (hbody n (by omega) y (hmem y (List.mem_cons_self _ _)) w1 h1) ?_
    intro _ w2 h2
    have := ih (n + 1) (by omega) (fun x hx => hmem x (List.mem_cons_of_mem _ hx)) w2 h2
    rw [List.length_cons]
    rw [show n + (ys.length + 1) = n + 1 + ys.length by omega]
    exact this

theorem length_irange (a b : Int) : ((irange a b).length : Int) = max 0 (b - a + 1) := by
  unfold irange
  simp only [List.length_map, List.length_range]
  omega

theorem rect_replicate (wd h : Int) (h0 : 0 ≤ wd) (h1 : 0 ≤ h) :
    ((List.replicate h.toNat (List.replicate wd.toNat false)).length : Int) = h ∧
      ∀ row ∈ List.replicate h.toNat (List.replicate wd.toNat false), (row.length : Int) = wd := by
  constructor
  · simp only [List.length_replicate]
    omega
  · intro row hrow
    rw [List.eq_of_mem_replicate hrow]
    simp only [List.length_replicate]
    omega

/-- The two loops of `step_sim` keep the invariant of the tick; each visit counts as one
increment `life++`. -/
theorem sweep_inv {Ln Lu : Prop} {A : Nat} {w0 : World} (hLL : Lu → Ln)
    (hA : Ln → 300 + (A : Int) + w0.gWidth * w0.gHeight ≤ 2147483647)
    (h0 : 0 ≤ w0.gWidth) (h1 : 0 ≤ w0.gHeight) (w : World) (h : Inv Ln Lu A w0 w) :
    wp (forEach (irange 0 (w0.gHeight - 1)).reverse fun y =>
        forEach (irange 0 (w0.gWidth - 1)) fun x => visit x y)
      (fun _ w1 => Inv Ln Lu (A + w0.gWidth.toNat * w0.gHeight.toNat) w0 w1) w := by
  have hlenW : (irange 0 (w0.gWidth - 1)).length = w0.gWidth.toNat := by
    have := length_irange 0 (w0.gWidth - 1)
    omega
  have hlenH : (irange 0 (w0.gHeight - 1)).reverse.length = w0.gHeight.toNat := by
    have := length_irange 0 (w0.gHeight - 1)
    rw [List.length_reverse]
    omega
  have hprod : (w0.gWidth.toNat : Int) * (w0.gHeight.toNat : Int) = w0.gWidth * w0.gHeight := by
    rw [Int.toNat_of_nonneg h0, Int.toNat_of_nonneg h1]
  have hrows := wp_forEach_count (fun n w1 => Inv Ln Lu (A + n) w0 w1) w0.gWidth.toNat
    (irange 0 (w0.gHeight - 1)).reverse
    (fun y => forEach (irange 0 (w0.gWidth - 1)) fun x => visit x y) ?_ w h
  · rw [hlenH] at hrows
    exact hrows
  intro n hn y hy w1 hw1
  rw [hlenH] at hn
  have hrow := wp_forEach_count
    (fun m w2 => Inv Ln Lu (A + w0.gWidth.toNat * n + m) w0 w2) 1
    (irange 0 (w0.gWidth - 1)) (fun x => visit x y) ?_ w1 hw1
  · rw [hlenW, Nat.one_mul] at hrow
    refine wp_mono hrow ?_
    intro _ w2 h2
    show Inv Ln Lu (A + w0.gWidth.toNat * (n + 1)) w0 w2
    rw [Nat.mul_succ, ← Nat.add_assoc]
    exact h2
  intro m hm x hxm w2 h2
  rw [hlenW] at hm
  rw [Nat.one_mul] at h2 ⊢
  have hy2 := (mem_irange _ _ _).1 (List.mem_reverse.1 hy)
  have hx2 := (mem_irange _ _ _).1 hxm
  refine visit_inv ?_ hLL (fun hl => ?_) w2 h2
  · unfold World.inb
    simp only [Bool.and_eq_true, decide_eq_true_eq]
    omega
  · have := hA hl
    have e1 : ((w0.gWidth.toNat * n + m : Nat) : Int) < w0.gWidth * w0.gHeight := by
      have h3 : w0.gWidth.toNat * n + m < w0.gWidth.toNat * w0.gHeight.toNat := by
        calc w0.gWidth.toNat * n + m < w0.gWidth.toNat * n + w0.gWidth.toNat := by omega
          _ = w0.gWidth.toNat * (n + 1) := by rw [Nat.mul_succ]
          _ ≤ w0.gWidth.toNat * w0.gHeight.toNat := Nat.mul_le_mul_left _ (by omega)
      rw [← hprod]
      exact_mod_cast h3
    show 300 + ((A + w0.gWidth.toNat * n + m : Nat) : Int) < 2147483647
    push_cast at e1 ⊢
    generalize (w0.gWidth.toNat : Int) * (n : Int) = j at e1 ⊢
    generalize w0.gWidth * w0.gHeight = c at e1 this
    omega

/-- A tick returns and keeps the invariant: on every rectangular grid `step_sim` returns
a state `w1` with the same dimensions and a rectangular grid, in which every cell that
was a `WALL` is untouched and every other in-bounds cell is `Good`. When lives are
tracked (`Ln`), they start at most `300 + A`, and the counters must have room for one
increment per cell of the grid. -/
theorem step_sim_inv (Ln Lu : Prop) (A : Nat) (w : World) (hwf : w.WF)
    (hn : Ln → NonNeg w ∧ ∀ x y, w.inb x y = true → (w.cell x y).life ≤ 300 + (A : Int))
    (hu : Lu → Capped w) (hLL : Lu → Ln)
    (hA : Ln → 300 + (A : Int) + w.gWidth * w.gHeight ≤ 2147483647) :
    wp step_sim (fun _ w1 => SameDims w w1 ∧ w1.WF ∧
      ∀ x y, w.inb x y = true →
        ((w.cell x y).type = WALL → w1.cell x y = w.cell x y) ∧
        ((w.cell x y).type ≠ WALL →
          Good Ln Lu (A + w.gWidth.toNat * w.gHeight.toNat) (w1.cell x y))) w := by
  have hgood : ∀ x y, w.inb x y = true → (w.cell x y).type ≠ WALL →
      Good Ln Lu A (w.cell x y) :=
    fun x y hib hnw => ⟨hnw, fun hl => (hn hl).1 x y hib, fun hl => hu hl x y hib,
      fun hl => (hn hl).2 x y hib⟩
  unfold step_sim
  rw [wp_bind, wp_getWidth, wp_bind, wp_getHeight]
  refine wp_cases (fun _ => ?_) (fun hdim => ?_)
  · rw [wp_pure]
    refine ⟨⟨rfl, rfl⟩, hwf, ?_⟩
    intro x y hib
    exact ⟨fun _ => rfl, fun hnw => (hgood x y hib hnw).relax (Nat.le_add_right _ _)⟩
  · rw [wp_bind, wp_allocUpdated]
    have h0 : Inv Ln Lu A w
        { w with updated :=
          List.replicate w.gHeight.toNat (List.replicate w.gWidth.toNat false) } := by
      refine ⟨⟨rfl, rfl⟩, hwf, rect_replicate _ _ (by omega) (by omega), ?_⟩
      intro x y hib
      exact ⟨fun _ => rfl, fun hnw => hgood x y hib hnw⟩
    refine wp_mono (sweep_inv hLL hA (by omega) (by omega) _ h0) ?_
    intro _ w1 h1
    refine ⟨h1.1, h1.2.1, ?_⟩
    intro x y hib
    exact h1.2.2.2 x y ((h1.inb x y).trans hib)

/-! ## Claims -/

theorem cell_oob {w : World} (hwf : w.WF) {x y : Int} (h : w.inb x y = false) :
    w.cell x y = Cell.blank := by
  have h1 := hwf.isSome x y
  rw [h] at h1
  unfold World.cell
  cases hc : at? w.grid x y with
  | none => rfl
  | some c => rw [hc] at h1; cases h1

/-- C1: for every rectangular grid and every random stream, a tick returns, and a cell
that has kind `WALL` before `step_sim` has kind `WALL` and the same life after it. -/
theorem step_sim_wall (w : World) (hwf : w.WF) (x y : Int) (hw : (w.cell x y).type = WALL) :
    wp step_sim (fun _ w1 =>
      (w1.cell x y).type = WALL ∧ (w1.cell x y).life = (w.cell x y).life) w := by
  have hib : w.inb x y = true := by
    cases hb : w.inb x y with
    | true => rfl
    | false =>
      rw [cell_oob hwf hb] at hw
      cases hw
  refine wp_mono (step_sim_inv False False 0 w hwf (fun h => h.elim) (fun h => h.elim)
    (fun h => h.elim) (fun h => h.elim)) ?_
  intro _ w1 ⟨_, _, hc⟩
  rw [(hc x y hib).1 hw]
  exact ⟨hw, rfl⟩

theorem step_sim_wall_witness :
    wallWorld.WF ∧ (wallWorld.cell 1 0).type = WALL ∧
      wp step_sim (fun _ w1 =>
        (w1.cell 1 0).type = WALL ∧ (w1.cell 1 0).life = (wallWorld.cell 1 0).life) wallWorld :=
  ⟨by decide, by decide, step_sim_wall wallWorld (by decide) 1 0 (by decide)⟩

/-- C2 (as stated) fails: a lone `HUMAN` with life 300 has life 301 after one tick. -/
theorem step_sim_life_counterexample :
    oldHuman.WF ∧ (∀ row ∈ oldHuman.grid, ∀ c ∈ row, 0 ≤ c.life ∧ c.life ≤ 300) ∧
      gridAfter step_sim oldHuman = some [[⟨HUMAN, 301⟩]] := by
  decide

/-- C2 (amended): for every rectangular grid of at most `2^31 - 301` cells whose lives
all lie in `[0, 300]` and every random stream, a tick returns, and afterwards every
cell has a life `≥ 0`, and every cell that is not a `HUMAN` or `ZOMBIE` has a life
`≤ 300`. (The bound on the size keeps the `int` counters `cell.life++` of the agents,
incremented at most once per visit, below `INT_MAX`.) -/
theorem step_sim_life (w : World) (hwf : w.WF)
    (hsz : w.gWidth * w.gHeight ≤ 2147483347)
    (hl : ∀ x y, w.inb x y = true → 0 ≤ (w.cell x y).life ∧ (w.cell x y).life ≤ 300) :
    wp step_sim (fun _ w1 => ∀ x y, w1.inb x y = true →
      0 ≤ (w1.cell x y).life ∧
      (agent (w1.cell x y).type = false → (w1.cell x y).life ≤ 300)) w := by
  refine wp_mono (step_sim_inv True True 0 w hwf
    (fun _ => ⟨fun x y hib => (hl x y hib).1, fun x y hib => by
      have := (hl x y hib).2
      omega⟩)
    (fun _ x y hib _ => (hl x y hib).2) (fun h => h) (fun _ => by push_cast; omega)) ?_
  intro _ w1 ⟨hd, _, hc⟩ x y hib1
  have hib : w.inb x y = true := by
    unfold World.inb at hib1 ⊢
    rw [hd.1, hd.2] at hib1
    exact hib1
  by_cases hw : (w.cell x y).type = WALL
  · rw [(hc x y hib).1 hw]
    exact ⟨(hl x y hib).1, fun _ => (hl x y hib).2⟩
  · have hg := (hc x y hib).2 hw
    exact ⟨hg.2.1 trivial, hg.2.2.1 trivial⟩

theorem step_sim_life_witness :
    wallWorld.WF ∧
      wp step_sim (fun _ w1 => ∀ x y, w1.inb x y = true →
        0 ≤ (w1.cell x y).life ∧
        (agent (w1.cell x y).type = false → (w1.cell x y).life ≤ 300)) wallWorld := by
  refine ⟨by decide, step_sim_life wallWorld (by decide) (by decide) ?_⟩
  intro x y hib
  have hb : (0 ≤ x ∧ x < 3) ∧ 0 ≤ y ∧ y < 2 := by
    unfold World.inb at hib
    simp only [Bool.and_eq_true, decide_eq_true_eq] at hib
    exact ⟨⟨hib.1.1.1, hib.1.1.2⟩, hib.1.2, hib.2⟩
  obtain ⟨⟨hx0, hx1⟩, hy0, hy1⟩ := hb
  interval_cases x <;> interval_cases y <;> decide

/-- With a negative radius the loops of `explode` are empty: on a 1x1 `EMPTY` grid
`explode(0,0,-1)` draws nothing and leaves the cell `EMPTY` (no call of the program
passes a negative radius). -/
theorem explode_negative_radius :
    oneEmpty.WF ∧ oneEmpty.inb 0 0 = true ∧ InDisk 0 0 (-1) 0 0 ∧
      blastproof (oneEmpty.cell 0 0).type = false ∧
      outcome (explode 0 0 (-1)) oneEmpty = some ([[⟨EMPTY, 0⟩]], 0) := by
  decide

theorem explode_spec_witness :
    wallWorld.WF ∧ NoOverflow 1 1 1 ∧
      wp (explode 1 1 1) (fun _ w1 =>
        w1.gWidth = wallWorld.gWidth ∧ w1.gHeight = wallWorld.gHeight ∧ w1.WF ∧
        w1.updated = wallWorld.updated ∧ w1.draws = wallWorld.draws ∧
        ∃ κ : Int → Int → Nat,
          (∀ x y,
            ((wallWorld.inb x y = true ∧ InDisk 1 1 1 x y ∧
                blastproof (wallWorld.cell x y).type = false) →
              BlastedAt wallWorld w1 (κ x y) x y ∧ Blasted wallWorld w1 x y) ∧
            (¬ (wallWorld.inb x y = true ∧ InDisk 1 1 1 x y ∧
                blastproof (wallWorld.cell x y).type = false) →
              w1.cell x y = wallWorld.cell x y)) ∧
          ∀ x y a b,
            (wallWorld.inb x y = true ∧ InDisk 1 1 1 x y ∧
                blastproof (wallWorld.cell x y).type = false) →
            (wallWorld.inb a b = true ∧ InDisk 1 1 1 a b ∧
                blastproof (wallWorld.cell a b).type = false) →
            (y < b ∨ (y = b ∧ x < a)) → κ x y < κ a b) wallWorld :=
  ⟨by decide, by unfold NoOverflow; decide,
    explode_spec wallWorld (by decide) 1 1 1 (by unfold NoOverflow; decide)⟩

/-- With a negative radius the loops of `place_brush` are empty: on a 1x1 `EMPTY` grid
`place_brush(0,0,-1,SAND)` leaves the cell `EMPTY` (the program keeps the brush radius
in `1..8`). -/
theorem brush_negative_radius :
    oneEmpty.WF ∧ oneEmpty.inb 0 0 = true ∧ InDisk 0 0 (-1) 0 0 ∧
      outcome (place_brush 0 0 (-1) SAND) oneEmpty = some ([[⟨EMPTY, 0⟩]], 0) := by
  decide

theorem place_brush_spec_witness :
    wallWorld.WF ∧ SAND ≠ LIGHTNING ∧ NoOverflow 4 (-1) 5 ∧
      wp (place_brush 4 (-1) 5 SAND) (fun _ w1 =>
        w1.gWidth = wallWorld.gWidth ∧ w1.gHeight = wallWorld.gHeight ∧ w1.WF ∧
        w1.updated = wallWorld.updated ∧ w1.draws = wallWorld.draws ∧ w1.pos = wallWorld.pos ∧
        ∀ x y,
          ((wallWorld.inb x y = true ∧ InDisk 4 (-1) 5 x y) →
            w1.cell x y = ⟨SAND, if SAND = FIRE then 20 else if gas SAND = true then 25 else 0⟩) ∧
          (¬ (wallWorld.inb x y = true ∧ InDisk 4 (-1) 5 x y) →
            w1.cell x y = wallWorld.cell x y)) wallWorld :=
  ⟨by decide, by decide, by unfold NoOverflow; decide,
    place_brush_spec wallWorld (by decide) 4 (-1) 5 SAND (by decide)
      (by unfold NoOverflow; decide)⟩

/-- C8: for every rectangular grid, `place_brush(cx, cy, rad, LIGHTNING)` returns without a
random draw and keeps dimensions and mask. If `(cx, cy)` is out of bounds the grid is
unchanged. Otherwise there is a row `yEnd ≥ cy`, the largest one such that all cells of column
`cx` in rows `cy+1 .. yEnd` are `EMPTY` or a gas, such that exactly the cells
`(cx, cy) .. (cx, yEnd)` become `LIGHTNING` with life 2, the cell `(cx, yEnd+1)`, if it exists
and is `WATER` or `SALTWATER`, gets life `max(old life, 8)`, and no other cell changes. -/
theorem place_brush_lightning (w : World) (hwf : w.WF) (cx cy rad : Int) :
    wp (place_brush cx cy rad LIGHTNING) (fun _ w1 =>
      w1.gWidth = w.gWidth ∧ w1.gHeight = w.gHeight ∧ w1.WF ∧
      w1.updated = w.updated ∧ w1.draws = w.draws ∧ w1.pos = w.pos ∧
      (w.inb cx cy = false → w1.grid = w.grid) ∧
      (w.inb cx cy = true →
        ∃ yEnd, cy ≤ yEnd ∧ yEnd < w.gHeight ∧
          (∀ y1, cy < y1 → y1 ≤ yEnd → passable (w.cell cx y1) = true) ∧
          (yEnd + 1 < w.gHeight → passable (w.cell cx (yEnd + 1)) = false) ∧
          ∀ x y, w1.cell x y =
            if x = cx ∧ cy ≤ y ∧ y ≤ yEnd then ⟨LIGHTNING, 2⟩
            else if x = cx ∧ y = yEnd + 1 ∧ yEnd + 1 < w.gHeight ∧
                ((w.cell x y).type = WATER ∨ (w.cell x y).type = SALTWATER) then
              ⟨(w.cell x y).type, max (w.cell x y).life 8⟩
            else w.cell x y)) w := by
  cases hin : w.inb cx cy with
  | false =>
    unfold place_brush strike
    rw [if_pos rfl, wp_bind, wp_in_bounds, hin]
    refine wp_cases (fun _ => ?_) (fun h => absurd rfl h)
    rw [wp_pure]
    exact ⟨rfl, rfl, hwf, rfl, rfl, rfl, fun _ => rfl, fun h => absurd h (by simp)⟩
  | true =>
    refine wp_mono (strike_inb w hwf cx cy rad hin) ?_
    intro _ w1 ⟨h1, h2, h3, h4, h5, h6, h7⟩
    exact ⟨h1, h2, h3, h4, h5, h6, fun h => absurd h (by simp), fun _ => h7⟩

theorem place_brush_lightning_witness :
    waterColumn.WF ∧
      wp (place_brush 3 0 0 LIGHTNING) (fun _ w1 =>
        w1.gWidth = waterColumn.gWidth ∧ w1.gHeight = waterColumn.gHeight ∧ w1.WF ∧
        w1.updated = waterColumn.updated ∧ w1.draws = waterColumn.draws ∧
        w1.pos = waterColumn.pos ∧
        (waterColumn.inb 3 0 = false → w1.grid = waterColumn.grid) ∧
        (waterColumn.inb 3 0 = true →
          ∃ yEnd, 0 ≤ yEnd ∧ yEnd < waterColumn.gHeight ∧
            (∀ y1, 0 < y1 → y1 ≤ yEnd → passable (waterColumn.cell 3 y1) = true) ∧
            (yEnd + 1 < waterColumn.gHeight → passable (waterColumn.cell 3 (yEnd + 1)) = false) ∧
            ∀ x y, w1.cell x y =
              if x = 3 ∧ 0 ≤ y ∧ y ≤ yEnd then ⟨LIGHTNING, 2⟩
              else if x = 3 ∧ y = yEnd + 1 ∧ yEnd + 1 < waterColumn.gHeight ∧
                  ((waterColumn.cell x y).type = WATER ∨
                    (waterColumn.cell x y).type = SALTWATER) then
                ⟨(waterColumn.cell x y).type, max (waterColumn.cell x y).life 8⟩
              else waterColumn.cell x y)) waterColumn :=
  ⟨by decide, place_brush_lightning waterColumn (by decide) 3 0 0⟩

/-- The instance of C8: with `WATER` at `(3,5) .. (3,9)` on an otherwise empty 7x10 grid,
`place(3, 0, 0, LIGHTNING)` gives `LIGHTNING` with life 2 at `(3,0) .. (3,4)` and life 8 at
`(3,5)`, and changes nothing else. -/
theorem place_brush_lightning_instance :
    gridAfter (place_brush 3 0 0 LIGHTNING) waterColumn =
      some ((List.replicate 5 [⟨EMPTY, 0⟩, ⟨EMPTY, 0⟩, ⟨EMPTY, 0⟩, ⟨LIGHTNING, 2⟩, ⟨EMPTY, 0⟩,
          ⟨EMPTY, 0⟩, ⟨EMPTY, 0⟩]) ++
        [⟨EMPTY, 0⟩, ⟨EMPTY, 0⟩, ⟨EMPTY, 0⟩, ⟨WATER, 8⟩, ⟨EMPTY, 0⟩, ⟨EMPTY, 0⟩, ⟨EMPTY, 0⟩] ::
        List.replicate 4 [⟨EMPTY, 0⟩, ⟨EMPTY, 0⟩, ⟨EMPTY, 0⟩, ⟨WATER, 0⟩, ⟨EMPTY, 0⟩, ⟨EMPTY, 0⟩,
          ⟨EMPTY, 0⟩]) := by
  decide

/-- C3 (code defect): in a grid whose `EMPTY` cells all have life 0, lava falling one cell
leaves an `EMPTY` cell with life 1 behind: after the swap the reference `cell` denotes the
vacated position, and `lava cools` increments the life found there. -/
theorem step_sim_empty_life_lava :
    lavaOverEmpty.WF ∧
      (∀ row ∈ lavaOverEmpty.grid, ∀ c ∈ row,
        0 ≤ c.life ∧ c.life ≤ 300 ∧ (c.type = EMPTY → c.life = 0)) ∧
      gridAfter step_sim lavaOverEmpty = some [[⟨EMPTY, 1⟩], [⟨LAVA, 0⟩]] := by
  decide

/-- C5 (code defect): a lone `HUMAN` with life 0 that walks right is visited again in the
same tick at its new position (`walk_try` does not mark the destination as updated), so
after one tick its life is 2 and not 1. -/
theorem step_sim_agent_twice :
    walker.WF ∧ gridAfter step_sim walker = some [[⟨EMPTY, 0⟩, ⟨HUMAN, 2⟩]] := by
  decide

/-- The same defect for a lone `ZOMBIE` that hops: the hop moves it straight up without
marking the destination, the row above is swept later in the tick, the zombie is visited
again there and falls back. -/
theorem step_sim_zombie_twice :
    hopper.WF ∧
      gridAfter step_sim hopper = some [[⟨EMPTY, 0⟩, ⟨EMPTY, 0⟩], [⟨ZOMBIE, 2⟩, ⟨STONE, 0⟩]] := by
  decide

/-! ## Conservation of inert material -/

theorem countP_set {α : Type} (p : α → Bool) (l : List α) (n : Nat) (a b : α)
    (h : l.get? n = some a) :
    (l.set n b).countP p + (if p a = true then 1 else 0) =
      l.countP p + (if p b = true then 1 else 0) := by
  induction l generalizing n with
  | nil => simp at h
  | cons c cs ih =>
    cases n with
    | zero =>
      simp only [List.get?_cons_zero, Option.some.injEq] at h
      subst h
      simp only [List.set_cons_zero, List.countP_cons]
      omega
    | succ n =>
      simp only [List.get?_cons_succ] at h
      have := ih n h
      simp only [List.set_cons_succ, List.countP_cons]
      omega

theorem sum_map_set {α : Type} (f : α → Nat) (l : List α) (n : Nat) (a b : α)
    (h : l.get? n = some a) :
    ((l.set n b).map f).sum + f a = (l.map f).sum + f b := by
  induction l generalizing n with
  | nil => simp at h
  | cons c cs ih =>
    cases n with
    | zero =>
      simp only [List.get?_cons_zero, Option.some.injEq] at h
      subst h
      simp only [List.set_cons_zero, List.map_cons, List.sum_cons]
      omega
    | succ n =>
      simp only [List.get?_cons_succ] at h
      have := ih n h
      simp only [List.set_cons_succ, List.map_cons, List.sum_cons]
      omega

/-- A write changes the count of a kind by what it removes and what it adds. -/
theorem countKind_setAt (k : Element) (g : List (List Cell)) (x y : Int) (a b : Cell)
    (h : at? g x y = some a) :
    countKind k (setAt g x y b) + (if a.type = k then 1 else 0) =
      countKind k g + (if b.type = k then 1 else 0) := by
  unfold at? at h
  unfold setAt
  cases hr : nth? g y with
  | none => rw [hr] at h; cases h
  | some row =>
    rw [hr] at h
    simp only [Option.some_bind] at h
    unfold nth? at hr h
    unfold setNth countKind
    split at hr
    · split at h
      · rename_i hy hx0
        simp only [hy, hx0, if_true]
        have h1 := sum_map_set (fun row => row.countP fun c => decide (c.type = k)) g y.toNat row
          (row.set x.toNat b) hr
        have h2 := countP_set (fun c => decide (c.type = k)) row x.toNat a b h
        simp only [decide_eq_true_eq] at h1 h2
        omega
      · cases h
    · cases hr

theorem Keeps.inbK {w0 w : World} (h : Keeps w0 w) (x y : Int) : w.inb x y = w0.inb x y := by
  unfold World.inb
  rw [h.1.1, h.1.2]

theorem Keeps.markedK {w0 w : World} (h : Keeps w0 w) (x y : Int) : Keeps w0 (w.mark x y) :=
  ⟨h.1, h.2.1, h.2.2.1.markWFU x y, h.2.2.2.1, h.2.2.2.2⟩

theorem Keeps.drawnK {w0 w : World} (h : Keeps w0 w) : Keeps w0 w.draw :=
  ⟨h.1, h.2.1, h.2.2.1, h.2.2.2.1, h.2.2.2.2⟩

theorem Keeps.no {w0 w : World} (h : Keeps w0 w) {x y : Int} (hib : w.inb x y = true)
    {t : Element} (ht : inert t = false) : (w.cell x y).type ≠ t := by
  intro he
  have := (h.2.2.2.1 x y hib).1
  rw [he, ht] at this
  cases this

theorem Keeps.cold {w0 w : World} (h : Keeps w0 w) {x y : Int} (hib : w.inb x y = true) :
    ¬ ((w.cell x y).type = FIRE ∨ (w.cell x y).type = LAVA) := by
  rintro (h1 | h1)
  · exact h.no hib (t := FIRE) rfl h1
  · exact h.no hib (t := LAVA) rfl h1

/-- Writing a cell of the same kind with life 0 keeps the invariant. -/
theorem Keeps.putSame {w0 w : World} (h : Keeps w0 w) {x y : Int} (hib : w.inb x y = true)
    (c : Cell) (hc : c.type = (w.cell x y).type) (hl : c.life = 0) :
    Keeps w0 (w.put x y c) := by
  refine ⟨h.1, h.2.1.putWF _ _ _, h.2.2.1, ?_, ?_⟩
  · intro a b hab
    rw [cell_put h.2.1 hib]
    split
    · rw [hc]
      exact ⟨(h.2.2.2.1 x y hib).1, hl⟩
    · exact h.2.2.2.1 a b hab
  · intro k
    have h1 := countKind_setAt k w.grid x y (w.cell x y) c (h.2.1.atCell hib)
    have h2 := h.2.2.2.2 k
    rw [hc] at h1
    unfold World.put
    simp only
    omega

/-- Exchanging two cells keeps the invariant. -/
theorem Keeps.swapped {w0 w : World} (h : Keeps w0 w) {x y nx ny : Int}
    (hib : w.inb x y = true) (hib2 : w.inb nx ny = true) :
    Keeps w0 ((w.put nx ny (w.cell x y)).put x y (w.cell nx ny)) := by
  have hwf1 : (w.put nx ny (w.cell x y)).WF := h.2.1.putWF _ _ _
  refine ⟨h.1, hwf1.putWF _ _ _, h.2.2.1, ?_, ?_⟩
  · intro a b hab
    rw [cell_put hwf1 hib, cell_put h.2.1 hib2]
    split
    · exact h.2.2.2.1 nx ny hib2
    · split
      · exact h.2.2.2.1 x y hib
      · exact h.2.2.2.1 a b hab
  · intro k
    have h1 := countKind_setAt k w.grid nx ny (w.cell nx ny) (w.cell x y) (h.2.1.atCell hib2)
    have h2 := countKind_setAt k (w.put nx ny (w.cell x y)).grid x y
      ((w.put nx ny (w.cell x y)).cell x y) (w.cell nx ny) (hwf1.atCell hib)
    have h3 : (w.put nx ny (w.cell x y)).cell x y = w.cell x y := by
      rw [cell_put h.2.1 hib2]
      split
      · rfl
      · rfl
    rw [h3] at h2
    have h4 := h.2.2.2.2 k
    unfold World.put at h2 ⊢
    simp only at h2 ⊢
    omega

theorem swap_to_keeps {w0 w : World} (h : Keeps w0 w) {x y nx ny : Int}
    (hib : w.inb x y = true) (hib2 : w.inb nx ny = true) :
    wp (swap_to x y nx ny) (fun _ w1 => Keeps w0 w1) w := by
  simp only [swap_to, wp_bind, wp_getCell, wp_setCell, wp_setUpdated, isSome_put, put_updated,
    h.2.1.isSome, h.2.2.1.isSomeU, hib, hib2, true_and, put_inb]
  exact (h.swapped hib hib2).markedK _ _

theorem powderTry_keeps {w0 : World} {x y : Int} (hx : w0.inb x y = true)
    (nx ny : Int) (w : World) (h : Keeps w0 w) :
    wp (powderTry x y nx ny) (fun _ w1 => Keeps w0 w1) w := by
  have hib : w.inb x y = true := (h.inbK x y).trans hx
  simp only [powderTry, wp_bind, wp_in_bounds, wp_ite, wp_pure, wp_getCell, h.2.1.isSome]
  split_ifs with h1 h2
  · exact h
  · exact ⟨inb_of_not h1, swap_to_keeps h hib (inb_of_not h1)⟩
  · exact ⟨inb_of_not h1, h⟩

theorem powderMove_keeps {w0 : World} {x y : Int} (hx : w0.inb x y = true)
    (w : World) (h : Keeps w0 w) :
    wp (powderMove x y) (fun _ w1 => Keeps w0 w1) w := by
  unfold powderMove
  rw [wp_bind]
  refine wp_mono (powderTry_keeps hx _ _ w h) ?_
  intro m0 w1 h1
  cases m0
  · simp only [Bool.false_eq_true, if_false, wp_bind, wp_rint]
    refine wp_mono (powderTry_keeps hx _ _ _ h1.drawnK) ?_
    intro m1 w2 h2
    cases m1
    · simp only [Bool.false_eq_true, if_false]
      exact powderTry_keeps hx _ _ _ h2
    · simp only [if_true, wp_pure]
      exact h2
  · simp only [if_true, wp_pure]
    exact h1

theorem snowMelt_keeps {w0 : World} (x y : Int) (w : World) (h : Keeps w0 w) :
    wp (snowMelt x y) (fun _ w1 => Keeps w0 w1) w := by
  unfold snowMelt
  refine wp_forBox _ _ _ ?_ w h
  intro dx _ dy _ w1 h1
  simp only [wp_bind, wp_in_bounds, wp_ite, wp_pure, wp_getCell, wp_setCell, h1.2.1.isSome]
  split_ifs with h2 h3
  · exact h1
  · rcases h3 with h3 | h3
    · exact absurd h3 (h1.no (inb_of_not h2) rfl)
    · exact absurd h3 (h1.no (inb_of_not h2) rfl)
  · exact ⟨inb_of_not h2, h1⟩

theorem sandSeed_keeps {w0 : World} {x y : Int} (hx : w0.inb x y = true)
    (w : World) (h : Keeps w0 w) :
    wp (sandSeed x y) (fun _ w1 => Keeps w0 w1) w := by
  have hib : w.inb x y = true := (h.inbK x y).trans hx
  unfold sandSeed
  rw [wp_bind]
  refine wp_mono (waterAbove_ro x y w h.2.1) ?_
  rintro wa w1 ⟨rfl, hwa⟩
  cases wa
  · simp only [Bool.false_eq_true, if_false, wp_setLife, h.2.1.isSome, hib, true_and]
    exact h.putSame hib _ rfl rfl
  · obtain ⟨hib2, hw2⟩ := hwa rfl
    exact absurd hw2 (h.no hib2 rfl)

theorem powderRule_keeps {w0 : World} {x y : Int} (hx : w0.inb x y = true)
    (t : Element) (w : World) (h : Keeps w0 w) :
    wp (powderRule x y t) (fun _ w1 => Keeps w0 w1) w := by
  unfold powderRule
  refine wp_seq (powderMove_keeps hx w h) ?_
  intro moved w1 h1
  have hib : w1.inb x y = true := (h1.inbK x y).trans hx
  refine wp_seq (I := fun w2 => Keeps w0 w2) (wp_when h1 (fun _ => ?_)) ?_
  · simp only [wp_setUpdated, h1.2.2.1.isSomeU, hib, true_and]
    exact h1.markedK x y
  intro _ w2 h2
  refine wp_seq (I := fun w3 => Keeps w0 w3) (wp_when h2 (fun _ => snowMelt_keeps x y w2 h2)) ?_
  intro _ w3 h3
  exact wp_when h3 (fun _ => sandSeed_keeps hx w3 h3)

theorem liquidDown_keeps {w0 : World} {x y : Int} (hx : w0.inb x y = true)
    (t : Element) (w : World) (h : Keeps w0 w) :
    wp (liquidDown x y t) (fun _ w1 => Keeps w0 w1) w := by
  have hib : w.inb x y = true := (h.inbK x y).trans hx
  simp only [liquidDown, wp_bind, wp_in_bounds, wp_ite, wp_pure, wp_getCell, h.2.1.isSome]
  split_ifs with h1 h2 h3
  · exact h
  · exact ⟨inb_of_not h1, swap_to_keeps h hib (inb_of_not h1)⟩
  · exact ⟨inb_of_not h1, swap_to_keeps h hib (inb_of_not h1)⟩
  · exact ⟨inb_of_not h1, h⟩

theorem liquidSide_keeps {w0 : World} {x y : Int} (hx : w0.inb x y = true)
    (t : Element) (nx : Int) (w : World) (h : Keeps w0 w) :
    wp (liquidSide x y t nx) (fun _ w1 => Keeps w0 w1) w := by
  have hib : w.inb x y = true := (h.inbK x y).trans hx
  simp only [liquidSide, wp_bind, wp_in_bounds, wp_ite, wp_pure, wp_getCell, wp_chance,
    h.2.1.isSome]
  split_ifs with h1 h2 h3 h4
  · exact h
  · exact ⟨inb_of_not h1, swap_to_keeps h hib (inb_of_not h1)⟩
  · exact ⟨inb_of_not h1, swap_to_keeps h.drawnK hib (inb_of_not h1)⟩
  · exact ⟨inb_of_not h1, h.drawnK⟩
  · exact ⟨inb_of_not h1, h⟩

theorem liquidMove_keeps {w0 : World} {x y : Int} (hx : w0.inb x y = true)
    (t : Element) (w : World) (h : Keeps w0 w) :
    wp (liquidMove x y t) (fun _ w1 => Keeps w0 w1) w := by
  unfold liquidMove
  rw [wp_bind]
  refine wp_mono (liquidDown_keeps hx t w h) ?_
  intro m0 w1 h1
  cases m0
  · simp only [Bool.false_eq_true, if_false, wp_bind, wp_rint]
    refine wp_mono (liquidSide_keeps hx t _ _ h1.drawnK) ?_
    intro m1 w2 h2
    cases m1
    · simp only [Bool.false_eq_true, if_false]
      exact liquidSide_keeps hx t _ _ h2
    · simp only [if_true, wp_pure]
      exact h2
  · simp only [if_true, wp_pure]
    exact h1

/-- Without fire, lava, water and acid around, the interactions of an inert liquid do
nothing. -/
theorem liquidReact_keeps {w0 : World} (x y : Int) (t : Element) (ht : inert t = true)
    (dx dy : Int) (w : World) (h : Keeps w0 w) :
    wp (liquidReact x y t dx dy) (fun _ w1 => Keeps w0 w1) w := by
  have ha : t ≠ ACID := by rintro rfl; cases ht
  have hl : t ≠ LAVA := by rintro rfl; cases ht
  simp only [liquidReact, waterReact, oilReact, wp_bind, wp_in_bounds, wp_ite, wp_pure,
    wp_getCell, h.2.1.isSome, ha, hl, if_false]
  split_ifs with h1 h2 h3 h4 h5 h6 h7 h8 h9 h10
  all_goals first
    | exact h
    | exact ⟨inb_of_not h2, h⟩
    | exact ⟨inb_of_not h2, inb_of_not h2, h⟩
    | exact absurd ‹_ = FIRE› (h.no (inb_of_not h2) rfl)
    | exact absurd ‹_ = LAVA› (h.no (inb_of_not h2) rfl)
    | exact (h.cold (inb_of_not h2) (by assumption)).elim

theorem hydrate_keeps {w0 : World} (x y : Int) (w : World) (h : Keeps w0 w) :
    wp (hydrate x y) (fun _ w1 => Keeps w0 w1) w := by
  unfold hydrate
  refine wp_forBox _ _ _ ?_ w h
  intro dx _ dy _ w1 h1
  simp only [wp_bind, wp_in_bounds, wp_ite, wp_pure, wp_getCell, wp_setCell, h1.2.1.isSome]
  split_ifs with h2 h3
  · exact h1
  · rcases h3 with h3 | h3
    · exact absurd h3 (h1.no (inb_of_not h2) rfl)
    · exact absurd h3 (h1.no (inb_of_not h2) rfl)
  · exact ⟨inb_of_not h2, h1⟩

/-- Water without charge does not pulse. -/
theorem waterPulse_keeps {w0 : World} {x y : Int} (hx : w0.inb x y = true)
    (w : World) (h : Keeps w0 w) :
    wp (waterPulse x y) (fun _ w1 => Keeps w0 w1) w := by
  have hib : w.inb x y = true := (h.inbK x y).trans hx
  have h0 := (h.2.2.2.1 x y hib).2
  unfold waterPulse
  rw [wp_bind, wp_getCell]
  refine ⟨by rw [h.2.1.isSome]; exact hib, ?_⟩
  rw [if_neg (by omega)]
  exact (wp_pure _ _ _).2 h

theorem liquidRule_keeps {w0 : World} {x y : Int} (hx : w0.inb x y = true)
    (t : Element) (ht : inert t = true) (w : World) (h : Keeps w0 w) :
    wp (liquidRule x y t) (fun _ w1 => Keeps w0 w1) w := by
  have hl : t ≠ LAVA := by rintro rfl; cases ht
  unfold liquidRule
  refine wp_seq (liquidMove_keeps hx t w h) ?_
  intro moved w1 h1
  have hib : w1.inb x y = true := (h1.inbK x y).trans hx
  refine wp_seq (I := fun w2 => Keeps w0 w2) (wp_when h1 (fun _ => ?_)) ?_
  · simp only [wp_setUpdated, h1.2.2.1.isSomeU, hib, true_and]
    exact h1.markedK x y
  intro _ w2 h2
  refine wp_seq (I := fun w3 => Keeps w0 w3) ?_ ?_
  · exact wp_forBox _ _ _ (fun dx _ dy _ w3 h3 => liquidReact_keeps x y t ht dx dy w3 h3) w2 h2
  intro _ w3 h3
  refine wp_seq (I := fun w4 => Keeps w0 w4) (wp_when h3 (fun hc => absurd hc hl)) ?_
  intro _ w4 h4
  refine wp_seq (I := fun w5 => Keeps w0 w5) (wp_when h4 (fun _ => hydrate_keeps x y w4 h4)) ?_
  intro _ w5 h5
  exact wp_when h5 (fun _ => waterPulse_keeps hx w5 h5)

theorem inert_static {t : Element} (hi : inert t = true) (h1 : ¬ (t = EMPTY ∨ t = WALL))
    (h2 : ¬ sandlike t = true) (h3 : ¬ liquid t = true) : t = STONE ∨ t = GLASS := by
  cases t <;> simp_all [inert, sandlike, liquid]

/-- The visit of one cell of an inert grid keeps the invariant. -/
theorem visit_keeps {w0 : World} {x y : Int} (hx : w0.inb x y = true)
    (w : World) (h : Keeps w0 w) :
    wp (visit x y) (fun _ w1 => Keeps w0 w1) w := by
  have hib : w.inb x y = true := (h.inbK x y).trans hx
  have hi := (h.2.2.2.1 x y hib).1
  unfold visit
  rw [wp_bind, wp_getUpdated]
  refine ⟨by rw [h.2.2.1.isSomeU]; exact hib, ?_⟩
  refine wp_cases (fun _ => (wp_pure _ _ _).2 h) (fun _ => ?_)
  rw [wp_bind, wp_getCell]
  refine ⟨by rw [h.2.1.isSome]; exact hib, ?_⟩
  have hmark : wp (setUpdated x y) (fun _ w1 => Keeps w0 w1) w := by
    simp only [wp_setUpdated, h.2.2.1.isSomeU, hib, true_and]
    exact h.markedK x y
  refine wp_cases (fun _ => hmark) (fun h1 => ?_)
  refine wp_cases (fun _ => powderRule_keeps hx _ w h) (fun h2 => ?_)
  refine wp_cases (fun _ => liquidRule_keeps hx _ hi w h) (fun h3 => ?_)
  have hst := inert_static hi h1 h2 h3
  refine wp_cases (fun hc => absurd hc (by rcases hst with e | e <;> rw [e] <;> decide))
    (fun _ => ?_)
  refine wp_cases (fun hc => absurd hc (by rcases hst with e | e <;> rw [e] <;> decide))
    (fun _ => ?_)
  refine wp_cases (fun hc => absurd hc (by rcases hst with e | e <;> rw [e] <;> decide))
    (fun _ => ?_)
  refine wp_cases (fun hc => absurd hc (by rcases hst with e | e <;> rw [e] <;> decide))
    (fun _ => ?_)
  refine wp_cases (fun hc => absurd hc (by rcases hst with e | e <;> rw [e] <;> decide))
    (fun _ => ?_)
  refine wp_cases (fun hc => absurd hc (by rcases hst with e | e <;> rw [e] <;> decide))
    (fun _ => ?_)
  refine wp_cases (fun hc => absurd hc (by rcases hst with e | e <;> rw [e] <;> decide))
    (fun _ => ?_)
  refine wp_cases (fun hc => absurd hc (by rcases hst with e | e <;> rw [e] <;> decide))
    (fun _ => ?_)
  refine wp_cases (fun hc => absurd hc (by rcases hst with e | e <;> rw [e] <;> decide))
    (fun _ => ?_)
  refine wp_cases (fun hc => absurd hc (by rcases hst with e | e <;> rw [e] <;> decide))
    (fun _ => ?_)
  exact wp_cases (fun hc => absurd hc (by rcases hst with e | e <;> rw [e] <;> decide))
    (fun _ => hmark)

/-- The two loops of `step_sim` keep the invariant of an inert grid. -/
theorem sweep_keeps {w0 : World} (w : World) (h : Keeps w0 w) :
    wp (forEach (irange 0 (w0.gHeight - 1)).reverse fun y =>
        forEach (irange 0 (w0.gWidth - 1)) fun x => visit x y)
      (fun _ w1 => Keeps w0 w1) w := by
  refine wp_forEach _ _ _ ?_ w h
  intro y hy w1 h1
  refine wp_forEach _ _ _ ?_ w1 h1
  intro x hxm w2 h2
  have hy2 := (mem_irange _ _ _).1 (List.mem_reverse.1 hy)
  have hx2 := (mem_irange _ _ _).1 hxm
  refine visit_keeps ?_ w2 h2
  unfold World.inb
  simp only [Bool.and_eq_true, decide_eq_true_eq]
  omega

/-- C4: for every rectangular grid whose cells all have life 0 and an inert kind
(`EMPTY`, `SAND`, `GUNPOWDER`, `ASH`, `SNOW`, `SALTWATER`, `OIL`, `ETHANOL`, `MERCURY`,
`STONE`, `GLASS`, `WALL`) and every random stream, a tick returns, keeps the dimensions,
leaves the number of cells of each kind unchanged, and every cell still has an inert kind
and life 0. -/
theorem step_sim_inert (w : World) (hwf : w.WF) (hi : Inert w) :
    wp step_sim (fun _ w1 => SameDims w w1 ∧ w1.WF ∧
      (∀ k, countKind k w1.grid = countKind k w.grid) ∧ Inert w1) w := by
  unfold step_sim
  rw [wp_bind, wp_getWidth, wp_bind, wp_getHeight]
  refine wp_cases (fun _ => ?_) (fun hdim => ?_)
  · rw [wp_pure]
    exact ⟨⟨rfl, rfl⟩, hwf, fun _ => rfl, hi⟩
  · rw [wp_bind, wp_allocUpdated]
    have h0 : Keeps w
        { w with updated :=
          List.replicate w.gHeight.toNat (List.replicate w.gWidth.toNat false) } :=
      ⟨⟨rfl, rfl⟩, hwf, rect_replicate _ _ (by omega) (by omega), hi, fun _ => rfl⟩
    refine wp_mono (sweep_keeps _ h0) ?_
    intro _ w1 h1
    exact ⟨h1.1, h1.2.1, h1.2.2.2.2, h1.2.2.2.1⟩

theorem step_sim_inert_witness :
    inertWorld.WF ∧ Inert inertWorld ∧
      wp step_sim (fun _ w1 => SameDims inertWorld w1 ∧ w1.WF ∧
        (∀ k, countKind k w1.grid = countKind k inertWorld.grid) ∧ Inert w1) inertWorld := by
  have hi : Inert inertWorld := by
    intro x y hib
    have hb : (0 ≤ x ∧ x < 3) ∧ 0 ≤ y ∧ y < 3 := by
      unfold World.inb at hib
      simp only [Bool.and_eq_true, decide_eq_true_eq] at hib
      exact ⟨⟨hib.1.1.1, hib.1.1.2⟩, hib.1.2, hib.2⟩
    obtain ⟨⟨hx0, hx1⟩, hy0, hy1⟩ := hb
    interval_cases x <;> interval_cases y <;> decide
  exact ⟨by decide, hi, step_sim_inert inertWorld (by decide) hi⟩

/-! ## Sweeps over quiet cells -/

theorem wp_forEach_cons {β : Type} (b : β) (bs : List β) (body : β → SimM Unit)
    (Q : Unit → World → Prop) (w : World) :
    wp (forEach (b :: bs) body) Q w ↔ wp (body b) (fun _ w1 => wp (forEach bs body) Q w1) w := by
  rw [forEach, wp_bind]

theorem wp_forEach_nil {β : Type} (body : β → SimM Unit) (Q : Unit → World → Prop) (w : World) :
    wp (forEach [] body) Q w ↔ Q () w := by
  rw [forEach, wp_pure]

theorem wp_forEach_append {β : Type} (l1 l2 : List β) (body : β → SimM Unit)
    (Q : Unit → World → Prop) (w : World) :
    wp (forEach (l1 ++ l2) body) Q w ↔
      wp (forEach l1 body) (fun _ w1 => wp (forEach l2 body) Q w1) w := by
  induction l1 generalizing w with
  | nil => rw [List.nil_append, wp_forEach_nil]
  | cons b bs ih =>
    rw [List.cons_append, wp_forEach_cons, wp_forEach_cons]
    constructor
    · intro h
      exact wp_mono h (fun _ w1 h1 => (ih w1).1 h1)
    · intro h
      exact wp_mono h (fun _ w1 h1 => (ih w1).2 h1)

theorem reverse_irange_split {lo hi : Int} (a : Int) (h1 : lo ≤ a) (h2 : a ≤ hi) :
    (irange lo hi).reverse = (irange (a + 1) hi).reverse ++ a :: (irange lo (a - 1)).reverse := by
  rw [irange_split a h1 h2]
  simp

theorem Calm.still {R : Int → Int → Prop} {w : World} (h : w.WFU) : Calm R w w :=
  ⟨⟨rfl, rfl⟩, rfl, rfl, rfl, h, fun _ _ h1 => h1, fun _ _ _ => rfl⟩

theorem Calm.trans {R : Int → Int → Prop} {w w1 w2 : World} (h1 : Calm R w w1)
    (h2 : Calm R w1 w2) : Calm R w w2 := by
  obtain ⟨⟨a1, a2⟩, a3, a4, a5, _, a7, a8⟩ := h1
  obtain ⟨⟨b1, b2⟩, b3, b4, b5, b6, b7, b8⟩ := h2
  refine ⟨⟨b1.trans a1, b2.trans a2⟩, b3.trans a3, b4.trans a4, b5.trans a5, b6, ?_, ?_⟩
  · intro x y h
    exact b7 x y (a7 x y h)
  · intro x y h
    rw [b8 x y h, a8 x y h]

theorem Calm.mono {R R1 : Int → Int → Prop} {w w1 : World} (h : Calm R w w1)
    (hr : ∀ x y, R x y → R1 x y) : Calm R1 w w1 :=
  ⟨h.1, h.2.1, h.2.2.1, h.2.2.2.1, h.2.2.2.2.1, h.2.2.2.2.2.1,
    fun x y hn => h.2.2.2.2.2.2 x y (fun h1 => hn (hr x y h1))⟩

theorem Calm.cell {R : Int → Int → Prop} {w w1 : World} (h : Calm R w w1) (x y : Int) :
    w1.cell x y = w.cell x y := by
  unfold World.cell
  rw [h.2.1]

theorem Calm.inbC {R : Int → Int → Prop} {w w1 : World} (h : Calm R w w1) (x y : Int) :
    w1.inb x y = w.inb x y := by
  unfold World.inb
  rw [h.1.1, h.1.2]

theorem Calm.wf {R : Int → Int → Prop} {w w1 : World} (h : Calm R w w1) (hwf : w.WF) :
    w1.WF := by
  unfold World.WF
  rw [h.2.1, h.1.1, h.1.2]
  exact hwf

theorem Calm.quiet {R : Int → Int → Prop} {w w1 : World} (h : Calm R w w1) {x y : Int}
    (hq : Quiet w x y) : Quiet w1 x y := by
  unfold Quiet
  rw [h.cell]
  rcases hq with hq | hq
  · exact Or.inl (h.2.2.2.2.2.1 x y hq)
  · exact Or.inr hq

/-- The visit of a quiet cell changes at most the flag of that cell. -/
theorem visit_calm {w : World} (hwf : w.WF) (hwfu : w.WFU) {x y : Int}
    (hib : w.inb x y = true) (hq : Quiet w x y) :
    wp (visit x y) (fun _ w1 => Calm (fun a b => a = x ∧ b = y) w w1) w := by
  unfold visit
  rw [wp_bind, wp_getUpdated]
  refine ⟨by rw [hwfu.isSomeU]; exact hib, ?_⟩
  refine wp_cases (fun _ => (wp_pure _ _ _).2 (Calm.still hwfu)) (fun hu => ?_)
  rw [wp_bind, wp_getCell]
  refine ⟨by rw [hwf.isSome]; exact hib, ?_⟩
  have ht : (w.cell x y).type = EMPTY ∨ (w.cell x y).type = WALL := by
    rcases hq with hq | hq
    · exact absurd hq hu
    · exact hq
  rw [if_pos ht, wp_setUpdated]
  refine ⟨by rw [hwfu.isSomeU]; exact hib, ⟨rfl, rfl⟩, rfl, rfl, rfl, hwfu.markWFU x y, ?_, ?_⟩
  · intro a b hab
    rw [upd_mark hwfu hib]
    split
    · rfl
    · exact hab
  · intro a b hab
    rw [upd_mark hwfu hib, if_neg hab]

/-- A pass over quiet cells of one row changes at most flags of those cells. -/
theorem row_calm (R : Int → Int → Prop) (y : Int) (cols : List Int) (w : World) (hwf : w.WF)
    (hwfu : w.WFU) (hq : ∀ x ∈ cols, w.inb x y = true ∧ Quiet w x y ∧ R x y) :
    wp (forEach cols fun x => visit x y) (fun _ w1 => Calm R w w1) w := by
  refine wp_forEach (fun w1 => Calm R w w1) _ _ ?_ w (Calm.still hwfu)
  intro x hx w1 h1
  obtain ⟨q1, q2, q3⟩ := hq x hx
  refine wp_mono (visit_calm (h1.wf hwf) h1.2.2.2.2.1 ((h1.inbC x y).trans q1) (h1.quiet q2)) ?_
  intro _ w2 h2
  refine h1.trans (h2.mono ?_)
  rintro a b ⟨rfl, rfl⟩
  exact q3

/-- A pass over quiet cells of several rows changes at most flags of those cells. -/
theorem rows_calm (R : Int → Int → Prop) (rows cols : List Int) (w : World) (hwf : w.WF)
    (hwfu : w.WFU) (hq : ∀ y ∈ rows, ∀ x ∈ cols, w.inb x y = true ∧ Quiet w x y ∧ R x y) :
    wp (forEach rows fun y => forEach cols fun x => visit x y) (fun _ w1 => Calm R w w1) w := by
  refine wp_forEach (fun w1 => Calm R w w1) _ _ ?_ w (Calm.still hwfu)
  intro y hy w1 h1
  refine wp_mono (row_calm R y cols w1 (h1.wf hwf) h1.2.2.2.2.1 ?_) ?_
  · intro x hx
    obtain ⟨q1, q2, q3⟩ := hq y hy x hx
    exact ⟨(h1.inbC x y).trans q1, h1.quiet q2, q3⟩
  · intro _ w2 h2
    exact h1.trans h2

/-- The freshly allocated mask has no flag set. -/
theorem upd_alloc (w : World) (x y : Int) :
    ({ w with updated :=
      List.replicate w.gHeight.toNat (List.replicate w.gWidth.toNat false) } : World).upd x y =
        false := by
  unfold World.upd at?
  simp only
  cases hr : nth? (List.replicate w.gHeight.toNat (List.replicate w.gWidth.toNat false)) y with
  | none => rfl
  | some row =>
    have hm := nth?_mem hr
    rw [List.eq_of_mem_replicate hm]
    simp only [Option.some_bind]
    cases hb : nth? (List.replicate w.gWidth.toNat false) x with
    | none => rfl
    | some b =>
      have hm2 := nth?_mem hb
      rw [List.eq_of_mem_replicate hm2]
      rfl

theorem inb_iff (w : World) (x y : Int) :
    w.inb x y = true ↔ (0 ≤ x ∧ x < w.gWidth) ∧ 0 ≤ y ∧ y < w.gHeight := by
  unfold World.inb
  simp only [Bool.and_eq_true, decide_eq_true_eq]
  constructor
  · rintro ⟨⟨⟨h1, h2⟩, h3⟩, h4⟩
    exact ⟨⟨h1, h2⟩, h3, h4⟩
  · rintro ⟨⟨h1, h2⟩, h3, h4⟩
    exact ⟨⟨⟨h1, h2⟩, h3⟩, h4⟩

/-- The sweep of `step_sim` up to the cell `(sx, sy)`: when every cell visited before it
is quiet, the sweep reaches `(sx, sy)` in a state that differs from the initial one only
by flags of the cells already visited. -/
theorem sweep_upto {w : World} (hwf : w.WF) (hwfu : w.WFU) {sx sy : Int}
    (hib : w.inb sx sy = true)
    (hq : ∀ x y, w.inb x y = true → (sy < y ∨ (y = sy ∧ x < sx)) → Quiet w x y)
    (Q : Unit → World → Prop)
    (hrest : ∀ w1, Calm (fun a b => sy < b ∨ (b = sy ∧ a < sx)) w w1 →
      wp (visit sx sy) (fun _ w2 =>
        wp (forEach (irange (sx + 1) (w.gWidth - 1)) fun x => visit x sy) (fun _ w3 =>
          wp (forEach (irange 0 (sy - 1)).reverse fun y =>
            forEach (irange 0 (w.gWidth - 1)) fun x => visit x y) Q w3) w2) w1) :
    wp (forEach (irange 0 (w.gHeight - 1)).reverse fun y =>
      forEach (irange 0 (w.gWidth - 1)) fun x => visit x y) Q w := by
  obtain ⟨⟨hx0, hx1⟩, hy0, hy1⟩ := (inb_iff w sx sy).1 hib
  rw [reverse_irange_split sy hy0 (by omega), wp_forEach_append]
  refine wp_mono (rows_calm (fun a b => sy < b ∨ (b = sy ∧ a < sx)) _ _ w hwf hwfu ?_) ?_
  · intro y hy x hx
    have hy2 := (mem_irange _ _ _).1 (List.mem_reverse.1 hy)
    have hx2 := (mem_irange _ _ _).1 hx
    have hxy : w.inb x y = true := (inb_iff w x y).2 (by omega)
    exact ⟨hxy, hq x y hxy (Or.inl (by omega)), Or.inl (by omega)⟩
  intro _ w1 h1
  rw [wp_forEach_cons]
  nth_rewrite 1 [irange_split sx hx0 (by omega)]
  rw [wp_forEach_append]
  refine wp_mono (row_calm (fun a b => sy < b ∨ (b = sy ∧ a < sx)) sy _ w1 (h1.wf hwf)
    h1.2.2.2.2.1 ?_) ?_
  · intro x hx
    have hx2 := (mem_irange _ _ _).1 hx
    have hxy : w.inb x sy = true := (inb_iff w x sy).2 (by omega)
    exact ⟨(h1.inbC x sy).trans hxy, h1.quiet (hq x sy hxy (Or.inr ⟨rfl, by omega⟩)),
      Or.inr ⟨rfl, by omega⟩⟩
  intro _ w2 h2
  rw [wp_forEach_cons]
  exact hrest w2 (h1.trans h2)

/-- The sweep of `step_sim` from the cell `(a, sy)` on: when every cell still to be
visited is quiet, the sweep ends in a state that differs only by flags of those cells. -/
theorem sweep_rest {w : World} (hwf : w.WF) (hwfu : w.WFU) {W : Int} (hW : w.gWidth = W)
    {a sy : Int} (ha : 0 ≤ a) (hy0 : 0 ≤ sy) (hy1 : sy < w.gHeight)
    (hq : ∀ x y, w.inb x y = true → (y < sy ∨ (y = sy ∧ a ≤ x)) → Quiet w x y)
    (Q : Unit → World → Prop)
    (hQ : ∀ w1, Calm (fun c b => b < sy ∨ (b = sy ∧ a ≤ c)) w w1 → Q () w1) :
    wp (forEach (irange a (W - 1)) fun x => visit x sy) (fun _ w3 =>
      wp (forEach (irange 0 (sy - 1)).reverse fun y =>
        forEach (irange 0 (W - 1)) fun x => visit x y) Q w3) w := by
  subst hW
  refine wp_mono (row_calm (fun c b => b < sy ∨ (b = sy ∧ a ≤ c)) sy _ w hwf hwfu ?_) ?_
  · intro x hx
    have hx2 := (mem_irange _ _ _).1 hx
    have hxy : w.inb x sy = true := (inb_iff w x sy).2 (by omega)
    exact ⟨hxy, hq x sy hxy (Or.inr ⟨rfl, by omega⟩), Or.inr ⟨rfl, by omega⟩⟩
  intro _ w1 h1
  refine wp_mono (rows_calm (fun c b => b < sy ∨ (b = sy ∧ a ≤ c)) _ _ w1 (h1.wf hwf)
    h1.2.2.2.2.1 ?_) ?_
  · intro y hy x hx
    have hy2 := (mem_irange _ _ _).1 (List.mem_reverse.1 hy)
    have hx2 := (mem_irange _ _ _).1 hx
    have hxy : w.inb x y = true := (inb_iff w x y).2 (by omega)
    exact ⟨(h1.inbC x y).trans hxy, h1.quiet (hq x y hxy (Or.inl (by omega))), Or.inl (by omega)⟩
  intro _ w2 h2
  exact hQ w2 (h1.trans h2)

/-! ## A lone grain of sand -/

/-- The visit of a grain of sand with life 0 over an `EMPTY` cell of life 0, with no
water above it: the two cells are exchanged, the destination is flagged, and no random
number is drawn. -/
theorem visit_sand_drop {w : World} (hwf : w.WF) (hwfu : w.WFU) {x y : Int}
    (hib : w.inb x y = true) (hib2 : w.inb x (y + 1) = true) (hu : w.upd x y = false)
    (hc : w.cell x y = ⟨SAND, 0⟩) (hd : w.cell x (y + 1) = ⟨EMPTY, 0⟩)
    (hup : w.inb x (y - 1) = true → (w.cell x (y - 1)).type ≠ WATER) :
    wp (visit x y) (fun _ w1 => SameDims w w1 ∧ w1.WF ∧ w1.WFU ∧ w1.pos = w.pos ∧
      w1.draws = w.draws ∧
      (∀ a b, w1.cell a b = if a = x ∧ b = y then ⟨EMPTY, 0⟩
        else if a = x ∧ b = y + 1 then ⟨SAND, 0⟩ else w.cell a b) ∧
      (∀ a b, w1.upd a b = if a = x ∧ b = y + 1 then true else w.upd a b)) w := by
  have hne : ¬ (y = y + 1) := by omega
  have hne2 : ¬ (y - 1 = y + 1) := by omega
  have hne3 : ¬ (y - 1 = y) := by omega
  have hw : w.inb x (y - 1) = false ∨
      (w.inb x (y - 1) = true ∧ ¬ (w.cell x (y - 1)).type = WATER) := by
    cases hb : w.inb x (y - 1)
    · exact Or.inl rfl
    · exact Or.inr ⟨rfl, hup hb⟩
  have hfin : ∀ w1 : World, w1 = (((w.put x (y + 1) ⟨SAND, 0⟩).put x y ⟨EMPTY, 0⟩).mark
      x (y + 1)).put x y ⟨EMPTY, 0⟩ →
      SameDims w w1 ∧ w1.WF ∧ w1.WFU ∧ w1.pos = w.pos ∧ w1.draws = w.draws ∧
      (∀ a b, w1.cell a b = if a = x ∧ b = y then ⟨EMPTY, 0⟩
        else if a = x ∧ b = y + 1 then ⟨SAND, 0⟩ else w.cell a b) ∧
      (∀ a b, w1.upd a b = if a = x ∧ b = y + 1 then true else w.upd a b) := by
    rintro w1 rfl
    refine ⟨⟨rfl, rfl⟩, ((hwf.putWF _ _ _).putWF _ _ _).putWF _ _ _, hwfu.markWFU _ _, rfl, rfl,
      ?_, ?_⟩
    · intro a b
      simp only [cell_put_if, mark_cell, mark_grid, isSome_put, hwf.isSome, hib, hib2, and_true]
      split_ifs <;> rfl
    · intro a b
      simp only [put_upd]
      exact upd_mark hwfu hib2 a b
  suffices key : ∀ Q : Unit → World → Prop,
      Q () ((((w.put x (y + 1) ⟨SAND, 0⟩).put x y ⟨EMPTY, 0⟩).mark x (y + 1)).put x y ⟨EMPTY, 0⟩) →
      wp (visit x y) Q w from key _ (hfin _ rfl)
  intro Q hQ
  rcases hw with hb | ⟨hb, hww⟩
  · simp only [visit, powderRule, powderMove, powderTry, swap_to, sandSeed, waterAbove, wp_bind,
      wp_getUpdated, wp_getCell, wp_setCell, wp_setLife, wp_setUpdated, wp_in_bounds, wp_ite,
      wp_pure, hwf.isSome, hwfu.isSomeU, hib, hib2, hu, hc, hd, isSome_put, put_updated, put_inb,
      mark_grid, mark_inb, isSome_mark, cell_put_if, mark_cell, true_and, and_true, and_self,
      if_true, hne, hne2, hne3, if_false, and_false, sandlike, empty, Bool.false_eq_true,
      Bool.not_true, Bool.not_false, decide_True, decide_False, Bool.true_or, Bool.or_true,
      reduceCtorEq, or_self, or_false, false_or, decide_eq_true_eq, ite_true, ite_false, hb]
    exact hQ
  · simp only [visit, powderRule, powderMove, powderTry, swap_to, sandSeed, waterAbove, wp_bind,
      wp_getUpdated, wp_getCell, wp_setCell, wp_setLife, wp_setUpdated, wp_in_bounds, wp_ite,
      wp_pure, hwf.isSome, hwfu.isSomeU, hib, hib2, hu, hc, hd, isSome_put, put_updated, put_inb,
      mark_grid, mark_inb, isSome_mark, cell_put_if, mark_cell, true_and, and_true, and_self,
      if_true, hne, hne2, hne3, if_false, and_false, sandlike, empty, Bool.false_eq_true,
      Bool.not_true, Bool.not_false, decide_True, decide_False, Bool.true_or, Bool.or_true,
      reduceCtorEq, or_self, or_false, false_or, decide_eq_true_eq, ite_true, ite_false, hb, hww]
    exact hQ

theorem inb_dims {w w1 : World} (h : SameDims w w1) (x y : Int) : w1.inb x y = w.inb x y := by
  unfold World.inb
  rw [h.1, h.2]

/-- The two loops of `step_sim`, started with a clear mask on a grid holding a lone grain
of sand that is not on the bottom row. -/
theorem sand_sweep {w : World} (hwf : w.WF) (hwfu : w.WFU) (hu : ∀ x y, w.upd x y = false)
    {sx sy : Int} (hib : w.inb sx sy = true) (hib2 : w.inb sx (sy + 1) = true)
    (hl : Lone ⟨SAND, 0⟩ sx sy w) :
    wp (forEach (irange 0 (w.gHeight - 1)).reverse fun y =>
        forEach (irange 0 (w.gWidth - 1)) fun x => visit x y)
      (fun _ w1 => SameDims w w1 ∧ w1.WF ∧ Lone ⟨SAND, 0⟩ sx (sy + 1) w1 ∧
        w1.pos = w.pos ∧ w1.draws = w.draws) w := by
  obtain ⟨⟨hx0, hx1⟩, hy0, hy1⟩ := (inb_iff w sx sy).1 hib
  have hempty : ∀ x y, w.inb x y = true → ¬ (x = sx ∧ y = sy) → w.cell x y = ⟨EMPTY, 0⟩ := by
    intro x y hxy hne
    rw [hl x y hxy, if_neg hne]
  have hquiet : ∀ x y, w.inb x y = true → ¬ (x = sx ∧ y = sy) → Quiet w x y := by
    intro x y hxy hne
    right; left
    rw [hempty x y hxy hne]
  refine sweep_upto hwf hwfu hib (fun x y hxy hlt => hquiet x y hxy (by omega)) _ ?_
  intro w1 h1
  have hne1 : ¬ (sx = sx ∧ sy + 1 = sy) := by omega
  refine wp_mono (visit_sand_drop (h1.wf hwf) h1.2.2.2.2.1 ((h1.inbC _ _).trans hib)
    ((h1.inbC _ _).trans hib2) ?_ ?_ ?_ ?_) ?_
  · rw [h1.2.2.2.2.2.2 sx sy (by omega)]
    exact hu sx sy
  · rw [h1.cell, hl sx sy hib, if_pos ⟨rfl, rfl⟩]
  · rw [h1.cell, hempty sx (sy + 1) hib2 hne1]
  · intro hup
    rw [h1.inbC] at hup
    rw [h1.cell, hempty sx (sy - 1) hup (by omega)]
    simp
  rintro _ w2 ⟨d2, wf2, wfu2, p2, dr2, c2, u2⟩
  have hd2 : SameDims w w2 := ⟨d2.1.trans h1.1.1, d2.2.trans h1.1.2⟩
  have hcell2 : ∀ x y, w.inb x y = true →
      w2.cell x y = if x = sx ∧ y = sy + 1 then ⟨SAND, 0⟩ else ⟨EMPTY, 0⟩ := by
    intro x y hxy
    rw [c2, h1.cell]
    by_cases h3 : x = sx ∧ y = sy
    · rw [if_pos h3, if_neg (by omega)]
    · rw [if_neg h3]
      by_cases h4 : x = sx ∧ y = sy + 1
      · rw [if_pos h4, if_pos h4]
      · rw [if_neg h4, if_neg h4, hempty x y hxy h3]
  refine sweep_rest wf2 wfu2 hd2.1 (by omega) hy0 (by rw [hd2.2]; exact hy1) ?_ _ ?_
  · intro x y hxy hlt
    right; left
    rw [hcell2 x y ((inb_dims hd2 x y).symm.trans hxy), if_neg (by omega)]
  · intro w3 h3
    refine ⟨⟨h3.1.1.trans hd2.1, h3.1.2.trans hd2.2⟩, h3.wf wf2, ?_,
      (h3.2.2.2.1.trans p2).trans h1.2.2.2.1, (h3.2.2.1.trans dr2).trans h1.2.2.1⟩
    intro x y hxy
    rw [h3.cell]
    exact hcell2 x y ((inb_dims hd2 x y).symm.trans ((h3.inbC x y).symm.trans hxy))

/-- One tick moves a lone grain of sand that is not on the bottom row one row down, and
draws no random number. -/
theorem sand_tick {w : World} (hwf : w.WF) {sx sy : Int} (hib : w.inb sx sy = true)
    (hib2 : w.inb sx (sy + 1) = true) (hl : Lone ⟨SAND, 0⟩ sx sy w) :
    wp step_sim (fun _ w1 => SameDims w w1 ∧ w1.WF ∧ Lone ⟨SAND, 0⟩ sx (sy + 1) w1 ∧
      w1.pos = w.pos ∧ w1.draws = w.draws) w := by
  obtain ⟨⟨hx0, hx1⟩, hy0, hy1⟩ := (inb_iff w sx sy).1 hib
  unfold step_sim
  rw [wp_bind, wp_getWidth, wp_bind, wp_getHeight, if_neg (by omega), wp_bind, wp_allocUpdated]
  exact sand_sweep
    (w := ({ w with updated :=
      List.replicate w.gHeight.toNat (List.replicate w.gWidth.toNat false) } : World))
    hwf (rect_replicate w.gWidth w.gHeight (by omega) (by omega)) (upd_alloc w) hib hib2 hl

theorem wp_ticks_zero (Q : Unit → World → Prop) (w : World) : wp (ticks 0) Q w ↔ Q () w := by
  rw [ticks, wp_pure]

theorem wp_ticks_succ (n : Nat) (Q : Unit → World → Prop) (w : World) :
    wp (ticks (n + 1)) Q w ↔ wp step_sim (fun _ w1 => wp (ticks n) Q w1) w := by
  rw [ticks, wp_bind]

/-- A lone grain of sand with `k` rows below it is `k` rows lower after `k` ticks. -/
theorem sand_ticks (k : Nat) : ∀ {w : World} (_ : w.WF) {sx sy : Int}
    (_ : w.inb sx sy = true) (_ : w.inb sx (sy + k) = true) (_ : Lone ⟨SAND, 0⟩ sx sy w),
    wp (ticks k) (fun _ w1 => SameDims w w1 ∧ w1.WF ∧ Lone ⟨SAND, 0⟩ sx (sy + k) w1 ∧
      w1.pos = w.pos ∧ w1.draws = w.draws) w := by
  induction k with
  | zero =>
    intro w hwf sx sy hib _ hl
    rw [wp_ticks_zero]
    refine ⟨⟨rfl, rfl⟩, hwf, ?_, rfl, rfl⟩
    simpa using hl
  | succ k ih =>
    intro w hwf sx sy hib hib2 hl
    obtain ⟨⟨hx0, hx1⟩, hy0, hy1⟩ := (inb_iff w sx sy).1 hib
    obtain ⟨_, _, hy2⟩ := (inb_iff w sx (sy + ((k + 1 : Nat) : Int))).1 hib2
    push_cast at hy2
    have hib1 : w.inb sx (sy + 1) = true := (inb_iff w sx (sy + 1)).2 (by omega)
    rw [wp_ticks_succ]
    refine wp_mono (sand_tick hwf hib hib1 hl) ?_
    rintro _ w1 ⟨d1, wf1, l1, p1, dr1⟩
    have hk : w1.inb sx (sy + 1 + (k : Int)) = true := by
      rw [inb_dims d1]
      exact (inb_iff w sx _).2 (by omega)
    refine wp_mono (ih wf1 ((inb_dims d1 _ _).trans hib1) hk l1) ?_
    rintro _ w2 ⟨d2, wf2, l2, p2, dr2⟩
    refine ⟨⟨d2.1.trans d1.1, d2.2.trans d1.2⟩, wf2, ?_, p2.trans p1, dr2.trans dr1⟩
    have e : sy + ((k + 1 : Nat) : Int) = sy + 1 + (k : Int) := by push_cast; omega
    rw [e]
    exact l2

/-- C9: on the 5x5 grid that is `EMPTY` except for `SAND` at `(2, 0)`, for every random
stream and every `k ≤ 4`, `k` ticks return, draw no random number, and leave a 5x5 grid
in which the cell `(2, k)` is `SAND` and every other cell is `EMPTY`, all with life 0; in
particular after 4 ticks the sand is at `(2, 4)`. -/
theorem sand_falls (d : Nat → Nat) (k : Nat) (hk : k ≤ 4) :
    wp (ticks k) (fun _ w1 => w1.gWidth = 5 ∧ w1.gHeight = 5 ∧ w1.WF ∧ w1.pos = 0 ∧
      ∀ x y, w1.inb x y = true →
        w1.cell x y = if x = 2 ∧ y = (k : Int) then ⟨SAND, 0⟩ else ⟨EMPTY, 0⟩) (sandStart d) := by
  have hwf : (sandStart d).WF := by
    unfold World.WF sandStart World.ofGrid
    simp
  have hl : Lone ⟨SAND, 0⟩ 2 0 (sandStart d) := by
    intro x y hxy
    obtain ⟨⟨hx0, hx1⟩, hy0, hy1⟩ := (inb_iff _ x y).1 hxy
    have hx2 : x < 5 := hx1
    have hy2 : y < 5 := hy1
    interval_cases x <;> interval_cases y <;> rfl
  have h1 : (sandStart d).inb 2 0 = true := rfl
  have h2 : (sandStart d).inb 2 (0 + (k : Int)) = true :=
    (inb_iff _ _ _).2 ⟨⟨by decide, by
      show (2 : Int) < 5
      decide⟩, by omega, by
      show (0 : Int) + (k : Int) < 5
      omega⟩
  refine wp_mono (sand_ticks k hwf h1 h2 hl) ?_
  rintro _ w1 ⟨d1, wf1, l1, p1, _⟩
  refine ⟨d1.1, d1.2, wf1, p1, ?_⟩
  intro x y hxy
  rw [l1 x y hxy]
  simp

theorem sand_falls_witness :
    4 ≤ 4 ∧
      wp (ticks 4) (fun _ w1 => w1.gWidth = 5 ∧ w1.gHeight = 5 ∧ w1.WF ∧ w1.pos = 0 ∧
        ∀ x y, w1.inb x y = true →
          w1.cell x y = if x = 2 ∧ y = ((4 : Nat) : Int) then ⟨SAND, 0⟩ else ⟨EMPTY, 0⟩)
        (sandStart fun n => n) :=
  ⟨by decide, sand_falls (fun n => n) 4 (by decide)⟩

/-! ## Water next to fire -/

theorem Damp.inbD {w0 w : World} (h : Damp w0 w) (x y : Int) : w.inb x y = w0.inb x y :=
  inb_dims h.1 x y

theorem Damp.drawnD {w0 w : World} (h : Damp w0 w) : Damp w0 w.draw := h

theorem Damp.markedD {w0 w : World} (h : Damp w0 w) {x y : Int} (hib : w.inb x y = true)
    (hne : ¬ (x = 1 ∧ y = 0)) : Damp w0 (w.mark x y) := by
  refine ⟨h.1, h.2.1, h.2.2.1.markWFU x y, ?_, h.2.2.2.2.1, h.2.2.2.2.2⟩
  rw [upd_mark h.2.2.1 hib, if_neg (fun hh => hne ⟨hh.1.symm, hh.2.symm⟩)]
  exact h.2.2.2.1

/-- Writing the cell `(1, 0)` keeps the invariant. -/
theorem Damp.putFire {w0 w : World} (h : Damp w0 w) (hib : w.inb 1 0 = true) (c : Cell) :
    Damp w0 (w.put 1 0 c) := by
  refine ⟨h.1, h.2.1.putWF _ _ _, h.2.2.1, h.2.2.2.1, ?_, ?_⟩
  · intro x y hxy hne
    rw [cell_put h.2.1 hib, if_neg hne]
    exact h.2.2.2.2.1 x y hxy hne
  · intro x hx hxy
    rw [cell_put h.2.1 hib, if_neg (by omega)]
    exact h.2.2.2.2.2 x hx hxy

/-- Exchanging two cells left of column 2, neither of them `(1, 0)`, keeps the invariant
and the cell `(1, 0)`. -/
theorem swap_to_damp {w0 w : World} (h : Damp w0 w) {x y nx ny : Int}
    (hib : w.inb x y = true) (hib2 : w.inb nx ny = true) (h1 : ¬ (x = 1 ∧ y = 0))
    (h2 : ¬ (nx = 1 ∧ ny = 0)) (h3 : x < 2) (h4 : nx < 2) (c : Cell) (hc : w.cell 1 0 = c) :
    wp (swap_to x y nx ny) (fun _ w1 => Damp w0 w1 ∧ w1.cell 1 0 = c) w := by
  obtain ⟨hd, hwf, hwfu, hu, hcells, hrow⟩ := h
  have hwf1 : (w.put nx ny (w.cell x y)).WF := hwf.putWF _ _ _
  simp only [swap_to, wp_bind, wp_getCell, wp_setCell, wp_setUpdated, isSome_put, put_updated,
    hwf.isSome, hwfu.isSomeU, hib, hib2, true_and, put_inb]
  refine ⟨⟨hd, hwf1.putWF _ _ _, hwfu.markWFU _ _, ?_, ?_, ?_⟩, ?_⟩
  · rw [upd_mark (by exact hwfu) (by exact hib2), if_neg (fun hh => h2 ⟨hh.1.symm, hh.2.symm⟩)]
    exact hu
  · intro a b hab hne
    rw [mark_cell, cell_put hwf1 hib, cell_put hwf hib2]
    split
    · exact hcells nx ny hib2 h2
    · split
      · exact hcells x y hib h1
      · exact hcells a b hab hne
  · intro a ha hab
    rw [mark_cell, cell_put hwf1 hib, cell_put hwf hib2, if_neg (by omega), if_neg (by omega)]
    exact hrow a ha hab
  · rw [mark_cell, cell_put hwf1 hib, cell_put hwf hib2,
      if_neg (fun hh => h1 ⟨hh.1.symm, hh.2.symm⟩), if_neg (fun hh => h2 ⟨hh.1.symm, hh.2.symm⟩)]
    exact hc

/-- The water at `(0, 0)` can only fall: the fire at `(1, 0)` blocks it sideways. -/
theorem liquidMove_damp {w0 w : World} (h : Damp w0 w) (hib : w.inb 0 0 = true)
    (hib1 : w.inb 1 0 = true) (hc : w.cell 1 0 = ⟨FIRE, 20⟩) :
    wp (liquidMove 0 0 WATER) (fun _ w1 => Damp w0 w1 ∧ w1.cell 1 0 = ⟨FIRE, 20⟩) w := by
  have hside : ∀ (nx : Int) (w1 : World), nx = 1 ∨ nx = -1 →
      Damp w0 w1 ∧ w1.cell 1 0 = ⟨FIRE, 20⟩ →
      wp (liquidSide 0 0 WATER nx) (fun _ w2 => Damp w0 w2 ∧ w2.cell 1 0 = ⟨FIRE, 20⟩) w1 := by
    intro nx w1 hnx h1
    rcases hnx with rfl | rfl
    · have hib2 : w1.inb 1 0 = true := (h1.1.inbD 1 0).trans ((h.inbD 1 0).symm.trans hib1)
      simp only [liquidSide, wp_bind, wp_in_bounds, wp_ite, wp_pure, wp_getCell, h1.1.2.1.isSome,
        hib2, h1.2, empty, gas, liquid, Bool.not_true, Bool.false_eq_true, if_false, true_and,
        reduceCtorEq, decide_False, Bool.or_self, Bool.false_and]
      exact ⟨h1.1, trivial⟩
    · have hib2 : w1.inb (-1) 0 = false := by
        unfold World.inb
        simp
      simp only [liquidSide, wp_bind, wp_in_bounds, wp_ite, wp_pure, hib2, Bool.not_false,
        if_true]
      exact h1
  unfold liquidMove
  refine wp_seq (I := fun w1 => Damp w0 w1 ∧ w1.cell 1 0 = ⟨FIRE, 20⟩) ?_ ?_
  · simp only [liquidDown, wp_bind, wp_in_bounds, wp_ite, wp_pure, wp_getCell, h.2.1.isSome]
    split_ifs with h1 h2 h3
    · exact ⟨h, hc⟩
    · exact ⟨inb_of_not h1, wp_mono (swap_to_damp h hib (inb_of_not h1) (by omega) (by omega)
        (by omega) (by omega) _ hc) (fun _ _ hh => hh)⟩
    · exact ⟨inb_of_not h1, wp_mono (swap_to_damp h hib (inb_of_not h1) (by omega) (by omega)
        (by omega) (by omega) _ hc) (fun _ _ hh => hh)⟩
    · exact ⟨inb_of_not h1, h, hc⟩
  intro m0 w1 h1
  cases m0
  · simp only [Bool.false_eq_true, if_false, wp_bind, wp_rint]
    have ho : ∀ r : Int, (if r ≠ 0 then (1 : Int) else -1) = 1 ∨
        (if r ≠ 0 then (1 : Int) else -1) = -1 := by
      intro r
      split
      · exact Or.inl rfl
      · exact Or.inr rfl
    refine wp_mono (hside _ _ (by simpa using ho _) ⟨h1.1.drawnD, h1.2⟩) ?_
    intro m1 w2 h2
    cases m1
    · simp only [Bool.false_eq_true, if_false]
      refine hside _ _ ?_ h2
      rcases ho (w1.roll 0 1) with e | e
      · right
        simp only [zero_sub, e]
      · left
        simp only [zero_sub, e, neg_neg]
    · simp only [if_true, wp_pure]
      exact h2
  · simp only [if_true, wp_pure]
    exact h1

/-- One step of the interactions of the water: only the fire at `(1, 0)` reacts, and it
becomes smoke with life 15 when the step is the one at the offset `(1, 0)`. -/
theorem liquidReact_damp {w0 w : World} (h : Damp w0 w) (hib0 : w0.inb 1 0 = true)
    (hc : w.cell 1 0 = ⟨FIRE, 20⟩ ∨ w.cell 1 0 = ⟨SMOKE, 15⟩) (dx dy : Int) :
    wp (liquidReact 0 0 WATER dx dy) (fun _ w1 => Damp w0 w1 ∧
      (w1.cell 1 0 = ⟨FIRE, 20⟩ ∨ w1.cell 1 0 = ⟨SMOKE, 15⟩) ∧
      (w.cell 1 0 = ⟨SMOKE, 15⟩ ∨ (dx = 1 ∧ dy = 0) → w1.cell 1 0 = ⟨SMOKE, 15⟩)) w := by
  have hib1 : w.inb 1 0 = true := (h.inbD 1 0).trans hib0
  unfold liquidReact
  refine wp_cases (fun _ => ?_) (fun h0 => ?_)
  · rw [wp_pure]
    refine ⟨h, hc, ?_⟩
    rintro (h1 | h1)
    · exact h1
    · omega
  rw [wp_bind, wp_in_bounds]
  refine wp_cases (fun _ => ?_) (fun hb => ?_)
  · rw [wp_pure]
    refine ⟨h, hc, ?_⟩
    rintro (h1 | ⟨rfl, rfl⟩)
    · exact h1
    · simp only [zero_add, hib1, Bool.not_true, Bool.false_eq_true] at *
  have hib : w.inb (0 + dx) (0 + dy) = true := inb_of_not hb
  simp only [waterReact, wp_bind, wp_getCell, wp_setCell, wp_ite, wp_pure, h.2.1.isSome, hib,
    true_and, reduceCtorEq, or_false, or_self, if_true, if_false, true_or]
  by_cases hpos : 0 + dx = 1 ∧ 0 + dy = 0
  · rw [hpos.1, hpos.2]
    rcases hc with h1 | h1
    · rw [h1]
      simp only [if_true]
      have hnew : (w.put 1 0 ⟨SMOKE, 15⟩).cell 1 0 = ⟨SMOKE, 15⟩ := by
        rw [cell_put h.2.1 hib1, if_pos ⟨rfl, rfl⟩]
      exact ⟨h.putFire hib1 _, Or.inr hnew, fun _ => hnew⟩
    · rw [h1]
      simp only [reduceCtorEq, if_false]
      exact ⟨h, by simp [h1], by simp [h1]⟩
  · have hn := h.2.2.2.2.1 _ _ hib hpos
    have hno : ¬ (dx = 1 ∧ dy = 0) := by omega
    rcases hn with h1 | h1
    · rw [h1]
      simp only [reduceCtorEq, if_false]
      refine ⟨h, hc, ?_⟩
      rintro (h2 | h2)
      · exact h2
      · exact absurd h2 hno
    · rw [h1]
      simp only [reduceCtorEq, if_false]
      refine ⟨h, hc, ?_⟩
      rintro (h2 | h2)
      · exact h2
      · exact absurd h2 hno

/-- The interactions of the water turn the fire at `(1, 0)` into smoke with life 15 and
change nothing else. -/
theorem reactBox_damp {w0 w : World} (h : Damp w0 w) (hib0 : w0.inb 1 0 = true)
    (hc : w.cell 1 0 = ⟨FIRE, 20⟩) :
    wp (forBox 1 fun dx dy => liquidReact 0 0 WATER dx dy)
      (fun _ w1 => Damp w0 w1 ∧ w1.cell 1 0 = ⟨SMOKE, 15⟩) w := by
  have hs : span 1 = [-1, 0, 1] := by decide
  rw [forBox_span, hs]
  simp only [wp_forEach_cons, wp_forEach_nil]
  refine wp_mono (liquidReact_damp h hib0 (Or.inl hc) _ _) ?_
  rintro _ w1 ⟨h1, c1, _⟩
  refine wp_mono (liquidReact_damp h1 hib0 c1 _ _) ?_
  rintro _ w2 ⟨h2, c2, _⟩
  refine wp_mono (liquidReact_damp h2 hib0 c2 _ _) ?_
  rintro _ w3 ⟨h3, c3, _⟩
  refine wp_mono (liquidReact_damp h3 hib0 c3 _ _) ?_
  rintro _ w4 ⟨h4, c4, _⟩
  refine wp_mono (liquidReact_damp h4 hib0 c4 _ _) ?_
  rintro _ w5 ⟨h5, c5, _⟩
  refine wp_mono (liquidReact_damp h5 hib0 c5 _ _) ?_
  rintro _ w6 ⟨h6, _, s6⟩
  have e6 := s6 (Or.inr ⟨rfl, rfl⟩)
  refine wp_mono (liquidReact_damp h6 hib0 (Or.inr e6) _ _) ?_
  rintro _ w7 ⟨h7, _, s7⟩
  have e7 := s7 (Or.inl e6)
  refine wp_mono (liquidReact_damp h7 hib0 (Or.inr e7) _ _) ?_
  rintro _ w8 ⟨h8, _, s8⟩
  have e8 := s8 (Or.inl e7)
  refine wp_mono (liquidReact_damp h8 hib0 (Or.inr e8) _ _) ?_
  rintro _ w9 ⟨h9, _, s9⟩
  exact ⟨h9, s9 (Or.inl e8)⟩

/-- There is no dirt to hydrate. -/
theorem hydrate_damp {w0 w : World} (h : Damp w0 w) (c : Cell) (hc : w.cell 1 0 = c)
    (hcd : c.type ≠ DIRT ∧ c.type ≠ WET_DIRT) :
    wp (hydrate 0 0) (fun _ w1 => Damp w0 w1 ∧ w1.cell 1 0 = c) w := by
  unfold hydrate
  refine wp_forBox (fun w1 => Damp w0 w1 ∧ w1.cell 1 0 = c) _ _ ?_ w ⟨h, hc⟩
  intro dx _ dy _ w1 h1
  simp only [wp_bind, wp_in_bounds, wp_ite, wp_pure, wp_getCell, wp_setCell, h1.1.2.1.isSome]
  split_ifs with h2 h3
  · exact h1
  · exfalso
    by_cases hpos : 0 + dx = 1 ∧ 0 + dy = 0
    · rw [hpos.1, hpos.2, h1.2] at h3
      rcases h3 with h3 | h3
      · exact hcd.1 h3
      · exact hcd.2 h3
    · rcases h1.1.2.2.2.2.1 _ _ (inb_of_not h2) hpos with h4 | h4
      · rw [h4] at h3
        simp at h3
      · rw [h4] at h3
        simp at h3
  · exact ⟨inb_of_not h2, h1⟩

/-- The visit of the water at `(0, 0)` next to the fire at `(1, 0)`: afterwards the cell
`(1, 0)` is smoke with life 15 and is not flagged. -/
theorem visit_water_douse {w0 w : World} (h : Damp w0 w) (hib0 : w0.inb 1 0 = true)
    (hu : w.upd 0 0 = false) (hw : w.cell 0 0 = ⟨WATER, 0⟩) (hc : w.cell 1 0 = ⟨FIRE, 20⟩) :
    wp (visit 0 0) (fun _ w1 => Damp w0 w1 ∧ w1.cell 1 0 = ⟨SMOKE, 15⟩) w := by
  have hib1 : w.inb 1 0 = true := (h.inbD 1 0).trans hib0
  have hib : w.inb 0 0 = true := by
    obtain ⟨⟨_, hx1⟩, hy0, hy1⟩ := (inb_iff w 1 0).1 hib1
    exact (inb_iff w 0 0).2 (by omega)
  unfold visit
  rw [wp_bind, wp_getUpdated, h.2.2.1.isSomeU, hu]
  refine ⟨hib, ?_⟩
  rw [if_neg (by simp), wp_bind, wp_getCell, h.2.1.isSome, hw]
  refine ⟨hib, ?_⟩
  simp only [reduceCtorEq, or_self, if_false, sandlike, liquid, Bool.false_eq_true, if_true]
  unfold liquidRule
  refine wp_seq (liquidMove_damp h hib hib1 hc) ?_
  intro moved w1 h1
  have hib01 : w1.inb 0 0 = true := (h1.1.inbD 0 0).trans ((h.inbD 0 0).symm.trans hib)
  refine wp_seq (I := fun w2 => Damp w0 w2 ∧ w2.cell 1 0 = ⟨FIRE, 20⟩) (wp_when h1 (fun _ => ?_)) ?_
  · simp only [wp_setUpdated, h1.1.2.2.1.isSomeU, hib01, true_and]
    exact ⟨h1.1.markedD hib01 (by omega), h1.2⟩
  intro _ w2 h2
  refine wp_seq (reactBox_damp h2.1 hib0 h2.2) ?_
  intro _ w3 h3
  refine wp_seq (I := fun w4 => Damp w0 w4 ∧ w4.cell 1 0 = ⟨SMOKE, 15⟩)
    (wp_when h3 (fun hl => absurd hl (by simp))) ?_
  intro _ w4 h4
  refine wp_seq (I := fun w5 => Damp w0 w5 ∧ w5.cell 1 0 = ⟨SMOKE, 15⟩)
    (wp_when h4 (fun _ => hydrate_damp h4.1 _ h4.2 (by simp))) ?_
  intro _ w5 h5
  refine wp_when h5 (fun _ => ?_)
  have hib05 : w5.inb 0 0 = true := (h5.1.inbD 0 0).trans ((h.inbD 0 0).symm.trans hib)
  have hlife : (w5.cell 0 0).life = 0 := by
    rcases h5.1.2.2.2.2.1 0 0 hib05 (by omega) with e | e
    · rw [e]
    · rw [e]
  unfold waterPulse
  rw [wp_bind, wp_getCell]
  refine ⟨by rw [h5.1.2.1.isSome]; exact hib05, ?_⟩
  rw [if_neg (by omega)]
  exact (wp_pure _ _ _).2 h5

/-- The smoke at `(1, 0)` taking the place of an `EMPTY` cell of row 0. -/
theorem swap_to_drift {w0 w : World} (h : Damp w0 w) (hib1 : w.inb 1 0 = true) {nx : Int}
    (hib2 : w.inb nx 0 = true) (he : empty (w.cell nx 0) = true) (hn : nx ≠ 1) :
    wp (swap_to 1 0 nx 0) (fun _ w1 => Drifted w0 w1 ∧ w1.cell 1 0 = ⟨EMPTY, 0⟩ ∧
      w1.cell nx 0 = w.cell 1 0) w := by
  obtain ⟨hd, hwf, hwfu, hu, hcells, hrow⟩ := h
  have hwf1 : (w.put nx 0 (w.cell 1 0)).WF := hwf.putWF _ _ _
  have hd0 : w.cell nx 0 = ⟨EMPTY, 0⟩ := by
    rcases hcells nx 0 hib2 (by omega) with e | e
    · exact e
    · rw [e] at he
      simp [empty] at he
  simp only [swap_to, wp_bind, wp_getCell, wp_setCell, wp_setUpdated, isSome_put, put_updated,
    hwf.isSome, hwfu.isSomeU, hib1, hib2, true_and, put_inb]
  refine ⟨⟨hd, hwf1.putWF _ _ _, hwfu.markWFU _ _, ?_⟩, ?_, ?_⟩
  · intro a ha hab
    by_cases hax : a = nx
    · left
      rw [upd_mark (by exact hwfu) (by exact hib2), if_pos ⟨hax, rfl⟩]
    · right; left
      rw [mark_cell, cell_put hwf1 hib1, cell_put hwf hib2, if_neg (by omega), if_neg (by omega),
        hrow a ha hab]
  · rw [mark_cell, cell_put hwf1 hib1, if_pos ⟨rfl, rfl⟩]
    exact hd0
  · rw [mark_cell, cell_put hwf1 hib1, if_neg (by omega), cell_put hwf hib2,
      if_pos ⟨rfl, rfl⟩]

theorem gasSideAt_damp {w0 w : World} (h : Damp w0 w) (hib0 : w0.inb 1 0 = true)
    (hc : w.cell 1 0 = ⟨SMOKE, 15⟩) (nx ny : Int) (hny : ny = 0 ∨ ny = -1) :
    wp (do
        let ib ← in_bounds nx ny
        if (!ib) = true then pure false
        else do
          let d ← getCell nx ny
          if empty d = true then do
            swap_to 1 0 nx ny
            pure true
          else pure false)
      (fun r w1 => (r = false → Damp w0 w1 ∧ w1.cell 1 0 = ⟨SMOKE, 15⟩) ∧
        (r = true → Drifted w0 w1 ∧ w1.cell 1 0 = ⟨EMPTY, 0⟩ ∧
          w1.cell nx 0 = ⟨SMOKE, 15⟩)) w := by
  have hib1 : w.inb 1 0 = true := (h.inbD 1 0).trans hib0
  have hstay : (false = false → Damp w0 w ∧ w.cell 1 0 = ⟨SMOKE, 15⟩) ∧
      (false = true → Drifted w0 w ∧ w.cell 1 0 = ⟨EMPTY, 0⟩ ∧
        w.cell nx 0 = ⟨SMOKE, 15⟩) :=
    ⟨fun _ => ⟨h, hc⟩, fun hh => absurd hh (by simp)⟩
  rw [wp_bind, wp_in_bounds]
  refine wp_cases (fun _ => (wp_pure _ _ _).2 hstay) (fun hb => ?_)
  have hib2 := inb_of_not hb
  have hy : ny = 0 := by
    rcases hny with e | e
    · exact e
    · rw [e] at hib2
      obtain ⟨_, hy0, _⟩ := (inb_iff w nx (-1)).1 hib2
      omega
  subst hy
  rw [wp_bind, wp_getCell, h.2.1.isSome]
  refine ⟨hib2, ?_⟩
  refine wp_cases (fun he => ?_) (fun _ => (wp_pure _ _ _).2 hstay)
  have hn : nx ≠ 1 := by
    rintro rfl
    rw [hc] at he
    simp [empty] at he
  rw [wp_bind]
  refine wp_mono (swap_to_drift h hib1 hib2 he hn) ?_
  intro _ w1 h1
  rw [wp_pure]
  exact ⟨fun hh => absurd hh (by simp), fun _ => ⟨h1.1, h1.2.1, h1.2.2.trans hc⟩⟩

theorem gasSide_damp {w0 w : World} (h : Damp w0 w) (hib0 : w0.inb 1 0 = true)
    (hc : w.cell 1 0 = ⟨SMOKE, 15⟩) (nx : Int) :
    wp (gasSide 1 0 nx)
      (fun r w1 => (r = false → Damp w0 w1 ∧ w1.cell 1 0 = ⟨SMOKE, 15⟩) ∧
        (r = true → Drifted w0 w1 ∧ w1.cell 1 0 = ⟨EMPTY, 0⟩ ∧
          w1.cell nx 0 = ⟨SMOKE, 15⟩)) w := by
  unfold gasSide
  rw [wp_bind, wp_chance]
  refine gasSideAt_damp (w := w.draw) h.drawnD hib0 hc nx _ ?_
  split
  · right
    rfl
  · left
    rfl

/-- The movement of the smoke at `(1, 0)`: it stays, or it moves along row 0 to the
column 0 or 2, with its life 15, and leaves an `EMPTY` cell of life 0. -/
theorem gasMove_damp {w0 w : World} (h : Damp w0 w) (hib0 : w0.inb 1 0 = true)
    (hc : w.cell 1 0 = ⟨SMOKE, 15⟩) :
    wp (gasMove 1 0 SMOKE)
      (fun r w1 => (r = false → Damp w0 w1 ∧ w1.cell 1 0 = ⟨SMOKE, 15⟩) ∧
        (r = true → Drifted w0 w1 ∧ w1.cell 1 0 = ⟨EMPTY, 0⟩ ∧
          (w1.cell 0 0 = ⟨SMOKE, 15⟩ ∨ w1.cell 2 0 = ⟨SMOKE, 15⟩))) w := by
  have hup : w.inb 1 (0 - 1) = false := by
    unfold World.inb
    simp
  have hcol : ∀ (o : Int) (c : Cell) (v : World), (o = 1 ∨ o = -1) →
      (v.cell (1 + o) 0 = c ∨ v.cell (1 - o) 0 = c) → (v.cell 0 0 = c ∨ v.cell 2 0 = c) := by
    rintro o c v (rfl | rfl) (e | e)
    · exact Or.inr e
    · exact Or.inl e
    · exact Or.inl e
    · exact Or.inr e
  simp only [gasMove, gasRise, gasUp, reduceCtorEq, if_false, wp_bind, wp_in_bounds, hup,
    Bool.not_false, if_true, wp_pure, Bool.false_eq_true, wp_rint]
  have ho : (if (0 : Int) + ((w.draws w.pos : Nat) : Int) % (1 - 0 + 1) ≠ 0 then (1 : Int)
      else -1) = 1 ∨
      (if (0 : Int) + ((w.draws w.pos : Nat) : Int) % (1 - 0 + 1) ≠ 0 then (1 : Int)
      else -1) = -1 := by
    split
    · exact Or.inl rfl
    · exact Or.inr rfl
  refine wp_mono (gasSide_damp (w := w.draw) h.drawnD hib0 hc _) ?_
  intro m1 w1 h1
  cases m1
  · simp only [Bool.false_eq_true, if_false]
    refine wp_mono (gasSide_damp (h1.1 rfl).1 hib0 (h1.1 rfl).2 _) ?_
    intro m2 w2 h2
    refine ⟨h2.1, fun hm => ?_⟩
    obtain ⟨a1, a2, a3⟩ := h2.2 hm
    exact ⟨a1, a2, hcol _ _ _ ho (Or.inr a3)⟩
  · rw [if_pos rfl, wp_pure]
    refine ⟨fun hh => absurd hh (by simp), fun _ => ?_⟩
    obtain ⟨a1, a2, a3⟩ := h1.2 rfl
    exact ⟨a1, a2, hcol _ _ _ ho (Or.inl a3)⟩

theorem Drifted.putSmoke {w0 w : World} (h : Drifted w0 w) (hib : w.inb 1 0 = true) (c : Cell) :
    Drifted w0 (w.put 1 0 c) := by
  refine ⟨h.1, h.2.1.putWF _ _ _, h.2.2.1, ?_⟩
  intro x hx hxy
  have hq := h.2.2.2 x hx hxy
  unfold Quiet at hq ⊢
  rw [cell_put h.2.1 hib, if_neg (by omega)]
  exact hq

theorem Damp.drifted {w0 w : World} (h : Damp w0 w) : Drifted w0 w := by
  refine ⟨h.1, h.2.1, h.2.2.1, ?_⟩
  intro x hx hxy
  right; left
  rw [h.2.2.2.2.2 x hx hxy]

/-- The lifetime block of the smoke at `(1, 0)`: smoke that stayed has life 14; where the
smoke left, the `EMPTY` cell it swapped with is counted down instead and becomes `EMPTY`
or `ASH` with life 0, and the smoke keeps its life 15 in its new column. -/
theorem gasDecay_damp {w0 w : World} (moved : Bool) (hib0 : w0.inb 1 0 = true)
    (h : (moved = false → Damp w0 w ∧ w.cell 1 0 = ⟨SMOKE, 15⟩) ∧
      (moved = true → Drifted w0 w ∧ w.cell 1 0 = ⟨EMPTY, 0⟩ ∧
        (w.cell 0 0 = ⟨SMOKE, 15⟩ ∨ w.cell 2 0 = ⟨SMOKE, 15⟩))) :
    wp (gasDecay 1 0 SMOKE moved) (fun _ w1 => Drifted w0 w1 ∧
      (w1.cell 1 0 = ⟨SMOKE, 14⟩ ∨
        ((w1.cell 1 0 = ⟨EMPTY, 0⟩ ∨ w1.cell 1 0 = ⟨ASH, 0⟩) ∧
          (w1.cell 0 0 = ⟨SMOKE, 15⟩ ∨ w1.cell 2 0 = ⟨SMOKE, 15⟩)))) w := by
  cases moved
  · obtain ⟨hd, hc⟩ := h.1 rfl
    have hib : w.inb 1 0 = true := (hd.inbD 1 0).trans hib0
    have hdr := hd.drifted
    have e15 : dec32 15 = 14 := by decide
    simp only [gasDecay, wp_bind, wp_getCell, wp_setLife, wp_setUpdated, wp_ite, wp_pure,
      isSome_put, put_updated, hd.2.1.isSome, hd.2.2.1.isSomeU, hib, hc, true_and, cell_put_if,
      and_self, if_true, Bool.not_false, e15]
    rw [if_neg (by omega)]
    refine ⟨⟨hd.1, hd.2.1.putWF _ _ _, hd.2.2.1.markWFU _ _, ?_⟩, Or.inl ?_⟩
    · intro x hx hxy
      right; left
      rw [mark_cell, cell_put hd.2.1 hib, if_neg (by omega), hd.2.2.2.2.2 x hx hxy]
    · rw [mark_cell, cell_put hd.2.1 hib, if_pos ⟨rfl, rfl⟩]
  · obtain ⟨hd, hc, hsm⟩ := h.2 rfl
    have hib : w.inb 1 0 = true := (inb_dims hd.1 1 0).trans hib0
    have e0 : dec32 0 = -1 := by decide
    have hkeep : ∀ (c1 c2 : Cell),
        (if (0 : Int) = 1 ∧ True then c2 else (w.put 1 0 c1).draw.cell 0 0) = ⟨SMOKE, 15⟩ ∨
          (if (2 : Int) = 1 ∧ True then c2 else (w.put 1 0 c1).draw.cell 2 0) =
            ⟨SMOKE, 15⟩ := by
      intro c1 c2
      have e : ∀ a, a ≠ 1 → (w.put 1 0 c1).draw.cell a 0 = w.cell a 0 := by
        intro a ha
        rw [draw_cell, cell_put_if, if_neg (fun hh => ha hh.1)]
      rw [if_neg (by decide), if_neg (by decide), e 0 (by decide), e 2 (by decide)]
      exact hsm
    simp only [gasDecay, wp_bind, wp_getCell, wp_setLife, wp_setCell, wp_ite, wp_pure, wp_chance,
      isSome_put, put_updated, hd.2.1.isSome, hib, hc, true_and, cell_put_if, and_self,
      if_true, reduceCtorEq, if_false, Bool.false_eq_true, draw_grid, e0]
    rw [if_pos (by omega)]
    split
    · refine ⟨(hd.putSmoke hib _).putSmoke hib _, Or.inr ⟨Or.inr ?_, hkeep _ _⟩⟩
      simp only [World.draw, cell_put_if, and_self, true_and, if_true, isSome_put, hd.2.1.isSome,
        hib]
    · refine ⟨(hd.putSmoke hib _).putSmoke hib _, Or.inr ⟨Or.inl ?_, hkeep _ _⟩⟩
      simp only [World.draw, cell_put_if, and_self, true_and, if_true, isSome_put, hd.2.1.isSome,
        hib]

/-- The visit of the fresh smoke at `(1, 0)` in the same tick. -/
theorem visit_smoke {w0 w : World} (h : Damp w0 w) (hib0 : w0.inb 1 0 = true)
    (hc : w.cell 1 0 = ⟨SMOKE, 15⟩) :
    wp (visit 1 0) (fun _ w1 => Drifted w0 w1 ∧
      (w1.cell 1 0 = ⟨SMOKE, 14⟩ ∨
        ((w1.cell 1 0 = ⟨EMPTY, 0⟩ ∨ w1.cell 1 0 = ⟨ASH, 0⟩) ∧
          (w1.cell 0 0 = ⟨SMOKE, 15⟩ ∨ w1.cell 2 0 = ⟨SMOKE, 15⟩)))) w := by
  have hib : w.inb 1 0 = true := (h.inbD 1 0).trans hib0
  unfold visit
  rw [wp_bind, wp_getUpdated, h.2.2.1.isSomeU, h.2.2.2.1]
  refine ⟨hib, ?_⟩
  rw [if_neg (by simp), wp_bind, wp_getCell, h.2.1.isSome, hc]
  refine ⟨hib, ?_⟩
  simp only [reduceCtorEq, or_self, if_false, sandlike, liquid, gas, Bool.false_eq_true, if_true]
  unfold gasRule
  rw [wp_bind]
  refine wp_mono (gasMove_damp h hib0 hc) ?_
  intro moved w1 h1
  simp only [reduceCtorEq, or_self, if_false]
  rw [wp_bind, wp_pure, wp_bind, wp_pure]
  exact gasDecay_damp moved hib0 h1

/-- The two loops of `step_sim`, started with a clear mask on a grid that is `EMPTY`
except for `WATER` at `(0, 0)` and `FIRE` with life 20 at `(1, 0)`. -/
theorem douse_sweep {w : World} (hwf : w.WF) (hwfu : w.WFU) (hu : ∀ x y, w.upd x y = false)
    (hW : 2 ≤ w.gWidth) (hH : 1 ≤ w.gHeight)
    (hw : w.cell 0 0 = ⟨WATER, 0⟩) (hf : w.cell 1 0 = ⟨FIRE, 20⟩)
    (he : ∀ x y, w.inb x y = true → ¬ (y = 0 ∧ (x = 0 ∨ x = 1)) → w.cell x y = ⟨EMPTY, 0⟩) :
    wp (forEach (irange 0 (w.gHeight - 1)).reverse fun y =>
        forEach (irange 0 (w.gWidth - 1)) fun x => visit x y)
      (fun _ w1 =>
        w1.cell 1 0 = ⟨SMOKE, 14⟩ ∨
          ((w1.cell 1 0 = ⟨EMPTY, 0⟩ ∨ w1.cell 1 0 = ⟨ASH, 0⟩) ∧
            (w1.cell 0 0 = ⟨SMOKE, 15⟩ ∨ w1.cell 2 0 = ⟨SMOKE, 15⟩))) w := by
  have hib : w.inb 0 0 = true := (inb_iff w 0 0).2 (by omega)
  have hib1 : w.inb 1 0 = true := (inb_iff w 1 0).2 (by omega)
  refine sweep_upto hwf hwfu hib ?_ _ ?_
  · intro x y hxy hlt
    right; left
    rw [he x y hxy (by omega)]
  intro w1 h1
  have hd1 : Damp w w1 := by
    refine ⟨h1.1, h1.wf hwf, h1.2.2.2.2.1, ?_, ?_, ?_⟩
    · rw [h1.2.2.2.2.2.2 1 0 (by omega)]
      exact hu 1 0
    · intro x y hxy hne
      rw [h1.cell]
      rw [h1.inbC] at hxy
      by_cases h0 : x = 0 ∧ y = 0
      · right
        rw [h0.1, h0.2]
        exact hw
      · left
        exact he x y hxy (by omega)
    · intro x hx hxy
      rw [h1.cell]
      rw [h1.inbC] at hxy
      exact he x 0 hxy (by omega)
  have hu1 : w1.upd 0 0 = false := by
    rw [h1.2.2.2.2.2.2 0 0 (by omega)]
    exact hu 0 0
  refine wp_mono (visit_water_douse hd1 hib1 hu1 ((h1.cell 0 0).trans hw)
    ((h1.cell 1 0).trans hf)) ?_
  rintro _ w2 ⟨hd2, hc2⟩
  have e1 : (0 : Int) + 1 = 1 := rfl
  rw [e1, irange_cons (by omega), wp_forEach_cons]
  refine wp_mono (visit_smoke hd2 hib1 hc2) ?_
  rintro _ w3 ⟨hd3, hc3⟩
  refine sweep_rest hd3.2.1 hd3.2.2.1 hd3.1.1 (by omega) (le_refl _)
    (by rw [hd3.1.2]; omega) ?_ _ ?_
  · intro x y hxy hlt
    obtain ⟨_, hy0, _⟩ := (inb_iff w3 x y).1 hxy
    have hy : y = 0 := by omega
    subst hy
    exact hd3.2.2.2 x (by omega) hxy
  · intro w4 h4
    rw [h4.cell 1 0, h4.cell 0 0, h4.cell 2 0]
    exact hc3

/-- C10 (as stated) fails: on the 2x1 grid with `WATER` at `(0, 0)` and `FIRE` with life
20 at `(1, 0)`, the cell `(1, 0)` is `SMOKE` with life 14 after one tick, not 15: the
smoke the water makes is itself visited later in the same tick. -/
theorem water_fire_counterexample :
    waterFire.WF ∧ gridAfter step_sim waterFire = some [[⟨WATER, 0⟩, ⟨SMOKE, 14⟩]] := by
  decide

/-- C10 (amended): on every rectangular grid of width at least 2 and height at least 1
that is `EMPTY` (life 0) except for `WATER` (life 0) at `(0, 0)` and `FIRE` with life 20
at `(1, 0)`, and for every random stream, a tick returns and the fire is out: afterwards
either the cell `(1, 0)` is `SMOKE` with life 14 (the smoke the water made was visited in
the same tick and stayed), or the smoke has moved within the tick along row 0, so that
`(0, 0)` or `(2, 0)` is `SMOKE` and the cell `(1, 0)` is no longer `SMOKE`; the cell
`(1, 0)` is never `FIRE` and never `SMOKE` with life 15. -/
theorem water_fire (w : World) (hwf : w.WF) (hW : 2 ≤ w.gWidth) (hH : 1 ≤ w.gHeight)
    (hw : w.cell 0 0 = ⟨WATER, 0⟩) (hf : w.cell 1 0 = ⟨FIRE, 20⟩)
    (he : ∀ x y, w.inb x y = true → ¬ (y = 0 ∧ (x = 0 ∨ x = 1)) → w.cell x y = ⟨EMPTY, 0⟩) :
    wp step_sim (fun _ w1 =>
      (w1.cell 1 0 = ⟨SMOKE, 14⟩ ∨
        ((w1.cell 1 0).type ≠ SMOKE ∧
          ((w1.cell 0 0).type = SMOKE ∨ (w1.cell 2 0).type = SMOKE))) ∧
      (w1.cell 1 0).type ≠ FIRE ∧ w1.cell 1 0 ≠ ⟨SMOKE, 15⟩) w := by
  unfold step_sim
  rw [wp_bind, wp_getWidth, wp_bind, wp_getHeight, if_neg (by omega), wp_bind, wp_allocUpdated]
  refine wp_mono (douse_sweep
    (w := ({ w with updated :=
      List.replicate w.gHeight.toNat (List.replicate w.gWidth.toNat false) } : World))
    hwf (rect_replicate w.gWidth w.gHeight (by omega) (by omega)) (upd_alloc w) hW hH hw hf he)
    ?_
  rintro _ w1 (e | ⟨e | e, hsm⟩)
  · rw [e]
    exact ⟨Or.inl rfl, by simp, by simp⟩
  · have hs : (w1.cell 0 0).type = SMOKE ∨ (w1.cell 2 0).type = SMOKE :=
      hsm.imp (fun h => by rw [h]) (fun h => by rw [h])
    rw [e]
    exact ⟨Or.inr ⟨by simp, hs⟩, by simp, by simp⟩
  · have hs : (w1.cell 0 0).type = SMOKE ∨ (w1.cell 2 0).type = SMOKE :=
      hsm.imp (fun h => by rw [h]) (fun h => by rw [h])
    rw [e]
    exact ⟨Or.inr ⟨by simp, hs⟩, by simp, by simp⟩

theorem water_fire_witness :
    waterFireWide.WF ∧ 2 ≤ waterFireWide.gWidth ∧ 1 ≤ waterFireWide.gHeight ∧
      waterFireWide.cell 0 0 = ⟨WATER, 0⟩ ∧ waterFireWide.cell 1 0 = ⟨FIRE, 20⟩ ∧
      wp step_sim (fun _ w1 =>
        (w1.cell 1 0 = ⟨SMOKE, 14⟩ ∨
          ((w1.cell 1 0).type ≠ SMOKE ∧
            ((w1.cell 0 0).type = SMOKE ∨ (w1.cell 2 0).type = SMOKE))) ∧
        (w1.cell 1 0).type ≠ FIRE ∧ w1.cell 1 0 ≠ ⟨SMOKE, 15⟩) waterFireWide := by
  refine ⟨by decide, by decide, by decide, by decide, by decide,
    water_fire waterFireWide (by decide) (by decide) (by decide) (by decide) (by decide) ?_⟩
  intro x y hxy hne
  obtain ⟨⟨hx0, hx1⟩, hy0, hy1⟩ := (inb_iff _ x y).1 hxy
  have hx2 : x < 3 := hx1
  have hy2 : y < 2 := hy1
  interval_cases x <;> interval_cases y <;> first | rfl | exact absurd ⟨rfl, by decide⟩ hne

/-! ## Classification and density -/

/-- C16: for every element kind `e`, `flammable`, `dissolvable`, `is_hazard` and
`conductor` hold exactly on the documented sets; in particular `WALL` is neither
flammable nor dissolvable. -/
theorem classification_sets (e : Element) :
    (flammable e = true ↔ e ∈ [WOOD, PLANT, OIL, ETHANOL, GUNPOWDER, COAL, SEAWEED]) ∧
    (dissolvable e = true ↔
      e ∈ [SAND, STONE, GLASS, WOOD, PLANT, METAL, WIRE, ASH, COAL, SEAWEED, DIRT, WET_DIRT]) ∧
    (is_hazard e = true ↔ e ∈ [FIRE, LAVA, ACID, TOXIC_GAS, CHLORINE, LIGHTNING]) ∧
    (conductor e = true ↔ e ∈ [METAL, WIRE, MERCURY, SALTWATER]) ∧
    flammable WALL = false ∧ dissolvable WALL = false := by
  cases e <;> decide

/-- C17: `density` returns the documented values, the liquids are exactly `ETHANOL`,
`OIL`, `WATER`, `SALTWATER`, `ACID`, `LAVA`, `MERCURY`, and in this order their densities
are strictly increasing (so no two liquids have the same density). -/
theorem density_values :
    density HYDROGEN = 1 ∧ density STEAM = 2 ∧ density SMOKE = 3 ∧ density CHLORINE = 5 ∧
    density ETHANOL = 85 ∧ density OIL = 90 ∧ density WATER = 100 ∧ density SALTWATER = 103 ∧
    density ACID = 110 ∧ density LAVA = 160 ∧ density MERCURY = 200 ∧
    (∀ e, liquid e = true ↔ e ∈ liquidsByDensity) ∧
    (liquidsByDensity.map density).Pairwise (fun a b => a < b) := by
  refine ⟨rfl, rfl, rfl, rfl, rfl, rfl, rfl, rfl, rfl, rfl, rfl, ?_, by decide⟩
  intro e
  cases e <;> decide

/-- C18 (as stated) fails: `TOXIC_GAS` is a gas, but `density` has no case for it and
returns 999, which is more than the density of every liquid. -/
theorem density_toxic_gas_counterexample :
    gas TOXIC_GAS = true ∧ density TOXIC_GAS = 999 ∧ ¬ density TOXIC_GAS < density MERCURY := by
  decide

/-- C18 (amended): for every element kind `e`, `density e = 999` if and only if `e` is
neither a liquid nor a gas or `e` is `TOXIC_GAS`; every liquid and every gas other than
`TOXIC_GAS` has a density below 999, and every gas other than `TOXIC_GAS` is lighter
than every liquid. -/
theorem density_finite (e : Element) :
    (density e = 999 ↔ (liquid e = false ∧ gas e = false) ∨ e = TOXIC_GAS) ∧
    (liquid e = true → density e < 999) ∧
    (gas e = true → e ≠ TOXIC_GAS → density e < 999) ∧
    (gas e = true → e ≠ TOXIC_GAS → ∀ l, liquid l = true → density e < density l) := by
  refine ⟨?_, ?_, ?_, ?_⟩
  · cases e <;> decide
  · cases e <;> decide
  · cases e <;> decide
  · intro hg hne l hl
    revert hg hne hl
    cases e <;> cases l <;> decide

/-! ## The empty grid -/

/-- A computation that returns in the state it started from. -/
theorem eq_of_wp_same {m : SimM Unit} {w : World} (h : wp m (fun _ w1 => w1 = w) w) :
    m w = some ((), w) := by
  obtain ⟨a, w1, h1, h2⟩ := h
  rw [h1, h2]

/-- C19: when `gWidth ≤ 0` or `gHeight ≤ 0`, `step_sim` returns at once: the whole state
(grid, mask and random generator) is unchanged, so no random number is drawn. -/
theorem step_sim_zero (w : World) (h : w.gWidth ≤ 0 ∨ w.gHeight ≤ 0) :
    step_sim w = some ((), w) := by
  apply eq_of_wp_same
  unfold step_sim
  rw [wp_bind, wp_getWidth, wp_bind, wp_getHeight, if_pos h, wp_pure]

theorem step_sim_zero_witness :
    (zeroWorld.gWidth ≤ 0 ∨ zeroWorld.gHeight ≤ 0) ∧ step_sim zeroWorld = some ((), zeroWorld) :=
  ⟨Or.inl (by decide), step_sim_zero zeroWorld (Or.inl (by decide))⟩

/-! ## Lifetimes of lava and gas that move -/

/-- C13 (code defect): lava that moves does not cool. On the 2x1 grid with `LAVA` of
life 0 next to an `EMPTY` cell (no water anywhere) the lava changes sides every tick, and
the increment of `lava cools` is applied to the cell it swapped with: after 201 ticks the
lava is still `LAVA` with life 0, and the `EMPTY` cell has been turned into `STONE`. -/
theorem lava_moving_does_not_cool :
    lavaPair.WF ∧
      gridAfter (ticks 200) lavaPair = some [[⟨LAVA, 0⟩, ⟨EMPTY, 200⟩]] ∧
      gridAfter (ticks 201) lavaPair = some [[⟨STONE, 0⟩, ⟨LAVA, 0⟩]] := by
  decide!

/-- Lava that cannot move does cool within the bound: alone on a 1x1 grid it is `LAVA`
with life 200 after 200 ticks and `STONE` after 201. -/
theorem lava_still_cools :
    gridAfter (ticks 200) lavaAlone = some [[⟨LAVA, 200⟩]] ∧
      gridAfter (ticks 201) lavaAlone = some [[⟨STONE, 0⟩]] := by
  decide!

/-- C14 (code defect): gas that moves is not counted down. In the column of width 1 and
height 30 with `GAS` of life 25 at the bottom, the gas rises one cell per tick and the
decrement is applied to the cell it vacated: after 25 ticks the gas is at `(0, 4)` and
still has life 25. -/
theorem gas_moving_does_not_decay :
    gasColumn.WF ∧
      gridAfter (ticks 25) gasColumn =
        some (List.replicate 4 [⟨EMPTY, 0⟩] ++ [[⟨GAS, 25⟩]] ++ List.replicate 25 [⟨EMPTY, 0⟩]) := by
  decide!

/-- The same defect in one tick: `GAS` with life 1 below an `EMPTY` cell rises and still
has life 1 after the tick. -/
theorem gas_last_tick_survives :
    gridAfter step_sim gasUnderEmpty = some [[⟨GAS, 1⟩], [⟨EMPTY, 0⟩]] := by
  decide

/-! ## Lava next to sand -/

theorem Beside.inbB {k : Element} {w0 w : World} (h : Beside k w0 w) (x y : Int) :
    w.inb x y = w0.inb x y :=
  inb_dims h.1 x y

theorem Beside.drawnB {k : Element} {w0 w : World} (h : Beside k w0 w) : Beside k w0 w.draw := h

theorem Beside.markedB {k : Element} {w0 w : World} (h : Beside k w0 w) (x y : Int) :
    Beside k w0 (w.mark x y) :=
  ⟨h.1, h.2.1, h.2.2.1.markWFU x y, h.2.2.2.1, h.2.2.2.2⟩

/-- Writing the cell `(1, 0)` keeps the invariant. -/
theorem Beside.putSide {k : Element} {w0 w : World} (h : Beside k w0 w)
    (hib : w.inb 1 0 = true) (c : Cell) : Beside k w0 (w.put 1 0 c) := by
  refine ⟨h.1, h.2.1.putWF _ _ _, h.2.2.1, ?_, ?_⟩
  · intro x y hxy hne
    rw [cell_put h.2.1 hib, if_neg hne]
    exact h.2.2.2.1 x y hxy hne
  · intro x hx hxy
    rw [cell_put h.2.1 hib, if_neg (by omega)]
    exact h.2.2.2.2 x hx hxy

theorem Beside.driftedB {k : Element} {w0 w : World} (h : Beside k w0 w) : Drifted w0 w := by
  refine ⟨h.1, h.2.1, h.2.2.1, ?_⟩
  intro x hx hxy
  right; left
  rw [h.2.2.2.2 x hx hxy]

/-- Exchanging two cells left of column 2, neither of them `(1, 0)`, keeps the invariant
and the cell `(1, 0)`. -/
theorem swap_to_beside {k : Element} {w0 w : World} (h : Beside k w0 w) {x y nx ny : Int}
    (hib : w.inb x y = true) (hib2 : w.inb nx ny = true) (h1 : ¬ (x = 1 ∧ y = 0))
    (h2 : ¬ (nx = 1 ∧ ny = 0)) (h3 : x < 2) (h4 : nx < 2) (c : Cell) (hc : w.cell 1 0 = c) :
    wp (swap_to x y nx ny) (fun _ w1 => Beside k w0 w1 ∧ w1.cell 1 0 = c) w := by
  obtain ⟨hd, hwf, hwfu, hcells, hrow⟩ := h
  have hwf1 : (w.put nx ny (w.cell x y)).WF := hwf.putWF _ _ _
  simp only [swap_to, wp_bind, wp_getCell, wp_setCell, wp_setUpdated, isSome_put, put_updated,
    hwf.isSome, hwfu.isSomeU, hib, hib2, true_and, put_inb]
  refine ⟨⟨hd, hwf1.putWF _ _ _, hwfu.markWFU _ _, ?_, ?_⟩, ?_⟩
  · intro a b hab hne
    rw [mark_cell, cell_put hwf1 hib, cell_put hwf hib2]
    split
    · exact hcells nx ny hib2 h2
    · split
      · exact hcells x y hib h1
      · exact hcells a b hab hne
  · intro a ha hab
    rw [mark_cell, cell_put hwf1 hib, cell_put hwf hib2, if_neg (by omega), if_neg (by omega)]
    exact hrow a ha hab
  · rw [mark_cell, cell_put hwf1 hib, cell_put hwf hib2,
      if_neg (fun hh => h1 ⟨hh.1.symm, hh.2.symm⟩), if_neg (fun hh => h2 ⟨hh.1.symm, hh.2.symm⟩)]
    exact hc

/-- The liquid at `(0, 0)` can only fall when the cell at `(1, 0)` is neither `EMPTY` nor
a gas nor a liquid. -/
theorem liquidMove_beside {k t : Element} {w0 w : World} (h : Beside k w0 w)
    (hib0 : w0.inb 1 0 = true) (c : Cell) (hc : w.cell 1 0 = c)
    (hs : (empty c || gas c.type) = false ∧ liquid c.type = false) :
    wp (liquidMove 0 0 t) (fun _ w1 => Beside k w0 w1 ∧ w1.cell 1 0 = c) w := by
  have hib1 : w.inb 1 0 = true := (h.inbB 1 0).trans hib0
  have hib : w.inb 0 0 = true := by
    obtain ⟨⟨_, hx1⟩, hy0, hy1⟩ := (inb_iff w 1 0).1 hib1
    exact (inb_iff w 0 0).2 (by omega)
  have hside : ∀ (nx : Int) (w1 : World), nx = 1 ∨ nx = -1 →
      Beside k w0 w1 ∧ w1.cell 1 0 = c →
      wp (liquidSide 0 0 t nx) (fun _ w2 => Beside k w0 w2 ∧ w2.cell 1 0 = c) w1 := by
    intro nx w1 hnx h1
    rcases hnx with rfl | rfl
    · have hib2 : w1.inb 1 0 = true := (h1.1.inbB 1 0).trans hib0
      simp only [liquidSide, wp_bind, wp_in_bounds, wp_ite, wp_pure, wp_getCell, h1.1.2.1.isSome,
        hib2, h1.2, hs.1, hs.2, Bool.not_true, Bool.false_eq_true, if_false, true_and,
        Bool.false_and]
      exact ⟨h1.1, trivial⟩
    · have hib2 : w1.inb (-1) 0 = false := by
        unfold World.inb
        simp
      simp only [liquidSide, wp_bind, wp_in_bounds, wp_ite, wp_pure, hib2, Bool.not_false,
        if_true]
      exact h1
  unfold liquidMove
  refine wp_seq (I := fun w1 => Beside k w0 w1 ∧ w1.cell 1 0 = c) ?_ ?_
  · simp only [liquidDown, wp_bind, wp_in_bounds, wp_ite, wp_pure, wp_getCell, h.2.1.isSome]
    split_ifs with h1 h2 h3
    · exact ⟨h, hc⟩
    · exact ⟨inb_of_not h1, wp_mono (swap_to_beside h hib (inb_of_not h1) (by omega) (by omega)
        (by omega) (by omega) _ hc) (fun _ _ hh => hh)⟩
    · exact ⟨inb_of_not h1, wp_mono (swap_to_beside h hib (inb_of_not h1) (by omega) (by omega)
        (by omega) (by omega) _ hc) (fun _ _ hh => hh)⟩
    · exact ⟨inb_of_not h1, h, hc⟩
  intro m0 w1 h1
  cases m0
  · simp only [Bool.false_eq_true, if_false, wp_bind, wp_rint]
    have ho : ∀ r : Int, (if r ≠ 0 then (1 : Int) else -1) = 1 ∨
        (if r ≠ 0 then (1 : Int) else -1) = -1 := by
      intro r
      split
      · exact Or.inl rfl
      · exact Or.inr rfl
    refine wp_mono (hside _ _ (by simpa using ho _) ⟨h1.1.drawnB, h1.2⟩) ?_
    intro m1 w2 h2
    cases m1
    · simp only [Bool.false_eq_true, if_false]
      refine hside _ _ ?_ h2
      rcases ho (w1.roll 0 1) with e | e
      · right
        simp only [zero_sub, e]
      · left
        simp only [zero_sub, e, neg_neg]
    · rw [if_pos rfl, wp_pure]
      exact h2
  · rw [if_pos rfl, wp_pure]
    exact h1

/-- One step of the interactions of the lava: only the sand at `(1, 0)` reacts, and it
becomes glass when the step is the one at the offset `(1, 0)`. -/
theorem liquidReact_lava {w0 w : World} (h : Beside LAVA w0 w) (hib0 : w0.inb 1 0 = true)
    (hc : w.cell 1 0 = ⟨SAND, 0⟩ ∨ w.cell 1 0 = ⟨GLASS, 0⟩) (dx dy : Int) :
    wp (liquidReact 0 0 LAVA dx dy) (fun _ w1 => Beside LAVA w0 w1 ∧
      (w1.cell 1 0 = ⟨SAND, 0⟩ ∨ w1.cell 1 0 = ⟨GLASS, 0⟩) ∧
      (w.cell 1 0 = ⟨GLASS, 0⟩ ∨ (dx = 1 ∧ dy = 0) → w1.cell 1 0 = ⟨GLASS, 0⟩)) w := by
  have hib1 : w.inb 1 0 = true := (h.inbB 1 0).trans hib0
  unfold liquidReact
  refine wp_cases (fun _ => ?_) (fun h0 => ?_)
  · rw [wp_pure]
    refine ⟨h, hc, ?_⟩
    rintro (h1 | h1)
    · exact h1
    · omega
  rw [wp_bind, wp_in_bounds]
  refine wp_cases (fun _ => ?_) (fun hb => ?_)
  · rw [wp_pure]
    refine ⟨h, hc, ?_⟩
    rintro (h1 | ⟨rfl, rfl⟩)
    · exact h1
    · simp only [zero_add, hib1, Bool.not_true, Bool.false_eq_true] at *
  have hib : w.inb (0 + dx) (0 + dy) = true := inb_of_not hb
  simp only [lavaReact, wp_bind, wp_getCell, wp_setCell, wp_ite, wp_pure, h.2.1.isSome, hib,
    true_and, reduceCtorEq, or_false, or_self, if_true, if_false, true_or]
  by_cases hpos : 0 + dx = 1 ∧ 0 + dy = 0
  · rw [hpos.1, hpos.2]
    rcases hc with h1 | h1
    · rw [h1]
      simp only [flammable, Bool.false_eq_true, if_false, true_or, if_true]
      have hnew : (w.put 1 0 ⟨GLASS, 0⟩).cell 1 0 = ⟨GLASS, 0⟩ := by
        rw [cell_put h.2.1 hib1, if_pos ⟨rfl, rfl⟩]
      exact ⟨h.putSide hib1 _, Or.inr hnew, fun _ => hnew⟩
    · rw [h1]
      simp only [flammable, Bool.false_eq_true, reduceCtorEq, or_self, if_false]
      exact ⟨h, by simp [h1], by simp [h1]⟩
  · have hn := h.2.2.2.1 _ _ hib hpos
    have hno : ¬ (dx = 1 ∧ dy = 0) := by omega
    rcases hn with h1 | h1
    · rw [h1]
      simp only [flammable, Bool.false_eq_true, reduceCtorEq, or_self, if_false]
      refine ⟨h, hc, ?_⟩
      rintro (h2 | h2)
      · exact h2
      · exact absurd h2 hno
    · rw [h1]
      simp only [flammable, Bool.false_eq_true, reduceCtorEq, or_self, if_false]
      refine ⟨h, hc, ?_⟩
      rintro (h2 | h2)
      · exact h2
      · exact absurd h2 hno

/-- The interactions of the lava turn the sand at `(1, 0)` into glass and change nothing
else. -/
theorem reactBox_lava {w0 w : World} (h : Beside LAVA w0 w) (hib0 : w0.inb 1 0 = true)
    (hc : w.cell 1 0 = ⟨SAND, 0⟩) :
    wp (forBox 1 fun dx dy => liquidReact 0 0 LAVA dx dy)
      (fun _ w1 => Beside LAVA w0 w1 ∧ w1.cell 1 0 = ⟨GLASS, 0⟩) w := by
  have hs : span 1 = [-1, 0, 1] := by decide
  rw [forBox_span, hs]
  simp only [wp_forEach_cons, wp_forEach_nil]
  refine wp_mono (liquidReact_lava h hib0 (Or.inl hc) _ _) ?_
  rintro _ w1 ⟨h1, c1, _⟩
  refine wp_mono (liquidReact_lava h1 hib0 c1 _ _) ?_
  rintro _ w2 ⟨h2, c2, _⟩
  refine wp_mono (liquidReact_lava h2 hib0 c2 _ _) ?_
  rintro _ w3 ⟨h3, c3, _⟩
  refine wp_mono (liquidReact_lava h3 hib0 c3 _ _) ?_
  rintro _ w4 ⟨h4, c4, _⟩
  refine wp_mono (liquidReact_lava h4 hib0 c4 _ _) ?_
  rintro _ w5 ⟨h5, c5, _⟩
  refine wp_mono (liquidReact_lava h5 hib0 c5 _ _) ?_
  rintro _ w6 ⟨h6, _, s6⟩
  have e6 := s6 (Or.inr ⟨rfl, rfl⟩)
  refine wp_mono (liquidReact_lava h6 hib0 (Or.inr e6) _ _) ?_
  rintro _ w7 ⟨h7, _, s7⟩
  have e7 := s7 (Or.inl e6)
  refine wp_mono (liquidReact_lava h7 hib0 (Or.inr e7) _ _) ?_
  rintro _ w8 ⟨h8, _, s8⟩
  have e8 := s8 (Or.inl e7)
  refine wp_mono (liquidReact_lava h8 hib0 (Or.inr e8) _ _) ?_
  rintro _ w9 ⟨h9, _, s9⟩
  exact ⟨h9, s9 (Or.inl e8)⟩

theorem Drifted.putOrigin {w0 w : World} (h : Drifted w0 w) (hib : w.inb 0 0 = true) (c : Cell) :
    Drifted w0 (w.put 0 0 c) := by
  refine ⟨h.1, h.2.1.putWF _ _ _, h.2.2.1, ?_⟩
  intro x hx hxy
  have hq := h.2.2.2 x hx hxy
  unfold Quiet at hq ⊢
  rw [cell_put h.2.1 hib, if_neg (by omega)]
  exact hq

/-- The visit of the lava at `(0, 0)` next to the sand at `(1, 0)`: afterwards the cell
`(1, 0)` is glass. -/
theorem visit_lava_sand {w0 w : World} (h : Beside LAVA w0 w) (hib0 : w0.inb 1 0 = true)
    (hu : w.upd 0 0 = false) (hw : w.cell 0 0 = ⟨LAVA, 0⟩) (hc : w.cell 1 0 = ⟨SAND, 0⟩) :
    wp (visit 0 0) (fun _ w1 => Drifted w0 w1 ∧ w1.cell 1 0 = ⟨GLASS, 0⟩) w := by
  have hib1 : w.inb 1 0 = true := (h.inbB 1 0).trans hib0
  have hib : w.inb 0 0 = true := by
    obtain ⟨⟨_, hx1⟩, hy0, hy1⟩ := (inb_iff w 1 0).1 hib1
    exact (inb_iff w 0 0).2 (by omega)
  unfold visit
  rw [wp_bind, wp_getUpdated, h.2.2.1.isSomeU, hu]
  refine ⟨hib, ?_⟩
  rw [if_neg (by simp), wp_bind, wp_getCell, h.2.1.isSome, hw]
  refine ⟨hib, ?_⟩
  simp only [reduceCtorEq, or_self, if_false, sandlike, liquid, Bool.false_eq_true, if_true]
  unfold liquidRule
  refine wp_seq (liquidMove_beside h hib0 _ hc (by decide)) ?_
  intro moved w1 h1
  have hib01 : w1.inb 0 0 = true := (h1.1.inbB 0 0).trans ((h.inbB 0 0).symm.trans hib)
  refine wp_seq (I := fun w2 => Beside LAVA w0 w2 ∧ w2.cell 1 0 = ⟨SAND, 0⟩)
    (wp_when h1 (fun _ => ?_)) ?_
  · simp only [wp_setUpdated, h1.1.2.2.1.isSomeU, hib01, true_and]
    exact ⟨h1.1.markedB 0 0, h1.2⟩
  intro _ w2 h2
  refine wp_seq (reactBox_lava h2.1 hib0 h2.2) ?_
  intro _ w3 h3
  have hib03 : w3.inb 0 0 = true := (h3.1.inbB 0 0).trans ((h.inbB 0 0).symm.trans hib)
  have hib13 : w3.inb 1 0 = true := (h3.1.inbB 1 0).trans hib0
  refine wp_seq (I := fun w4 => Drifted w0 w4 ∧ w4.cell 1 0 = ⟨GLASS, 0⟩) ?_ ?_
  · rw [if_pos rfl]
    have hne : ¬ ((1 : Int) = 0 ∧ (0 : Int) = 0) := by omega
    simp only [lavaCool, wp_bind, wp_getCell, wp_setLife, wp_setCell, wp_ite, wp_pure, isSome_put,
      h3.1.2.1.isSome, hib03, true_and]
    split
    · refine ⟨(h3.1.driftedB.putOrigin hib03 _).putOrigin hib03 _, ?_⟩
      rw [cell_put (h3.1.2.1.putWF _ _ _) hib03, if_neg hne, cell_put h3.1.2.1 hib03, if_neg hne]
      exact h3.2
    · refine ⟨h3.1.driftedB.putOrigin hib03 _, ?_⟩
      rw [cell_put h3.1.2.1 hib03, if_neg hne]
      exact h3.2
  intro _ w4 h4
  simp only [reduceCtorEq, or_self, if_false]
  rw [wp_bind, wp_pure, wp_pure]
  exact h4

/-- The visit of a `STONE`, `GLASS` or `DIRT` cell changes at most the flag of that
cell. -/
theorem visit_static {w : World} (hwf : w.WF) (hwfu : w.WFU) {x y : Int}
    (hib : w.inb x y = true)
    (ht : (w.cell x y).type = STONE ∨ (w.cell x y).type = GLASS ∨ (w.cell x y).type = DIRT) :
    wp (visit x y) (fun _ w1 => Calm (fun a b => a = x ∧ b = y) w w1) w := by
  have hmark : wp (setUpdated x y) (fun _ w1 => Calm (fun a b => a = x ∧ b = y) w w1) w := by
    rw [wp_setUpdated]
    refine ⟨by rw [hwfu.isSomeU]; exact hib, ⟨rfl, rfl⟩, rfl, rfl, rfl, hwfu.markWFU x y, ?_, ?_⟩
    · intro a b hab
      rw [upd_mark hwfu hib]
      split
      · rfl
      · exact hab
    · intro a b hab
      rw [upd_mark hwfu hib, if_neg hab]
  unfold visit
  rw [wp_bind, wp_getUpdated]
  refine ⟨by rw [hwfu.isSomeU]; exact hib, ?_⟩
  refine wp_cases (fun _ => (wp_pure _ _ _).2 (Calm.still hwfu)) (fun hu => ?_)
  rw [wp_bind, wp_getCell]
  refine ⟨by rw [hwf.isSome]; exact hib, ?_⟩
  refine wp_cases (fun _ => hmark) (fun _ => ?_)
  refine wp_cases (fun hc => absurd hc (by rcases ht with e | e | e <;> rw [e] <;> decide))
    (fun _ => ?_)
  refine wp_cases (fun hc => absurd hc (by rcases ht with e | e | e <;> rw [e] <;> decide))
    (fun _ => ?_)
  refine wp_cases (fun hc => absurd hc (by rcases ht with e | e | e <;> rw [e] <;> decide))
    (fun _ => ?_)
  refine wp_cases (fun hc => absurd hc (by rcases ht with e | e | e <;> rw [e] <;> decide))
    (fun _ => ?_)
  refine wp_cases (fun hc => absurd hc (by rcases ht with e | e | e <;> rw [e] <;> decide))
    (fun _ => ?_)
  refine wp_cases (fun hc => absurd hc (by rcases ht with e | e | e <;> rw [e] <;> decide))
    (fun _ => ?_)
  refine wp_cases (fun hc => absurd hc (by rcases ht with e | e | e <;> rw [e] <;> decide))
    (fun _ => ?_)
  refine wp_cases (fun hc => absurd hc (by rcases ht with e | e | e <;> rw [e] <;> decide))
    (fun _ => ?_)
  refine wp_cases (fun hc => absurd hc (by rcases ht with e | e | e <;> rw [e] <;> decide))
    (fun _ => ?_)
  refine wp_cases (fun hc => absurd hc (by rcases ht with e | e | e <;> rw [e] <;> decide))
    (fun _ => ?_)
  refine wp_cases (fun hc => absurd hc (by rcases ht with e | e | e <;> rw [e] <;> decide))
    (fun _ => ?_)
  refine wp_cases (fun hc => absurd hc (by rcases ht with e | e | e <;> rw [e] <;> decide))
    (fun _ => ?_)
  exact wp_cases (fun hc => absurd hc (by rcases ht with e | e | e <;> rw [e] <;> decide))
    (fun _ => hmark)

/-- The two loops of `step_sim`, started with a clear mask on a grid that is `EMPTY`
except for `LAVA` at `(0, 0)` and `SAND` at `(1, 0)`. -/
theorem glass_sweep {w : World} (hwf : w.WF) (hwfu : w.WFU) (hu : ∀ x y, w.upd x y = false)
    (hW : 2 ≤ w.gWidth) (hH : 1 ≤ w.gHeight)
    (hw : w.cell 0 0 = ⟨LAVA, 0⟩) (hf : w.cell 1 0 = ⟨SAND, 0⟩)
    (he : ∀ x y, w.inb x y = true → ¬ (y = 0 ∧ (x = 0 ∨ x = 1)) → w.cell x y = ⟨EMPTY, 0⟩) :
    wp (forEach (irange 0 (w.gHeight - 1)).reverse fun y =>
        forEach (irange 0 (w.gWidth - 1)) fun x => visit x y)
      (fun _ w1 => w1.cell 1 0 = ⟨GLASS, 0⟩) w := by
  have hib : w.inb 0 0 = true := (inb_iff w 0 0).2 (by omega)
  have hib1 : w.inb 1 0 = true := (inb_iff w 1 0).2 (by omega)
  refine sweep_upto hwf hwfu hib ?_ _ ?_
  · intro x y hxy hlt
    right; left
    rw [he x y hxy (by omega)]
  intro w1 h1
  have hd1 : Beside LAVA w w1 := by
    refine ⟨h1.1, h1.wf hwf, h1.2.2.2.2.1, ?_, ?_⟩
    · intro x y hxy hne
      rw [h1.cell]
      rw [h1.inbC] at hxy
      by_cases h0 : x = 0 ∧ y = 0
      · right
        rw [h0.1, h0.2]
        exact hw
      · left
        exact he x y hxy (by omega)
    · intro x hx hxy
      rw [h1.cell]
      rw [h1.inbC] at hxy
      exact he x 0 hxy (by omega)
  have hu1 : w1.upd 0 0 = false := by
    rw [h1.2.2.2.2.2.2 0 0 (by omega)]
    exact hu 0 0
  refine wp_mono (visit_lava_sand hd1 hib1 hu1 ((h1.cell 0 0).trans hw)
    ((h1.cell 1 0).trans hf)) ?_
  rintro _ w2 ⟨hd2, hc2⟩
  have e1 : (0 : Int) + 1 = 1 := rfl
  rw [e1, irange_cons (by omega), wp_forEach_cons]
  have hib12 : w2.inb 1 0 = true := (inb_dims hd2.1 1 0).trans hib1
  refine wp_mono (visit_static hd2.2.1 hd2.2.2.1 hib12 (by rw [hc2]; simp)) ?_
  intro _ w3 h3
  refine sweep_rest (h3.wf hd2.2.1) h3.2.2.2.2.1 (h3.1.1.trans hd2.1.1) (by omega) (le_refl _)
    (by rw [h3.1.2, hd2.1.2]; omega) ?_ _ ?_
  · intro x y hxy hlt
    obtain ⟨_, hy0, _⟩ := (inb_iff w3 x y).1 hxy
    have hy : y = 0 := by omega
    subst hy
    rw [h3.inbC] at hxy
    exact h3.quiet (hd2.2.2.2 x (by omega) hxy)
  · intro w4 h4
    rw [h4.cell, h3.cell]
    exact hc2

/-- C11: on every rectangular grid of width at least 2 and height at least 1 that is
`EMPTY` (life 0) except for `LAVA` (life 0) at `(0, 0)` and `SAND` (life 0) at `(1, 0)`,
and for every random stream, a tick returns and afterwards the cell `(1, 0)` is `GLASS`
(with life 0). -/
theorem lava_makes_glass (w : World) (hwf : w.WF) (hW : 2 ≤ w.gWidth) (hH : 1 ≤ w.gHeight)
    (hw : w.cell 0 0 = ⟨LAVA, 0⟩) (hf : w.cell 1 0 = ⟨SAND, 0⟩)
    (he : ∀ x y, w.inb x y = true → ¬ (y = 0 ∧ (x = 0 ∨ x = 1)) → w.cell x y = ⟨EMPTY, 0⟩) :
    wp step_sim (fun _ w1 => w1.cell 1 0 = ⟨GLASS, 0⟩) w := by
  unfold step_sim
  rw [wp_bind, wp_getWidth, wp_bind, wp_getHeight, if_neg (by omega), wp_bind, wp_allocUpdated]
  exact glass_sweep
    (w := ({ w with updated :=
      List.replicate w.gHeight.toNat (List.replicate w.gWidth.toNat false) } : World))
    hwf (rect_replicate w.gWidth w.gHeight (by omega) (by omega)) (upd_alloc w) hW hH hw hf he

theorem lava_makes_glass_witness :
    lavaSandWide.WF ∧ 2 ≤ lavaSandWide.gWidth ∧ 1 ≤ lavaSandWide.gHeight ∧
      lavaSandWide.cell 0 0 = ⟨LAVA, 0⟩ ∧ lavaSandWide.cell 1 0 = ⟨SAND, 0⟩ ∧
      wp step_sim (fun _ w1 => w1.cell 1 0 = ⟨GLASS, 0⟩) lavaSandWide := by
  refine ⟨by decide, by decide, by decide, by decide, by decide,
    lava_makes_glass lavaSandWide (by decide) (by decide) (by decide) (by decide) (by decide) ?_⟩
  intro x y hxy hne
  obtain ⟨⟨hx0, hx1⟩, hy0, hy1⟩ := (inb_iff _ x y).1 hxy
  have hx2 : x < 3 := hx1
  have hy2 : y < 2 := hy1
  interval_cases x <;> interval_cases y <;> first | rfl | exact absurd ⟨rfl, by decide⟩ hne

/-- The instance of the scenario on the 2x1 grid, evaluated. -/
theorem lava_sand_instance :
    gridAfter step_sim lavaSand = some [[⟨LAVA, 1⟩, ⟨GLASS, 0⟩]] := by
  decide

/-! ## Sweeps with several active cells -/

/-- The rows `hi`, `hi - 1`, .., `0` of the sweep, down to the cell `(sx, sy)`: when every
cell visited before it is quiet, the sweep reaches `(sx, sy)` in a state that differs
only by flags of the cells already visited. -/
theorem sweep_down {w : World} (hwf : w.WF) (hwfu : w.WFU) {W hi sx sy : Int}
    (hW : w.gWidth = W) (hx0 : 0 ≤ sx) (hx1 : sx < W) (hy0 : 0 ≤ sy) (hy1 : sy ≤ hi)
    (hhi : hi < w.gHeight)
    (hq : ∀ x y, w.inb x y = true → ((sy < y ∧ y ≤ hi) ∨ (y = sy ∧ x < sx)) → Quiet w x y)
    (Q : Unit → World → Prop)
    (hrest : ∀ w1, Calm (fun a b => (sy < b ∧ b ≤ hi) ∨ (b = sy ∧ a < sx)) w w1 →
      wp (visit sx sy) (fun _ w2 =>
        wp (forEach (irange (sx + 1) (W - 1)) fun x => visit x sy) (fun _ w3 =>
          wp (forEach (irange 0 (sy - 1)).reverse fun y =>
            forEach (irange 0 (W - 1)) fun x => visit x y) Q w3) w2) w1) :
    wp (forEach (irange 0 hi).reverse fun y =>
      forEach (irange 0 (W - 1)) fun x => visit x y) Q w := by
  subst hW
  rw [reverse_irange_split sy hy0 hy1, wp_forEach_append]
  refine wp_mono (rows_calm (fun a b => (sy < b ∧ b ≤ hi) ∨ (b = sy ∧ a < sx)) _ _ w hwf hwfu
    ?_) ?_
  · intro y hy x hx
    have hy2 := (mem_irange _ _ _).1 (List.mem_reverse.1 hy)
    have hx2 := (mem_irange _ _ _).1 hx
    have hxy : w.inb x y = true := (inb_iff w x y).2 (by omega)
    exact ⟨hxy, hq x y hxy (Or.inl (by omega)), Or.inl (by omega)⟩
  intro _ w1 h1
  rw [wp_forEach_cons]
  nth_rewrite 1 [irange_split sx hx0 (by omega)]
  rw [wp_forEach_append]
  refine wp_mono (row_calm (fun a b => (sy < b ∧ b ≤ hi) ∨ (b = sy ∧ a < sx)) sy _ w1
    (h1.wf hwf) h1.2.2.2.2.1 ?_) ?_
  · intro x hx
    have hx2 := (mem_irange _ _ _).1 hx
    have hxy : w.inb x sy = true := (inb_iff w x sy).2 (by omega)
    exact ⟨(h1.inbC x sy).trans hxy, h1.quiet (hq x sy hxy (Or.inr ⟨rfl, by omega⟩)),
      Or.inr ⟨rfl, by omega⟩⟩
  intro _ w2 h2
  rw [wp_forEach_cons]
  exact hrest w2 (h1.trans h2)

/-- The rest of a row of the sweep, from column `a` on, over quiet cells. -/
theorem row_rest {w : World} (hwf : w.WF) (hwfu : w.WFU) {W a sy : Int} (hW : w.gWidth = W)
    (ha : 0 ≤ a) (hy0 : 0 ≤ sy) (hy1 : sy < w.gHeight)
    (hq : ∀ x, a ≤ x → w.inb x sy = true → Quiet w x sy)
    (K : Unit → World → Prop)
    (hK : ∀ w1, Calm (fun c b => b = sy ∧ a ≤ c) w w1 → K () w1) :
    wp (forEach (irange a (W - 1)) fun x => visit x sy) K w := by
  subst hW
  refine wp_mono (row_calm (fun c b => b = sy ∧ a ≤ c) sy _ w hwf hwfu ?_) ?_
  · intro x hx
    have hx2 := (mem_irange _ _ _).1 hx
    have hxy : w.inb x sy = true := (inb_iff w x sy).2 (by omega)
    exact ⟨hxy, hq x hx2.1 hxy, rfl, hx2.1⟩
  · intro _ w1 h1
    exact hK w1 h1

/-! ## Gunpowder next to fire -/

/-- The visit of `GUNPOWDER` or `ASH` with life 0 over an `EMPTY` cell of life 0: the two
cells are exchanged, the destination is flagged, and no random number is drawn. -/
theorem visit_powder_drop {w : World} (hwf : w.WF) (hwfu : w.WFU) {x y : Int} {t : Element}
    (ht : t = GUNPOWDER ∨ t = ASH)
    (hib : w.inb x y = true) (hib2 : w.inb x (y + 1) = true) (hu : w.upd x y = false)
    (hc : w.cell x y = ⟨t, 0⟩) (hd : w.cell x (y + 1) = ⟨EMPTY, 0⟩) :
    wp (visit x y) (fun _ w1 => SameDims w w1 ∧ w1.WF ∧ w1.WFU ∧ w1.pos = w.pos ∧
      w1.draws = w.draws ∧
      (∀ a b, w1.cell a b = if a = x ∧ b = y then ⟨EMPTY, 0⟩
        else if a = x ∧ b = y + 1 then ⟨t, 0⟩ else w.cell a b) ∧
      (∀ a b, w1.upd a b = if a = x ∧ b = y + 1 then true else w.upd a b)) w := by
  have hne : ¬ (y = y + 1) := by omega
  have hfin : ∀ w1 : World, w1 = ((w.put x (y + 1) ⟨t, 0⟩).put x y ⟨EMPTY, 0⟩).mark x (y + 1) →
      SameDims w w1 ∧ w1.WF ∧ w1.WFU ∧ w1.pos = w.pos ∧ w1.draws = w.draws ∧
      (∀ a b, w1.cell a b = if a = x ∧ b = y then ⟨EMPTY, 0⟩
        else if a = x ∧ b = y + 1 then ⟨t, 0⟩ else w.cell a b) ∧
      (∀ a b, w1.upd a b = if a = x ∧ b = y + 1 then true else w.upd a b) := by
    rintro w1 rfl
    refine ⟨⟨rfl, rfl⟩, (hwf.putWF _ _ _).putWF _ _ _, hwfu.markWFU _ _, rfl, rfl, ?_, ?_⟩
    · intro a b
      simp only [cell_put_if, mark_cell, mark_grid, isSome_put, hwf.isSome, hib, hib2, and_true]
    · intro a b
      exact upd_mark hwfu hib2 a b
  suffices key : ∀ Q : Unit → World → Prop,
      Q () (((w.put x (y + 1) ⟨t, 0⟩).put x y ⟨EMPTY, 0⟩).mark x (y + 1)) →
      wp (visit x y) Q w from key _ (hfin _ rfl)
  intro Q hQ
  rcases ht with rfl | rfl
  · simp only [visit, powderRule, powderMove, powderTry, swap_to, wp_bind,
      wp_getUpdated, wp_getCell, wp_setCell, wp_setUpdated, wp_in_bounds, wp_ite,
      wp_pure, hwf.isSome, hwfu.isSomeU, hib, hib2, hu, hc, hd, isSome_put, put_updated, put_inb,
      true_and, if_true, if_false, sandlike, empty, Bool.false_eq_true,
      Bool.not_true, Bool.not_false, decide_True, Bool.true_or,
      reduceCtorEq, or_self]
    exact hQ
  · simp only [visit, powderRule, powderMove, powderTry, swap_to, wp_bind,
      wp_getUpdated, wp_getCell, wp_setCell, wp_setUpdated, wp_in_bounds, wp_ite,
      wp_pure, hwf.isSome, hwfu.isSomeU, hib, hib2, hu, hc, hd, isSome_put, put_updated, put_inb,
      true_and, if_true, if_false, sandlike, empty, Bool.false_eq_true,
      Bool.not_true, Bool.not_false, decide_True, Bool.true_or,
      reduceCtorEq, or_self]
    exact hQ

/-- On a fireproof neighbour the body of the neighbour loops of fire does nothing. -/
theorem fireSpread_idle {w : World} (hwf : w.WF) (x y dx dy : Int)
    (h : ¬ (dx = 0 ∧ dy = 0) → w.inb (x + dx) (y + dy) = true →
      Fireproof (w.cell (x + dx) (y + dy))) :
    wp (fireSpread x y dx dy) (fun _ w1 => w1 = w) w := by
  unfold fireSpread
  refine wp_cases (fun _ => (wp_pure _ _ _).2 rfl) (fun h0 => ?_)
  rw [wp_bind, wp_in_bounds]
  refine wp_cases (fun _ => (wp_pure _ _ _).2 rfl) (fun hb => ?_)
  have hib := inb_of_not hb
  obtain ⟨f1, f2, f3, f4, f5⟩ := h h0 hib
  simp only [wp_bind, wp_getCell, wp_ite, wp_pure, hwf.isSome, hib, true_and, f1, f2, f3, f4, f5,
    Bool.false_eq_true, if_false, or_self]

/-- Among fireproof neighbours the neighbour loops of fire do nothing. -/
theorem fireBox_idle {w : World} (hwf : w.WF) (x y : Int)
    (h : ∀ dx dy, (-1 ≤ dx ∧ dx ≤ 1) ∧ -1 ≤ dy ∧ dy ≤ 1 → ¬ (dx = 0 ∧ dy = 0) →
      w.inb (x + dx) (y + dy) = true → Fireproof (w.cell (x + dx) (y + dy))) :
    wp (forBox 1 fun dx dy => fireSpread x y dx dy) (fun _ w1 => w1 = w) w := by
  refine wp_forBox (fun w1 => w1 = w) _ _ ?_ w rfl
  rintro dx hdx dy hdy w1 rfl
  have h1 := (mem_span 1 dx).1 hdx
  have h2 := (mem_span 1 dy).1 hdy
  exact fireSpread_idle hwf x y dx dy (h dx dy ⟨h1, h2⟩)

/-- The visit of a fire with life `L` whose in-bounds neighbours are all `EMPTY` with life
0 and that is not on the top row. One number is drawn: when the roll is at most 50 the
fire rises one cell with its life unchanged and leaves `SMOKE` with life 15; otherwise it
stays and its life is counted down (to `SMOKE` with life 15 when it reaches 0). -/
theorem visit_fire_alone {w : World} (hwf : w.WF) (hwfu : w.WFU) {x y L : Int}
    (hib : w.inb x y = true) (hib2 : w.inb x (y - 1) = true) (hu : w.upd x y = false)
    (hc : w.cell x y = ⟨FIRE, L⟩)
    (hn : ∀ dx dy, (-1 ≤ dx ∧ dx ≤ 1) ∧ -1 ≤ dy ∧ dy ≤ 1 → ¬ (dx = 0 ∧ dy = 0) →
      w.inb (x + dx) (y + dy) = true → w.cell (x + dx) (y + dy) = ⟨EMPTY, 0⟩) :
    wp (visit x y) (fun _ w1 => SameDims w w1 ∧ w1.WF ∧ w1.WFU ∧ w1.pos = w.pos + 1 ∧
      w1.draws = w.draws ∧
      (∀ a b, w1.cell a b =
        if w.roll 1 100 ≤ 50 then
          (if a = x ∧ b = y then ⟨SMOKE, 15⟩
            else if a = x ∧ b = y - 1 then ⟨FIRE, L⟩ else w.cell a b)
        else
          (if a = x ∧ b = y then (if dec32 L ≤ 0 then ⟨SMOKE, 15⟩ else ⟨FIRE, dec32 L⟩)
            else w.cell a b)) ∧
      (∀ a b, w1.upd a b =
        if (a = x ∧ b = y) ∨ (w.roll 1 100 ≤ 50 ∧ a = x ∧ b = y - 1) then true
        else w.upd a b)) w := by
  have hup : w.cell x (y - 1) = ⟨EMPTY, 0⟩ := by
    have := hn 0 (-1) (by omega) (by omega)
    simp only [add_zero] at this
    exact this hib2
  have hne : ¬ (y - 1 = y) := by omega
  have hne2 : ¬ (y = y - 1) := by omega
  unfold visit
  rw [wp_bind, wp_getUpdated, hwfu.isSomeU, hu]
  refine ⟨hib, ?_⟩
  rw [if_neg (by simp), wp_bind, wp_getCell, hwf.isSome, hc]
  refine ⟨hib, ?_⟩
  simp only [reduceCtorEq, or_self, if_false, sandlike, liquid, gas, Bool.false_eq_true, if_true]
  unfold fireRule
  by_cases hr : w.roll 1 100 ≤ 50
  · -- the fire rises
    have hrise : wp (fireRise x y) (fun _ w1 =>
        w1 = ((w.draw.put x (y - 1) ⟨FIRE, L⟩).put x y ⟨EMPTY, 0⟩).mark x (y - 1)) w := by
      simp only [fireRise, swap_to, wp_bind, wp_in_bounds, wp_getCell, wp_setCell, wp_setUpdated,
        wp_chance, wp_ite, wp_pure, hwf.isSome, hwfu.isSomeU, hib, hib2, hup, hc, hr, empty,
        decide_True, Bool.true_or, if_true, true_and, draw_grid, draw_cell, draw_inb, draw_updated,
        isSome_put, put_updated, put_inb]
    rw [wp_bind]
    refine wp_mono hrise ?_
    rintro _ w1 rfl
    have hwf1 : (((w.draw.put x (y - 1) ⟨FIRE, L⟩).put x y ⟨EMPTY, 0⟩).mark x (y - 1)).WF :=
      (hwf.putWF _ _ _).putWF _ _ _
    have hwfu1 : (((w.draw.put x (y - 1) ⟨FIRE, L⟩).put x y ⟨EMPTY, 0⟩).mark x (y - 1)).WFU :=
      hwfu.markWFU _ _
    have hcells : ∀ a b,
        (((w.draw.put x (y - 1) ⟨FIRE, L⟩).put x y ⟨EMPTY, 0⟩).mark x (y - 1)).cell a b =
          if a = x ∧ b = y then ⟨EMPTY, 0⟩
          else if a = x ∧ b = y - 1 then ⟨FIRE, L⟩ else w.cell a b := by
      intro a b
      simp only [cell_put_if, mark_cell, isSome_put, draw_grid, draw_cell, hwf.isSome, hib, hib2,
        and_true]
    rw [wp_bind]
    refine wp_mono (fireBox_idle hwf1 x y ?_) ?_
    · intro dx dy hbd h0 hb
      rw [hcells, if_neg (by omega)]
      split
      · exact ⟨rfl, by simp, by simp, by simp, by simp⟩
      · rw [hn dx dy hbd h0 hb]
        exact ⟨rfl, by simp, by simp, by simp, by simp⟩
    rintro _ w2 rfl
    simp only [wp_bind, wp_getCell, wp_setLife, wp_setCell, wp_setUpdated, wp_ite, wp_pure,
      isSome_put, isSome_mark, put_updated, hwf1.isSome, hwfu1.isSomeU, mark_inb, put_inb,
      draw_inb, hib, true_and, cell_put_if, and_self, if_true, hcells]
    rw [if_pos (by decide)]
    refine ⟨⟨rfl, rfl⟩, (hwf1.putWF _ _ _).putWF _ _ _, hwfu1.markWFU _ _, rfl, rfl,
      ?_, ?_⟩
    · intro a b
      rw [if_pos hr]
      simp only [cell_put_if, mark_cell, hcells, isSome_put, hwf1.isSome, mark_inb, put_inb,
        draw_inb, hib, and_true]
      split_ifs <;> rfl
    · intro a b
      rw [upd_mark (by exact hwfu1) (by exact hib)]
      simp only [put_upd]
      rw [upd_mark (by exact hwfu) (by exact hib2)]
      simp only [put_upd, draw_upd, hr, true_and]
      by_cases h1 : a = x ∧ b = y
      · simp [h1]
      · by_cases h2 : a = x ∧ b = y - 1
        · simp [h1, h2]
        · simp [h1, h2]
  · -- the fire stays
    have hrise : wp (fireRise x y) (fun _ w1 => w1 = w.draw) w := by
      simp only [fireRise, wp_bind, wp_in_bounds, wp_getCell, wp_chance, wp_ite, wp_pure,
        hwf.isSome, hib2, hup, hr, empty, decide_True, decide_False, Bool.true_or, if_true,
        true_and, Bool.false_eq_true, if_false]
    rw [wp_bind]
    refine wp_mono hrise ?_
    rintro _ w1 rfl
    rw [wp_bind]
    refine wp_mono (fireBox_idle (w := w.draw) hwf x y ?_) ?_
    · intro dx dy hbd h0 hb
      rw [draw_cell, hn dx dy hbd h0 hb]
      exact ⟨rfl, by simp, by simp, by simp, by simp⟩
    rintro _ w2 rfl
    simp only [wp_bind, wp_getCell, wp_setLife, wp_setCell, wp_setUpdated, wp_ite, wp_pure,
      isSome_put, put_updated, draw_grid, draw_updated, draw_cell, hwf.isSome, hwfu.isSomeU, hib,
      hc, true_and, cell_put_if, and_self, if_true]
    by_cases hL : dec32 L ≤ 0
    · rw [if_pos hL]
      refine ⟨⟨rfl, rfl⟩, (hwf.putWF _ _ _).putWF _ _ _, hwfu.markWFU _ _, rfl, rfl, ?_, ?_⟩
      · intro a b
        rw [if_neg hr, if_pos hL]
        simp only [cell_put_if, mark_cell, isSome_put, draw_grid, draw_cell, hwf.isSome, hib,
          and_true]
        split_ifs <;> rfl
      · intro a b
        rw [upd_mark (by exact hwfu) (by exact hib)]
        simp only [put_upd, draw_upd, hr, false_and, or_false]
    · rw [if_neg hL]
      refine ⟨⟨rfl, rfl⟩, hwf.putWF _ _ _, hwfu.markWFU _ _, rfl, rfl, ?_, ?_⟩
      · intro a b
        rw [if_neg hr, if_neg hL]
        simp only [cell_put_if, mark_cell, draw_grid, draw_cell, hwf.isSome, hib, and_true]
      · intro a b
        rw [upd_mark (by exact hwfu) (by exact hib)]
        simp only [put_upd, draw_upd, hr, false_and, or_false]

/-- The two loops of `step_sim`, started with a clear mask on a grid of at least 11x11
cells that is `EMPTY` except for `GUNPOWDER` at `(5, 5)` and `FIRE` with life 20 at
`(5, 4)`: the gunpowder is visited first and falls, then the fire is visited alone. -/
theorem keg_sweep {w : World} (hwf : w.WF) (hwfu : w.WFU) (hu : ∀ x y, w.upd x y = false)
    (hW : 11 ≤ w.gWidth) (hH : 11 ≤ w.gHeight)
    (hg : w.cell 5 5 = ⟨GUNPOWDER, 0⟩) (hf : w.cell 5 4 = ⟨FIRE, 20⟩)
    (he : ∀ x y, w.inb x y = true → ¬ (x = 5 ∧ (y = 5 ∨ y = 4)) → w.cell x y = ⟨EMPTY, 0⟩) :
    wp (forEach (irange 0 (w.gHeight - 1)).reverse fun y =>
        forEach (irange 0 (w.gWidth - 1)) fun x => visit x y)
      (fun _ w1 => SameDims w w1 ∧ w1.pos = w.pos + 1 ∧ ∀ a b, w1.cell a b =
        if a = 5 ∧ b = 6 then ⟨GUNPOWDER, 0⟩
        else if a = 5 ∧ b = 5 then ⟨EMPTY, 0⟩
        else if w.roll 1 100 ≤ 50 then
          (if a = 5 ∧ b = 4 then ⟨SMOKE, 15⟩
            else if a = 5 ∧ b = 3 then ⟨FIRE, 20⟩ else w.cell a b)
        else (if a = 5 ∧ b = 4 then ⟨FIRE, 19⟩ else w.cell a b)) w := by
  have hib55 : w.inb 5 5 = true := (inb_iff w 5 5).2 (by omega)
  have hib56 : w.inb 5 (5 + 1) = true := (inb_iff w 5 (5 + 1)).2 (by omega)
  have hib54 : w.inb 5 4 = true := (inb_iff w 5 4).2 (by omega)
  have hib53 : w.inb 5 (4 - 1) = true := (inb_iff w 5 (4 - 1)).2 (by omega)
  refine sweep_upto hwf hwfu hib55 ?_ _ ?_
  · intro x y hxy hlt
    right; left
    rw [he x y hxy (by omega)]
  intro w1 h1
  refine wp_mono (visit_powder_drop (h1.wf hwf) h1.2.2.2.2.1 (Or.inl rfl)
    ((h1.inbC _ _).trans hib55) ((h1.inbC _ _).trans hib56) ?_ ((h1.cell 5 5).trans hg) ?_) ?_
  · rw [h1.2.2.2.2.2.2 5 5 (by omega)]
    exact hu 5 5
  · rw [h1.cell, he 5 (5 + 1) hib56 (by omega)]
  rintro _ w2 ⟨d2, wf2, wfu2, p2, dr2, c2, u2⟩
  have hd2 : SameDims w w2 := ⟨d2.1.trans h1.1.1, d2.2.trans h1.1.2⟩
  have hc2 : ∀ a b, w2.cell a b = if a = 5 ∧ b = 5 then ⟨EMPTY, 0⟩
      else if a = 5 ∧ b = 5 + 1 then ⟨GUNPOWDER, 0⟩ else w.cell a b := by
    intro a b
    rw [c2, h1.cell]
  have hu2 : ∀ a b, b ≤ 4 → w2.upd a b = false := by
    intro a b hb
    rw [u2, if_neg (by omega), h1.2.2.2.2.2.2 a b (by omega)]
    exact hu a b
  refine row_rest wf2 wfu2 hd2.1 (by omega) (by omega) (by rw [hd2.2]; omega) ?_ _ ?_
  · intro x hx hxy
    right; left
    rw [hc2, if_neg (by omega), if_neg (by omega),
      he x 5 ((inb_dims hd2 x 5).symm.trans hxy) (by omega)]
  intro w3 h3
  have hd3 : SameDims w w3 := ⟨h3.1.1.trans hd2.1, h3.1.2.trans hd2.2⟩
  have hc3 : ∀ a b, w3.cell a b = if a = 5 ∧ b = 5 then ⟨EMPTY, 0⟩
      else if a = 5 ∧ b = 5 + 1 then ⟨GUNPOWDER, 0⟩ else w.cell a b := by
    intro a b
    rw [h3.cell, hc2]
  have hu3 : ∀ a b, b ≤ 4 → w3.upd a b = false := by
    intro a b hb
    rw [h3.2.2.2.2.2.2 a b (by omega)]
    exact hu2 a b hb
  refine sweep_down (h3.wf wf2) h3.2.2.2.2.1 hd3.1 (show (0 : Int) ≤ 5 by omega)
    (show (5 : Int) < w.gWidth by omega) (show (0 : Int) ≤ 4 by omega)
    (by omega) (by rw [hd3.2]; omega) ?_ _ ?_
  · intro x y hxy hlt
    right; left
    rw [hc3, if_neg (by omega), if_neg (by omega),
      he x y ((inb_dims hd3 x y).symm.trans hxy) (by omega)]
  intro w4 h4
  have hd4 : SameDims w w4 := ⟨h4.1.1.trans hd3.1, h4.1.2.trans hd3.2⟩
  have hc4 : ∀ a b, w4.cell a b = if a = 5 ∧ b = 5 then ⟨EMPTY, 0⟩
      else if a = 5 ∧ b = 5 + 1 then ⟨GUNPOWDER, 0⟩ else w.cell a b := by
    intro a b
    rw [h4.cell, hc3]
  refine wp_mono (visit_fire_alone (L := 20) (h4.wf (h3.wf wf2)) h4.2.2.2.2.1
    ((inb_dims hd4 _ _).trans hib54) ((inb_dims hd4 _ _).trans hib53) ?_ ?_ ?_) ?_
  · rw [h4.2.2.2.2.2.2 5 4 (by omega)]
    exact hu3 5 4 (by omega)
  · rw [hc4, if_neg (by omega), if_neg (by omega)]
    exact hf
  · intro dx dy hbd h0 hb
    rw [hc4]
    by_cases h55 : 5 + dx = 5 ∧ 4 + dy = 5
    · rw [if_pos h55]
    · rw [if_neg h55, if_neg (show ¬ (5 + dx = 5 ∧ 4 + dy = 5 + 1) by omega)]
      exact he (5 + dx) (4 + dy) ((inb_dims hd4 _ _).symm.trans hb) (by omega)
  rintro _ w5 ⟨d5, wf5, wfu5, p5, dr5, c5, u5⟩
  have hd5 : SameDims w w5 := ⟨d5.1.trans hd4.1, d5.2.trans hd4.2⟩
  have hr4 : w4.roll 1 100 = w.roll 1 100 := by
    unfold World.roll
    rw [h4.2.2.1, h4.2.2.2.1, h3.2.2.1, h3.2.2.2.1, dr2, p2, h1.2.2.1, h1.2.2.2.1]
  rw [hr4] at c5 u5
  have e20 : dec32 20 = 19 := by decide
  simp only [e20] at c5
  refine sweep_rest wf5 wfu5 hd5.1 (by omega) (by omega) (by rw [hd5.2]; omega) ?_ _ ?_
  · intro x y hxy hlt
    have hxy0 : w.inb x y = true := (inb_dims hd5 x y).symm.trans hxy
    have hE := he x y hxy0 (by omega)
    by_cases hup : w5.upd x y = true
    · exact Or.inl hup
    · right; left
      have hnr : ¬ (w.roll 1 100 ≤ 50 ∧ x = 5 ∧ y = 4 - 1) := by
        intro hh
        apply hup
        rw [u5, if_pos (Or.inr hh)]
      have e5 : w5.cell x y = ⟨EMPTY, 0⟩ := by
        rw [c5, hc4]
        split_ifs <;> first | rfl | exact hE | (exfalso; omega)
      rw [e5]
  · intro w6 h6
    refine ⟨⟨h6.1.1.trans hd5.1, h6.1.2.trans hd5.2⟩, ?_, ?_⟩
    · rw [h6.2.2.2.1, p5, h4.2.2.2.1, h3.2.2.2.1, p2, h1.2.2.2.1]
    · intro a b
      rw [h6.cell, c5, hc4]
      split_ifs <;> first | rfl | (exfalso; omega)

/-- C12 (code defect): gunpowder under a fire does not detonate. On the 11x11 grid that is
`EMPTY` except for `GUNPOWDER` at `(5, 5)` and `FIRE` with life 20 at `(5, 4)`, nothing
explodes: `GUNPOWDER` is handled by the powder branch, so the branch that tests the
neighbours for `FIRE` and calls `explode(x, y, 5)` is never reached. After one tick the
gunpowder is at `(5, 6)`, still `GUNPOWDER`, and the centre `(5, 5)` is `EMPTY` (with
this stream the fire has risen to `(5, 3)` and left smoke at `(5, 4)`). -/
theorem gunpowder_not_detonated :
    (powderKeg fun _ => 0).WF ∧
      (gridAfter step_sim (powderKeg fun _ => 0)).map column5 =
        some [some ⟨FIRE, 20⟩, some ⟨SMOKE, 15⟩, some ⟨EMPTY, 0⟩, some ⟨GUNPOWDER, 0⟩] := by
  decide!

/-- Gunpowder under a fire, for every grid and stream: on every rectangular grid of at
least 11x11 cells that is `EMPTY` (life 0) except for `GUNPOWDER` (life 0) at `(5, 5)`
and `FIRE` with life 20 at `(5, 4)`, a tick returns and nothing explodes: the gunpowder,
which is visited before the fire, has fallen to `(5, 6)` and is still `GUNPOWDER`, the
cell `(5, 5)` is `EMPTY`, the fire has either stayed at `(5, 4)` with life 19 or risen to
`(5, 3)` leaving `SMOKE` with life 15 at `(5, 4)`, and every other cell is `EMPTY`. -/
theorem gunpowder_falls (w : World) (hwf : w.WF) (hW : 11 ≤ w.gWidth) (hH : 11 ≤ w.gHeight)
    (hg : w.cell 5 5 = ⟨GUNPOWDER, 0⟩) (hf : w.cell 5 4 = ⟨FIRE, 20⟩)
    (he : ∀ x y, w.inb x y = true → ¬ (x = 5 ∧ (y = 5 ∨ y = 4)) → w.cell x y = ⟨EMPTY, 0⟩) :
    wp step_sim (fun _ w1 =>
      w1.cell 5 6 = ⟨GUNPOWDER, 0⟩ ∧ w1.cell 5 5 = ⟨EMPTY, 0⟩ ∧
      ((w1.cell 5 4 = ⟨FIRE, 19⟩ ∧ w1.cell 5 3 = ⟨EMPTY, 0⟩) ∨
        (w1.cell 5 4 = ⟨SMOKE, 15⟩ ∧ w1.cell 5 3 = ⟨FIRE, 20⟩)) ∧
      ∀ x y, w1.inb x y = true → ¬ (x = 5 ∧ 3 ≤ y ∧ y ≤ 6) → w1.cell x y = ⟨EMPTY, 0⟩) w := by
  unfold step_sim
  rw [wp_bind, wp_getWidth, wp_bind, wp_getHeight, if_neg (by omega), wp_bind, wp_allocUpdated]
  refine wp_mono (keg_sweep
    (w := ({ w with updated :=
      List.replicate w.gHeight.toNat (List.replicate w.gWidth.toNat false) } : World))
    hwf (rect_replicate w.gWidth w.gHeight (by omega) (by omega)) (upd_alloc w) hW hH hg hf he) ?_
  rintro _ w1 ⟨hd, _, hc0⟩
  have hc : ∀ a b, w1.cell a b =
      if a = 5 ∧ b = 6 then ⟨GUNPOWDER, 0⟩
      else if a = 5 ∧ b = 5 then ⟨EMPTY, 0⟩
      else if w.roll 1 100 ≤ 50 then
        (if a = 5 ∧ b = 4 then ⟨SMOKE, 15⟩
          else if a = 5 ∧ b = 3 then ⟨FIRE, 20⟩ else w.cell a b)
      else (if a = 5 ∧ b = 4 then ⟨FIRE, 19⟩ else w.cell a b) := hc0
  have h53 : w.cell 5 3 = ⟨EMPTY, 0⟩ := he 5 3 ((inb_iff w 5 3).2 (by omega)) (by omega)
  refine ⟨?_, ?_, ?_, ?_⟩
  · rw [hc]
    simp
  · rw [hc]
    simp
  · by_cases hr : w.roll 1 100 ≤ 50
    · right
      rw [hc, hc]
      simp [hr]
    · left
      rw [hc, hc]
      simp [hr, h53]
  · intro x y hxy hne
    have hxy0 : w.inb x y = true := (inb_dims hd x y).symm.trans hxy
    have hE := he x y hxy0 (by omega)
    rw [hc]
    split_ifs <;> first | exact hE | (exfalso; omega)

theorem gunpowder_falls_witness :
    (powderKeg fun n => n).WF ∧ 11 ≤ (powderKeg fun n => n).gWidth ∧
      11 ≤ (powderKeg fun n => n).gHeight ∧
      (powderKeg fun n => n).cell 5 5 = ⟨GUNPOWDER, 0⟩ ∧
      (powderKeg fun n => n).cell 5 4 = ⟨FIRE, 20⟩ ∧
      wp step_sim (fun _ w1 =>
        w1.cell 5 6 = ⟨GUNPOWDER, 0⟩ ∧ w1.cell 5 5 = ⟨EMPTY, 0⟩ ∧
        ((w1.cell 5 4 = ⟨FIRE, 19⟩ ∧ w1.cell 5 3 = ⟨EMPTY, 0⟩) ∨
          (w1.cell 5 4 = ⟨SMOKE, 15⟩ ∧ w1.cell 5 3 = ⟨FIRE, 20⟩)) ∧
        ∀ x y, w1.inb x y = true → ¬ (x = 5 ∧ 3 ≤ y ∧ y ≤ 6) → w1.cell x y = ⟨EMPTY, 0⟩)
        (powderKeg fun n => n) := by
  refine ⟨by decide, by decide, by decide, by decide, by decide,
    gunpowder_falls _ (by decide) (by decide) (by decide) (by decide) (by decide) ?_⟩
  intro x y hxy hne
  obtain ⟨⟨hx0, hx1⟩, hy0, hy1⟩ := (inb_iff _ x y).1 hxy
  have hx2 : x < 11 := hx1
  have hy2 : y < 11 := hy1
  interval_cases x <;> interval_cases y <;> first | rfl | exact absurd ⟨rfl, by decide⟩ hne

/-! ## Seaweed seeding -/

/-- The rule for a loop with `break` whose body only reads: when the loop returns `false`,
the body has returned `false` for every value. -/
theorem wp_firstM_ro {β : Type} (P : β → Prop) (l : List β) (body : β → SimM Bool)
    (w : World) (hbody : ∀ b ∈ l, wp (body b) (fun r w1 => w1 = w ∧ (r = false → P b)) w) :
    wp (firstM l body) (fun r w1 => w1 = w ∧ (r = false → ∀ b ∈ l, P b)) w := by
  induction l with
  | nil =>
    rw [firstM, wp_pure]
    exact ⟨rfl, fun _ b hb => absurd hb (List.not_mem_nil b)⟩
  | cons b bs ih =>
    rw [firstM, wp_bind]
    refine wp_mono (hbody b (List.mem_cons_self _ _)) ?_
    rintro r w1 ⟨rfl, hr⟩
    cases r with
    | true => exact (wp_pure _ _ _).2 ⟨rfl, fun h => absurd h (by simp)⟩
    | false =>
      rw [if_neg (by simp)]
      refine wp_mono (ih (fun b1 hb1 => hbody b1 (List.mem_cons_of_mem _ hb1))) ?_
      rintro r2 w2 ⟨rfl, hr2⟩
      refine ⟨rfl, fun h2 b1 hb1 => ?_⟩
      rcases List.mem_cons.1 hb1 with e | e
      · rw [e]
        exact hr rfl
      · exact hr2 h2 b1 e

/-- The scan for seaweed reads only, and when it finds none there is no `SEAWEED` in an
in-bounds cell of the 5x5 square centred on `(x, y)`. -/
theorem weedNear_none (x y : Int) (w : World) (hwf : w.WF) :
    wp (weedNear x y) (fun r w1 => w1 = w ∧ (r = false →
      ∀ a b, w.inb a b = true → (x - 2 ≤ a ∧ a ≤ x + 2) → (y - 2 ≤ b ∧ b ≤ y + 2) →
        (w.cell a b).type ≠ SEAWEED)) w := by
  unfold weedNear
  refine wp_mono (wp_firstM_ro (fun wy => ∀ wx ∈ span 2, w.inb (x + wx) (y + wy) = true →
    (w.cell (x + wx) (y + wy)).type ≠ SEAWEED) _ _ w ?_) ?_
  · intro wy _
    refine wp_firstM_ro (fun wx => w.inb (x + wx) (y + wy) = true →
      (w.cell (x + wx) (y + wy)).type ≠ SEAWEED) _ _ w ?_
    intro wx _
    rw [wp_bind, wp_in_bounds]
    refine wp_cases (fun h1 => ?_) (fun h1 => ?_)
    · rw [wp_pure]
      refine ⟨rfl, fun _ hib => ?_⟩
      rw [hib] at h1
      simp at h1
    · rw [wp_bind, wp_getCell, wp_pure]
      refine ⟨by rw [hwf.isSome]; exact inb_of_not h1, rfl, fun hr _ => ?_⟩
      simpa using hr
  · rintro r w1 ⟨rfl, hr⟩
    refine ⟨rfl, fun h a b hab ha hb => ?_⟩
    have h1 := hr h (b - y) ((mem_span 2 _).2 (by omega)) (a - x) ((mem_span 2 _).2 (by omega))
    have ea : x + (a - x) = a := by omega
    have eb : y + (b - y) = b := by omega
    rw [ea, eb] at h1
    exact h1 hab

theorem SameWeed.weedSame {x y : Int} {w : World} (hwf : w.WF) (hwfu : w.WFU) : SameWeed x y w w :=
  ⟨⟨rfl, rfl⟩, hwf, hwfu, fun _ _ => Iff.rfl, rfl⟩

theorem SameWeed.weedDrawn {x y : Int} {w w1 : World} (h : SameWeed x y w w1) :
    SameWeed x y w w1.draw := h

theorem SameWeed.weedMarked {x y : Int} {w w1 : World} (h : SameWeed x y w w1) (a b : Int) :
    SameWeed x y w (w1.mark a b) :=
  ⟨h.1, h.2.1, h.2.2.1.markWFU a b, h.2.2.2.1, h.2.2.2.2⟩

/-- Exchanging the visited cell with a cell of the row below, neither of them `SEAWEED`,
keeps the places of the seaweed and the cell above. -/
theorem swap_to_weed {x y : Int} {w w1 : World} (h : SameWeed x y w w1)
    (hib : w1.inb x y = true) (hsrc : (w1.cell x y).type ≠ SEAWEED) {nx : Int}
    (hib2 : w1.inb nx (y + 1) = true) (htgt : (w1.cell nx (y + 1)).type ≠ SEAWEED) :
    wp (swap_to x y nx (y + 1)) (fun _ w2 => SameWeed x y w w2) w1 := by
  obtain ⟨hd, hwf, hwfu, hweed, hup⟩ := h
  have hwf1 : (w1.put nx (y + 1) (w1.cell x y)).WF := hwf.putWF _ _ _
  simp only [swap_to, wp_bind, wp_getCell, wp_setCell, wp_setUpdated, isSome_put, put_updated,
    hwf.isSome, hwfu.isSomeU, hib, hib2, true_and, put_inb]
  refine ⟨hd, hwf1.putWF _ _ _, hwfu.markWFU _ _, ?_, ?_⟩
  · intro a b
    rw [mark_cell, cell_put hwf1 hib, cell_put hwf hib2, ← hweed a b]
    split
    · rename_i hab
      rw [hab.1, hab.2]
      exact ⟨fun hh => absurd hh htgt, fun hh => absurd hh hsrc⟩
    · split
      · rename_i _ hab
        rw [hab.1, hab.2]
        exact ⟨fun hh => absurd hh hsrc, fun hh => absurd hh htgt⟩
      · exact Iff.rfl
  · rw [mark_cell, cell_put hwf1 hib, cell_put hwf hib2, if_neg (by omega), if_neg (by omega)]
    exact hup

/-- One move attempt of a powder into the row below exchanges two cells that are not
`SEAWEED`, or changes nothing and returns `false`. -/
theorem powderTry_weed {x y : Int} {w w1 : World} (h : SameWeed x y w w1)
    (hib : w1.inb x y = true) (hsrc : (w1.cell x y).type ≠ SEAWEED) (nx : Int) :
    wp (powderTry x y nx (y + 1)) (fun r w2 => SameWeed x y w w2 ∧ (r = false → w2 = w1)) w1 := by
  unfold powderTry
  rw [wp_bind, wp_in_bounds]
  refine wp_cases (fun _ => (wp_pure _ _ _).2 ⟨h, fun _ => rfl⟩) (fun h1 => ?_)
  have hib2 := inb_of_not h1
  rw [wp_bind, wp_getCell]
  refine ⟨by rw [h.2.1.isSome]; exact hib2, ?_⟩
  refine wp_cases (fun h2 => ?_) (fun _ => (wp_pure _ _ _).2 ⟨h, fun _ => rfl⟩)
  have htgt : (w1.cell nx (y + 1)).type ≠ SEAWEED := by
    intro he
    unfold empty at h2
    rw [he] at h2
    simp [liquid] at h2
  rw [wp_bind]
  refine wp_mono (swap_to_weed h hib hsrc hib2 htgt) ?_
  intro _ w2 h2
  exact (wp_pure _ _ _).2 ⟨h2, fun hh => absurd hh (by simp)⟩

theorem powderMove_weed {x y : Int} {w w1 : World} (h : SameWeed x y w w1)
    (hib : w1.inb x y = true) (hsrc : (w1.cell x y).type ≠ SEAWEED) :
    wp (powderMove x y) (fun _ w2 => SameWeed x y w w2) w1 := by
  unfold powderMove
  rw [wp_bind]
  refine wp_mono (powderTry_weed h hib hsrc _) ?_
  rintro m0 w2 ⟨h2, e2⟩
  cases m0
  · have e := e2 rfl
    subst e
    simp only [Bool.false_eq_true, if_false, wp_bind, wp_rint]
    refine wp_mono (powderTry_weed (show SameWeed x y w w2.draw from h2.weedDrawn) hib hsrc _) ?_
    rintro m1 w3 ⟨h3, e3⟩
    cases m1
    · have e := e3 rfl
      subst e
      simp only [Bool.false_eq_true, if_false]
      exact wp_mono (powderTry_weed (show SameWeed x y w w2.draw from h2.weedDrawn) hib hsrc _) (fun _ _ hh => hh.1)
    · rw [if_pos rfl, wp_pure]
      exact h3
  · rw [if_pos rfl, wp_pure]
    exact h2

/-- Writing a life keeps every kind. -/
theorem type_putLife (w : World) (x y v a b : Int) :
    ((w.put x y ⟨(w.cell x y).type, v⟩).cell a b).type = (w.cell a b).type := by
  rw [cell_put_if]
  split
  · rename_i h
    rw [h.1, h.2.1]
  · rfl

/-- The block `seaweed seed` of the sand rule, for the visited position `(x, y)`: no kind
changes except possibly that of the cell `(x, y - 1)`, and that cell is either untouched
or it was `WATER`, is now `SEAWEED` with life 0, and no in-bounds cell of the 5x5 square
centred on `(x, y)` had kind `SEAWEED`. -/
theorem sandSeed_spaced {x y : Int} {w : World} (hwf : w.WF) (hib : w.inb x y = true) :
    wp (sandSeed x y) (fun _ w1 => SameDims w w1 ∧ w1.WF ∧ w1.updated = w.updated ∧
      (∀ a b, ¬ (a = x ∧ b = y - 1) → (w1.cell a b).type = (w.cell a b).type) ∧
      (∀ a b, ¬ (a = x ∧ (b = y ∨ b = y - 1)) → w1.cell a b = w.cell a b) ∧
      (w1.cell x (y - 1) = w.cell x (y - 1) ∨
        (w1.cell x (y - 1) = ⟨SEAWEED, 0⟩ ∧ (w.cell x (y - 1)).type = WATER ∧
          ∀ a b, w.inb a b = true → (x - 2 ≤ a ∧ a ≤ x + 2) → (y - 2 ≤ b ∧ b ≤ y + 2) →
            (w.cell a b).type ≠ SEAWEED))) w := by
  have hne : ¬ (x = x ∧ y - 1 = y) := by omega
  -- the state after `cell.life = v`
  have hlife : ∀ v : Int, SameDims w (w.put x y ⟨(w.cell x y).type, v⟩) ∧
      (w.put x y ⟨(w.cell x y).type, v⟩).WF ∧
      (w.put x y ⟨(w.cell x y).type, v⟩).updated = w.updated ∧
      (∀ a b, ¬ (a = x ∧ b = y - 1) →
        ((w.put x y ⟨(w.cell x y).type, v⟩).cell a b).type = (w.cell a b).type) ∧
      (∀ a b, ¬ (a = x ∧ (b = y ∨ b = y - 1)) →
        (w.put x y ⟨(w.cell x y).type, v⟩).cell a b = w.cell a b) ∧
      ((w.put x y ⟨(w.cell x y).type, v⟩).cell x (y - 1) = w.cell x (y - 1) ∨
        ((w.put x y ⟨(w.cell x y).type, v⟩).cell x (y - 1) = ⟨SEAWEED, 0⟩ ∧
          (w.cell x (y - 1)).type = WATER ∧
          ∀ a b, w.inb a b = true → (x - 2 ≤ a ∧ a ≤ x + 2) → (y - 2 ≤ b ∧ b ≤ y + 2) →
            (w.cell a b).type ≠ SEAWEED)) := by
    intro v
    refine ⟨⟨rfl, rfl⟩, hwf.putWF _ _ _, rfl, fun a b _ => type_putLife w x y v a b,
      fun a b hab => ?_, Or.inl ?_⟩
    · rw [cell_put hwf hib, if_neg (fun hh => hab ⟨hh.1, Or.inl hh.2⟩)]
    · rw [cell_put hwf hib, if_neg hne]
  unfold sandSeed
  rw [wp_bind]
  refine wp_mono (waterAbove_ro x y w hwf) ?_
  rintro wa w1 ⟨rfl, hwa⟩
  cases wa
  · rw [if_neg (by simp), wp_setLife, hwf.isSome]
    exact ⟨hib, hlife 0⟩
  obtain ⟨hib2, hw2⟩ := hwa rfl
  rw [if_pos rfl, wp_bind, wp_getCell, hwf.isSome]
  refine ⟨hib, ?_⟩
  rw [wp_bind, wp_setLife, hwf.isSome]
  refine ⟨hib, ?_⟩
  have hwfA : (w1.put x y ⟨(w1.cell x y).type, inc32 (w1.cell x y).life⟩).WF := hwf.putWF _ _ _
  rw [wp_bind, wp_getCell, hwfA.isSome]
  refine ⟨hib, ?_⟩
  refine wp_cases (fun _ => ?_) (fun _ => (wp_pure _ _ _).2 (hlife _))
  rw [wp_bind]
  refine wp_mono (weedNear_none x y _ hwfA) ?_
  rintro near w2 ⟨rfl, hnear⟩
  have hcA : (w1.put x y ⟨(w1.cell x y).type, inc32 (w1.cell x y).life⟩).cell x y =
      ⟨(w1.cell x y).type, inc32 (w1.cell x y).life⟩ := by
    rw [cell_put hwf hib, if_pos ⟨rfl, rfl⟩]
  cases near
  · have hnone := hnear rfl
    simp only [Bool.not_false, if_true]
    rw [wp_bind, wp_bind]
    refine wp_mono (waterAbove_ro x y _ hwfA) ?_
    rintro wa2 w3 ⟨rfl, _⟩
    cases wa2
    · rw [if_neg (by simp), wp_pure, wp_setLife, hwfA.isSome, hcA, put_put_same]
      exact ⟨hib, hlife 0⟩
    · rw [if_pos rfl, wp_setCell, hwfA.isSome]
      refine ⟨hib2, ?_⟩
      rw [wp_setLife, isSome_put, hwfA.isSome]
      refine ⟨hib, ⟨rfl, rfl⟩, (hwfA.putWF _ _ _).putWF _ _ _, rfl, ?_, ?_, Or.inr ⟨?_, hw2, ?_⟩⟩
      · intro a b hab
        rw [type_putLife, cell_put hwfA hib2, if_neg hab, type_putLife]
      · intro a b hab
        rw [cell_put (hwfA.putWF _ _ _) (by simp only [put_inb]; exact hib),
          if_neg (fun hh => hab ⟨hh.1, Or.inl hh.2⟩), cell_put hwfA hib2,
          if_neg (fun hh => hab ⟨hh.1, Or.inr hh.2⟩), cell_put hwf hib,
          if_neg (fun hh => hab ⟨hh.1, Or.inl hh.2⟩)]
      · rw [cell_put (hwfA.putWF _ _ _) (by simp only [put_inb]; exact hib), if_neg hne,
          cell_put hwfA hib2, if_pos ⟨rfl, rfl⟩]
      · intro a b hab ha hb
        have := hnone a b hab ha hb
        rw [type_putLife] at this
        exact this
  · simp only [Bool.not_true, Bool.false_eq_true, if_false]
    rw [wp_bind, wp_pure, wp_setLife, hwfA.isSome, hcA, put_put_same]
    exact ⟨hib, hlife 0⟩

/-- C15: the visit of a `SAND` cell at `(x, y)`, in any state of a tick and for every
random stream, returns; it turns no cell other than `(x, y - 1)` into `SEAWEED`, and if it
turns `(x, y - 1)` into `SEAWEED` then that cell was `WATER` and no in-bounds cell of the
5x5 square centred on `(x, y)` had kind `SEAWEED` (the movement of the sand exchanges only
cells that are not `SEAWEED`, so the places of the seaweed at the start of the visit are
those immediately before the change). -/
theorem seaweed_spaced (w : World) (hwf : w.WF) (hwfu : w.WFU) (x y : Int)
    (hib : w.inb x y = true) (hs : (w.cell x y).type = SAND) :
    wp (visit x y) (fun _ w1 =>
      (∀ a b, (w1.cell a b).type = SEAWEED → (w.cell a b).type ≠ SEAWEED →
        a = x ∧ b = y - 1) ∧
      ((w1.cell x (y - 1)).type = SEAWEED → (w.cell x (y - 1)).type ≠ SEAWEED →
        (w.cell x (y - 1)).type = WATER ∧
        ∀ a b, w.inb a b = true → (x - 2 ≤ a ∧ a ≤ x + 2) → (y - 2 ≤ b ∧ b ≤ y + 2) →
          (w.cell a b).type ≠ SEAWEED)) w := by
  have hsame : (∀ a b, (w.cell a b).type = SEAWEED → (w.cell a b).type ≠ SEAWEED →
        a = x ∧ b = y - 1) ∧
      ((w.cell x (y - 1)).type = SEAWEED → (w.cell x (y - 1)).type ≠ SEAWEED →
        (w.cell x (y - 1)).type = WATER ∧
        ∀ a b, w.inb a b = true → (x - 2 ≤ a ∧ a ≤ x + 2) → (y - 2 ≤ b ∧ b ≤ y + 2) →
          (w.cell a b).type ≠ SEAWEED) :=
    ⟨fun _ _ h1 h2 => absurd h1 h2, fun h1 h2 => absurd h1 h2⟩
  unfold visit
  rw [wp_bind, wp_getUpdated, hwfu.isSomeU]
  refine ⟨hib, ?_⟩
  refine wp_cases (fun _ => (wp_pure _ _ _).2 hsame) (fun _ => ?_)
  rw [wp_bind, wp_getCell, hwf.isSome]
  refine ⟨hib, ?_⟩
  rw [hs, if_neg (by simp), if_pos (by rfl)]
  unfold powderRule
  rw [wp_bind]
  refine wp_mono (powderMove_weed (SameWeed.weedSame hwf hwfu) hib (by rw [hs]; simp)) ?_
  intro moved w1 h1
  have hib1 : w1.inb x y = true := (inb_dims h1.1 x y).trans hib
  refine wp_seq (I := fun w2 => SameWeed x y w w2) (wp_when h1 (fun _ => ?_)) ?_
  · rw [wp_setUpdated, h1.2.2.1.isSomeU]
    exact ⟨hib1, h1.weedMarked x y⟩
  intro _ w2 h2
  have hib2 : w2.inb x y = true := (inb_dims h2.1 x y).trans hib
  rw [if_neg (by simp), wp_bind, wp_pure, if_pos rfl]
  refine wp_mono (sandSeed_spaced h2.2.1 hib2) ?_
  rintro _ w3 ⟨_, _, _, htypes, _, hup⟩
  have hsq : (∀ a b, w2.inb a b = true → (x - 2 ≤ a ∧ a ≤ x + 2) → (y - 2 ≤ b ∧ b ≤ y + 2) →
      (w2.cell a b).type ≠ SEAWEED) →
      ∀ a b, w.inb a b = true → (x - 2 ≤ a ∧ a ≤ x + 2) → (y - 2 ≤ b ∧ b ≤ y + 2) →
        (w.cell a b).type ≠ SEAWEED := by
    intro hh a b hab ha hb hweed
    exact hh a b ((inb_dims h2.1 a b).trans hab) ha hb ((h2.2.2.2.1 a b).2 hweed)
  refine ⟨?_, ?_⟩
  · intro a b h3 h0
    by_contra hne
    rw [htypes a b hne] at h3
    exact h0 ((h2.2.2.2.1 a b).1 h3)
  · intro h3 h0
    rcases hup with e | ⟨_, hwater, hnone⟩
    · rw [e] at h3
      exact absurd ((h2.2.2.2.1 _ _).1 h3) h0
    · rw [h2.2.2.2.2] at hwater
      exact ⟨hwater, hsq hnone⟩

theorem seaweed_spaced_witness :
    ripeSand.WF ∧ ripeSand.WFU ∧ ripeSand.inb 0 1 = true ∧ (ripeSand.cell 0 1).type = SAND ∧
      wp (visit 0 1) (fun _ w1 =>
        (∀ a b, (w1.cell a b).type = SEAWEED → (ripeSand.cell a b).type ≠ SEAWEED →
          a = 0 ∧ b = 1 - 1) ∧
        ((w1.cell 0 (1 - 1)).type = SEAWEED → (ripeSand.cell 0 (1 - 1)).type ≠ SEAWEED →
          (ripeSand.cell 0 (1 - 1)).type = WATER ∧
          ∀ a b, ripeSand.inb a b = true → (0 - 2 ≤ a ∧ a ≤ 0 + 2) → (1 - 2 ≤ b ∧ b ≤ 1 + 2) →
            (ripeSand.cell a b).type ≠ SEAWEED)) ripeSand :=
  ⟨by decide, by decide, by decide, by decide,
    seaweed_spaced ripeSand (by decide) (by decide) 0 1 (by decide) (by decide)⟩

/-- In the state `ripeSand` the visit of the sand does seed: the water above it becomes
`SEAWEED` and the timer of the sand is reset. -/
theorem seaweed_seeds_instance :
    gridAfter (visit 0 1) ripeSand = some [[⟨SEAWEED, 0⟩], [⟨SAND, 0⟩]] := by
  decide

/-! ## A powder is not displaced -/

/-- Reading the mask after a write, with the existence of the written flag as a
condition. -/
theorem upd_mark_if (w : World) (x y a b : Int) :
    (w.mark x y).upd a b =
      if a = x ∧ b = y ∧ (at? w.updated x y).isSome = true then true else w.upd a b := by
  unfold World.upd World.mark
  simp only [at?_setAt]
  split <;> rfl

theorem Stays.stayDraw {px py : Int} {w0 w : World} (h : Stays px py w0 w) :
    Stays px py w0 w.draw :=
  h

theorem Stays.stayMark {px py : Int} {w0 w : World} (h : Stays px py w0 w) {a b : Int}
    (hne : ¬ (a = px ∧ b = py)) : Stays px py w0 (w.mark a b) := by
  refine ⟨h.1, h.2.1, h.2.2.1.markWFU a b, ?_, h.2.2.2.2⟩
  rw [upd_mark_if, if_neg (fun hh => hne ⟨hh.1.symm, hh.2.1.symm⟩)]
  exact h.2.2.2.1

theorem Stays.stayPut {px py : Int} {w0 w : World} (h : Stays px py w0 w) {a b : Int}
    (hne : ¬ (a = px ∧ b = py)) (c : Cell) : Stays px py w0 (w.put a b c) := by
  refine ⟨h.1, h.2.1.putWF a b c, h.2.2.1, h.2.2.2.1, ?_⟩
  rw [cell_put_if, if_neg (fun hh => hne ⟨hh.1.symm, hh.2.1.symm⟩)]
  exact h.2.2.2.2

/-- A position whose cell is not a powder is not the position of the powder. -/
theorem Stays.off {px py : Int} {w0 w : World} (h : Stays px py w0 w)
    (hs : sandlike (w0.cell px py).type = true) {a b : Int}
    (hsoft : sandlike (w.cell a b).type = false) : ¬ (a = px ∧ b = py) := by
  rintro ⟨rfl, rfl⟩
  rw [h.2.2.2.2, hs] at hsoft
  cases hsoft

theorem Stays.stayInb {px py : Int} {w0 w : World} (h : Stays px py w0 w) (a b : Int) :
    w.inb a b = w0.inb a b :=
  inb_dims h.1 a b

theorem ns_of_soft {t : Element} (h : t = EMPTY ∨ liquid t = true ∨ gas t = true) :
    sandlike t = false := by
  cases t <;> simp_all [liquid, gas, sandlike]

theorem ns_of_empty_or_liquid {c : Cell} (h : (empty c || liquid c.type) = true) :
    sandlike c.type = false := by
  apply ns_of_soft
  unfold empty at h
  simp only [Bool.or_eq_true, decide_eq_true_eq] at h
  rcases h with h | h
  · exact Or.inl h
  · exact Or.inr (Or.inl h)

theorem ns_of_empty_or_gas {c : Cell} (h : (empty c || gas c.type) = true) :
    sandlike c.type = false := by
  apply ns_of_soft
  unfold empty at h
  simp only [Bool.or_eq_true, decide_eq_true_eq] at h
  rcases h with h | h
  · exact Or.inl h
  · exact Or.inr (Or.inr h)

theorem ns_of_empty {c : Cell} (h : empty c = true) : sandlike c.type = false := by
  apply ns_of_soft
  unfold empty at h
  simp only [decide_eq_true_eq] at h
  exact Or.inl h

theorem ns_of_liquid_and {c : Cell} {p : Bool} (h : (liquid c.type && p) = true) :
    sandlike c.type = false := by
  simp only [Bool.and_eq_true] at h
  exact ns_of_soft (Or.inr (Or.inl h.1))

/-- Exchanging the visited cell with a cell that is not at `(px, py)`. -/
theorem swap_to_stays {px py : Int} {w0 w : World} (h : Stays px py w0 w) {x y nx ny : Int}
    (hib : w.inb x y = true) (hib2 : w.inb nx ny = true) (h1 : ¬ (x = px ∧ y = py))
    (h2 : ¬ (nx = px ∧ ny = py)) :
    wp (swap_to x y nx ny) (fun _ w1 => Stays px py w0 w1) w := by
  simp only [swap_to, wp_bind, wp_getCell, wp_setCell, wp_setUpdated, isSome_put, put_updated,
    h.2.1.isSome, h.2.2.1.isSomeU, hib, hib2, true_and, put_inb]
  exact ((h.stayPut h2 _).stayPut h1 _).stayMark h2

theorem powderTry_stays {px py x y : Int} {w0 : World}
    (hs : sandlike (w0.cell px py).type = true) (hx : w0.inb x y = true)
    (hne : ¬ (x = px ∧ y = py)) (nx ny : Int) (w : World) (h : Stays px py w0 w) :
    wp (powderTry x y nx ny) (fun _ w1 => Stays px py w0 w1) w := by
  have hib : w.inb x y = true := (h.stayInb x y).trans hx
  simp only [powderTry, wp_bind, wp_in_bounds, wp_ite, wp_pure, wp_getCell, h.2.1.isSome]
  split_ifs with h1 h2
  · exact h
  · exact ⟨inb_of_not h1,
      swap_to_stays h hib (inb_of_not h1) hne (h.off hs (ns_of_empty_or_liquid h2))⟩
  · exact ⟨inb_of_not h1, h⟩

theorem powderMove_stays {px py x y : Int} {w0 : World}
    (hs : sandlike (w0.cell px py).type = true) (hx : w0.inb x y = true)
    (hne : ¬ (x = px ∧ y = py)) (w : World) (h : Stays px py w0 w) :
    wp (powderMove x y) (fun _ w1 => Stays px py w0 w1) w := by
  unfold powderMove
  refine wp_seq (powderTry_stays hs hx hne _ _ w h) ?_
  intro m0 w1 h1
  cases m0
  · simp only [Bool.false_eq_true, if_false, wp_bind, wp_rint]
    refine wp_mono (powderTry_stays hs hx hne _ _ _ h1.stayDraw) ?_
    intro m1 w2 h2
    cases m1
    · simp only [Bool.false_eq_true, if_false]
      exact powderTry_stays hs hx hne _ _ _ h2
    · simp only [if_true, wp_pure]
      exact h2
  · simp only [if_true, wp_pure]
    exact h1

theorem snowMelt_stays {px py x y : Int} {w0 : World} (hx : w0.inb x y = true)
    (hne : ¬ (x = px ∧ y = py)) (w : World) (h : Stays px py w0 w) :
    wp (snowMelt x y) (fun _ w1 => Stays px py w0 w1) w := by
  unfold snowMelt
  refine wp_forBox _ _ _ ?_ w h
  intro dx _ dy _ w1 h1
  have hib : w1.inb x y = true := (h1.stayInb x y).trans hx
  simp only [wp_bind, wp_in_bounds, wp_ite, wp_pure, wp_getCell, wp_setCell, h1.2.1.isSome]
  split_ifs with h2 h3
  · exact h1
  · exact ⟨inb_of_not h2, hib, h1.stayPut hne _⟩
  · exact ⟨inb_of_not h2, h1⟩

theorem sandSeed_stays {px py x y : Int} {w0 : World}
    (hs : sandlike (w0.cell px py).type = true) (hx : w0.inb x y = true)
    (hne : ¬ (x = px ∧ y = py)) (w : World) (h : Stays px py w0 w) :
    wp (sandSeed x y) (fun _ w1 => Stays px py w0 w1) w := by
  have hib : w.inb x y = true := (h.stayInb x y).trans hx
  refine wp_mono (sandSeed_spaced h.2.1 hib) ?_
  rintro _ w1 ⟨hd, hwf1, hu, _, hframe, hup⟩
  have hwfu1 : w1.WFU := by
    unfold World.WFU
    rw [hu, hd.1, hd.2]
    exact h.2.2.1
  have hupd : w1.upd px py = w.upd px py := by
    unfold World.upd
    rw [hu]
  refine ⟨⟨hd.1.trans h.1.1, hd.2.trans h.1.2⟩, hwf1, hwfu1, hupd.trans h.2.2.2.1, ?_⟩
  by_cases hab : px = x ∧ py = y - 1
  · obtain ⟨rfl, rfl⟩ := hab
    rcases hup with e | ⟨_, hwater, _⟩
    · exact e.trans h.2.2.2.2
    · rw [h.2.2.2.2] at hwater
      rw [hwater] at hs
      cases hs
  · rw [hframe px py (fun hh => ?_)]
    · exact h.2.2.2.2
    · rcases hh.2 with e | e
      · exact hne ⟨hh.1.symm, e.symm⟩
      · exact hab ⟨hh.1, e⟩

theorem powderRule_stays {px py x y : Int} {w0 : World}
    (hs : sandlike (w0.cell px py).type = true) (hx : w0.inb x y = true)
    (hne : ¬ (x = px ∧ y = py)) (t : Element) (w : World) (h : Stays px py w0 w) :
    wp (powderRule x y t) (fun _ w1 => Stays px py w0 w1) w := by
  unfold powderRule
  refine wp_seq (powderMove_stays hs hx hne w h) ?_
  intro moved w1 h1
  have hib1 : w1.inb x y = true := (h1.stayInb x y).trans hx
  refine wp_seq (I := fun w2 => Stays px py w0 w2) (wp_when h1 (fun _ => ?_)) ?_
  · rw [wp_setUpdated, h1.2.2.1.isSomeU]
    exact ⟨hib1, h1.stayMark hne⟩
  intro _ w2 h2
  refine wp_seq (I := fun w3 => Stays px py w0 w3)
    (wp_when h2 (fun _ => snowMelt_stays hx hne w2 h2)) ?_
  intro _ w3 h3
  exact wp_when h3 (fun _ => sandSeed_stays hs hx hne w3 h3)

theorem liquidDown_stays {px py x y : Int} {w0 : World}
    (hs : sandlike (w0.cell px py).type = true) (hx : w0.inb x y = true)
    (hne : ¬ (x = px ∧ y = py)) (t : Element) (w : World) (h : Stays px py w0 w) :
    wp (liquidDown x y t) (fun _ w1 => Stays px py w0 w1) w := by
  have hib : w.inb x y = true := (h.stayInb x y).trans hx
  simp only [liquidDown, wp_bind, wp_in_bounds, wp_ite, wp_pure, wp_getCell, h.2.1.isSome]
  split_ifs with h1 h2 h3
  · exact h
  · exact ⟨inb_of_not h1,
      swap_to_stays h hib (inb_of_not h1) hne (h.off hs (ns_of_empty_or_gas h2))⟩
  · exact ⟨inb_of_not h1,
      swap_to_stays h hib (inb_of_not h1) hne (h.off hs (ns_of_liquid_and h3))⟩
  · exact ⟨inb_of_not h1, h⟩

theorem liquidSide_stays {px py x y : Int} {w0 : World}
    (hs : sandlike (w0.cell px py).type = true) (hx : w0.inb x y = true)
    (hne : ¬ (x = px ∧ y = py)) (t : Element) (nx : Int) (w : World) (h : Stays px py w0 w) :
    wp (liquidSide x y t nx) (fun _ w1 => Stays px py w0 w1) w := by
  have hib : w.inb x y = true := (h.stayInb x y).trans hx
  simp only [liquidSide, wp_bind, wp_in_bounds, wp_ite, wp_pure, wp_getCell, wp_chance,
    h.2.1.isSome]
  split_ifs with h1 h2 h3 h4
  · exact h
  · exact ⟨inb_of_not h1,
      swap_to_stays h hib (inb_of_not h1) hne (h.off hs (ns_of_empty_or_gas h2))⟩
  · exact ⟨inb_of_not h1,
      swap_to_stays h.stayDraw hib (inb_of_not h1) hne (h.off hs (ns_of_liquid_and h3))⟩
  · exact ⟨inb_of_not h1, h.stayDraw⟩
  · exact ⟨inb_of_not h1, h⟩

theorem liquidMove_stays {px py x y : Int} {w0 : World}
    (hs : sandlike (w0.cell px py).type = true) (hx : w0.inb x y = true)
    (hne : ¬ (x = px ∧ y = py)) (t : Element) (w : World) (h : Stays px py w0 w) :
    wp (liquidMove x y t) (fun _ w1 => Stays px py w0 w1) w := by
  unfold liquidMove
  refine wp_seq (liquidDown_stays hs hx hne t w h) ?_
  intro m0 w1 h1
  cases m0
  · simp only [Bool.false_eq_true, if_false, wp_bind, wp_rint]
    refine wp_mono (liquidSide_stays hs hx hne t _ _ h1.stayDraw) ?_
    intro m1 w2 h2
    cases m1
    · simp only [Bool.false_eq_true, if_false]
      exact liquidSide_stays hs hx hne t _ _ h2
    · simp only [if_true, wp_pure]
      exact h2
  · simp only [if_true, wp_pure]
    exact h1

/-! ## A powder is only overwritten in place -/

theorem Stays.toHit {px py : Int} {w0 w : World} (h : Stays px py w0 w) : Hit px py w0 w :=
  ⟨h.1, h.2.1, h.2.2.1, h.2.2.2.1, Or.inl h.2.2.2.2⟩

theorem Hit.hitDraw {px py : Int} {w0 w : World} (h : Hit px py w0 w) : Hit px py w0 w.draw :=
  h

theorem Hit.hitInb {px py : Int} {w0 w : World} (h : Hit px py w0 w) (a b : Int) :
    w.inb a b = w0.inb a b :=
  inb_dims h.1 a b

theorem Hit.hitMark {px py : Int} {w0 w : World} (h : Hit px py w0 w) {a b : Int}
    (hne : ¬ (a = px ∧ b = py)) : Hit px py w0 (w.mark a b) := by
  refine ⟨h.1, h.2.1, h.2.2.1.markWFU a b, ?_, h.2.2.2.2⟩
  rw [upd_mark_if, if_neg (fun hh => hne ⟨hh.1.symm, hh.2.1.symm⟩)]
  exact h.2.2.2.1

/-- A write to a position other than `(px, py)`. -/
theorem Hit.hitOwn {px py : Int} {w0 w : World} (h : Hit px py w0 w) {a b : Int}
    (hne : ¬ (a = px ∧ b = py)) (c : Cell) : Hit px py w0 (w.put a b c) := by
  refine ⟨h.1, h.2.1.putWF a b c, h.2.2.1, h.2.2.2.1, ?_⟩
  rw [cell_put_if, if_neg (fun hh => hne ⟨hh.1.symm, hh.2.1.symm⟩)]
  exact h.2.2.2.2

/-- A write of a `byproduct` kind, anywhere. -/
theorem Hit.hitNew {px py : Int} {w0 w : World} (h : Hit px py w0 w) (a b : Int) (c : Cell)
    (hc : byproduct c.type = true) : Hit px py w0 (w.put a b c) := by
  refine ⟨h.1, h.2.1.putWF a b c, h.2.2.1, h.2.2.2.1, ?_⟩
  rw [cell_put_if]
  split
  · exact Or.inr hc
  · exact h.2.2.2.2

/-- The cell at `(px, py)` is a powder or a `byproduct`. -/
theorem Hit.frag {px py : Int} {w0 w : World} (h : Hit px py w0 w)
    (hs : sandlike (w0.cell px py).type = true) : fragile (w.cell px py).type = true := by
  unfold fragile
  rcases h.2.2.2.2 with e | e
  · rw [e, hs]
    rfl
  · rw [e]
    simp

/-- A write to a position whose cell is neither a powder nor a `byproduct`. -/
theorem Hit.hitOff {px py : Int} {w0 w : World} (h : Hit px py w0 w)
    (hs : sandlike (w0.cell px py).type = true) {a b : Int}
    (hnf : fragile (w.cell a b).type = false) (c : Cell) : Hit px py w0 (w.put a b c) := by
  refine h.hitOwn ?_ c
  rintro ⟨rfl, rfl⟩
  rw [h.frag hs] at hnf
  cases hnf

theorem explodeCell_hit {px py : Int} {w0 w : World} (h : Hit px py w0 w)
    (cx cy r dx dy : Int) :
    wp (explodeCell cx cy r dx dy) (fun _ w1 => Hit px py w0 w1) w := by
  have hwf := h.2.1
  simp only [explodeCell, wp_bind, wp_in_bounds, wp_ite, wp_pure, wp_getCell, wp_rint, wp_setCell,
    isSome_put, draw_grid, hwf.isSome]
  split_ifs with h1 h2 h3 h4 h5 h6
  · exact h
  · exact h
  · exact ⟨inb_of_not h1, h⟩
  · exact ⟨inb_of_not h1, h⟩
  · exact ⟨inb_of_not h1, inb_of_not h1, h.hitDraw.hitDraw.hitNew _ _ _ rfl⟩
  · exact ⟨inb_of_not h1, inb_of_not h1, h.hitDraw.hitNew _ _ _ rfl⟩
  · exact ⟨inb_of_not h1, inb_of_not h1, h.hitDraw.hitNew _ _ _ rfl⟩

theorem explode_hit {px py : Int} {w0 : World} (cx cy r : Int) [Fact (Small r)] (w : World)
    (h : Hit px py w0 w) : wp (explode cx cy r) (fun _ w1 => Hit px py w0 w1) w := by
  unfold explode
  exact wp_forBox _ _ _ (fun dx _ dy _ w1 h1 => explodeCell_hit h1 cx cy r dx dy) w h

theorem waterReact_hit {px py x y : Int} {w0 : World}
    (hs : sandlike (w0.cell px py).type = true) (hx : w0.inb x y = true)
    (hne : ¬ (x = px ∧ y = py)) (nx ny : Int) (w : World) (h : Hit px py w0 w)
    (hib2 : w.inb nx ny = true) :
    wp (waterReact x y nx ny) (fun _ w1 => Hit px py w0 w1) w := by
  have hib : w.inb x y = true := (h.hitInb x y).trans hx
  simp only [waterReact, wp_bind, wp_getCell, wp_ite, wp_setCell, wp_chance, wp_pure,
    isSome_put, draw_grid, h.2.1.isSome, hib, hib2, true_and]
  split_ifs with h1 h2 h3
  · exact h.hitNew _ _ _ rfl
  · exact ((h.hitOff hs (by rw [h2]; rfl) _).hitDraw).hitOwn hne _
  · exact ((h.hitOff hs (by rw [h2]; rfl) _).hitDraw).hitOwn hne _
  · exact h

theorem oilReact_hit {px py x y : Int} {w0 : World} (hx : w0.inb x y = true)
    (hne : ¬ (x = px ∧ y = py)) (nx ny : Int) (w : World) (h : Hit px py w0 w)
    (hib2 : w.inb nx ny = true) :
    wp (oilReact x y nx ny) (fun _ w1 => Hit px py w0 w1) w := by
  have hib : w.inb x y = true := (h.hitInb x y).trans hx
  simp only [oilReact, wp_bind, wp_getCell, wp_ite, wp_setCell, wp_pure,
    h.2.1.isSome, hib, hib2, true_and]
  split_ifs with h1
  · exact h.hitOwn hne _
  · exact h

theorem acidReact_hit {px py x y : Int} {w0 : World}
    (hs : sandlike (w0.cell px py).type = true) (hx : w0.inb x y = true)
    (hne : ¬ (x = px ∧ y = py)) (nx ny : Int) (w : World) (h : Hit px py w0 w)
    (hib2 : w.inb nx ny = true) :
    wp (acidReact x y nx ny) (fun _ w1 => Hit px py w0 w1) w := by
  have hib : w.inb x y = true := (h.hitInb x y).trans hx
  unfold acidReact
  rw [wp_bind, wp_getCell]
  refine ⟨by rw [h.2.1.isSome]; exact hib2, ?_⟩
  refine wp_seq (I := fun w1 => Hit px py w0 w1) ?_ ?_
  · simp only [wp_bind, wp_ite, wp_setCell, wp_chance, wp_pure,
      isSome_put, draw_grid, h.2.1.isSome, hib, hib2, true_and]
    split_ifs with h1 h2 h3 h4
    · exact ((h.hitDraw.hitNew _ _ ⟨TOXIC_GAS, 25⟩ rfl).hitDraw).hitOwn hne _
    · exact (h.hitDraw.hitNew _ _ ⟨TOXIC_GAS, 25⟩ rfl).hitDraw
    · exact ((h.hitDraw.hitNew _ _ ⟨EMPTY, 0⟩ rfl).hitDraw).hitOwn hne _
    · exact (h.hitDraw.hitNew _ _ ⟨EMPTY, 0⟩ rfl).hitDraw
    · exact h
  · intro _ w1 h1
    have hib' : w1.inb x y = true := (h1.hitInb x y).trans hx
    have hib2' : w1.inb nx ny = true :=
      (h1.hitInb nx ny).trans ((h.hitInb nx ny).symm.trans hib2)
    simp only [wp_bind, wp_getCell, wp_ite, wp_setCell, wp_chance, wp_pure,
      isSome_put, draw_grid, h1.2.1.isSome, hib', hib2', true_and]
    split_ifs with h2 h3 h4
    · by_cases hab : nx = px ∧ ny = py
      · exfalso
        obtain ⟨rfl, rfl⟩ := hab
        have hf := h1.frag hs
        rw [h2] at hf
        cases hf
      · exact ((h1.hitDraw.hitOwn hne _).hitDraw).hitOwn hab _
    · exact (h1.hitDraw.hitOwn hne _).hitDraw
    · exact h1.hitDraw
    · exact h1

theorem lavaReact_hit {px py x y : Int} {w0 : World}
    (hs : sandlike (w0.cell px py).type = true) (hx : w0.inb x y = true)
    (hne : ¬ (x = px ∧ y = py)) (nx ny : Int) (w : World) (h : Hit px py w0 w)
    (hib2 : w.inb nx ny = true) :
    wp (lavaReact x y nx ny) (fun _ w1 => Hit px py w0 w1) w := by
  have hib : w.inb x y = true := (h.hitInb x y).trans hx
  simp only [lavaReact, wp_bind, wp_getCell, wp_ite, wp_setCell, wp_chance, wp_pure,
    isSome_put, draw_grid, h.2.1.isSome, hib, hib2, true_and]
  have hwet : (w.cell nx ny).type = WATER ∨ (w.cell nx ny).type = SALTWATER →
      fragile (w.cell nx ny).type = false := by
    intro h3
    rcases h3 with h3 | h3 <;> rw [h3] <;> rfl
  split_ifs with h1 h2 h3 h4 h5
  · exact h.hitNew _ _ _ rfl
  · exact h.hitNew _ _ _ rfl
  · exact ((h.hitOff hs (hwet h3) _).hitDraw).hitOwn hne _
  · exact ((h.hitOff hs (hwet h3) _).hitDraw).hitOwn hne _
  · exact h.hitOff hs (by rw [h5]; rfl) _
  · exact h

theorem liquidReact_hit {px py x y : Int} {w0 : World}
    (hs : sandlike (w0.cell px py).type = true) (hx : w0.inb x y = true)
    (hne : ¬ (x = px ∧ y = py)) (t : Element) (dx dy : Int) (w : World)
    (h : Hit px py w0 w) :
    wp (liquidReact x y t dx dy) (fun _ w1 => Hit px py w0 w1) w := by
  unfold liquidReact
  rw [wp_ite]
  split
  · exact (wp_pure _ _ _).2 h
  · rw [wp_bind, wp_in_bounds, wp_ite]
    split
    · exact (wp_pure _ _ _).2 h
    · rename_i hb
      have hib2 := inb_of_not hb
      have hkeep : ∀ w1, Hit px py w0 w1 → w1.inb (x + dx) (y + dy) = true := by
        intro w1 h1
        exact (h1.hitInb _ _).trans ((h.hitInb _ _).symm.trans hib2)
      refine wp_seq (wp_when h (fun _ => waterReact_hit hs hx hne _ _ w h hib2)) ?_
      intro _ w1 h1
      refine wp_seq (wp_when h1 (fun _ => oilReact_hit hx hne _ _ w1 h1 (hkeep w1 h1))) ?_
      intro _ w2 h2
      refine wp_seq (wp_when h2 (fun _ => acidReact_hit hs hx hne _ _ w2 h2 (hkeep w2 h2))) ?_
      intro _ w3 h3
      exact wp_when h3 (fun _ => lavaReact_hit hs hx hne _ _ w3 h3 (hkeep w3 h3))

theorem lavaCool_hit {px py x y : Int} {w0 : World} (hx : w0.inb x y = true)
    (hne : ¬ (x = px ∧ y = py)) (w : World) (h : Hit px py w0 w) :
    wp (lavaCool x y) (fun _ w1 => Hit px py w0 w1) w := by
  have hib : w.inb x y = true := (h.hitInb x y).trans hx
  simp only [lavaCool, wp_bind, wp_getCell, wp_setLife, wp_setCell, wp_ite, wp_pure, isSome_put,
    h.2.1.isSome, hib, true_and]
  split_ifs with h1
  · exact (h.hitOwn hne _).hitOwn hne _
  · exact h.hitOwn hne _

theorem hydrate_hit {px py x y : Int} {w0 : World}
    (hs : sandlike (w0.cell px py).type = true) (w : World) (h : Hit px py w0 w) :
    wp (hydrate x y) (fun _ w1 => Hit px py w0 w1) w := by
  unfold hydrate
  refine wp_forBox _ _ _ ?_ w h
  intro dx _ dy _ w1 h1
  simp only [wp_bind, wp_in_bounds, wp_ite, wp_pure, wp_getCell, wp_setCell, h1.2.1.isSome]
  split_ifs with h2 h3
  · exact h1
  · refine ⟨inb_of_not h2, inb_of_not h2, h1.hitOff hs ?_ _⟩
    rcases h3 with h3 | h3 <;> rw [h3] <;> rfl
  · exact ⟨inb_of_not h2, h1⟩

theorem pulseCell_hit {px py : Int} {w0 : World}
    (hs : sandlike (w0.cell px py).type = true) (x y q dx dy : Int) (w : World)
    (h : Hit px py w0 w) :
    wp (pulseCell x y q dx dy) (fun _ w1 => Hit px py w0 w1) w := by
  simp only [pulseCell, wp_bind, wp_in_bounds, wp_ite, wp_pure, wp_getCell, wp_setCell,
    wp_setLife, isSome_put, h.2.1.isSome]
  split_ifs with h1 h2 h3 h4 h5 h6 h7
  · exact h
  · exact h
  · exfalso
    rcases h3 with h3 | h3 <;> rcases h5 with h5 | h5 <;> rw [h3] at h5 <;> cases h5
  · refine ⟨inb_of_not h2, inb_of_not h2, h.hitOff hs ?_ _⟩
    rcases h3 with h3 | h3 <;> rw [h3] <;> rfl
  · exfalso
    rcases h3 with h3 | h3 <;> rcases h6 with h6 | h6 <;> rw [h3] at h6 <;> cases h6
  · exact ⟨inb_of_not h2, h⟩
  · refine ⟨inb_of_not h2, inb_of_not h2, h.hitOff hs ?_ _⟩
    rcases h7 with h7 | h7 <;> rw [h7] <;> rfl
  · exact ⟨inb_of_not h2, h⟩

/-- The decrement `cell.life--; if(cell.life<0) cell.life=0;` of the visited cell. -/
theorem decFloor_hit {px py x y : Int} {w0 : World} (hx : w0.inb x y = true)
    (hne : ¬ (x = px ∧ y = py)) (w : World) (h : Hit px py w0 w) :
    wp (do
        let c1 ← getCell x y
        setLife x y (c1.life - 1)
        let c2 ← getCell x y
        if c2.life < 0 then setLife x y 0 else pure PUnit.unit)
      (fun _ w1 => Hit px py w0 w1) w := by
  have hib : w.inb x y = true := (h.hitInb x y).trans hx
  simp only [wp_bind, wp_getCell, wp_setLife, wp_ite, wp_pure, isSome_put,
    h.2.1.isSome, hib, true_and]
  split_ifs with h1
  · exact (h.hitOwn hne _).hitOwn hne _
  · exact h.hitOwn hne _

theorem waterPulse_hit {px py x y : Int} {w0 : World}
    (hs : sandlike (w0.cell px py).type = true) (hx : w0.inb x y = true)
    (hne : ¬ (x = px ∧ y = py)) (w : World) (h : Hit px py w0 w) :
    wp (waterPulse x y) (fun _ w1 => Hit px py w0 w1) w := by
  have hib : w.inb x y = true := (h.hitInb x y).trans hx
  unfold waterPulse
  rw [wp_bind, wp_getCell]
  refine ⟨by rw [h.2.1.isSome]; exact hib, ?_⟩
  rw [wp_ite]
  split
  · refine wp_seq (I := fun w1 => Hit px py w0 w1) ?_ ?_
    · exact wp_forBox _ _ _ (fun dx _ dy _ w1 h1 => pulseCell_hit hs x y _ dx dy w1 h1) w h
    · intro _ w1 h1
      exact decFloor_hit hx hne w1 h1
  · exact (wp_pure _ _ _).2 h

theorem liquidRule_hit {px py x y : Int} {w0 : World}
    (hs : sandlike (w0.cell px py).type = true) (hx : w0.inb x y = true)
    (hne : ¬ (x = px ∧ y = py)) (t : Element) (w : World) (h : Stays px py w0 w) :
    wp (liquidRule x y t) (fun _ w1 => Hit px py w0 w1) w := by
  unfold liquidRule
  refine wp_seq (liquidMove_stays hs hx hne t w h) ?_
  intro moved w1 h1
  have hib1 : w1.inb x y = true := (h1.stayInb x y).trans hx
  refine wp_seq (I := fun w2 => Hit px py w0 w2) (wp_when h1.toHit (fun _ => ?_)) ?_
  · rw [wp_setUpdated, h1.2.2.1.isSomeU]
    exact ⟨hib1, h1.toHit.hitMark hne⟩
  intro _ w2 h2
  refine wp_seq (I := fun w3 => Hit px py w0 w3) ?_ ?_
  · exact wp_forBox _ _ _ (fun dx _ dy _ w3 h3 => liquidReact_hit hs hx hne t dx dy w3 h3) w2 h2
  intro _ w3 h3
  refine wp_seq (I := fun w4 => Hit px py w0 w4)
    (wp_when h3 (fun _ => lavaCool_hit hx hne w3 h3)) ?_
  intro _ w4 h4
  refine wp_seq (I := fun w5 => Hit px py w0 w5)
    (wp_when h4 (fun _ => hydrate_hit hs w4 h4)) ?_
  intro _ w5 h5
  exact wp_when h5 (fun _ => waterPulse_hit hs hx hne w5 h5)

theorem gasUp_stays {px py x y : Int} {w0 : World}
    (hs : sandlike (w0.cell px py).type = true) (hx : w0.inb x y = true)
    (hne : ¬ (x = px ∧ y = py)) (w : World) (h : Stays px py w0 w) :
    wp (gasUp x y) (fun _ w1 => Stays px py w0 w1) w := by
  have hib : w.inb x y = true := (h.stayInb x y).trans hx
  simp only [gasUp, wp_bind, wp_in_bounds, wp_ite, wp_pure, wp_getCell, h.2.1.isSome]
  split_ifs with h1 h2
  · exact h
  · exact ⟨inb_of_not h1, swap_to_stays h hib (inb_of_not h1) hne (h.off hs (ns_of_empty h2))⟩
  · exact ⟨inb_of_not h1, h⟩

theorem gasRise_stays {px py x y : Int} {w0 : World}
    (hs : sandlike (w0.cell px py).type = true) (hx : w0.inb x y = true)
    (hne : ¬ (x = px ∧ y = py)) (tries : Nat) :
    ∀ w, Stays px py w0 w → wp (gasRise x y tries) (fun _ w1 => Stays px py w0 w1) w := by
  induction tries with
  | zero =>
    intro w h
    exact (wp_pure _ _ _).2 h
  | succ n ih =>
    intro w h
    unfold gasRise
    refine wp_seq (gasUp_stays hs hx hne w h) ?_
    intro m w1 h1
    cases m
    · simp only [Bool.false_eq_true, if_false]
      exact ih w1 h1
    · simp only [if_true, wp_pure]
      exact h1

theorem gasSideAt_stays {px py x y : Int} {w0 : World}
    (hs : sandlike (w0.cell px py).type = true) (hx : w0.inb x y = true)
    (hne : ¬ (x = px ∧ y = py)) (nx ny : Int) (w : World) (h : Stays px py w0 w) :
    wp (do
        let ib ← in_bounds nx ny
        if (!ib) = true then pure false
        else do
          let d ← getCell nx ny
          if empty d = true then do
            swap_to x y nx ny
            pure true
          else pure false)
      (fun _ w1 => Stays px py w0 w1) w := by
  have hib : w.inb x y = true := (h.stayInb x y).trans hx
  simp only [wp_bind, wp_in_bounds, wp_ite, wp_pure, wp_getCell, h.2.1.isSome]
  split_ifs with h1 h2
  · exact h
  · exact ⟨inb_of_not h1, swap_to_stays h hib (inb_of_not h1) hne (h.off hs (ns_of_empty h2))⟩
  · exact ⟨inb_of_not h1, h⟩

theorem gasSide_stays {px py x y : Int} {w0 : World}
    (hs : sandlike (w0.cell px py).type = true) (hx : w0.inb x y = true)
    (hne : ¬ (x = px ∧ y = py)) (nx : Int) (w : World) (h : Stays px py w0 w) :
    wp (gasSide x y nx) (fun _ w1 => Stays px py w0 w1) w := by
  unfold gasSide
  rw [wp_bind, wp_chance]
  exact gasSideAt_stays hs hx hne nx _ w.draw h.stayDraw

theorem gasMove_stays {px py x y : Int} {w0 : World}
    (hs : sandlike (w0.cell px py).type = true) (hx : w0.inb x y = true)
    (hne : ¬ (x = px ∧ y = py)) (t : Element) (w : World) (h : Stays px py w0 w) :
    wp (gasMove x y t) (fun _ w1 => Stays px py w0 w1) w := by
  unfold gasMove
  refine wp_seq (gasRise_stays hs hx hne _ w h) ?_
  intro m0 w1 h1
  cases m0
  · simp only [Bool.false_eq_true, if_false, wp_bind, wp_rint]
    refine wp_mono (gasSide_stays hs hx hne _ _ h1.stayDraw) ?_
    intro m1 w2 h2
    cases m1
    · simp only [Bool.false_eq_true, if_false]
      exact gasSide_stays hs hx hne _ _ h2
    · simp only [if_true, wp_pure]
      exact h2
  · simp only [if_true, wp_pure]
    exact h1

theorem gasIgnite_hit {px py x y : Int} {w0 : World} (hx : w0.inb x y = true)
    (hne : ¬ (x = px ∧ y = py)) (t : Element) (w : World) (h : Hit px py w0 w) :
    wp (gasIgnite x y t) (fun _ w1 => Hit px py w0 w1) w := by
  unfold gasIgnite
  refine wp_forBox _ _ _ ?_ w h
  intro dx _ dy _ w1 h1
  have hib : w1.inb x y = true := (h1.hitInb x y).trans hx
  simp only [wp_bind, wp_in_bounds, wp_ite, wp_pure, wp_getCell, wp_setCell, h1.2.1.isSome]
  split_ifs with h2 h3 h4 h5
  · exact h1
  · exact h1
  · exact ⟨inb_of_not h3, explode_hit x y 4 w1 h1⟩
  · exact ⟨inb_of_not h3, hib, h1.hitOwn hne _⟩
  · exact ⟨inb_of_not h3, h1⟩

theorem chlorineRule_hit {px py x y : Int} {w0 : World} (w : World) (h : Hit px py w0 w) :
    wp (chlorineRule x y) (fun _ w1 => Hit px py w0 w1) w := by
  unfold chlorineRule
  refine wp_forBox _ _ _ ?_ w h
  intro dx _ dy _ w1 h1
  simp only [wp_bind, wp_in_bounds, wp_ite, wp_pure, wp_getCell, wp_setCell, wp_chance,
    draw_grid, h1.2.1.isSome]
  split_ifs with h2 h3 h4
  · exact h1
  · exact ⟨inb_of_not h2, inb_of_not h2, h1.hitDraw.hitNew _ _ _ rfl⟩
  · exact ⟨inb_of_not h2, h1.hitDraw⟩
  · exact ⟨inb_of_not h2, h1⟩

theorem gasDecay_hit {px py x y : Int} {w0 : World} (hx : w0.inb x y = true)
    (hne : ¬ (x = px ∧ y = py)) (t : Element) (moved : Bool) (w : World)
    (h : Hit px py w0 w) :
    wp (gasDecay x y t moved) (fun _ w1 => Hit px py w0 w1) w := by
  have hib : w.inb x y = true := (h.hitInb x y).trans hx
  simp only [gasDecay, wp_bind, wp_getCell, wp_setLife, wp_setCell, wp_setUpdated, wp_ite,
    wp_pure, wp_chance, isSome_put, draw_grid, draw_updated, put_updated, h.2.1.isSome,
    h.2.2.1.isSomeU, hib, true_and, put_inb, draw_inb]
  split_ifs
  all_goals
    repeat (first
      | exact h
      | refine Hit.hitOwn ?_ hne _
      | refine Hit.hitMark ?_ hne
      | refine Hit.hitDraw ?_)

theorem gasRule_hit {px py x y : Int} {w0 : World}
    (hs : sandlike (w0.cell px py).type = true) (hx : w0.inb x y = true)
    (hne : ¬ (x = px ∧ y = py)) (t : Element) (w : World) (h : Stays px py w0 w) :
    wp (gasRule x y t) (fun _ w1 => Hit px py w0 w1) w := by
  unfold gasRule
  refine wp_seq (gasMove_stays hs hx hne t w h) ?_
  intro moved w1 h1
  refine wp_seq (I := fun w2 => Hit px py w0 w2)
    (wp_when h1.toHit (fun _ => gasIgnite_hit hx hne t w1 h1.toHit)) ?_
  intro _ w2 h2
  refine wp_seq (I := fun w3 => Hit px py w0 w3)
    (wp_when h2 (fun _ => chlorineRule_hit w2 h2)) ?_
  intro _ w3 h3
  exact gasDecay_hit hx hne t moved w3 h3

theorem fireRise_stays {px py x y : Int} {w0 : World}
    (hs : sandlike (w0.cell px py).type = true) (hx : w0.inb x y = true)
    (hne : ¬ (x = px ∧ y = py)) (w : World) (h : Stays px py w0 w) :
    wp (fireRise x y) (fun _ w1 => Stays px py w0 w1) w := by
  have hib : w.inb x y = true := (h.stayInb x y).trans hx
  simp only [fireRise, wp_bind, wp_in_bounds, wp_ite, wp_pure, wp_getCell, wp_chance,
    h.2.1.isSome]
  split_ifs with h1 h2 h3
  · exact ⟨h1, swap_to_stays h.stayDraw hib h1 hne (h.off hs (ns_of_empty_or_gas h2))⟩
  · exact ⟨h1, h.stayDraw⟩
  · exact ⟨h1, h⟩
  · exact h

theorem nf_of_wire {t : Element} (h : t = WIRE ∨ t = METAL) : fragile t = false := by
  rcases h with h | h <;> subst h <;> rfl

theorem nf_of_water {t : Element} (h : t = WATER ∨ t = SALTWATER) : fragile t = false := by
  rcases h with h | h <;> subst h <;> rfl

/-- The ignition block shared by fire and charged conductors. -/
theorem ignite_hit {px py : Int} {w0 : World} (nx ny p r : Int) [Fact (Small r)] (w : World)
    (h : Hit px py w0 w) (hib2 : w.inb nx ny = true) :
    wp (if flammable (w.cell nx ny).type = true then do
          let c ← chance p
          if c = true then
            if (w.cell nx ny).type = GUNPOWDER then explode nx ny r
            else do
              let k ← rint 0 10
              setCell nx ny ⟨FIRE, 15 + k⟩
          else pure PUnit.unit
        else pure ())
      (fun _ w1 => Hit px py w0 w1) w := by
  rw [wp_ite]
  split
  · rw [wp_bind, wp_chance, wp_ite]
    split
    · rw [wp_ite]
      split
      · exact explode_hit nx ny r _ h.hitDraw
      · simp only [wp_bind, wp_rint, wp_setCell, draw_grid, h.2.1.isSome, hib2, true_and]
        exact h.hitDraw.hitDraw.hitNew _ _ _ rfl
    · exact (wp_pure _ _ _).2 h.hitDraw
  · exact (wp_pure _ _ _).2 h

theorem fireSpread_hit {px py x y : Int} {w0 : World}
    (hs : sandlike (w0.cell px py).type = true) (hx : w0.inb x y = true)
    (hne : ¬ (x = px ∧ y = py)) (dx dy : Int) (w : World) (h : Hit px py w0 w) :
    wp (fireSpread x y dx dy) (fun _ w1 => Hit px py w0 w1) w := by
  unfold fireSpread
  rw [wp_ite]
  split
  · exact (wp_pure _ _ _).2 h
  · rw [wp_bind, wp_in_bounds, wp_ite]
    split
    · exact (wp_pure _ _ _).2 h
    · rename_i hb
      have hib2 := inb_of_not hb
      rw [wp_bind, wp_getCell]
      refine ⟨by rw [h.2.1.isSome]; exact hib2, ?_⟩
      refine wp_seq (ignite_hit _ _ 40 5 w h hib2) ?_
      intro _ w1 h1
      have hib : w1.inb x y = true := (h1.hitInb x y).trans hx
      have hib2' : w1.inb (x + dx) (y + dy) = true :=
        (h1.hitInb _ _).trans ((h.hitInb _ _).symm.trans hib2)
      simp only [wp_bind, wp_getCell, wp_ite, wp_setCell, wp_setLife, wp_chance, wp_pure,
        isSome_put, draw_grid, h1.2.1.isSome, hib, hib2', true_and]
      split_ifs with h2 h3 h4 h5 h6
      · exact ((h1.hitOwn hne _).hitDraw).hitOff hs (nf_of_wire h3) _
      · exact (h1.hitOwn hne _).hitDraw
      · exact h1.hitOwn hne _
      · exact h1.hitDraw.hitOff hs (nf_of_wire h5) _
      · exact h1.hitDraw
      · exact h1

/-- The block `cell.life--; if(cell.life<=0){ cell = c; }` followed by
`updated[y][x]=true`, of the visited cell. -/
theorem burnOut_hit {px py x y : Int} {w0 : World} (hx : w0.inb x y = true)
    (hne : ¬ (x = px ∧ y = py)) (c : Cell) (w : World) (h : Hit px py w0 w) :
    wp (do
        let c0 ← getCell x y
        setLife x y (dec32 c0.life)
        let c1 ← getCell x y
        (if c1.life ≤ 0 then setCell x y c else pure ())
        setUpdated x y)
      (fun _ w1 => Hit px py w0 w1) w := by
  have hib : w.inb x y = true := (h.hitInb x y).trans hx
  simp only [wp_bind, wp_getCell, wp_setLife, wp_setCell, wp_setUpdated, wp_ite, wp_pure,
    isSome_put, put_updated, h.2.1.isSome, h.2.2.1.isSomeU, hib, true_and, put_inb]
  split_ifs with h1
  · exact ((h.hitOwn hne _).hitOwn hne _).hitMark hne
  · exact (h.hitOwn hne _).hitMark hne

theorem fireRule_hit {px py x y : Int} {w0 : World}
    (hs : sandlike (w0.cell px py).type = true) (hx : w0.inb x y = true)
    (hne : ¬ (x = px ∧ y = py)) (w : World) (h : Stays px py w0 w) :
    wp (fireRule x y) (fun _ w1 => Hit px py w0 w1) w := by
  unfold fireRule
  refine wp_seq (fireRise_stays hs hx hne w h) ?_
  intro _ w1 h1
  refine wp_seq (I := fun w2 => Hit px py w0 w2) ?_ ?_
  · exact wp_forBox _ _ _ (fun dx _ dy _ w2 h2 => fireSpread_hit hs hx hne dx dy w2 h2) w1
      h1.toHit
  intro _ w2 h2
  exact burnOut_hit hx hne ⟨SMOKE, 15⟩ w2 h2

/-- A write of a life to a cell that is neither a powder nor a `byproduct`. -/
theorem setLife_hit {px py : Int} {w0 : World} (hs : sandlike (w0.cell px py).type = true)
    (a b v : Int) (w : World) (h : Hit px py w0 w) (hib : w.inb a b = true)
    (hnf : fragile (w.cell a b).type = false) :
    wp (setLife a b v)
      (fun _ w1 => Hit px py w0 w1 ∧ (w1.cell a b).type = (w.cell a b).type) w := by
  rw [wp_setLife, h.2.1.isSome]
  refine ⟨hib, h.hitOff hs hnf _, ?_⟩
  rw [cell_put h.2.1 hib, if_pos ⟨rfl, rfl⟩]

theorem boltCell_hit {px py : Int} {w0 : World} (hs : sandlike (w0.cell px py).type = true)
    (x y dx dy : Int) (w : World) (h : Hit px py w0 w) :
    wp (boltCell x y dx dy) (fun _ w1 => Hit px py w0 w1) w := by
  unfold boltCell
  rw [wp_ite]
  split
  · exact (wp_pure _ _ _).2 h
  · rw [wp_bind, wp_in_bounds, wp_ite]
    split
    · exact (wp_pure _ _ _).2 h
    · rename_i hb
      have hib2 := inb_of_not hb
      have hkeep : ∀ w1, Hit px py w0 w1 → w1.inb (x + dx) (y + dy) = true := by
        intro w1 h1
        exact (h1.hitInb _ _).trans ((h.hitInb _ _).symm.trans hib2)
      rw [wp_bind, wp_getCell]
      refine ⟨by rw [h.2.1.isSome]; exact hib2, ?_⟩
      refine wp_seq (I := fun w1 => Hit px py w0 w1 ∧
        (w1.cell (x + dx) (y + dy)).type = (w.cell (x + dx) (y + dy)).type) ?_ ?_
      · rw [wp_ite]
        split
        · rename_i ht
          exact setLife_hit hs _ _ _ w h hib2 (nf_of_wire ht)
        · exact (wp_pure _ _ _).2 ⟨h, rfl⟩
      rintro _ w1 ⟨h1, e1⟩
      refine wp_seq (I := fun w2 => Hit px py w0 w2) (wp_when h1 (fun ht => ?_)) ?_
      · refine wp_mono (setLife_hit hs _ _ _ w1 h1 (hkeep w1 h1) ?_) (fun _ _ hh => hh.1)
        rw [e1]
        exact nf_of_water ht
      intro _ w2 h2
      refine wp_seq (I := fun w3 => Hit px py w0 w3) (wp_when h2 (fun _ => ?_)) ?_
      · rw [wp_ite]
        split
        · exact explode_hit _ _ 6 w2 h2
        · simp only [wp_bind, wp_rint, wp_setCell, draw_grid, h2.2.1.isSome, hkeep w2 h2,
            true_and]
          exact h2.hitDraw.hitNew _ _ _ rfl
      intro _ w3 h3
      exact wp_when h3 (fun _ => explode_hit _ _ 4 w3 h3)

theorem lightningRule_hit {px py x y : Int} {w0 : World}
    (hs : sandlike (w0.cell px py).type = true) (hx : w0.inb x y = true)
    (hne : ¬ (x = px ∧ y = py)) (w : World) (h : Hit px py w0 w) :
    wp (lightningRule x y) (fun _ w1 => Hit px py w0 w1) w := by
  unfold lightningRule
  refine wp_seq (I := fun w2 => Hit px py w0 w2) ?_ ?_
  · exact wp_forBox _ _ _ (fun dx _ dy _ w2 h2 => boltCell_hit hs x y dx dy w2 h2) w h
  intro _ w2 h2
  exact burnOut_hit hx hne ⟨EMPTY, 0⟩ w2 h2

theorem Stays.stayOff {px py : Int} {w0 w : World} (h : Stays px py w0 w)
    (hs : sandlike (w0.cell px py).type = true) {a b : Int}
    (hsoft : sandlike (w.cell a b).type = false) (c : Cell) : Stays px py w0 (w.put a b c) :=
  h.stayPut (h.off hs hsoft) c

theorem walk_try_stays {px py x y : Int} {w0 : World}
    (hs : sandlike (w0.cell px py).type = true) (hx : w0.inb x y = true)
    (hne : ¬ (x = px ∧ y = py)) (tx ty : Int) (w : World) (h : Stays px py w0 w) :
    wp (walk_try x y tx ty) (fun _ w1 => Stays px py w0 w1) w := by
  have hib : w.inb x y = true := (h.stayInb x y).trans hx
  simp only [walk_try, wp_bind, wp_in_bounds, wp_ite, wp_pure, wp_getCell, wp_setCell,
    isSome_put, h.2.1.isSome, hib, true_and]
  split_ifs with h1 h2
  · exact h
  · exact ⟨inb_of_not h1, inb_of_not h1,
      (h.stayOff hs (ns_of_empty_or_gas h2) _).stayPut hne _⟩
  · exact ⟨inb_of_not h1, h⟩

theorem agentFall_stays {px py x y : Int} {w0 : World}
    (hs : sandlike (w0.cell px py).type = true) (hx : w0.inb x y = true)
    (hne : ¬ (x = px ∧ y = py)) (w : World) (h : Stays px py w0 w) :
    wp (agentFall x y) (fun _ w1 => Stays px py w0 w1) w := by
  have hib : w.inb x y = true := (h.stayInb x y).trans hx
  simp only [agentFall, wp_bind, wp_in_bounds, wp_ite, wp_pure, wp_getCell, h.2.1.isSome]
  split_ifs with h1 h2
  · exact h
  · exact ⟨inb_of_not h1,
      swap_to_stays h hib (inb_of_not h1) hne (h.off hs (ns_of_empty_or_gas h2))⟩
  · exact ⟨inb_of_not h1, h⟩

theorem seek_stays {px py : Int} {w0 : World} (x y : Int) (target : Element) (w : World)
    (h : Stays px py w0 w) :
    wp (seek x y target) (fun _ w1 => Stays px py w0 w1) w := by
  unfold seek
  refine wp_findM _ _ _ ?_ w h
  intro ry _ w1 h1
  refine wp_findM _ _ _ ?_ w1 h1
  intro rx _ w2 h2
  simp only [wp_bind, wp_in_bounds, wp_ite, wp_pure, wp_getCell, h2.2.1.isSome]
  split_ifs with h3 h4
  · exact h2
  · exact ⟨inb_of_not h3, h2⟩
  · exact ⟨inb_of_not h3, h2⟩

theorem hopReady_stays {px py x y : Int} {w0 : World} (hx : w0.inb x y = true)
    (dir : Int) (w : World) (h : Stays px py w0 w) :
    wp (hopReady x y dir) (fun r w1 => Stays px py w0 w1 ∧
      (r = true → w1.inb x (y - 1) = true ∧ empty (w1.cell x (y - 1)) = true)) w := by
  have hib : w.inb x y = true := (h.stayInb x y).trans hx
  have hup : w.inb (x + dir) (y - 1) = true → w.inb x (y - 1) = true := by
    intro h1
    unfold World.inb at hib h1 ⊢
    simp only [Bool.and_eq_true, decide_eq_true_eq] at hib h1 ⊢
    omega
  simp only [hopReady, wp_bind, wp_in_bounds, wp_ite, wp_pure, wp_getCell, wp_chance,
    h.2.1.isSome]
  split_ifs with h1 h2 h3
  · exact ⟨h, fun hh => absurd hh (by simp)⟩
  · exact ⟨inb_of_not h1, h, fun hh => absurd hh (by simp)⟩
  · exact ⟨inb_of_not h1, hup (inb_of_not h1), h, fun hh => absurd hh (by simp)⟩
  · refine ⟨inb_of_not h1, hup (inb_of_not h1), h.stayDraw, fun _ => ⟨hup (inb_of_not h1), ?_⟩⟩
    simpa using h3

theorem agentStep_stays {px py x y : Int} {w0 : World}
    (hs : sandlike (w0.cell px py).type = true) (hx : w0.inb x y = true)
    (hne : ¬ (x = px ∧ y = py)) (dir : Int) (w : World) (h : Stays px py w0 w) :
    wp (agentStep x y dir) (fun _ w1 => Stays px py w0 w1) w := by
  unfold agentStep
  refine wp_seq (walk_try_stays hs hx hne _ _ w h) ?_
  intro walked w1 h1
  rw [wp_ite]
  split
  · rw [wp_bind]
    refine wp_mono (hopReady_stays hx dir w1 h1) ?_
    intro hop w2 ⟨h2, hh⟩
    have hib : w2.inb x y = true := (h2.stayInb x y).trans hx
    cases hop
    · simp only [Bool.false_eq_true, if_false, wp_bind, wp_rint]
      refine wp_mono (walk_try_stays hs hx hne _ _ _ h2.stayDraw) ?_
      intro _ w3 h3
      exact (wp_pure _ _ _).2 h3
    · obtain ⟨hib2, he⟩ := hh rfl
      simp only [if_true, wp_bind, wp_getCell, wp_setCell, isSome_put, h2.2.1.isSome, hib, hib2,
        true_and]
      exact (h2.stayOff hs (ns_of_empty he) _).stayPut hne _
  · exact (wp_pure _ _ _).2 h1

theorem humanHazard_stays {px py x y : Int} {w0 : World} (hx : w0.inb x y = true)
    (hne : ¬ (x = px ∧ y = py)) (w : World) (h : Stays px py w0 w) :
    wp (humanHazard x y) (fun _ w1 => Stays px py w0 w1) w := by
  unfold humanHazard
  refine wp_firstM _ _ _ ?_ w h
  intro dy _ w1 h1
  refine wp_firstM _ _ _ ?_ w1 h1
  intro dx _ w2 h2
  have hib : w2.inb x y = true := (h2.stayInb x y).trans hx
  simp only [wp_bind, wp_in_bounds, wp_ite, wp_pure, wp_getCell, wp_setCell, h2.2.1.isSome]
  split_ifs with h3 h4
  · exact h2
  · exact ⟨inb_of_not h3, hib, h2.stayPut hne _⟩
  · exact ⟨inb_of_not h3, h2⟩

theorem humanAttack_stays {px py : Int} {w0 : World}
    (hs : sandlike (w0.cell px py).type = true) (x y : Int) (w : World)
    (h : Stays px py w0 w) :
    wp (humanAttack x y) (fun _ w1 => Stays px py w0 w1) w := by
  unfold humanAttack
  refine wp_forBox _ _ _ ?_ w h
  intro dx _ dy _ w1 h1
  simp only [wp_bind, wp_in_bounds, wp_ite, wp_pure, wp_getCell, wp_setCell, wp_chance, wp_rint,
    draw_grid, h1.2.1.isSome]
  split_ifs with h2 h3 h4 h5 h6
  · exact h1
  · exact h1
  · exact ⟨inb_of_not h3, inb_of_not h3,
      h1.stayDraw.stayDraw.stayDraw.stayOff hs (by rw [draw_cell, draw_cell, draw_cell, h4]; rfl) _⟩
  · exact ⟨inb_of_not h3, inb_of_not h3,
      h1.stayDraw.stayDraw.stayOff hs (by rw [draw_cell, draw_cell, h4]; rfl) _⟩
  · exact ⟨inb_of_not h3, h1.stayDraw⟩
  · exact ⟨inb_of_not h3, h1⟩

theorem humanRule_stays {px py x y : Int} {w0 : World}
    (hs : sandlike (w0.cell px py).type = true) (hx : w0.inb x y = true)
    (hne : ¬ (x = px ∧ y = py)) (w : World) (h : Stays px py w0 w) :
    wp (humanRule x y) (fun _ w1 => Stays px py w0 w1) w := by
  unfold humanRule
  refine wp_seq (humanHazard_stays hx hne w h) ?_
  intro killed w1 h1
  have hib : w1.inb x y = true := (h1.stayInb x y).trans hx
  cases killed
  · simp only [Bool.false_eq_true, if_false]
    rw [wp_bind, wp_getCell]
    refine ⟨by rw [h1.2.1.isSome]; exact hib, ?_⟩
    refine wp_seq (I := fun w2 => Stays px py w0 w2) ?_ ?_
    · simp only [wp_setLife, h1.2.1.isSome, hib, true_and]
      exact h1.stayPut hne _
    intro _ w2 h3
    refine wp_seq (agentFall_stays hs hx hne w2 h3) ?_
    intro fell w3 h4
    cases fell
    · simp only [Bool.false_eq_true, if_false]
      refine wp_seq (seek_stays x y ZOMBIE w3 h4) ?_
      intro seen w4 h5
      refine wp_seq (humanAttack_stays hs x y w4 h5) ?_
      intro _ w5 h6
      rw [wp_bind, wp_rint]
      refine wp_seq (agentStep_stays hs hx hne _ _ h6.stayDraw) ?_
      intro _ w6 h7
      simp only [wp_setUpdated, h7.2.2.1.isSomeU, (h7.stayInb x y).trans hx, true_and]
      exact h7.stayMark hne
    · simp only [if_true]
      exact (wp_pure _ _ _).2 h4
  · simp only [if_true, wp_setUpdated, h1.2.2.1.isSomeU, hib, true_and]
    exact h1.stayMark hne

theorem zombieHazard_stays {px py x y : Int} {w0 : World} (hx : w0.inb x y = true)
    (hne : ¬ (x = px ∧ y = py)) (w : World) (h : Stays px py w0 w) :
    wp (zombieHazard x y) (fun _ w1 => Stays px py w0 w1) w := by
  unfold zombieHazard
  refine wp_forBox _ _ _ ?_ w h
  intro dx _ dy _ w1 h1
  have hib : w1.inb x y = true := (h1.stayInb x y).trans hx
  simp only [wp_bind, wp_in_bounds, wp_ite, wp_pure, wp_getCell, wp_setCell, h1.2.1.isSome]
  split_ifs with h2 h3
  · exact h1
  · exact ⟨inb_of_not h2, hib, h1.stayPut hne _⟩
  · exact ⟨inb_of_not h2, h1⟩

theorem zombieAttack_stays {px py : Int} {w0 : World}
    (hs : sandlike (w0.cell px py).type = true) (x y : Int) (w : World)
    (h : Stays px py w0 w) :
    wp (zombieAttack x y) (fun _ w1 => Stays px py w0 w1) w := by
  unfold zombieAttack
  refine wp_forBox _ _ _ ?_ w h
  intro dx _ dy _ w1 h1
  simp only [wp_bind, wp_in_bounds, wp_ite, wp_pure, wp_getCell, wp_setCell, wp_chance,
    draw_grid, h1.2.1.isSome]
  split_ifs with h2 h3 h4 h5
  · exact h1
  · exact h1
  · exact ⟨inb_of_not h3, inb_of_not h3,
      h1.stayDraw.stayOff hs (by rw [draw_cell, h4]; rfl) _⟩
  · exact ⟨inb_of_not h3, inb_of_not h3,
      h1.stayDraw.stayOff hs (by rw [draw_cell, h4]; rfl) _⟩
  · exact ⟨inb_of_not h3, h1⟩

theorem zombieRule_stays {px py x y : Int} {w0 : World}
    (hs : sandlike (w0.cell px py).type = true) (hx : w0.inb x y = true)
    (hne : ¬ (x = px ∧ y = py)) (w : World) (h : Stays px py w0 w) :
    wp (zombieRule x y) (fun _ w1 => Stays px py w0 w1) w := by
  unfold zombieRule
  refine wp_seq (zombieHazard_stays hx hne w h) ?_
  intro _ w1 h1
  have hib : w1.inb x y = true := (h1.stayInb x y).trans hx
  rw [wp_bind, wp_getCell]
  refine ⟨by rw [h1.2.1.isSome]; exact hib, ?_⟩
  rw [wp_ite]
  split
  · simp only [wp_setUpdated, h1.2.2.1.isSomeU, hib, true_and]
    exact h1.stayMark hne
  · refine wp_seq (I := fun w2 => Stays px py w0 w2) ?_ ?_
    · simp only [wp_setLife, h1.2.1.isSome, hib, true_and]
      exact h1.stayPut hne _
    intro _ w2 h3
    refine wp_seq (agentFall_stays hs hx hne w2 h3) ?_
    intro fell w3 h4
    cases fell
    · simp only [Bool.false_eq_true, if_false]
      refine wp_seq (seek_stays x y HUMAN w3 h4) ?_
      intro seen w4 h5
      refine wp_seq (zombieAttack_stays hs x y w4 h5) ?_
      intro _ w5 h6
      refine wp_seq (I := fun w6 => Stays px py w0 w6) ?_ ?_
      · cases seen with
        | none =>
          simp only [wp_bind, wp_rint, wp_pure]
          exact h6.stayDraw
        | some p =>
          exact (wp_pure _ _ _).2 h6
      intro dir w6 h7
      refine wp_seq (agentStep_stays hs hx hne _ _ h7) ?_
      intro _ w7 h8
      simp only [wp_setUpdated, h8.2.2.1.isSomeU, (h8.stayInb x y).trans hx, true_and]
      exact h8.stayMark hne
    · simp only [if_true]
      exact (wp_pure _ _ _).2 h4

theorem ns_of_water {t : Element} (h : t = WATER ∨ t = SALTWATER) : sandlike t = false := by
  rcases h with h | h <;> subst h <;> rfl

theorem nearWater_stays {px py : Int} {w0 : World} (x y : Int) (w : World)
    (h : Stays px py w0 w) :
    wp (nearWater x y) (fun _ w1 => Stays px py w0 w1) w := by
  unfold nearWater
  refine wp_firstM _ _ _ ?_ w h
  intro dy _ w1 h1
  refine wp_firstM _ _ _ ?_ w1 h1
  intro dx _ w2 h2
  simp only [wp_bind, wp_in_bounds, wp_ite, wp_pure, wp_getCell, h2.2.1.isSome]
  split_ifs with h3
  · exact h2
  · exact ⟨inb_of_not h3, h2⟩

theorem wetDirtRule_stays {px py x y : Int} {w0 : World} (hx : w0.inb x y = true)
    (hne : ¬ (x = px ∧ y = py)) (w : World) (h : Stays px py w0 w) :
    wp (wetDirtRule x y) (fun _ w1 => Stays px py w0 w1) w := by
  unfold wetDirtRule
  refine wp_seq (nearWater_stays x y w h) ?_
  intro nw w1 h1
  have hib : w1.inb x y = true := (h1.stayInb x y).trans hx
  simp only [wp_bind, wp_getCell, wp_setLife, wp_setCell, wp_setUpdated, wp_ite, wp_pure,
    isSome_put, put_updated, h1.2.1.isSome, h1.2.2.1.isSomeU, hib, true_and, put_inb]
  split_ifs with h2 h3
  · exact ((h1.stayPut hne _).stayPut hne _).stayMark hne
  · exact (h1.stayPut hne _).stayMark hne
  · exact h1.stayMark hne

theorem catchFire_stays {px py x y : Int} {w0 : World} (hx : w0.inb x y = true)
    (hne : ¬ (x = px ∧ y = py)) (l : Int) (w : World) (h : Stays px py w0 w) :
    wp (catchFire x y l) (fun _ w1 => Stays px py w0 w1) w := by
  unfold catchFire
  refine wp_forBox _ _ _ ?_ w h
  intro dx _ dy _ w1 h1
  have hib : w1.inb x y = true := (h1.stayInb x y).trans hx
  simp only [wp_bind, wp_in_bounds, wp_ite, wp_pure, wp_getCell, wp_setCell, h1.2.1.isSome]
  split_ifs with h2 h3 h4
  · exact h1
  · exact h1
  · exact ⟨inb_of_not h3, hib, h1.stayPut hne _⟩
  · exact ⟨inb_of_not h3, h1⟩

theorem plantGrow_stays {px py : Int} {w0 : World}
    (hs : sandlike (w0.cell px py).type = true) (x y : Int) (w : World)
    (h : Stays px py w0 w) :
    wp (plantGrow x y) (fun _ w1 => Stays px py w0 w1) w := by
  simp only [plantGrow, wp_bind, wp_in_bounds, wp_ite, wp_pure, wp_getCell, wp_setCell,
    wp_chance, draw_grid, draw_inb, draw_cell, h.2.1.isSome]
  split_ifs with h1 h2 h3 h4 h5
  all_goals first
    | exact ⟨h1, h4, h4, h.stayDraw.stayOff hs (ns_of_empty h5) _⟩
    | exact ⟨h1, h4, h.stayDraw⟩
    | exact ⟨h1, h.stayDraw⟩
    | exact ⟨h1, h⟩
    | exact h
    | (exfalso; simp_all)

theorem weedGrow_stays {px py : Int} {w0 : World}
    (hs : sandlike (w0.cell px py).type = true) (x y : Int) (w : World)
    (h : Stays px py w0 w) :
    wp (weedGrow x y) (fun _ w1 => Stays px py w0 w1) w := by
  simp only [weedGrow, wp_bind, wp_in_bounds, wp_ite, wp_pure, wp_getCell, wp_setCell,
    wp_chance, draw_grid, draw_inb, draw_cell, h.2.1.isSome]
  split_ifs with h1 h2 h3 h4 h5
  all_goals first
    | exact ⟨h1, h1, h1, h1, h.stayDraw.stayOff hs (ns_of_water (by assumption)) _⟩
    | exact ⟨h1, h1, h1, h.stayDraw⟩
    | exact ⟨h1, h1, h.stayDraw⟩
    | exact ⟨h1, h1, h⟩
    | exact ⟨h1, h⟩
    | exact h
    | (exfalso; simp_all)

theorem plantRule_stays {px py x y : Int} {w0 : World}
    (hs : sandlike (w0.cell px py).type = true) (hx : w0.inb x y = true)
    (hne : ¬ (x = px ∧ y = py)) (t : Element) (w : World) (h : Stays px py w0 w) :
    wp (plantRule x y t) (fun _ w1 => Stays px py w0 w1) w := by
  unfold plantRule
  refine wp_seq (catchFire_stays hx hne 20 w h) ?_
  intro _ w1 h1
  have hib : w1.inb x y = true := (h1.stayInb x y).trans hx
  rw [wp_bind, wp_getCell]
  refine ⟨by rw [h1.2.1.isSome]; exact hib, ?_⟩
  rw [wp_ite]
  split
  · simp only [wp_setUpdated, h1.2.2.1.isSomeU, hib, true_and]
    exact h1.stayMark hne
  · refine wp_seq (I := fun w2 => Stays px py w0 w2) ?_ ?_
    · rw [wp_ite]
      split
      · exact plantGrow_stays hs x y w1 h1
      · exact weedGrow_stays hs x y w1 h1
    intro _ w2 h2
    simp only [wp_setUpdated, h2.2.2.1.isSomeU, (h2.stayInb x y).trans hx, true_and]
    exact h2.stayMark hne

theorem woodRule_stays {px py x y : Int} {w0 : World} (hx : w0.inb x y = true)
    (hne : ¬ (x = px ∧ y = py)) (t : Element) (w : World) (h : Stays px py w0 w) :
    wp (woodRule x y t) (fun _ w1 => Stays px py w0 w1) w := by
  unfold woodRule
  refine wp_seq (I := fun w2 => Stays px py w0 w2) (catchFire_stays hx hne _ w h) ?_
  intro _ w2 h2
  simp only [wp_setUpdated, h2.2.2.1.isSomeU, (h2.stayInb x y).trans hx, true_and]
  exact h2.stayMark hne

/-- The ignition block of a charged conductor for a neighbour whose kind was `ne`. -/
theorem igniteAt_hit {px py : Int} {w0 : World} (nx ny p r : Int) [Fact (Small r)] (ne : Element)
    (w : World)
    (h : Hit px py w0 w) (hib2 : w.inb nx ny = true) :
    wp (if flammable ne = true then do
          let c ← chance p
          if c = true then
            if ne = GUNPOWDER then explode nx ny r
            else do
              let k ← rint 0 10
              setCell nx ny ⟨FIRE, 15 + k⟩
          else pure PUnit.unit
        else pure ())
      (fun _ w1 => Hit px py w0 w1) w := by
  rw [wp_ite]
  split
  · rw [wp_bind, wp_chance, wp_ite]
    split
    · rw [wp_ite]
      split
      · exact explode_hit nx ny r _ h.hitDraw
      · simp only [wp_bind, wp_rint, wp_setCell, draw_grid, h.2.1.isSome, hib2, true_and]
        exact h.hitDraw.hitDraw.hitNew _ _ _ rfl
    · exact (wp_pure _ _ _).2 h.hitDraw
  · exact (wp_pure _ _ _).2 h

theorem conductCell_hit {px py : Int} {w0 : World}
    (hs : sandlike (w0.cell px py).type = true) (x y q dx dy : Int) (w : World)
    (h : Hit px py w0 w) :
    wp (conductCell x y q dx dy) (fun _ w1 => Hit px py w0 w1) w := by
  unfold conductCell
  rw [wp_ite]
  split
  · exact (wp_pure _ _ _).2 h
  · rw [wp_bind, wp_in_bounds, wp_ite]
    split
    · exact (wp_pure _ _ _).2 h
    · rename_i hb
      have hib2 := inb_of_not hb
      have hkeep : ∀ w1, Hit px py w0 w1 → w1.inb (x + dx) (y + dy) = true := by
        intro w1 h1
        exact (h1.hitInb _ _).trans ((h.hitInb _ _).symm.trans hib2)
      rw [wp_bind, wp_getCell]
      refine ⟨by rw [h.2.1.isSome]; exact hib2, ?_⟩
      refine wp_seq (I := fun w1 => Hit px py w0 w1 ∧
        (w1.cell (x + dx) (y + dy)).type = (w.cell (x + dx) (y + dy)).type) ?_ ?_
      · rw [wp_ite]
        split
        · rename_i ht
          rw [wp_ite]
          split
          · exact setLife_hit hs _ _ _ w h hib2 (nf_of_wire ht)
          · exact (wp_pure _ _ _).2 ⟨h, rfl⟩
        · exact (wp_pure _ _ _).2 ⟨h, rfl⟩
      rintro _ w1 ⟨h1, e1⟩
      refine wp_seq (I := fun w2 => Hit px py w0 w2) (wp_when h1 (fun ht => ?_)) ?_
      · refine wp_when h1 (fun _ => ?_)
        refine wp_mono (setLife_hit hs _ _ _ w1 h1 (hkeep w1 h1) ?_) (fun _ _ hh => hh.1)
        rw [e1]
        exact nf_of_water ht
      intro _ w2 h2
      refine wp_seq (igniteAt_hit _ _ 15 5 _ w2 h2 (hkeep w2 h2)) ?_
      intro _ w3 h3
      simp only [wp_bind, wp_getCell, wp_ite, wp_chance, wp_pure, h3.2.1.isSome, hkeep w3 h3,
        true_and]
      split_ifs
      · exact explode_hit _ _ 4 _ h3.hitDraw
      · exact h3.hitDraw
      · exact h3

theorem wireRule_hit {px py x y : Int} {w0 : World}
    (hs : sandlike (w0.cell px py).type = true) (hx : w0.inb x y = true)
    (hne : ¬ (x = px ∧ y = py)) (w : World) (h : Hit px py w0 w) :
    wp (wireRule x y) (fun _ w1 => Hit px py w0 w1) w := by
  have hib : w.inb x y = true := (h.hitInb x y).trans hx
  unfold wireRule
  rw [wp_bind, wp_getCell]
  refine ⟨by rw [h.2.1.isSome]; exact hib, ?_⟩
  refine wp_seq (I := fun w1 => Hit px py w0 w1) (wp_when h (fun _ => ?_)) ?_
  · refine wp_seq (I := fun w1 => Hit px py w0 w1) ?_ ?_
    · exact wp_forBox _ _ _ (fun dx _ dy _ w1 h1 => conductCell_hit hs x y _ dx dy w1 h1) w h
    · intro _ w1 h1
      exact decFloor_hit hx hne w1 h1
  intro _ w2 h2
  simp only [wp_setUpdated, h2.2.2.1.isSomeU, (h2.hitInb x y).trans hx, true_and]
  exact h2.hitMark hne

theorem iceRule_stays {px py x y : Int} {w0 : World} (hx : w0.inb x y = true)
    (hne : ¬ (x = px ∧ y = py)) (w : World) (h : Stays px py w0 w) :
    wp (iceRule x y) (fun _ w1 => Stays px py w0 w1) w := by
  unfold iceRule
  refine wp_seq (I := fun w1 => Stays px py w0 w1) ?_ ?_
  · refine wp_forBox _ _ _ ?_ w h
    intro dx _ dy _ w1 h1
    have hib : w1.inb x y = true := (h1.stayInb x y).trans hx
    simp only [wp_bind, wp_in_bounds, wp_ite, wp_pure, wp_getCell, wp_setCell, wp_chance,
      draw_grid, h1.2.1.isSome]
    split_ifs with h2 h3 h4
    · exact h1
    · exact ⟨inb_of_not h2, hib, h1.stayDraw.stayPut hne _⟩
    · exact ⟨inb_of_not h2, h1.stayDraw⟩
    · exact ⟨inb_of_not h2, h1⟩
  intro _ w2 h2
  simp only [wp_setUpdated, h2.2.2.1.isSomeU, (h2.stayInb x y).trans hx, true_and]
  exact h2.stayMark hne

/-- The visit of the in-bounds cell `(x, y)` and a powder at another position `(px, py)`:
the flag of `(px, py)` is untouched, and its cell is untouched or has been overwritten
with a `byproduct` kind. -/
theorem visit_hit {px py x y : Int} {w : World} (hwf : w.WF) (hwfu : w.WFU)
    (hs : sandlike (w.cell px py).type = true) (hx : w.inb x y = true)
    (hne : ¬ (x = px ∧ y = py)) :
    wp (visit x y) (fun _ w1 => Hit px py w w1) w := by
  have h : Stays px py w w := ⟨⟨rfl, rfl⟩, hwf, hwfu, rfl, rfl⟩
  have up : ∀ {m : SimM Unit}, wp m (fun _ w1 => Stays px py w w1) w →
      wp m (fun _ w1 => Hit px py w w1) w :=
    fun hm => wp_mono hm (fun _ _ hh => hh.toHit)
  unfold visit
  rw [wp_bind, wp_getUpdated]
  refine ⟨by rw [hwfu.isSomeU]; exact hx, ?_⟩
  refine wp_cases (fun _ => (wp_pure _ _ _).2 h.toHit) (fun _ => ?_)
  rw [wp_bind, wp_getCell]
  refine ⟨by rw [hwf.isSome]; exact hx, ?_⟩
  have hmark : wp (setUpdated x y) (fun _ w1 => Hit px py w w1) w := by
    simp only [wp_setUpdated, hwfu.isSomeU, hx, true_and]
    exact h.toHit.hitMark hne
  refine wp_cases (fun _ => hmark) (fun _ => ?_)
  refine wp_cases (fun _ => up (powderRule_stays hs hx hne _ w h)) (fun hns => ?_)
  refine wp_cases (fun _ => liquidRule_hit hs hx hne _ w h) (fun _ => ?_)
  refine wp_cases (fun _ => gasRule_hit hs hx hne _ w h) (fun _ => ?_)
  refine wp_cases (fun _ => fireRule_hit hs hx hne w h) (fun _ => ?_)
  refine wp_cases (fun _ => lightningRule_hit hs hx hne w h.toHit) (fun _ => ?_)
  refine wp_cases (fun _ => up (humanRule_stays hs hx hne w h)) (fun _ => ?_)
  refine wp_cases (fun _ => up (zombieRule_stays hs hx hne w h)) (fun _ => ?_)
  refine wp_cases (fun _ => up (wetDirtRule_stays hx hne w h)) (fun _ => ?_)
  refine wp_cases (fun _ => up (plantRule_stays hs hx hne _ w h)) (fun _ => ?_)
  refine wp_cases (fun _ => up (woodRule_stays hx hne _ w h)) (fun _ => ?_)
  refine wp_cases (fun hg => ?_) (fun _ => ?_)
  · exfalso
    apply hns
    rw [hg]
    rfl
  refine wp_cases (fun _ => wireRule_hit hs hx hne w h.toHit) (fun _ => ?_)
  exact wp_cases (fun _ => up (iceRule_stays hx hne w h)) (fun _ => hmark)

/-! ## A powder on the bottom row -/

theorem sandlike_iff (t : Element) : sandlike t = true ↔ t ∈ [SAND, GUNPOWDER, ASH, SNOW] := by
  cases t <;> simp [sandlike]

theorem byproduct_iff (t : Element) :
    byproduct t = true ↔ t ∈ [FIRE, SMOKE, GAS, GLASS, TOXIC_GAS, EMPTY] := by
  cases t <;> simp [byproduct]

/-- A postcondition that holds for every value of a parameter. -/
theorem wp_forall {α ι : Type} {m : SimM α} {Q : ι → α → World → Prop} {w : World}
    (h0 : wp m (fun _ _ => True) w) (h : ∀ i, wp m (Q i) w) :
    wp m (fun a w1 => ∀ i, Q i a w1) w := by
  obtain ⟨a, w1, hm, _⟩ := h0
  refine ⟨a, w1, hm, fun i => ?_⟩
  obtain ⟨b, w2, hm2, hq⟩ := h i
  rw [hm] at hm2
  cases hm2
  exact hq

/-- A move attempt towards a position outside the grid does nothing. -/
theorem powderTry_out {x y nx ny : Int} {w : World} (hnb : w.inb nx ny = false) :
    wp (powderTry x y nx ny) (fun r w1 => r = false ∧ w1 = w) w := by
  simp only [powderTry, wp_bind, wp_in_bounds, wp_ite, wp_pure, hnb]
  simp

/-- On the bottom row the movement of a powder makes its draw and moves nothing. -/
theorem powderMove_bottom {x y : Int} {w : World} (hy : y = w.gHeight - 1) :
    wp (powderMove x y) (fun r w1 => r = false ∧ w1 = w.draw) w := by
  have hout : ∀ (v : World) (nx : Int), v.gHeight = w.gHeight → v.inb nx (y + 1) = false := by
    intro v nx hv
    cases hb : v.inb nx (y + 1)
    · rfl
    · have := (inb_iff v nx (y + 1)).1 hb
      omega
  unfold powderMove
  rw [wp_bind]
  refine wp_mono (powderTry_out (hout w x rfl)) ?_
  rintro m0 w1 ⟨rfl, rfl⟩
  simp only [Bool.false_eq_true, if_false, wp_bind, wp_rint]
  refine wp_mono (powderTry_out (hout w1.draw _ rfl)) ?_
  rintro m1 w2 ⟨rfl, rfl⟩
  simp only [Bool.false_eq_true, if_false]
  exact powderTry_out (hout w1.draw _ rfl)

/-- The block `snow melts near heat` writes nothing but `WATER` with life 0 to the visited
cell. -/
theorem snowMelt_frame {x y : Int} {w : World} (hwf : w.WF) (hib : w.inb x y = true) :
    wp (snowMelt x y) (fun _ w1 => SameDims w w1 ∧ w1.WF ∧ w1.updated = w.updated ∧
      (∀ a b, ¬ (a = x ∧ b = y) → w1.cell a b = w.cell a b) ∧
      (w1.cell x y = w.cell x y ∨ w1.cell x y = ⟨WATER, 0⟩)) w := by
  unfold snowMelt
  refine wp_forBox (fun w1 => SameDims w w1 ∧ w1.WF ∧ w1.updated = w.updated ∧
      (∀ a b, ¬ (a = x ∧ b = y) → w1.cell a b = w.cell a b) ∧
      (w1.cell x y = w.cell x y ∨ w1.cell x y = ⟨WATER, 0⟩)) _ _ ?_ w
    ⟨⟨rfl, rfl⟩, hwf, rfl, fun _ _ _ => rfl, Or.inl rfl⟩
  intro dx _ dy _ w1 h1
  have hib1 : w1.inb x y = true := (inb_dims h1.1 x y).trans hib
  simp only [wp_bind, wp_in_bounds, wp_ite, wp_pure, wp_getCell, wp_setCell, h1.2.1.isSome]
  split_ifs with h2 h3
  · exact h1
  · refine ⟨inb_of_not h2, hib1, h1.1, h1.2.1.putWF _ _ _, h1.2.2.1, fun a b hab => ?_,
      Or.inr ?_⟩
    · rw [cell_put h1.2.1 hib1, if_neg hab]
      exact h1.2.2.2.1 a b hab
    · rw [cell_put h1.2.1 hib1, if_pos ⟨rfl, rfl⟩]
  · exact ⟨inb_of_not h2, h1⟩

/-- The visit of a powder on the bottom row exchanges nothing: apart from the visited
cell and the cell above it every cell is untouched, apart from the visited cell every flag
is untouched, the visited cell keeps its kind unless it is `SNOW` that melts, and the cell
above is untouched unless it is `WATER` that the `SAND` below seeds. -/
theorem visit_bottom {w : World} (hwf : w.WF) (hwfu : w.WFU) {x y : Int}
    (hx : w.inb x y = true) (hy : y = w.gHeight - 1)
    (hs : sandlike (w.cell x y).type = true) :
    wp (visit x y) (fun _ w1 =>
      ((w1.cell x y).type = (w.cell x y).type ∨
        ((w.cell x y).type = SNOW ∧ w1.cell x y = ⟨WATER, 0⟩)) ∧
      (∀ a b, ¬ (a = x ∧ b = y) → w1.upd a b = w.upd a b) ∧
      (∀ a b, ¬ (a = x ∧ (b = y ∨ b = y - 1)) → w1.cell a b = w.cell a b) ∧
      (w1.cell x (y - 1) = w.cell x (y - 1) ∨
        ((w.cell x y).type = SAND ∧ (w.cell x (y - 1)).type = WATER ∧
          w1.cell x (y - 1) = ⟨SEAWEED, 0⟩))) w := by
  have hup : ¬ (x = x ∧ y - 1 = y) := by omega
  unfold visit
  rw [wp_bind, wp_getUpdated, hwfu.isSomeU]
  refine ⟨hx, ?_⟩
  refine wp_cases (fun _ => (wp_pure _ _ _).2
    ⟨Or.inl rfl, fun _ _ _ => rfl, fun _ _ _ => rfl, Or.inl rfl⟩) (fun _ => ?_)
  rw [wp_bind, wp_getCell, hwf.isSome]
  refine ⟨hx, ?_⟩
  refine wp_cases (fun he => ?_) (fun _ => ?_)
  · exfalso
    rcases he with he | he <;> rw [he] at hs <;> cases hs
  rw [if_pos hs]
  unfold powderRule
  rw [wp_bind]
  refine wp_mono (powderMove_bottom hy) ?_
  rintro moved w1 ⟨rfl, rfl⟩
  simp only [Bool.not_false, if_true]
  rw [wp_bind, wp_setUpdated]
  refine ⟨by rw [draw_updated, hwfu.isSomeU]; exact hx, ?_⟩
  have hupd : ∀ a b, ¬ (a = x ∧ b = y) → (w.draw.mark x y).upd a b = w.upd a b := by
    intro a b hab
    rw [upd_mark_if, if_neg (fun hh => hab ⟨hh.1, hh.2.1⟩)]
    rfl
  have hupd2 : ∀ v : World, v.updated = (w.draw.mark x y).updated →
      ∀ a b, ¬ (a = x ∧ b = y) → v.upd a b = w.upd a b := by
    intro v hv a b hab
    rw [← hupd a b hab]
    unfold World.upd
    rw [hv]
  rw [wp_bind]
  have hsnow : wp (if (w.cell x y).type = SNOW then snowMelt x y else pure ())
      (fun _ w2 => SameDims w w2 ∧ w2.WF ∧ w2.updated = (w.draw.mark x y).updated ∧
        (∀ a b, ¬ (a = x ∧ b = y) → w2.cell a b = w.cell a b) ∧
        (w2.cell x y = w.cell x y ∨ ((w.cell x y).type = SNOW ∧ w2.cell x y = ⟨WATER, 0⟩)))
      (w.draw.mark x y) := by
    refine wp_cases (fun hsn => ?_) (fun _ => ?_)
    · refine wp_mono (snowMelt_frame (w := w.draw.mark x y) hwf hx) ?_
      rintro _ w2 ⟨hd, hwf2, hu, hfr, hc⟩
      exact ⟨hd, hwf2, hu, hfr, hc.imp id (fun e => ⟨hsn, e⟩)⟩
    · exact (wp_pure _ _ _).2 ⟨⟨rfl, rfl⟩, hwf, rfl, fun _ _ _ => rfl, Or.inl rfl⟩
  refine wp_mono hsnow ?_
  rintro _ w2 ⟨hd2, hwf2, hu2, hfr2, hc2⟩
  have hib2 : w2.inb x y = true := (inb_dims hd2 x y).trans hx
  refine wp_cases (fun hsa => ?_) (fun _ => ?_)
  · have hc2' : w2.cell x y = w.cell x y := by
      rcases hc2 with e | ⟨e, _⟩
      · exact e
      · rw [hsa] at e
        cases e
    refine wp_mono (sandSeed_spaced hwf2 hib2) ?_
    rintro _ w3 ⟨_, _, hu3, htypes, hfr3, habove⟩
    refine ⟨Or.inl ?_, hupd2 w3 (hu3.trans hu2), fun a b hab => ?_, ?_⟩
    · rw [htypes x y (by omega), hc2']
    · rw [hfr3 a b hab]
      exact hfr2 a b (fun hh => hab ⟨hh.1, Or.inl hh.2⟩)
    · rcases habove with e | ⟨e, hwat, _⟩
      · left
        rw [e]
        exact hfr2 _ _ hup
      · right
        rw [hfr2 _ _ hup] at hwat
        exact ⟨hsa, hwat, e⟩
  · refine (wp_pure _ _ _).2 ⟨?_, hupd2 w2 hu2, fun a b hab => ?_, Or.inl (hfr2 _ _ hup)⟩
    · rcases hc2 with e | e
      · left
        rw [e]
      · exact Or.inr e
    · exact hfr2 a b (fun hh => hab ⟨hh.1, Or.inl hh.2⟩)

/-- The visit of an in-bounds cell returns and keeps the dimensions and the shape of the
grid and of the mask. -/
theorem visit_frame {w : World} (hwf : w.WF) (hwfu : w.WFU) {x y : Int}
    (hxy : w.inb x y = true) :
    wp (visit x y) (fun _ w1 => SameDims w w1 ∧ w1.WF ∧ w1.WFU) w := by
  have hinv : Inv False False 0 w w :=
    ⟨⟨rfl, rfl⟩, hwf, hwfu,
      fun a b _ => ⟨fun _ => rfl, fun hn => ⟨hn, False.elim, False.elim, False.elim⟩⟩⟩
  exact wp_mono (visit_inv hxy (fun h => h) (fun h => h.elim) w hinv)
    (fun _ _ h1 => ⟨h1.1, h1.2.1, h1.2.2.1⟩)

/-- The visits and a powder: in any state of a tick, the visit of an in-bounds cell
`(x, y)` returns, and
(1) if `(x, y)` is on the bottom row and holds a powder (`SAND`, `GUNPOWDER`, `ASH`,
`SNOW`), then the visit exchanges nothing: every cell other than `(x, y)` and `(x, y - 1)`
and every flag other than that of `(x, y)` is untouched, the cell `(x, y)` keeps its kind
unless it is `SNOW` that melts into `WATER` with life 0, and the cell above is untouched
unless it is `WATER` that the `SAND` below turns into `SEAWEED`;
(2) every powder at another position `(a, b)` (on any row) keeps its flag, and its cell is
untouched or has been overwritten in place with one of `FIRE`, `SMOKE`, `GAS`, `GLASS`,
`TOXIC_GAS`, `EMPTY`;
(3) the procedures that exchange cells (the movement of a powder, of a liquid, of a gas,
the flicker of fire, the fall and the walk of an agent), run for `(x, y)` in this state,
return and leave the cell and the flag of every powder at another position untouched. -/
theorem visit_powder (w : World) (hwf : w.WF) (hwfu : w.WFU) (x y : Int)
    (hxy : w.inb x y = true) :
    wp (visit x y) (fun _ w1 =>
      ((w.cell x y).type ∈ [SAND, GUNPOWDER, ASH, SNOW] → y = w.gHeight - 1 →
        ((w1.cell x y).type = (w.cell x y).type ∨
          ((w.cell x y).type = SNOW ∧ w1.cell x y = ⟨WATER, 0⟩)) ∧
        (∀ a b, ¬ (a = x ∧ b = y) → w1.upd a b = w.upd a b) ∧
        (∀ a b, ¬ (a = x ∧ (b = y ∨ b = y - 1)) → w1.cell a b = w.cell a b) ∧
        (w1.cell x (y - 1) = w.cell x (y - 1) ∨
          ((w.cell x y).type = SAND ∧ (w.cell x (y - 1)).type = WATER ∧
            w1.cell x (y - 1) = ⟨SEAWEED, 0⟩))) ∧
      (∀ a b, (w.cell a b).type ∈ [SAND, GUNPOWDER, ASH, SNOW] → ¬ (a = x ∧ b = y) →
        w1.upd a b = w.upd a b ∧
        (w1.cell a b = w.cell a b ∨
          (w1.cell a b).type ∈ [FIRE, SMOKE, GAS, GLASS, TOXIC_GAS, EMPTY]))) w ∧
    ∀ a b, (w.cell a b).type ∈ [SAND, GUNPOWDER, ASH, SNOW] → ¬ (a = x ∧ b = y) →
      wp (powderMove x y) (fun _ w1 => Untouched a b w w1) w ∧
      (∀ t, wp (liquidMove x y t) (fun _ w1 => Untouched a b w w1) w) ∧
      (∀ t, wp (gasMove x y t) (fun _ w1 => Untouched a b w w1) w) ∧
      wp (fireRise x y) (fun _ w1 => Untouched a b w w1) w ∧
      wp (agentFall x y) (fun _ w1 => Untouched a b w w1) w ∧
      ∀ dir, wp (agentStep x y dir) (fun _ w1 => Untouched a b w w1) w := by
  have hterm : wp (visit x y) (fun _ _ => True) w :=
    wp_mono (visit_frame hwf hwfu hxy) (fun _ _ _ => trivial)
  refine ⟨wp_and ?_ (wp_forall hterm (fun a => wp_forall hterm (fun b => ?_))), ?_⟩
  · by_cases hc : (w.cell x y).type ∈ [SAND, GUNPOWDER, ASH, SNOW] ∧ y = w.gHeight - 1
    · exact wp_mono (visit_bottom hwf hwfu hxy hc.2 ((sandlike_iff _).2 hc.1))
        (fun _ _ hh _ _ => hh)
    · exact wp_mono hterm (fun _ _ _ h1 h2 => absurd ⟨h1, h2⟩ hc)
  · by_cases hc : (w.cell a b).type ∈ [SAND, GUNPOWDER, ASH, SNOW] ∧ ¬ (a = x ∧ b = y)
    · refine wp_mono (visit_hit hwf hwfu ((sandlike_iff _).2 hc.1) hxy
        (fun hh => hc.2 ⟨hh.1.symm, hh.2.symm⟩)) ?_
      intro _ w1 hh _ _
      exact ⟨hh.2.2.2.1, hh.2.2.2.2.imp id (byproduct_iff _).1⟩
    · exact wp_mono hterm (fun _ _ _ h1 h2 => absurd ⟨h1, h2⟩ hc)
  · intro a b hab hne
    have hs : sandlike (w.cell a b).type = true := (sandlike_iff _).2 hab
    have hne2 : ¬ (x = a ∧ y = b) := fun hh => hne ⟨hh.1.symm, hh.2.symm⟩
    have h : Stays a b w w := ⟨⟨rfl, rfl⟩, hwf, hwfu, rfl, rfl⟩
    have out : ∀ (v : World), Stays a b w v → Untouched a b w v :=
      fun v hv => ⟨hv.2.2.2.2, hv.2.2.2.1⟩
    exact ⟨wp_mono (powderMove_stays hs hxy hne2 w h) (fun _ => out),
      fun t => wp_mono (liquidMove_stays hs hxy hne2 t w h) (fun _ => out),
      fun t => wp_mono (gasMove_stays hs hxy hne2 t w h) (fun _ => out),
      wp_mono (fireRise_stays hs hxy hne2 w h) (fun _ => out),
      wp_mono (agentFall_stays hs hxy hne2 w h) (fun _ => out),
      fun dir => wp_mono (agentStep_stays hs hxy hne2 dir w h) (fun _ => out)⟩


/-! ## The powder on the bottom row through a whole tick -/

/-- A computation returns the state `u` exactly when `u` is its final state. -/
theorem run_iff {m : SimM Unit} {w u : World} :
    m w = some ((), u) ↔ wp m (fun _ u1 => u1 = u) w := by
  constructor
  · intro h
    exact ⟨(), u, h, rfl⟩
  · rintro ⟨⟨⟩, u1, h, rfl⟩
    exact h

/-- The loop rule for a loop that counts down. -/
theorem wp_forRange_rev (body : Int → SimM Unit) (I : Int → World → Prop) (lo : Int) :
    ∀ (n : Nat) (hi : Int), (hi + 1 - lo).toNat = n → lo ≤ hi + 1 →
      (∀ i, lo ≤ i → i ≤ hi → ∀ w, I i w → wp (body i) (fun _ w1 => I (i - 1) w1) w) →
      ∀ w, I hi w → wp (forEach (irange lo hi).reverse body) (fun _ w1 => I (lo - 1) w1) w := by
  intro n
  induction n with
  | zero =>
    intro hi hn hle _ w hw
    have e : hi = lo - 1 := by omega
    rw [irange_nil (by omega), List.reverse_nil, wp_forEach_nil, ← e]
    exact hw
  | succ n ih =>
    intro hi hn hle hbody w hw
    have hlh : lo ≤ hi := by omega
    rw [irange_snoc hlh, List.reverse_append, List.reverse_cons, List.reverse_nil,
      List.nil_append, List.singleton_append, wp_forEach_cons]
    refine wp_mono (hbody hi hlh (le_refl _) w hw) ?_
    intro _ w1 h1
    exact ih (hi - 1) (by omega) (by omega)
      (fun i h1 h2 => hbody i h1 (by omega)) w1 h1

/-- The part of the tick before `(a, b)`, as the two loops. -/
theorem wp_sweepBefore (a b : Int) (Q : Unit → World → Prop) (w : World) :
    wp (sweepBefore a b) Q w ↔
      wp (forEach (irange (b + 1) (w.gHeight - 1)).reverse fun y =>
          forEach (irange 0 (w.gWidth - 1)) fun x => visit x y)
        (fun _ w1 => wp (forEach (irange 0 (a - 1)) fun x => visit x b) Q w1)
        { w with updated :=
          List.replicate w.gHeight.toNat (List.replicate w.gWidth.toNat false) } := by
  unfold sweepBefore
  rw [wp_bind, wp_getWidth, wp_bind, wp_getHeight, wp_bind, wp_allocUpdated, wp_bind]

/-- Before the first visit the tick has only allocated the mask. -/
theorem wp_sweepBefore_start (Q : Unit → World → Prop) (w : World) :
    wp (sweepBefore 0 (w.gHeight - 1)) Q w ↔
      Q () { w with updated :=
        List.replicate w.gHeight.toNat (List.replicate w.gWidth.toNat false) } := by
  rw [wp_sweepBefore, irange_nil (show w.gHeight - 1 < w.gHeight - 1 + 1 by omega),
    irange_nil (show (0 : Int) - 1 < 0 by omega), List.reverse_nil,
    wp_forEach_nil, wp_forEach_nil]

/-- The part of the tick before `(a + 1, b)` is the part before `(a, b)` followed by the
visit of `(a, b)`. -/
theorem wp_sweepBefore_succ {a : Int} (ha : 0 ≤ a) (b : Int) (Q : Unit → World → Prop)
    (w : World) :
    wp (sweepBefore (a + 1) b) Q w ↔
      wp (sweepBefore a b) (fun _ u => wp (visit a b) Q u) w := by
  have e : irange 0 (a + 1 - 1) = irange 0 (a - 1) ++ [a] := by
    rw [show a + 1 - 1 = a by omega]
    exact irange_snoc ha
  rw [wp_sweepBefore, wp_sweepBefore, e]
  simp only [wp_forEach_append, wp_forEach_cons, wp_forEach_nil]

/-- The part of the tick before the row `b - 1` is the part up to the end of the row
`b`. -/
theorem wp_sweepBefore_row {b : Int} (w : World) (hb1 : b ≤ w.gHeight - 1)
    (Q : Unit → World → Prop) :
    wp (sweepBefore 0 (b - 1)) Q w ↔ wp (sweepBefore w.gWidth b) Q w := by
  have e : (irange (b - 1 + 1) (w.gHeight - 1)).reverse =
      (irange (b + 1) (w.gHeight - 1)).reverse ++ [b] := by
    rw [show b - 1 + 1 = b by omega, reverse_irange_split b (le_refl _) hb1,
      irange_nil (show b - 1 < b by omega), List.reverse_nil]
  rw [wp_sweepBefore, wp_sweepBefore, e, irange_nil (show (0 : Int) - 1 < 0 by omega)]
  simp only [wp_forEach_append, wp_forEach_cons, wp_forEach_nil]

/-- A tick on a grid with cells is the part of the tick before the row `-1`. -/
theorem wp_step_sim_sweep (w : World) (hW : 0 < w.gWidth) (hH : 0 < w.gHeight)
    (Q : Unit → World → Prop) :
    wp step_sim Q w ↔ wp (sweepBefore 0 (-1)) Q w := by
  unfold step_sim
  rw [wp_bind, wp_getWidth, wp_bind, wp_getHeight, if_neg (by omega), wp_bind,
    wp_allocUpdated, wp_sweepBefore, irange_nil (show (0 : Int) - 1 < 0 by omega)]
  simp only [wp_forEach_nil]
  rfl

/-- One visit of the sweep keeps the invariant `Standing`. -/
theorem visit_standing {w : World} {x y a b : Int} {k : Element} (hy : y = w.gHeight - 1)
    (hk : sandlike k = true) (hab : w.inb a b = true) (ha : 0 ≤ a) (u : World)
    (h : Standing w x y k a b u) :
    wp (visit a b) (fun _ v => Standing w x y k (a + 1) b v) u := by
  obtain ⟨hd, hwf, hwfu, hrun, hst⟩ := h
  have habu : u.inb a b = true := (inb_dims hd a b).trans hab
  obtain ⟨⟨⟩, v, hv, hdv, hwfv, hwfuv⟩ := visit_frame hwf hwfu habu
  have hrunv : sweepBefore (a + 1) b w = some ((), v) := by
    rw [run_iff, wp_sweepBefore_succ ha]
    exact ⟨(), u, hrun, (), v, hv, rfl⟩
  refine ⟨(), v, hv, ⟨hdv.1.trans hd.1, hdv.2.trans hd.2⟩, hwfv, hwfuv, hrunv, ?_⟩
  rcases hst with ⟨hstood, hku⟩ | hrep
  · have hnext : (v.cell x y).type = k → Stood w x y k (a + 1) b := by
      intro hkv a1 b1 u1 hib1 hlt hrun1
      by_cases he : a1 = a ∧ b1 = b
      · obtain ⟨rfl, rfl⟩ := he
        rw [hrun] at hrun1
        cases hrun1
        exact hku
      · exact hstood a1 b1 u1 hib1 (by omega) hrun1
    have hsu : sandlike (u.cell x y).type = true := by
      rw [hku]
      exact hk
    by_cases hown : a = x ∧ b = y
    · obtain ⟨rfl, rfl⟩ := hown
      obtain ⟨_, v1, hv1, hres, _⟩ := visit_bottom hwf hwfu habu (by rw [hy, hd.2]) hsu
      rw [hv] at hv1
      cases hv1
      rcases hres with e | ⟨e1, e2⟩
      · exact Or.inl ⟨hnext (e.trans hku), e.trans hku⟩
      · exact Or.inr ⟨a, b, u, v, hab, hrun, hv, hstood, hku, Or.inl ⟨⟨rfl, rfl⟩, e1, e2⟩⟩
    · obtain ⟨_, v1, hv1, hhit⟩ := visit_hit hwf hwfu hsu habu hown
      rw [hv] at hv1
      cases hv1
      rcases hhit.2.2.2.2 with e | e
      · have hkv : (v.cell x y).type = k := by rw [e, hku]
        exact Or.inl ⟨hnext hkv, hkv⟩
      · exact Or.inr ⟨a, b, u, v, hab, hrun, hv, hstood, hku,
          Or.inr ⟨hown, hhit.2.2.2.1, (byproduct_iff _).1 e⟩⟩
  · exact Or.inr hrep

/-- The whole tick and a powder on the bottom row: either the powder has stood at its
position in every state of the tick, or some visit has replaced it in place. -/
theorem sweep_standing (w : World) (hwf : w.WF) (x : Int)
    (hx : w.inb x (w.gHeight - 1) = true)
    (hk : sandlike (w.cell x (w.gHeight - 1)).type = true) :
    wp step_sim (fun _ w1 =>
      Standing w x (w.gHeight - 1) (w.cell x (w.gHeight - 1)).type 0 (-1) w1) w := by
  obtain ⟨⟨hx0, hx1⟩, hy0, _⟩ := (inb_iff w x (w.gHeight - 1)).1 hx
  have hW : 0 < w.gWidth := by omega
  have hH : 0 < w.gHeight := by omega
  rw [wp_step_sim_sweep w hW hH, wp_sweepBefore, irange_nil (show (0 : Int) - 1 < 0 by omega)]
  simp only [wp_forEach_nil]
  have hstart : Standing w x (w.gHeight - 1) (w.cell x (w.gHeight - 1)).type 0
      (w.gHeight - 1)
      { w with updated :=
        List.replicate w.gHeight.toNat (List.replicate w.gWidth.toNat false) } := by
    refine ⟨⟨rfl, rfl⟩, hwf, rect_replicate _ _ (by omega) (by omega), ?_, Or.inl ⟨?_, rfl⟩⟩
    · rw [run_iff, wp_sweepBefore_start]
    · intro a1 b1 u hib hlt _
      have := (inb_iff w a1 b1).1 hib
      omega
  have hrows := wp_forRange_rev
    (fun yy => forEach (irange 0 (w.gWidth - 1)) fun xx => visit xx yy)
    (fun b u => Standing w x (w.gHeight - 1) (w.cell x (w.gHeight - 1)).type 0 b u) 0
    (w.gHeight - 1 + 1 - 0).toNat (w.gHeight - 1) rfl (by omega) ?_ _ hstart
  · rw [show (-1 : Int) + 1 = 0 by omega]
    exact hrows
  intro b hb0 hb1 u hu
  have hrow := wp_forRange (fun xx => visit xx b)
    (fun a u1 => Standing w x (w.gHeight - 1) (w.cell x (w.gHeight - 1)).type a b u1)
    (w.gWidth - 1) (w.gWidth - 1 + 1 - 0).toNat 0 rfl (by omega) ?_ u hu
  · refine wp_mono hrow ?_
    intro _ v hv
    obtain ⟨hd, hwfv, hwfuv, hrun, hst⟩ := hv
    rw [show w.gWidth - 1 + 1 = w.gWidth by omega] at hrun hst
    refine ⟨hd, hwfv, hwfuv, ?_, ?_⟩
    · rw [run_iff, wp_sweepBefore_row w hb1, ← run_iff]
      exact hrun
    · rcases hst with ⟨hstood, hkv⟩ | hrep
      · refine Or.inl ⟨?_, hkv⟩
        intro a1 b1 u1 hib hlt hrun1
        have := (inb_iff w a1 b1).1 hib
        exact hstood a1 b1 u1 hib (by omega) hrun1
      · exact Or.inr hrep
  intro a ha0 ha1 u1 hu1
  exact visit_standing rfl hk ((inb_iff w a b).2 (by omega)) ha0 u1 hu1

/-- C20: a powder on the bottom row does not move. For every rectangular grid, every
random stream and every `x` such that the cell `(x, gHeight-1)` holds a powder (`SAND`,
`GUNPOWDER`, `ASH`, `SNOW`), the tick `step_sim` returns, and
(a) either the cell `(x, gHeight-1)` holds the same kind of powder at the end of the tick
and in every state of the tick before a visit (`sweepBefore a b`), or some visit of the
tick, of a cell `(a, b)` and reached with the powder still at its position, has
replaced it in place (`Rewritten`): the powder's own visit melts `SNOW` into `WATER`
with life 0, or the visit of another cell leaves the powder's flag untouched and
overwrites it with `FIRE`, `SMOKE`, `GAS`, `GLASS`, `TOXIC_GAS` or `EMPTY`;
and in any state `u` of a tick, the visit of an in-bounds cell `(a, b)` returns, and
(1) if `(a, b)` is on the bottom row and holds a powder, then the visit exchanges
nothing: every cell other than `(a, b)` and `(a, b - 1)` and every flag other than
that of `(a, b)` is untouched, the cell `(a, b)` keeps its kind unless it is `SNOW` that
melts, and the cell above is untouched unless it is `WATER` that the `SAND` below turns
into `SEAWEED`;
(2) every powder at another position `(c, d)` keeps its flag, and its cell is untouched
or has been overwritten in place with one of `FIRE`, `SMOKE`, `GAS`, `GLASS`,
`TOXIC_GAS`, `EMPTY`;
(3) the procedures that exchange cells (the movement of a powder, of a liquid, of a gas,
the flicker of fire, the fall and the walk of an agent), run for `(a, b)`, return and
leave the cell and the flag of every powder at another position untouched. -/
theorem bottom_powder_stays (w : World) (hwf : w.WF) (x : Int)
    (hx : w.inb x (w.gHeight - 1) = true)
    (hp : (w.cell x (w.gHeight - 1)).type ∈ [SAND, GUNPOWDER, ASH, SNOW]) :
    wp step_sim (fun _ w1 =>
      ((w1.cell x (w.gHeight - 1)).type = (w.cell x (w.gHeight - 1)).type ∧
        ∀ a b u, w.inb a b = true → sweepBefore a b w = some ((), u) →
          (u.cell x (w.gHeight - 1)).type = (w.cell x (w.gHeight - 1)).type) ∨
      ∃ a b u v, w.inb a b = true ∧ sweepBefore a b w = some ((), u) ∧
        visit a b u = some ((), v) ∧
        (u.cell x (w.gHeight - 1)).type = (w.cell x (w.gHeight - 1)).type ∧
        Rewritten x (w.gHeight - 1) a b u v) w ∧
    ∀ u : World, u.WF → u.WFU → ∀ a b, u.inb a b = true →
      wp (visit a b) (fun _ v =>
        ((u.cell a b).type ∈ [SAND, GUNPOWDER, ASH, SNOW] → b = u.gHeight - 1 →
          ((v.cell a b).type = (u.cell a b).type ∨
            ((u.cell a b).type = SNOW ∧ v.cell a b = ⟨WATER, 0⟩)) ∧
          (∀ c d, ¬ (c = a ∧ d = b) → v.upd c d = u.upd c d) ∧
          (∀ c d, ¬ (c = a ∧ (d = b ∨ d = b - 1)) → v.cell c d = u.cell c d) ∧
          (v.cell a (b - 1) = u.cell a (b - 1) ∨
            ((u.cell a b).type = SAND ∧ (u.cell a (b - 1)).type = WATER ∧
              v.cell a (b - 1) = ⟨SEAWEED, 0⟩))) ∧
        (∀ c d, (u.cell c d).type ∈ [SAND, GUNPOWDER, ASH, SNOW] → ¬ (c = a ∧ d = b) →
          v.upd c d = u.upd c d ∧
          (v.cell c d = u.cell c d ∨
            (v.cell c d).type ∈ [FIRE, SMOKE, GAS, GLASS, TOXIC_GAS, EMPTY]))) u ∧
      ∀ c d, (u.cell c d).type ∈ [SAND, GUNPOWDER, ASH, SNOW] → ¬ (c = a ∧ d = b) →
        wp (powderMove a b) (fun _ v => Untouched c d u v) u ∧
        (∀ t, wp (liquidMove a b t) (fun _ v => Untouched c d u v) u) ∧
        (∀ t, wp (gasMove a b t) (fun _ v => Untouched c d u v) u) ∧
        wp (fireRise a b) (fun _ v => Untouched c d u v) u ∧
        wp (agentFall a b) (fun _ v => Untouched c d u v) u ∧
        ∀ dir, wp (agentStep a b dir) (fun _ v => Untouched c d u v) u := by
  refine ⟨?_, fun u hu1 hu2 a b hab => visit_powder u hu1 hu2 a b hab⟩
  refine wp_mono (sweep_standing w hwf x hx ((sandlike_iff _).2 hp)) ?_
  intro _ w1 ⟨_, _, _, _, hst⟩
  rcases hst with ⟨hstood, hk⟩ | ⟨a, b, u, v, h1, h2, h3, _, h5, h6⟩
  · refine Or.inl ⟨hk, fun a b u hib hrun => hstood a b u hib ?_ hrun⟩
    have := (inb_iff w a b).1 hib
    omega
  · exact Or.inr ⟨a, b, u, v, h1, h2, h3, h5, h6⟩

theorem bottom_powder_stays_witness :
    shelf.WF ∧ shelf.inb 0 (shelf.gHeight - 1) = true ∧
    (shelf.cell 0 (shelf.gHeight - 1)).type ∈ [SAND, GUNPOWDER, ASH, SNOW] ∧
    (wp step_sim (fun _ w1 =>
      ((w1.cell 0 (shelf.gHeight - 1)).type = (shelf.cell 0 (shelf.gHeight - 1)).type ∧
        ∀ a b u, shelf.inb a b = true → sweepBefore a b shelf = some ((), u) →
          (u.cell 0 (shelf.gHeight - 1)).type = (shelf.cell 0 (shelf.gHeight - 1)).type) ∨
      ∃ a b u v, shelf.inb a b = true ∧ sweepBefore a b shelf = some ((), u) ∧
        visit a b u = some ((), v) ∧
        (u.cell 0 (shelf.gHeight - 1)).type = (shelf.cell 0 (shelf.gHeight - 1)).type ∧
        Rewritten 0 (shelf.gHeight - 1) a b u v) shelf ∧
    ∀ u : World, u.WF → u.WFU → ∀ a b, u.inb a b = true →
      wp (visit a b) (fun _ v =>
        ((u.cell a b).type ∈ [SAND, GUNPOWDER, ASH, SNOW] → b = u.gHeight - 1 →
          ((v.cell a b).type = (u.cell a b).type ∨
            ((u.cell a b).type = SNOW ∧ v.cell a b = ⟨WATER, 0⟩)) ∧
          (∀ c d, ¬ (c = a ∧ d = b) → v.upd c d = u.upd c d) ∧
          (∀ c d, ¬ (c = a ∧ (d = b ∨ d = b - 1)) → v.cell c d = u.cell c d) ∧
          (v.cell a (b - 1) = u.cell a (b - 1) ∨
            ((u.cell a b).type = SAND ∧ (u.cell a (b - 1)).type = WATER ∧
              v.cell a (b - 1) = ⟨SEAWEED, 0⟩))) ∧
        (∀ c d, (u.cell c d).type ∈ [SAND, GUNPOWDER, ASH, SNOW] → ¬ (c = a ∧ d = b) →
          v.upd c d = u.upd c d ∧
          (v.cell c d = u.cell c d ∨
            (v.cell c d).type ∈ [FIRE, SMOKE, GAS, GLASS, TOXIC_GAS, EMPTY]))) u ∧
      ∀ c d, (u.cell c d).type ∈ [SAND, GUNPOWDER, ASH, SNOW] → ¬ (c = a ∧ d = b) →
        wp (powderMove a b) (fun _ v => Untouched c d u v) u ∧
        (∀ t, wp (liquidMove a b t) (fun _ v => Untouched c d u v) u) ∧
        (∀ t, wp (gasMove a b t) (fun _ v => Untouched c d u v) u) ∧
        wp (fireRise a b) (fun _ v => Untouched c d u v) u ∧
        wp (agentFall a b) (fun _ v => Untouched c d u v) u ∧
        ∀ dir, wp (agentStep a b dir) (fun _ v => Untouched c d u v) u) :=
  ⟨by decide, by decide, by decide,
    bottom_powder_stays shelf (by decide) 0 (by decide) (by decide)⟩

/-- In the state `shelf` the visit of the sand on the bottom row only advances its seaweed
timer. -/
theorem bottom_sand_instance :
    gridAfter (visit 0 1) shelf =
      some [[⟨WATER, 0⟩, ⟨ACID, 0⟩, ⟨LAVA, 0⟩], [⟨SAND, 1⟩, ⟨GUNPOWDER, 0⟩, ⟨SNOW, 0⟩]] := by
  decide

/-- In the state `shelf` the visit of the acid overwrites the sand on the bottom row in
place (the acid itself has moved to the left before it reacts). -/
theorem bottom_acid_instance :
    gridAfter (visit 1 0) shelf =
      some [[⟨ACID, 0⟩, ⟨EMPTY, 0⟩, ⟨LAVA, 0⟩],
        [⟨TOXIC_GAS, 25⟩, ⟨GUNPOWDER, 0⟩, ⟨SNOW, 0⟩]] := by
  decide

/-- In the state `shelf` the visit of the lava overwrites the gunpowder and the snow on
the bottom row in place. -/
theorem bottom_lava_instance :
    gridAfter (visit 2 0) shelf =
      some [[⟨WATER, 0⟩, ⟨LAVA, 0⟩, ⟨ACID, 1⟩], [⟨SAND, 0⟩, ⟨FIRE, 25⟩, ⟨GLASS, 0⟩]] := by
  decide

/-- A whole tick from `shelf`: the snow at `(2, 1)` melts in place during its own visit,
and the lava above then sinks into the water it left, so that at the end of the tick the
position holds `LAVA`. -/
theorem bottom_tick_instance :
    gridAfter step_sim shelf =
      some [[⟨ACID, 0⟩, ⟨STONE, 0⟩, ⟨STEAM, 21⟩],
        [⟨TOXIC_GAS, 25⟩, ⟨FIRE, 25⟩, ⟨LAVA, 0⟩]] := by
  decide!

/-! ## Single rules: dead branch, stale reference, sinking, index safety -/

/-- The visit of an unflagged `GUNPOWDER` cell is the powder branch: the branch
`gunpowder` of `step_sim` is never reached. -/
theorem visit_gunpowder (w : World) (hwf : w.WF) (hwfu : w.WFU) (x y : Int)
    (hib : w.inb x y = true) (hu : w.upd x y = false) (hg : (w.cell x y).type = GUNPOWDER)
    (Q : Unit → World → Prop) :
    wp (visit x y) Q w ↔ wp (powderRule x y GUNPOWDER) Q w := by
  unfold visit
  rw [wp_bind, wp_getUpdated, hwfu.isSomeU, hu]
  simp only [hib, true_and, Bool.false_eq_true, if_false]
  rw [wp_bind, wp_getCell, hwf.isSome]
  simp only [hib, true_and, hg]
  rw [if_neg (by simp), if_pos (by rfl)]

/-- C23 (code defect): the visit of a `GUNPOWDER` cell next to `LAVA` explodes nothing.
`GUNPOWDER` is `sandlike`, so its visit is the powder branch, which ends the visit; on
the row `GUNPOWDER`, `LAVA` the visit only draws the direction and flags the cell, and
the whole tick ends with the gunpowder set on fire by the lava's own rule and the lava
still `LAVA` (an explosion would have rewritten both cells to `FIRE`, `SMOKE` or `GAS`). -/
theorem gunpowder_branch_dead :
    powderLava.WF ∧ sandlike GUNPOWDER = true ∧
      snapshot (visit 0 0) powderLava =
        some ([[⟨GUNPOWDER, 0⟩, ⟨LAVA, 0⟩]], [[true, false]], 1) ∧
      gridAfter step_sim powderLava = some [[⟨FIRE, 25⟩, ⟨LAVA, 1⟩]] := by
  decide

/-- C24 (code defect): snow that moves does not melt, and water appears in the cell it
left. On the 2x2 grid with `SNOW` at `(0, 0)` next to `FIRE` over an empty row, the visit
of the snow first moves it down to `(0, 1)`; the melting loop then runs around `(0, 0)`
and writes `WATER` through the reference `cell`, which now denotes the vacated cell:
afterwards the snow is still `SNOW` and an `EMPTY` cell has become `WATER`. The same
holds at the end of the tick. -/
theorem snow_melt_misplaced :
    snowFire.WF ∧
      gridAfter (visit 0 0) snowFire =
        some [[⟨WATER, 0⟩, ⟨FIRE, 20⟩], [⟨SNOW, 0⟩, ⟨EMPTY, 0⟩]] ∧
      gridAfter step_sim snowFire =
        some [[⟨WATER, 0⟩, ⟨SMOKE, 14⟩], [⟨SNOW, 0⟩, ⟨EMPTY, 0⟩]] := by
  decide

/-- Snow that cannot move does melt in place: on the floor next to `FIRE` its visit
leaves `WATER` with life 0 at its position. -/
theorem snow_on_floor_melts :
    gridAfter (visit 0 0) snowOnFloor = some [[⟨WATER, 0⟩, ⟨FIRE, 20⟩]] := by
  decide

/-- The hop of an agent in any state: when the walk into `(x + dir, y)` fails, the cells
`(x + dir, y - 1)` and `(x, y - 1)` are in bounds and `EMPTY` and the draw of `chance(70)`
succeeds, the agent is exchanged with the cell `(x, y - 1)` straight above it; the
column `x + dir` is not written. -/
theorem agentStep_hop (w : World) (hwf : w.WF) (x y dir : Int) (hib : w.inb x y = true)
    (hwalk : w.inb (x + dir) y = false ∨
      (empty (w.cell (x + dir) y) || gas (w.cell (x + dir) y).type) = false)
    (hd : w.inb (x + dir) (y - 1) = true) (hde : (w.cell (x + dir) (y - 1)).type = EMPTY)
    (hae : (w.cell x (y - 1)).type = EMPTY) (hroll : w.roll 1 100 ≤ 70) :
    wp (agentStep x y dir)
      (fun _ w1 => w1 = (w.draw.put x (y - 1) (w.cell x y)).put x y (w.cell x (y - 1))) w := by
  have hup : w.inb x (y - 1) = true := by
    unfold World.inb at hib hd ⊢
    simp only [Bool.and_eq_true, decide_eq_true_eq] at hib hd ⊢
    omega
  have hwalked : wp (walk_try x y (x + dir) y) (fun r w1 => r = false ∧ w1 = w) w := by
    simp only [walk_try, wp_bind, wp_in_bounds, wp_ite, wp_pure, wp_getCell, hwf.isSome]
    rcases hwalk with h | h
    · simp [h]
    · cases hb : w.inb (x + dir) y
      · simp
      · simp [h]
  unfold agentStep
  rw [wp_bind]
  refine wp_mono hwalked ?_
  rintro walked w1 ⟨rfl, rfl⟩
  simp only [Bool.not_false, if_true, hopReady, wp_bind, wp_in_bounds, wp_ite, wp_pure,
    wp_getCell, wp_setCell, wp_chance, hwf.isSome, hd, hup, hib, Bool.not_true,
    Bool.false_eq_true, if_false, true_and, empty, hde, hae, decide_True,
    decide_eq_true_eq, hroll, draw_grid, draw_cell, isSome_put, draw_inb, and_self]

/-- C29 (code defect): the hop is vertical, not diagonal. On the 2x2 grid with an agent
at `(0, 1)`, a `STONE` at `(1, 1)` and an empty top row, with direction `+1` and a
successful `chance(70)`, the visit of the agent leaves it at `(0, 0)` (with its life
incremented), the cell `(1, 0)` is still `EMPTY`; this holds for a `HUMAN` and for a
`ZOMBIE`. -/
theorem hop_goes_straight_up :
    (climber HUMAN).WF ∧
      gridAfter (visit 0 1) (climber HUMAN) =
        some [[⟨HUMAN, 1⟩, ⟨EMPTY, 0⟩], [⟨EMPTY, 0⟩, ⟨STONE, 0⟩]] ∧
      gridAfter (visit 0 1) (climber ZOMBIE) =
        some [[⟨ZOMBIE, 1⟩, ⟨EMPTY, 0⟩], [⟨EMPTY, 0⟩, ⟨STONE, 0⟩]] := by
  decide

/-- C21 (code defect): charged water that moves neither pulses nor loses charge. On the
2x2 grid with `WATER` of charge 5 at `(0, 0)`, a `HUMAN` at `(1, 0)` and an `EMPTY` cell
below the water (no `FIRE` or `LAVA` anywhere), the visit of the water moves it down;
the pulse block then tests the life of the cell swapped into `(0, 0)`, which is 0: the
human is still a `HUMAN` and the water still has charge 5 (no number is drawn). At the
end of the whole tick the water still has charge 5; the human has died by then, through
its own hazard check. -/
theorem water_pulse_lost :
    chargedDrop.WF ∧ chargedDrop.cell 0 0 = ⟨WATER, 5⟩ ∧
      snapshot (visit 0 0) chargedDrop =
        some ([[⟨EMPTY, 0⟩, ⟨HUMAN, 0⟩], [⟨WATER, 5⟩, ⟨STONE, 0⟩]],
          [[false, false], [true, true]], 0) ∧
      gridAfter step_sim (World.ofGrid 2 2 chargedDrop.grid chargedDrop.draws) =
        some [[⟨EMPTY, 0⟩, ⟨ASH, 0⟩], [⟨WATER, 5⟩, ⟨STONE, 0⟩]] := by
  decide

/-- In the state `waterOverOil` the downward move exchanges the two cells. -/
theorem water_sinks_in_oil :
    (liquidDown 0 0 WATER waterOverOil).map (fun p => (p.1, p.2.grid)) =
      some (true, [[⟨OIL, 0⟩], [⟨WATER, 0⟩]]) := by
  decide

/-- The body of the loops of `place_brush` returns and keeps the dimensions and the shape
of the grid, for all arguments and offsets. -/
theorem brushCell_frame (w : World) (hwf : w.WF) (cx cy rad : Int) (e : Element)
    (dx dy : Int) :
    wp (brushCell cx cy rad e dx dy) (fun _ w1 => SameDims w w1 ∧ w1.WF) w := by
  simp only [brushCell, wp_bind, wp_in_bounds, wp_ite, wp_pure, wp_setCell, wp_setLife,
    isSome_put, hwf.isSome, put_inb]
  split_ifs with h1 h2 h3 h4
  all_goals
    repeat' first
      | exact inb_of_not h1
      | exact hwf
      | exact hwf.putWF _ _ _
      | exact (hwf.putWF _ _ _).putWF _ _ _
      | exact ((hwf.putWF _ _ _).putWF _ _ _).putWF _ _ _
      | exact ⟨rfl, rfl⟩
      | constructor

/-- C30: index safety of the three procedures. From every rectangular state (a grid of
`gHeight` rows of `gWidth` cells of any dimensions, any mask), for all `int` arguments
and every stream: every iteration of the loops of `explode` and of `place_brush`, at any
offset, returns without an access outside the vectors (the coordinates `cx+dx`, `cy+dy`
are computed in `int` and tested by `in_bounds` before each access) and keeps the grid
rectangular; the calls `explode(cx, cy, r)`, `place_brush(cx, cy, rad, e)` and the tick
`step_sim` return a result (the loops over the neighbourhoods, the accesses after an
exchange, the searches and the nested explosions included), in a rectangular state of
the same dimensions, except that the loops of `explode` and of the brush of a kind
other than `LIGHTNING` do not end when the radius is `INT_MAX` (the only value for
which the loop condition `dy <= r` cannot become false). -/
theorem index_safety (w : World) (hwf : w.WF) :
    (∀ cx cy r,
      (∀ dx dy, wp (explodeCell cx cy r dx dy) (fun _ w1 => SameDims w w1 ∧ w1.WF) w) ∧
      (r ≠ 2147483647 → wp (explode cx cy r) (fun _ w1 => SameDims w w1 ∧ w1.WF) w)) ∧
    (∀ cx cy rad e,
      (∀ dx dy, wp (brushCell cx cy rad e dx dy) (fun _ w1 => SameDims w w1 ∧ w1.WF) w) ∧
      ((rad ≠ 2147483647 ∨ e = LIGHTNING) →
        wp (place_brush cx cy rad e) (fun _ w1 => SameDims w w1 ∧ w1.WF) w)) ∧
    wp step_sim (fun _ w1 => SameDims w w1 ∧ w1.WF) w := by
  have hsc : Scorched w w :=
    ⟨⟨rfl, rfl⟩, hwf, rfl, rfl, le_refl _, fun _ _ => Or.inl rfl⟩
  refine ⟨fun cx cy r => ⟨fun dx dy => ?_, fun hr => ?_⟩,
    fun cx cy rad e => ⟨fun dx dy => brushCell_frame w hwf cx cy rad e dx dy, fun hr => ?_⟩, ?_⟩
  · exact wp_mono (explodeCell_scorched w cx cy r dx dy w hsc) fun _ w1 h => ⟨h.1, h.2.1⟩
  · exact wp_mono (explode_outcome w hwf cx cy r hr) fun _ w1 h => ⟨h.1, h.2.1⟩
  · by_cases he : e = LIGHTNING
    · subst he
      cases hin : w.inb cx cy with
      | false =>
        rw [strike_oob w cx cy rad hin]
        exact ⟨⟨rfl, rfl⟩, hwf⟩
      | true =>
        exact wp_mono (strike_inb w hwf cx cy rad hin) fun _ w1 h => ⟨⟨h.1, h.2.1⟩, h.2.2.1⟩
    · exact wp_mono (brush_outcome w hwf cx cy rad e he (hr.resolve_right he))
        fun _ w1 h => ⟨h.1, h.2.1⟩
  · exact wp_mono (step_sim_inv False False 0 w hwf (fun h => h.elim) (fun h => h.elim)
      (fun h => h.elim) (fun h => h.elim)) fun _ w1 h => ⟨h.1, h.2.1⟩

theorem index_safety_witness :
    powderLava.WF ∧
      ((∀ cx cy r,
        (∀ dx dy, wp (explodeCell cx cy r dx dy)
          (fun _ w1 => SameDims powderLava w1 ∧ w1.WF) powderLava) ∧
        (r ≠ 2147483647 →
          wp (explode cx cy r) (fun _ w1 => SameDims powderLava w1 ∧ w1.WF) powderLava)) ∧
      (∀ cx cy rad e,
        (∀ dx dy, wp (brushCell cx cy rad e dx dy)
          (fun _ w1 => SameDims powderLava w1 ∧ w1.WF) powderLava) ∧
        ((rad ≠ 2147483647 ∨ e = LIGHTNING) →
          wp (place_brush cx cy rad e)
            (fun _ w1 => SameDims powderLava w1 ∧ w1.WF) powderLava)) ∧
      wp step_sim (fun _ w1 => SameDims powderLava w1 ∧ w1.WF) powderLava) :=
  ⟨by decide, index_safety powderLava (by decide)⟩

/-! ## The hazard check of the agents -/

/-- A loop with `break` whose body, run in `w`, either finds nothing and changes nothing
or stops the loop in the state `F`. -/
theorem wp_firstM_scan {β : Type} (P : β → Prop) (l : List β) (body : β → SimM Bool)
    (w F : World)
    (hno : ∀ b ∈ l, ¬ P b → wp (body b) (fun r w1 => r = false ∧ w1 = w) w)
    (hyes : ∀ b ∈ l, P b → wp (body b) (fun r w1 => r = true ∧ w1 = F) w) :
    wp (firstM l body) (fun r w1 =>
      (r = true ∧ w1 = F ∧ ∃ b ∈ l, P b) ∨ (r = false ∧ w1 = w ∧ ∀ b ∈ l, ¬ P b)) w := by
  induction l with
  | nil =>
    unfold firstM
    rw [wp_pure]
    exact Or.inr ⟨rfl, rfl, fun b hb => absurd hb (List.not_mem_nil b)⟩
  | cons b bs ih =>
    unfold firstM
    rw [wp_bind]
    by_cases hp : P b
    · refine wp_mono (hyes b (List.mem_cons_self _ _) hp) ?_
      rintro r w1 ⟨rfl, rfl⟩
      rw [if_pos rfl, wp_pure]
      exact Or.inl ⟨rfl, rfl, b, List.mem_cons_self _ _, hp⟩
    · refine wp_mono (hno b (List.mem_cons_self _ _) hp) ?_
      rintro r w1 ⟨rfl, rfl⟩
      rw [if_neg (by simp)]
      refine wp_mono (ih (fun c hc => hno c (List.mem_cons_of_mem _ hc))
        (fun c hc => hyes c (List.mem_cons_of_mem _ hc))) ?_
      rintro r w1 (⟨hr, hw, c, hc, hpc⟩ | ⟨hr, hw, hall⟩)
      · exact Or.inl ⟨hr, hw, c, List.mem_cons_of_mem _ hc, hpc⟩
      · refine Or.inr ⟨hr, hw, fun c hc => ?_⟩
        rcases List.mem_cons.1 hc with rfl | hc1
        · exact hp
        · exact hall c hc1

/-- A loop whose body, run in `w`, either changes nothing or leads to the state `F`, and
run in `F` changes nothing. -/
theorem wp_forEach_scan {β : Type} (P : β → Prop) (l : List β) (body : β → SimM Unit)
    (w F : World)
    (hno : ∀ b ∈ l, ¬ P b → wp (body b) (fun _ w1 => w1 = w) w)
    (hyes : ∀ b ∈ l, P b → wp (body b) (fun _ w1 => w1 = F) w)
    (hF : ∀ b ∈ l, wp (body b) (fun _ w1 => w1 = F) F) :
    wp (forEach l body) (fun _ w1 =>
      (w1 = F ∧ ∃ b ∈ l, P b) ∨ (w1 = w ∧ ∀ b ∈ l, ¬ P b)) w := by
  induction l with
  | nil =>
    unfold forEach
    rw [wp_pure]
    exact Or.inr ⟨rfl, fun b hb => absurd hb (List.not_mem_nil b)⟩
  | cons b bs ih =>
    unfold forEach
    rw [wp_bind]
    by_cases hp : P b
    · refine wp_mono (hyes b (List.mem_cons_self _ _) hp) ?_
      rintro _ w1 rfl
      refine wp_mono (wp_forEach (fun w2 => w2 = w1) bs body
        (fun c hc w2 h2 => by
          subst h2
          exact hF c (List.mem_cons_of_mem _ hc)) w1 rfl) ?_
      rintro _ w2 rfl
      exact Or.inl ⟨rfl, b, List.mem_cons_self _ _, hp⟩
    · refine wp_mono (hno b (List.mem_cons_self _ _) hp) ?_
      rintro _ w1 rfl
      refine wp_mono (ih (fun c hc => hno c (List.mem_cons_of_mem _ hc))
        (fun c hc => hyes c (List.mem_cons_of_mem _ hc))
        (fun c hc => hF c (List.mem_cons_of_mem _ hc))) ?_
      rintro _ w2 (⟨hw, c, hc, hpc⟩ | ⟨hw, hall⟩)
      · exact Or.inl ⟨hw, c, List.mem_cons_of_mem _ hc, hpc⟩
      · refine Or.inr ⟨hw, fun c hc => ?_⟩
        rcases List.mem_cons.1 hc with rfl | hc1
        · exact hp
        · exact hall c hc1

/-- The test `deadly` spelled out: one of the six hazard kinds, or water with a positive
charge. -/
theorem deadly_iff (n : Cell) :
    deadly n = true ↔
      (n.type ∈ [FIRE, LAVA, ACID, TOXIC_GAS, CHLORINE, LIGHTNING] ∨
        ((n.type = WATER ∨ n.type = SALTWATER) ∧ 0 < n.life)) := by
  obtain ⟨t, l⟩ := n
  cases t <;> simp [deadly, is_hazard]

/-- The hazard scan of a human: it kills the human (the cell becomes `ASH` with life 0,
nothing else changes) exactly when some neighbour is deadly. -/
theorem humanHazard_scan (w : World) (hwf : w.WF) (x y : Int) (hib : w.inb x y = true) :
    wp (humanHazard x y) (fun r w1 =>
      (r = true ∧ w1 = w.put x y ⟨ASH, 0⟩ ∧
        ∃ dy ∈ span 1, ∃ dx ∈ span 1, Deadly w x y dx dy) ∨
      (r = false ∧ w1 = w ∧ ∀ dy ∈ span 1, ¬ ∃ dx ∈ span 1, Deadly w x y dx dy)) w := by
  unfold humanHazard
  refine wp_firstM_scan (fun dy => ∃ dx ∈ span 1, Deadly w x y dx dy) _ _ w
    (w.put x y ⟨ASH, 0⟩) ?_ ?_
  · intro dy _ hno
    refine wp_mono (wp_firstM_scan (fun dx => Deadly w x y dx dy) (span 1) _ w
      (w.put x y ⟨ASH, 0⟩) ?_ ?_) ?_
    · intro dx _ hd
      have hd2 : ¬ (w.inb (x + dx) (y + dy) = true ∧
          deadly (w.cell (x + dx) (y + dy)) = true) := hd
      simp only [wp_bind, wp_in_bounds, wp_ite, wp_pure, wp_getCell, wp_setCell, hwf.isSome]
      cases h1 : w.inb (x + dx) (y + dy)
      · simp
      · have h2 : deadly (w.cell (x + dx) (y + dy)) = false := by
          cases h3 : deadly (w.cell (x + dx) (y + dy))
          · rfl
          · exact absurd ⟨h1, h3⟩ hd2
        simp [h2]
    · intro dx _ hd
      obtain ⟨h1, h2⟩ := hd
      simp only [wp_bind, wp_in_bounds, wp_ite, wp_pure, wp_getCell, wp_setCell, hwf.isSome,
        h1, h2, hib]
      simp
    · rintro r w1 (⟨hr, hw, dx, hdx, hd⟩ | ⟨hr, hw, _⟩)
      · exact absurd ⟨dx, hdx, hd⟩ hno
      · exact ⟨hr, hw⟩
  · rintro dy _ ⟨dx0, hdx0, hd0⟩
    refine wp_mono (wp_firstM_scan (fun dx => Deadly w x y dx dy) (span 1) _ w
      (w.put x y ⟨ASH, 0⟩) ?_ ?_) ?_
    · intro dx _ hd
      have hd2 : ¬ (w.inb (x + dx) (y + dy) = true ∧
          deadly (w.cell (x + dx) (y + dy)) = true) := hd
      simp only [wp_bind, wp_in_bounds, wp_ite, wp_pure, wp_getCell, wp_setCell, hwf.isSome]
      cases h1 : w.inb (x + dx) (y + dy)
      · simp
      · have h2 : deadly (w.cell (x + dx) (y + dy)) = false := by
          cases h3 : deadly (w.cell (x + dx) (y + dy))
          · rfl
          · exact absurd ⟨h1, h3⟩ hd2
        simp [h2]
    · intro dx _ hd
      obtain ⟨h1, h2⟩ := hd
      simp only [wp_bind, wp_in_bounds, wp_ite, wp_pure, wp_getCell, wp_setCell, hwf.isSome,
        h1, h2, hib]
      simp
    · rintro r w1 (⟨hr, hw, _⟩ | ⟨_, _, hall⟩)
      · exact ⟨hr, hw⟩
      · exact absurd hd0 (hall dx0 hdx0)

/-- The hazard scan of a zombie: it sets the zombie on fire (the cell becomes `FIRE` with
life 15, nothing else changes) exactly when some neighbour is deadly. -/
theorem zombieHazard_scan (w : World) (hwf : w.WF) (x y : Int) (hib : w.inb x y = true) :
    wp (zombieHazard x y) (fun _ w1 =>
      (w1 = w.put x y ⟨FIRE, 15⟩ ∧ ∃ dy ∈ span 1, ∃ dx ∈ span 1, Deadly w x y dx dy) ∨
      (w1 = w ∧ ∀ dy ∈ span 1, ¬ ∃ dx ∈ span 1, Deadly w x y dx dy)) w := by
  have hF : ∀ dx dy : Int, wp (do
      let nx := x + dx
      let ny := y + dy
      let ib ← in_bounds nx ny
      if !ib then pure ()
      else do
        let n ← getCell nx ny
        if deadly n then setCell x y ⟨FIRE, 15⟩)
      (fun _ w1 => w1 = w.put x y ⟨FIRE, 15⟩) (w.put x y ⟨FIRE, 15⟩) := by
    intro dx dy
    simp only [wp_bind, wp_in_bounds, wp_ite, wp_pure, wp_getCell, wp_setCell, isSome_put,
      hwf.isSome, put_inb, put_put_same, hib]
    cases h1 : w.inb (x + dx) (y + dy)
    · simp
    · simp
  have hyes : ∀ dx dy : Int, Deadly w x y dx dy → wp (do
      let nx := x + dx
      let ny := y + dy
      let ib ← in_bounds nx ny
      if !ib then pure ()
      else do
        let n ← getCell nx ny
        if deadly n then setCell x y ⟨FIRE, 15⟩)
      (fun _ w1 => w1 = w.put x y ⟨FIRE, 15⟩) w := by
    rintro dx dy ⟨h1, h2⟩
    simp only [wp_bind, wp_in_bounds, wp_ite, wp_pure, wp_getCell, wp_setCell, hwf.isSome,
      h1, h2, hib]
    simp
  have hno : ∀ dx dy : Int, ¬ Deadly w x y dx dy → wp (do
      let nx := x + dx
      let ny := y + dy
      let ib ← in_bounds nx ny
      if !ib then pure ()
      else do
        let n ← getCell nx ny
        if deadly n then setCell x y ⟨FIRE, 15⟩)
      (fun _ w1 => w1 = w) w := by
    intro dx dy hd
    have hd2 : ¬ (w.inb (x + dx) (y + dy) = true ∧
        deadly (w.cell (x + dx) (y + dy)) = true) := hd
    simp only [wp_bind, wp_in_bounds, wp_ite, wp_pure, wp_getCell, wp_setCell, hwf.isSome]
    cases h1 : w.inb (x + dx) (y + dy)
    · simp
    · have h2 : deadly (w.cell (x + dx) (y + dy)) = false := by
        cases h3 : deadly (w.cell (x + dx) (y + dy))
        · rfl
        · exact absurd ⟨h1, h3⟩ hd2
      simp [h2]
  have hrowF : ∀ dy : Int, wp (forEach (span 1) fun dx => (do
      let nx := x + dx
      let ny := y + dy
      let ib ← in_bounds nx ny
      if !ib then pure ()
      else do
        let n ← getCell nx ny
        if deadly n then setCell x y ⟨FIRE, 15⟩ : SimM Unit))
      (fun _ w1 => w1 = w.put x y ⟨FIRE, 15⟩) (w.put x y ⟨FIRE, 15⟩) := by
    intro dy
    refine wp_forEach (fun w1 => w1 = w.put x y ⟨FIRE, 15⟩) _ _ ?_ _ rfl
    rintro dx _ w1 rfl
    exact hF dx dy
  unfold zombieHazard forBox
  refine wp_forEach_scan (fun dy => ∃ dx ∈ span 1, Deadly w x y dx dy) _ _ w
    (w.put x y ⟨FIRE, 15⟩) ?_ ?_ ?_
  · intro dy _ hnone
    refine wp_mono (wp_forEach_scan (fun dx => Deadly w x y dx dy) (span 1) _ w
      (w.put x y ⟨FIRE, 15⟩) (fun dx _ hd => hno dx dy hd) (fun dx _ hd => hyes dx dy hd)
      (fun dx _ => hF dx dy)) ?_
    rintro _ w1 (⟨_, dx, hdx, hd⟩ | ⟨hw, _⟩)
    · exact absurd ⟨dx, hdx, hd⟩ hnone
    · exact hw
  · rintro dy _ ⟨dx0, hdx0, hd0⟩
    refine wp_mono (wp_forEach_scan (fun dx => Deadly w x y dx dy) (span 1) _ w
      (w.put x y ⟨FIRE, 15⟩) (fun dx _ hd => hno dx dy hd) (fun dx _ hd => hyes dx dy hd)
      (fun dx _ => hF dx dy)) ?_
    rintro _ w1 (⟨hw, _⟩ | ⟨_, hall⟩)
    · exact hw
    · exact absurd hd0 (hall dx0 hdx0)
  · intro dy _
    exact hrowF dy

/-- C27: the hazard prelude of the agents, in any state of a tick. When the visit
reaches an unflagged `HUMAN` or `ZOMBIE` at `(x, y)` and some in-bounds cell
`(x + dx, y + dy)` of the 3x3 around it holds a hazard kind (`FIRE`, `LAVA`, `ACID`,
`TOXIC_GAS`, `CHLORINE`, `LIGHTNING`) or `WATER` / `SALTWATER` with positive life, the
visit returns in the state that differs from the start only in the cell `(x, y)`, now
`ASH` with life 0 for a human and `FIRE` with life 15 for a zombie, and in its flag: no
other cell or flag has changed and no random number has been drawn (so nothing has
moved and nothing has been attacked). -/
theorem agent_hazard (w : World) (hwf : w.WF) (hwfu : w.WFU) (x y : Int)
    (hib : w.inb x y = true) (hu : w.upd x y = false)
    (ha : (w.cell x y).type = HUMAN ∨ (w.cell x y).type = ZOMBIE)
    (dx dy : Int) (hdx : -1 ≤ dx ∧ dx ≤ 1) (hdy : -1 ≤ dy ∧ dy ≤ 1)
    (hn : w.inb (x + dx) (y + dy) = true)
    (hz : (w.cell (x + dx) (y + dy)).type ∈ [FIRE, LAVA, ACID, TOXIC_GAS, CHLORINE, LIGHTNING] ∨
      (((w.cell (x + dx) (y + dy)).type = WATER ∨ (w.cell (x + dx) (y + dy)).type = SALTWATER) ∧
        0 < (w.cell (x + dx) (y + dy)).life)) :
    wp (visit x y) (fun _ w1 =>
      w1 = (w.put x y (if (w.cell x y).type = HUMAN then ⟨ASH, 0⟩ else ⟨FIRE, 15⟩)).mark x y ∧
      w1.cell x y = (if (w.cell x y).type = HUMAN then ⟨ASH, 0⟩ else ⟨FIRE, 15⟩) ∧
      w1.upd x y = true ∧
      (∀ a b, ¬ (a = x ∧ b = y) → w1.cell a b = w.cell a b ∧ w1.upd a b = w.upd a b) ∧
      w1.pos = w.pos) w := by
  have hd : ∃ dy ∈ span 1, ∃ dx ∈ span 1, Deadly w x y dx dy :=
    ⟨dy, (mem_span 1 dy).2 hdy, dx, (mem_span 1 dx).2 hdx, hn, (deadly_iff _).2 hz⟩
  have hfin : ∀ c : Cell, ∀ w1 : World, w1 = (w.put x y c).mark x y →
      w1 = (w.put x y c).mark x y ∧ w1.cell x y = c ∧ w1.upd x y = true ∧
      (∀ a b, ¬ (a = x ∧ b = y) → w1.cell a b = w.cell a b ∧ w1.upd a b = w.upd a b) ∧
      w1.pos = w.pos := by
    rintro c w1 rfl
    refine ⟨rfl, ?_, ?_, fun a b hab => ⟨?_, ?_⟩, rfl⟩
    · rw [mark_cell, cell_put hwf hib, if_pos ⟨rfl, rfl⟩]
    · rw [upd_mark (by exact hwfu) (by exact hib), if_pos ⟨rfl, rfl⟩]
    · rw [mark_cell, cell_put hwf hib, if_neg hab]
    · rw [upd_mark (by exact hwfu) (by exact hib), if_neg hab]
      rfl
  unfold visit
  rw [wp_bind, wp_getUpdated, hwfu.isSomeU, hu]
  simp only [hib, true_and, Bool.false_eq_true, if_false]
  rw [wp_bind, wp_getCell, hwf.isSome]
  simp only [hib, true_and]
  rcases ha with ha | ha
  · rw [ha]
    simp only [reduceCtorEq, or_self, if_false, sandlike, liquid, gas, Bool.false_eq_true,
      if_true]
    unfold humanRule
    rw [wp_bind]
    refine wp_mono (humanHazard_scan w hwf x y hib) ?_
    rintro r w1 (⟨rfl, rfl, _⟩ | ⟨_, _, hall⟩)
    · rw [if_pos rfl, wp_setUpdated, put_updated, hwfu.isSomeU]
      exact ⟨hib, hfin _ _ rfl⟩
    · obtain ⟨dy0, hdy0, dx0, hdx0, hd0⟩ := hd
      exact absurd ⟨dx0, hdx0, hd0⟩ (hall dy0 hdy0)
  · rw [ha]
    simp only [reduceCtorEq, or_self, if_false, sandlike, liquid, gas, Bool.false_eq_true,
      if_true]
    unfold zombieRule
    rw [wp_bind]
    refine wp_mono (zombieHazard_scan w hwf x y hib) ?_
    rintro _ w1 (⟨rfl, _⟩ | ⟨_, hall⟩)
    · rw [wp_bind, wp_getCell, isSome_put, hwf.isSome, cell_put hwf hib]
      refine ⟨hib, ?_⟩
      simp only [and_self, if_true, ne_eq, reduceCtorEq, not_false_eq_true]
      rw [wp_setUpdated, put_updated, hwfu.isSomeU]
      exact ⟨hib, hfin _ _ rfl⟩
    · obtain ⟨dy0, hdy0, dx0, hdx0, hd0⟩ := hd
      exact absurd ⟨dx0, hdx0, hd0⟩ (hall dy0 hdy0)

theorem agent_hazard_witness :
    humanByFire.WF ∧ humanByFire.WFU ∧
      wp (visit 0 0) (fun _ w1 =>
        w1 = (humanByFire.put 0 0
          (if (humanByFire.cell 0 0).type = HUMAN then ⟨ASH, 0⟩ else ⟨FIRE, 15⟩)).mark 0 0 ∧
        w1.cell 0 0 =
          (if (humanByFire.cell 0 0).type = HUMAN then ⟨ASH, 0⟩ else ⟨FIRE, 15⟩) ∧
        w1.upd 0 0 = true ∧
        (∀ a b, ¬ (a = 0 ∧ b = 0) →
          w1.cell a b = humanByFire.cell a b ∧ w1.upd a b = humanByFire.upd a b) ∧
        w1.pos = humanByFire.pos) humanByFire :=
  ⟨by decide, by decide,
    agent_hazard humanByFire (by decide) (by decide) 0 0 (by decide) (by decide)
      (Or.inl (by decide)) 1 0 (by decide) (by decide) (by decide) (Or.inl (by decide))⟩

/-- The two cases of the hazard prelude evaluated: the human next to fire becomes `ASH`,
the zombie next to charged water becomes `FIRE` with life 15, the neighbour is as
before and no draw is consumed. -/
theorem hazard_prelude_cases :
    snapshot (visit 0 0) humanByFire =
        some ([[⟨ASH, 0⟩, ⟨FIRE, 20⟩]], [[true, false]], 0) ∧
      snapshot (visit 0 0) zombieByWater =
        some ([[⟨FIRE, 15⟩, ⟨WATER, 3⟩]], [[true, false]], 0) := by
  decide

/-! ## Conduction -/

/-- A cell rewritten by `explode` is `FIRE`, `SMOKE` or `GAS`. -/
theorem Blasted.blastKind {w w1 : World} {x y : Int} (h : Blasted w w1 x y) :
    (w1.cell x y).type = FIRE ∨ (w1.cell x y).type = SMOKE ∨ (w1.cell x y).type = GAS := by
  obtain ⟨k, _, _, h1, h2, h3⟩ := h
  by_cases a : 1 + ((w.draws k : Nat) : Int) % 100 ≤ 50
  · exact Or.inl (h1 a).1
  · by_cases b : 1 + ((w.draws k : Nat) : Int) % 100 ≤ 80
    · right
      left
      rw [h2 (by omega) b]
    · right
      right
      rw [h3 (by omega)]

theorem Surge.surgeRefl {q x y : Int} {w : World} (hwf : w.WF) : Surge q x y w w :=
  ⟨⟨rfl, rfl⟩, hwf, rfl, rfl, fun _ _ h => h⟩

theorem Surge.surgeTrans {q x y : Int} {w w1 w2 : World} (h1 : Surge q x y w w1)
    (h2 : Surge q x y w1 w2) : Surge q x y w w2 :=
  ⟨⟨h2.1.1.trans h1.1.1, h2.1.2.trans h1.1.2⟩, h2.2.1, h2.2.2.1.trans h1.2.2.1,
    h2.2.2.2.1.trans h1.2.2.2.1, fun a b h => h2.2.2.2.2 a b (h1.2.2.2.2 a b h)⟩

theorem Surge.live {q x y : Int} {w w1 : World} (h : Surge q x y w w1) (hl : Live x y w) :
    Live x y w1 :=
  ⟨h.2.1, (inb_dims h.1 x y).trans hl.2.1, by rw [h.2.2.2.1]; exact hl.2.2⟩

theorem Surge.surgeDrawn {q x y : Int} {w : World} (hwf : w.WF) : Surge q x y w w.draw :=
  ⟨⟨rfl, rfl⟩, hwf, rfl, rfl, fun _ _ h => h⟩

/-- A write of a `Charged` cell at a position other than `(x, y)`. -/
theorem Surge.written {q x y : Int} {w : World} (hwf : w.WF) {a b : Int}
    (hib : w.inb a b = true) (hne : ¬ (a = x ∧ b = y)) {c : Cell} (hc : Charged q c) :
    Surge q x y w (w.put a b c) := by
  refine ⟨⟨rfl, rfl⟩, hwf.putWF _ _ _, rfl, ?_, fun a1 b1 h => ?_⟩
  · rw [cell_put hwf hib, if_neg (fun h => hne ⟨h.1.symm, h.2.symm⟩)]
  · rw [cell_put hwf hib]
    split
    · exact hc
    · exact h

/-- A cell of a kind that takes no charge is `Charged`. -/
theorem charged_of_kind {q : Int} {c : Cell}
    (h : c.type = FIRE ∨ c.type = SMOKE ∨ c.type = GAS) : Charged q c := by
  intro hk
  rcases h with h | h | h <;> rw [h] at hk <;> simp at hk

theorem explode_surge {q x y : Int} {w : World} (hl : Live x y w) (cx cy r : Int)
    [hk : Fact (Small r)] : wp (explode cx cy r) (fun _ w1 => Surge q x y w w1) w := by
  refine wp_mono (explode_outcome w hl.1 cx cy r (by have := hk.out.2; omega)) ?_
  rintro _ w1 ⟨hd, hwf1, hu, _, _, hcells⟩
  refine ⟨hd, hwf1, hu, ?_, fun a b hc => ?_⟩
  · rcases hcells x y with e | ⟨_, hb, _⟩
    · exact e
    · rw [hl.2.2] at hb
      exact absurd hb (by simp)
  · rcases hcells a b with e | ⟨_, _, hb⟩
    · rw [e]
      exact hc
    · exact charged_of_kind hb.blastKind

/-- The body of the conduction loops: it keeps the visited cell, keeps every charged
cell charged, and leaves its own neighbour charged. -/
theorem conductCell_surge {q x y : Int} {w : World} (hl : Live x y w) (dx dy : Int) :
    wp (conductCell x y q dx dy) (fun _ w1 => Live x y w1 ∧ Surge q x y w w1 ∧
      (¬ (dx = 0 ∧ dy = 0) → w1.inb (x + dx) (y + dy) = true →
        Charged q (w1.cell (x + dx) (y + dy)))) w := by
  have hwf := hl.1
  unfold conductCell
  refine wp_cases (fun h0 => (wp_pure _ _ _).2 ⟨hl, Surge.surgeRefl hwf, fun h => absurd h0 h⟩)
    (fun h0 => ?_)
  rw [wp_bind, wp_in_bounds]
  cases hn : w.inb (x + dx) (y + dy)
  · rw [if_pos (by rfl), wp_pure]
    exact ⟨hl, Surge.surgeRefl hwf, fun _ h => by rw [hn] at h; cases h⟩
  · rw [if_neg (by simp), wp_bind, wp_getCell, hwf.isSome]
    refine ⟨hn, ?_⟩
    have hne : ¬ (x + dx = x ∧ y + dy = y) := by omega
    -- the two blocks that raise the life of the neighbour
    refine wp_seq (I := fun w1 =>
      (((w.cell (x + dx) (y + dy)).type = WIRE ∨ (w.cell (x + dx) (y + dy)).type = METAL) ∧
        w1 = w.put (x + dx) (y + dy) ⟨(w.cell (x + dx) (y + dy)).type, q - 1⟩) ∨
      (w1 = w ∧ (((w.cell (x + dx) (y + dy)).type = WIRE ∨
        (w.cell (x + dx) (y + dy)).type = METAL) → q - 1 ≤ (w.cell (x + dx) (y + dy)).life))) ?_ ?_
    · refine wp_cases (fun hk => wp_cases (fun hlt => ?_) (fun hlt => ?_)) (fun hk => ?_)
      · rw [wp_setLife, hwf.isSome]
        exact ⟨hn, Or.inl ⟨hk, rfl⟩⟩
      · exact (wp_pure _ _ _).2 (Or.inr ⟨rfl, fun _ => by omega⟩)
      · exact (wp_pure _ _ _).2 (Or.inr ⟨rfl, fun h => absurd h hk⟩)
    rintro _ wA hA
    refine wp_seq (I := fun w1 => Live x y w1 ∧ Surge q x y w w1 ∧
      Charged q (w1.cell (x + dx) (y + dy))) ?_ ?_
    · rcases hA with ⟨hk, rfl⟩ | ⟨rfl, hk⟩
      · have hS : Surge q x y w
            (w.put (x + dx) (y + dy) ⟨(w.cell (x + dx) (y + dy)).type, q - 1⟩) :=
          Surge.written hwf hn hne (fun _ => le_refl _)
        rw [if_neg (by rcases hk with h | h <;> rw [h] <;> simp), wp_pure]
        refine ⟨hS.live hl, hS, ?_⟩
        rw [cell_put hwf hn, if_pos ⟨rfl, rfl⟩]
        exact fun _ => le_refl _
      · refine wp_cases (fun hk2 => wp_cases (fun hlt => ?_) (fun hlt => ?_)) (fun hk2 => ?_)
        · have hS : Surge q x y wA
              (wA.put (x + dx) (y + dy) ⟨(wA.cell (x + dx) (y + dy)).type, q - 1⟩) :=
            Surge.written hwf hn hne (fun _ => le_refl _)
          rw [wp_setLife, hwf.isSome]
          refine ⟨hn, hS.live hl, hS, ?_⟩
          rw [cell_put hwf hn, if_pos ⟨rfl, rfl⟩]
          exact fun _ => le_refl _
        · refine (wp_pure _ _ _).2 ⟨hl, Surge.surgeRefl hwf, fun hc => ?_⟩
          rcases hc with h | h | h | h
          · exact hk (Or.inl h)
          · exact hk (Or.inr h)
          · omega
          · omega
        · refine (wp_pure _ _ _).2 ⟨hl, Surge.surgeRefl hwf, fun hc => ?_⟩
          rcases hc with h | h | h | h
          · exact hk (Or.inl h)
          · exact hk (Or.inr h)
          · exact absurd (Or.inl h) hk2
          · exact absurd (Or.inr h) hk2
    rintro _ wB ⟨hlB, hSB, hcB⟩
    have hnB : wB.inb (x + dx) (y + dy) = true := (inb_dims hSB.1 _ _).trans hn
    -- the ignition block
    refine wp_seq (I := fun w1 => Live x y w1 ∧ Surge q x y w w1 ∧
      Charged q (w1.cell (x + dx) (y + dy))) ?_ ?_
    · have hkeep : ∀ w2, Surge q x y wB w2 → Live x y w2 ∧ Surge q x y w w2 ∧
          Charged q (w2.cell (x + dx) (y + dy)) :=
        fun w2 h2 => ⟨h2.live hlB, hSB.surgeTrans h2, h2.2.2.2.2 _ _ hcB⟩
      refine wp_cases (fun _ => ?_) (fun _ => (wp_pure _ _ _).2 (hkeep _ (Surge.surgeRefl hlB.1)))
      rw [wp_bind, wp_chance]
      have hlD : Live x y wB.draw := hlB
      refine wp_cases (fun _ => wp_cases (fun _ => ?_) (fun _ => ?_))
        (fun _ => (wp_pure _ _ _).2 (hkeep _ (Surge.surgeDrawn hlB.1)))
      · refine wp_mono (explode_surge (q := q) hlD _ _ 5) ?_
        intro _ w2 h2
        exact hkeep w2 ((Surge.surgeDrawn hlB.1).surgeTrans h2)
      · rw [wp_bind, wp_rint, wp_setCell, draw_grid, draw_grid, hlB.1.isSome]
        refine ⟨hnB, hkeep _ ?_⟩
        exact ((Surge.surgeDrawn hlB.1).surgeTrans (Surge.surgeDrawn hlD.1)).surgeTrans
          (Surge.written (q := q) (x := x) (y := y) (show wB.draw.draw.WF from hlB.1)
            (show wB.draw.draw.inb (x + dx) (y + dy) = true from hnB) hne
            (charged_of_kind (Or.inl rfl)))
    rintro _ wC ⟨hlC, hSC, hcC⟩
    have hnC : wC.inb (x + dx) (y + dy) = true := (inb_dims hSC.1 _ _).trans hn
    -- the block for hydrogen and gas
    have hkeep : ∀ w2, Surge q x y wC w2 → Live x y w2 ∧ Surge q x y w w2 ∧
        (¬ (dx = 0 ∧ dy = 0) → w2.inb (x + dx) (y + dy) = true →
          Charged q (w2.cell (x + dx) (y + dy))) :=
      fun w2 h2 => ⟨h2.live hlC, hSC.surgeTrans h2, fun _ _ => h2.2.2.2.2 _ _ hcC⟩
    rw [wp_bind, wp_getCell, hlC.1.isSome]
    refine ⟨hnC, ?_⟩
    refine wp_cases (fun _ => ?_) (fun _ => (wp_pure _ _ _).2 (hkeep _ (Surge.surgeRefl hlC.1)))
    rw [wp_bind, wp_chance]
    have hlD : Live x y wC.draw := hlC
    refine wp_cases (fun _ => ?_) (fun _ => (wp_pure _ _ _).2 (hkeep _ (Surge.surgeDrawn hlC.1)))
    refine wp_mono (explode_surge (q := q) hlD _ _ 4) ?_
    intro _ w2 h2
    exact hkeep w2 ((Surge.surgeDrawn hlC.1).surgeTrans h2)

/-- C22: the conduction step, in any state of a tick. When the visit reaches an
unflagged `WIRE` or `METAL` cell at `(x, y)` with life `q > 0`, it returns, the cell is
afterwards of the same kind with life `q - 1`, and every one of its 8 neighbours that is
`WIRE`, `METAL`, `WATER` or `SALTWATER` after the visit has life at least `q - 1`. When
the life is 0 (or less) the visit only sets the flag of the cell: the grid is unchanged
and no number is drawn. -/
theorem conduction_step (w : World) (hwf : w.WF) (hwfu : w.WFU) (x y : Int)
    (hib : w.inb x y = true) (hu : w.upd x y = false)
    (ht : (w.cell x y).type = WIRE ∨ (w.cell x y).type = METAL) :
    wp (visit x y) (fun _ w1 =>
      (0 < (w.cell x y).life →
        w1.cell x y = ⟨(w.cell x y).type, (w.cell x y).life - 1⟩ ∧
        ∀ dx dy, -1 ≤ dx ∧ dx ≤ 1 → -1 ≤ dy ∧ dy ≤ 1 → ¬ (dx = 0 ∧ dy = 0) →
          w.inb (x + dx) (y + dy) = true →
          (w1.cell (x + dx) (y + dy)).type ∈ [WIRE, METAL, WATER, SALTWATER] →
          (w.cell x y).life - 1 ≤ (w1.cell (x + dx) (y + dy)).life) ∧
      ((w.cell x y).life ≤ 0 → w1 = w.mark x y) ∧
      SameDims w w1 ∧ w1.upd x y = true) w := by
  have hrule : wp (wireRule x y) (fun _ w1 =>
      (0 < (w.cell x y).life →
        w1.cell x y = ⟨(w.cell x y).type, (w.cell x y).life - 1⟩ ∧
        ∀ dx dy, -1 ≤ dx ∧ dx ≤ 1 → -1 ≤ dy ∧ dy ≤ 1 → ¬ (dx = 0 ∧ dy = 0) →
          w.inb (x + dx) (y + dy) = true →
          (w1.cell (x + dx) (y + dy)).type ∈ [WIRE, METAL, WATER, SALTWATER] →
          (w.cell x y).life - 1 ≤ (w1.cell (x + dx) (y + dy)).life) ∧
      ((w.cell x y).life ≤ 0 → w1 = w.mark x y) ∧
      SameDims w w1 ∧ w1.upd x y = true) w := by
    have hl : Live x y w := ⟨hwf, hib, by rcases ht with h | h <;> rw [h] <;> rfl⟩
    unfold wireRule
    rw [wp_bind, wp_getCell, hwf.isSome]
    refine ⟨hib, ?_⟩
    by_cases hq : (w.cell x y).life > 0
    · rw [if_pos hq, wp_bind, wp_bind]
      refine wp_mono (wp_forBox_each (Live x y) (Surge (w.cell x y).life x y)
        (fun dx dy w1 => ¬ (dx = 0 ∧ dy = 0) → w1.inb (x + dx) (y + dy) = true →
          Charged (w.cell x y).life (w1.cell (x + dx) (y + dy)))
        (fun w1 h1 => Surge.surgeRefl h1.1) (fun _ _ _ h1 h2 => h1.surgeTrans h2)
        (fun dx dy w1 w2 hS hP h0 hn =>
          hS.2.2.2.2 _ _ (hP h0 ((inb_dims hS.1 _ _).symm.trans hn)))
        1 _ (fun dx _ dy _ w1 h1 => conductCell_surge h1 dx dy) w hl) ?_
      rintro _ w1 ⟨hl1, hS, hP⟩
      have hib1 : w1.inb x y = true := hl1.2.1
      have hown : w1.cell x y = w.cell x y := hS.2.2.2.1
      have hwfu1 : w1.WFU := by
        unfold World.WFU
        rw [hS.2.2.1, hS.1.1, hS.1.2]
        exact hwfu
      simp only [wp_bind, wp_getCell, wp_setLife, wp_ite, wp_pure, wp_setUpdated, isSome_put,
        put_updated, hl1.1.isSome, hwfu1.isSomeU, hib1, true_and, hown,
        cell_put hl1.1 hib1, and_self, if_true]
      rw [if_neg (by omega)]
      refine ⟨fun _ => ⟨?_, fun dx dy hdx hdy h0 hn hk => ?_⟩, fun h => absurd h (by omega),
        hS.1, ?_⟩
      · rw [mark_cell, cell_put hl1.1 hib1, if_pos ⟨rfl, rfl⟩]
      · have hne : ¬ (x + dx = x ∧ y + dy = y) := by omega
        have hn1 : w1.inb (x + dx) (y + dy) = true := (inb_dims hS.1 _ _).trans hn
        rw [mark_cell, cell_put hl1.1 hib1, if_neg hne] at hk ⊢
        refine hP dx ((mem_span 1 dx).2 hdx) dy ((mem_span 1 dy).2 hdy) h0 hn1 ?_
        simpa using hk
      · rw [upd_mark (show (w1.put x y _).WFU from hwfu1) (show (w1.put x y _).inb x y = true
          from hib1), if_pos ⟨rfl, rfl⟩]
    · rw [if_neg hq, wp_bind, wp_pure, wp_setUpdated, hwfu.isSomeU]
      refine ⟨hib, fun h => absurd h hq, fun _ => rfl, ⟨rfl, rfl⟩, ?_⟩
      rw [upd_mark hwfu hib, if_pos ⟨rfl, rfl⟩]
  unfold visit
  rw [wp_bind, wp_getUpdated, hwfu.isSomeU, hu]
  simp only [hib, true_and, Bool.false_eq_true, if_false]
  rw [wp_bind, wp_getCell, hwf.isSome]
  simp only [hib, true_and]
  rcases ht with ha | ha
  · rw [if_neg (by rw [ha]; simp), if_neg (by rw [ha]; simp [sandlike]),
      if_neg (by rw [ha]; simp [liquid]), if_neg (by rw [ha]; simp [gas]),
      if_neg (by rw [ha]; simp), if_neg (by rw [ha]; simp), if_neg (by rw [ha]; simp),
      if_neg (by rw [ha]; simp), if_neg (by rw [ha]; simp), if_neg (by rw [ha]; simp),
      if_neg (by rw [ha]; simp), if_neg (by rw [ha]; simp), if_pos (Or.inl ha)]
    exact hrule
  · rw [if_neg (by rw [ha]; simp), if_neg (by rw [ha]; simp [sandlike]),
      if_neg (by rw [ha]; simp [liquid]), if_neg (by rw [ha]; simp [gas]),
      if_neg (by rw [ha]; simp), if_neg (by rw [ha]; simp), if_neg (by rw [ha]; simp),
      if_neg (by rw [ha]; simp), if_neg (by rw [ha]; simp), if_neg (by rw [ha]; simp),
      if_neg (by rw [ha]; simp), if_neg (by rw [ha]; simp), if_pos (Or.inr ha)]
    exact hrule

theorem conduction_step_witness :
    liveWire.WF ∧ liveWire.WFU ∧ 0 < (liveWire.cell 1 0).life ∧
      wp (visit 1 0) (fun _ w1 =>
        (0 < (liveWire.cell 1 0).life →
          w1.cell 1 0 = ⟨(liveWire.cell 1 0).type, (liveWire.cell 1 0).life - 1⟩ ∧
          ∀ dx dy, -1 ≤ dx ∧ dx ≤ 1 → -1 ≤ dy ∧ dy ≤ 1 → ¬ (dx = 0 ∧ dy = 0) →
            liveWire.inb (1 + dx) (0 + dy) = true →
            (w1.cell (1 + dx) (0 + dy)).type ∈ [WIRE, METAL, WATER, SALTWATER] →
            (liveWire.cell 1 0).life - 1 ≤ (w1.cell (1 + dx) (0 + dy)).life) ∧
        ((liveWire.cell 1 0).life ≤ 0 → w1 = liveWire.mark 1 0) ∧
        SameDims liveWire w1 ∧ w1.upd 1 0 = true) liveWire :=
  ⟨by decide, by decide, by decide,
    conduction_step liveWire (by decide) (by decide) 1 0 (by decide) (by decide)
      (Or.inl (by decide))⟩

/-- The conduction step evaluated on three rows: the charge 3 of the wire raises both
neighbours to 2; next to gunpowder (with a stream that makes every `chance` succeed) the
explosion turns the water into `FIRE` and leaves the wire; a wire without charge
changes nothing. -/
theorem conduction_cases :
    snapshot (visit 1 0) liveWire =
        some ([[⟨WATER, 2⟩, ⟨WIRE, 2⟩, ⟨METAL, 2⟩]], [[false, true, false]], 0) ∧
      gridAfter (visit 1 0) wireByPowder =
        some [[⟨FIRE, 15⟩, ⟨WIRE, 2⟩, ⟨FIRE, 15⟩]] ∧
      snapshot (visit 1 0) deadWire =
        some ([[⟨WATER, 0⟩, ⟨WIRE, 0⟩, ⟨METAL, 1⟩]], [[false, true, false]], 0) := by
  decide

/-! ## The attack of a zombie -/

theorem Bite.biteRefl {w : World} (hwf : w.WF) : Bite w w :=
  ⟨⟨rfl, rfl⟩, hwf, rfl, rfl, le_refl _, fun _ _ => Or.inl rfl⟩

theorem Bitten.bitKind {w w1 : World} {a b : Int} (h : Bitten w w1 a b) :
    w1.cell a b = ⟨ZOMBIE, 0⟩ ∨ w1.cell a b = ⟨FIRE, 10⟩ := by
  obtain ⟨k, _, _, hc⟩ := h
  rw [hc]
  split
  · exact Or.inl rfl
  · exact Or.inr rfl

theorem Bite.biteTrans {w w1 w2 : World} (h1 : Bite w w1) (h2 : Bite w1 w2) : Bite w w2 := by
  obtain ⟨d1, _, u1, s1, p1, c1⟩ := h1
  obtain ⟨d2, wf2, u2, s2, p2, c2⟩ := h2
  refine ⟨⟨d2.1.trans d1.1, d2.2.trans d1.2⟩, wf2, u2.trans u1, s2.trans s1, le_trans p1 p2,
    fun a b => ?_⟩
  rcases c2 a b with e2 | ⟨hh, k, hk1, hk2, hc⟩
  · rcases c1 a b with e1 | ⟨hh, k, hk1, hk2, hc⟩
    · exact Or.inl (e2.trans e1)
    · exact Or.inr ⟨hh, k, hk1, lt_of_lt_of_le hk2 p2, e2.trans hc⟩
  · rcases c1 a b with e1 | ⟨_, hb⟩
    · refine Or.inr ⟨by rw [← e1]; exact hh, k, le_trans p1 hk1, hk2, ?_⟩
      rw [hc, s1]
    · rcases hb.bitKind with e | e <;> rw [e] at hh <;> cases hh

theorem Bite.biteDrawn {w w1 : World} (h : Bite w w1) : Bite w w1.draw := by
  obtain ⟨d1, wf1, u1, s1, p1, c1⟩ := h
  refine ⟨d1, wf1, u1, s1, Nat.le_succ_of_le p1, fun a b => ?_⟩
  rcases c1 a b with e1 | ⟨hh, k, hk1, hk2, hc⟩
  · exact Or.inl e1
  · exact Or.inr ⟨hh, k, hk1, Nat.lt_succ_of_lt hk2, hc⟩

/-- The two loops of the attack of a zombie at `(x, y)`: every cell is as before or was
a `HUMAN` and is bitten, and no `HUMAN` is left among the 8 neighbours. -/
theorem zombieAttack_bite (w : World) (hwf : w.WF) (x y : Int) :
    wp (zombieAttack x y) (fun _ w1 => w1.WF ∧ Bite w w1 ∧
      ∀ dx ∈ span 1, ∀ dy ∈ span 1, ¬ (dx = 0 ∧ dy = 0) → w1.inb (x + dx) (y + dy) = true →
        (w1.cell (x + dx) (y + dy)).type ≠ HUMAN) w := by
  unfold zombieAttack
  refine wp_forBox_each (fun w1 => w1.WF) Bite
    (fun dx dy w1 => ¬ (dx = 0 ∧ dy = 0) → w1.inb (x + dx) (y + dy) = true →
      (w1.cell (x + dx) (y + dy)).type ≠ HUMAN)
    (fun w1 h1 => Bite.biteRefl h1) (fun _ _ _ h1 h2 => h1.biteTrans h2) ?_ 1 _ ?_ w hwf
  · intro dx dy w1 w2 hB hP h0 hn
    rcases hB.2.2.2.2.2 (x + dx) (y + dy) with e | ⟨_, hb⟩
    · rw [e]
      exact hP h0 ((inb_dims hB.1 _ _).symm.trans hn)
    · rcases hb.bitKind with e | e <;> rw [e] <;> simp
  · intro dx _ dy _ w1 hwf1
    refine wp_cases (fun h0 => (wp_pure _ _ _).2 ⟨hwf1, Bite.biteRefl hwf1, fun h => absurd h0 h⟩)
      (fun h0 => ?_)
    rw [wp_bind, wp_in_bounds]
    cases hn : w1.inb (x + dx) (y + dy)
    · rw [if_pos (by rfl), wp_pure]
      exact ⟨hwf1, Bite.biteRefl hwf1, fun _ h => by rw [hn] at h; cases h⟩
    · rw [if_neg (by simp), wp_bind, wp_getCell, hwf1.isSome]
      refine ⟨hn, ?_⟩
      refine wp_cases (fun hh => ?_)
        (fun hh => (wp_pure _ _ _).2 ⟨hwf1, Bite.biteRefl hwf1, fun _ _ => hh⟩)
      rw [wp_bind, wp_chance]
      have hroll : w1.roll 1 100 = 1 + ((w1.draws w1.pos : Nat) : Int) % 100 := by
        unfold World.roll
        norm_num
      have hfin : ∀ c : Cell,
          c = (if 1 + ((w1.draws w1.pos : Nat) : Int) % 100 ≤ 70 then ⟨ZOMBIE, 0⟩
            else ⟨FIRE, 10⟩) →
          (w1.draw.put (x + dx) (y + dy) c).WF ∧ Bite w1 (w1.draw.put (x + dx) (y + dy) c) ∧
          (¬ (dx = 0 ∧ dy = 0) → (w1.draw.put (x + dx) (y + dy) c).inb (x + dx) (y + dy) = true →
            ((w1.draw.put (x + dx) (y + dy) c).cell (x + dx) (y + dy)).type ≠ HUMAN) := by
        intro c hc
        have hwfD : w1.draw.WF := hwf1
        have hnD : w1.draw.inb (x + dx) (y + dy) = true := hn
        refine ⟨hwfD.putWF _ _ _, ⟨⟨rfl, rfl⟩, hwfD.putWF _ _ _, rfl, rfl, Nat.le_succ _,
          fun a b => ?_⟩, fun _ _ => ?_⟩
        · rw [cell_put hwfD hnD]
          split
          · rename_i hab
            obtain ⟨rfl, rfl⟩ := hab
            exact Or.inr ⟨hh, w1.pos, le_refl _, Nat.lt_succ_self _, by
              rw [cell_put hwfD hnD, if_pos ⟨rfl, rfl⟩]
              exact hc⟩
          · exact Or.inl rfl
        · rw [cell_put hwfD hnD, if_pos ⟨rfl, rfl⟩, hc]
          split <;> simp
      refine wp_cases (fun hc => ?_) (fun hc => ?_)
      · rw [wp_setCell, draw_grid, hwf1.isSome]
        refine ⟨hn, hfin _ ?_⟩
        rw [if_pos (by rw [← hroll]; simpa using hc)]
      · rw [wp_setCell, draw_grid, hwf1.isSome]
        refine ⟨hn, hfin _ ?_⟩
        rw [if_neg (by rw [← hroll]; simpa using hc)]

/-- The gravity block of an agent that has something other than `EMPTY` or a gas below
it, or stands on the bottom row: nothing moves. -/
theorem agentFall_stuck (w : World) (hwf : w.WF) (x y : Int)
    (h : w.inb x (y + 1) = true → passable (w.cell x (y + 1)) = false) :
    wp (agentFall x y) (fun r w1 => r = false ∧ w1 = w) w := by
  simp only [agentFall, wp_bind, wp_in_bounds, wp_ite, wp_pure, wp_getCell, hwf.isSome]
  cases hb : w.inb x (y + 1)
  · simp
  · have h1 := h hb
    unfold passable at h1
    simp [h1]

/-- The search of an agent reads only. -/
theorem seek_ro (x y : Int) (target : Element) (w : World) (hwf : w.WF) :
    wp (seek x y target) (fun _ w1 => w1 = w) w := by
  unfold seek
  refine wp_findM (fun w1 => w1 = w) _ _ ?_ w rfl
  intro ry _ w1 h1
  refine wp_findM (fun w1 => w1 = w) _ _ ?_ w1 h1
  intro rx _ w2 h2
  subst h2
  simp only [wp_bind, wp_in_bounds, wp_ite, wp_pure, wp_getCell, hwf.isSome]
  split_ifs with h3 h4 <;>
    first
      | trivial
      | exact inb_of_not h3
      | exact ⟨inb_of_not h3, trivial⟩

theorem Shift.shiftRefl {x y : Int} {w : World} (hwf : w.WF) : Shift x y w w :=
  ⟨⟨rfl, rfl⟩, hwf, rfl, rfl, le_refl _, fun _ _ => Or.inl rfl⟩

theorem Shift.shiftAfterDraw {x y : Int} {w w1 : World} (h : Shift x y w.draw w1) :
    Shift x y w w1 :=
  ⟨h.1, h.2.1, h.2.2.1, h.2.2.2.1, Nat.le_of_succ_le h.2.2.2.2.1, h.2.2.2.2.2⟩

/-- The exchange of the agent at `(x, y)` with a cell that is `EMPTY` or a gas. -/
theorem Shift.shiftSwapped {x y : Int} {w : World} (hwf : w.WF) (hib : w.inb x y = true)
    {tx ty : Int} (ht : w.inb tx ty = true) (hs : passable (w.cell tx ty) = true) :
    Shift x y w ((w.put tx ty (w.cell x y)).put x y (w.cell tx ty)) := by
  have hwf1 : (w.put tx ty (w.cell x y)).WF := hwf.putWF _ _ _
  refine ⟨⟨rfl, rfl⟩, hwf1.putWF _ _ _, rfl, rfl, le_refl _, fun a b => ?_⟩
  rw [cell_put hwf1 (show (w.put tx ty (w.cell x y)).inb x y = true from hib), cell_put hwf ht]
  by_cases h1 : a = x ∧ b = y
  · rw [if_pos h1]
    exact Or.inr (Or.inr ⟨h1, hs⟩)
  · rw [if_neg h1]
    by_cases h2 : a = tx ∧ b = ty
    · rw [if_pos h2]
      obtain ⟨rfl, rfl⟩ := h2
      exact Or.inr (Or.inl ⟨hs, rfl⟩)
    · rw [if_neg h2]
      exact Or.inl rfl

/-- The lambda `walk_try`: either nothing happens, or the agent is exchanged with the
target, which was `EMPTY` or a gas. -/
theorem walk_try_shift (w : World) (hwf : w.WF) (x y tx ty : Int) (hib : w.inb x y = true) :
    wp (walk_try x y tx ty) (fun r w1 => Shift x y w w1 ∧ (r = false → w1 = w)) w := by
  generalize hQ : (fun (r : Bool) (w1 : World) => Shift x y w w1 ∧ (r = false → w1 = w)) = Q
  have hQ1 : ∀ r w1, (Shift x y w w1 ∧ (r = false → w1 = w)) → Q r w1 := by
    intro r w1 h
    rw [← hQ]
    exact h
  simp only [walk_try, wp_bind, wp_in_bounds, wp_ite, wp_pure, wp_getCell, wp_setCell,
    isSome_put, hwf.isSome, hib, true_and]
  split_ifs with h1 h2
  · exact hQ1 _ _ ⟨Shift.shiftRefl hwf, fun _ => rfl⟩
  · exact ⟨inb_of_not h1, inb_of_not h1,
      hQ1 _ _ ⟨Shift.shiftSwapped hwf hib (inb_of_not h1) h2, fun h => absurd h (by simp)⟩⟩
  · exact ⟨inb_of_not h1, hQ1 _ _ ⟨Shift.shiftRefl hwf, fun _ => rfl⟩⟩

/-- The condition of the hop consumes at most one draw and is true only if the cell
above the agent is in bounds and `EMPTY`. -/
theorem hopReady_ro (w : World) (hwf : w.WF) (x y dir : Int) (hib : w.inb x y = true) :
    wp (hopReady x y dir) (fun r w1 => (w1 = w ∨ w1 = w.draw) ∧
      (r = true → w.inb x (y - 1) = true ∧ empty (w.cell x (y - 1)) = true)) w := by
  generalize hQ : (fun (r : Bool) (w1 : World) => (w1 = w ∨ w1 = w.draw) ∧
    (r = true → w.inb x (y - 1) = true ∧ empty (w.cell x (y - 1)) = true)) = Q
  have hQ1 : ∀ r w1, ((w1 = w ∨ w1 = w.draw) ∧
      (r = true → w.inb x (y - 1) = true ∧ empty (w.cell x (y - 1)) = true)) → Q r w1 := by
    intro r w1 h
    rw [← hQ]
    exact h
  have hup : w.inb (x + dir) (y - 1) = true → w.inb x (y - 1) = true := by
    intro h1
    unfold World.inb at hib h1 ⊢
    simp only [Bool.and_eq_true, decide_eq_true_eq] at hib h1 ⊢
    omega
  simp only [hopReady, wp_bind, wp_in_bounds, wp_ite, wp_pure, wp_getCell, wp_chance,
    hwf.isSome]
  split_ifs with h1 h2 h3
  · exact hQ1 _ _ ⟨Or.inl rfl, fun hh => absurd hh (by simp)⟩
  · exact ⟨inb_of_not h1, hQ1 _ _ ⟨Or.inl rfl, fun hh => absurd hh (by simp)⟩⟩
  · exact ⟨inb_of_not h1, hup (inb_of_not h1),
      hQ1 _ _ ⟨Or.inl rfl, fun hh => absurd hh (by simp)⟩⟩
  · refine ⟨inb_of_not h1, hup (inb_of_not h1),
      hQ1 _ _ ⟨Or.inr rfl, fun _ => ⟨hup (inb_of_not h1), ?_⟩⟩⟩
    simpa using h3

/-- The walk of an agent exchanges it with at most one cell, which was `EMPTY` or a
gas. -/
theorem agentStep_shift (w : World) (hwf : w.WF) (x y dir : Int) (hib : w.inb x y = true) :
    wp (agentStep x y dir) (fun _ w1 => Shift x y w w1) w := by
  have hrest : wp (do
      let hop ← hopReady x y dir
      if hop then do
        let a ← getCell x (y - 1)
        let c ← getCell x y
        setCell x (y - 1) c
        setCell x y a
      else do
        let r ← rint 0 1
        let _ ← walk_try x y (x + (if r ≠ 0 then 1 else -1)) y
        pure ()) (fun _ w1 => Shift x y w w1) w := by
    rw [wp_bind]
    refine wp_mono (hopReady_ro w hwf x y dir hib) ?_
    rintro hop w1 ⟨hw1, hhop⟩
    have hwf1 : w1.WF := by rcases hw1 with rfl | rfl <;> exact hwf
    have hib1 : w1.inb x y = true := by rcases hw1 with rfl | rfl <;> exact hib
    have hback : ∀ w2, Shift x y w1 w2 → Shift x y w w2 := by
      intro w2 h2
      rcases hw1 with rfl | rfl
      · exact h2
      · exact h2.shiftAfterDraw
    have hcell : ∀ a b, w1.cell a b = w.cell a b := by
      intro a b
      rcases hw1 with rfl | rfl <;> rfl
    have hinb : ∀ a b, w1.inb a b = w.inb a b := by
      intro a b
      rcases hw1 with rfl | rfl <;> rfl
    cases hop with
    | true =>
      obtain ⟨hup, hemp⟩ := hhop rfl
      have hup1 : w1.inb x (y - 1) = true := (hinb _ _).trans hup
      rw [if_pos rfl]
      simp only [wp_bind, wp_getCell, wp_setCell, isSome_put, hwf1.isSome, hib1, hup1, true_and]
      refine hback _ (Shift.shiftSwapped hwf1 hib1 hup1 ?_)
      unfold passable
      rw [hcell, hemp]
      rfl
    | false =>
      rw [if_neg (by simp), wp_bind, wp_rint, wp_bind]
      refine wp_mono (walk_try_shift w1.draw hwf1 x y _ y hib1) ?_
      intro _ w2 h2
      rw [wp_pure]
      exact hback _ h2.1.shiftAfterDraw
  unfold agentStep
  rw [wp_bind]
  refine wp_mono (walk_try_shift w hwf x y (x + dir) y hib) ?_
  rintro walked w1 ⟨hS, hr⟩
  cases walked with
  | true =>
    rw [if_neg (by simp), wp_pure]
    exact hS
  | false =>
    rw [if_pos (by rfl), hr rfl]
    exact hrest

/-- C28: the combat of a zombie, in any state of a tick. When the visit reaches an
unflagged `ZOMBIE` at `(x, y)` that survives its hazard check (no in-bounds cell of the
3x3 around it is deadly) and does not fall (the cell below is out of bounds or neither
`EMPTY` nor a gas), the visit returns, and for each of the 8 neighbours: if it was a
`HUMAN`, it is now the outcome of one draw in `[1, 100]` made during the visit,
`ZOMBIE` with life 0 when the draw is at most 70 and `FIRE` with life 10 otherwise; and
in any case it is not a `HUMAN` after the visit. -/
theorem zombie_combat (w : World) (hwf : w.WF) (hwfu : w.WFU) (x y : Int)
    (hib : w.inb x y = true) (hu : w.upd x y = false) (hz : (w.cell x y).type = ZOMBIE)
    (hsafe : ∀ dx dy, -1 ≤ dx ∧ dx ≤ 1 → -1 ≤ dy ∧ dy ≤ 1 → w.inb (x + dx) (y + dy) = true →
      deadly (w.cell (x + dx) (y + dy)) = false)
    (hstand : w.inb x (y + 1) = true →
      (w.cell x (y + 1)).type ≠ EMPTY ∧ gas (w.cell x (y + 1)).type = false) :
    wp (visit x y) (fun _ w1 =>
      ∀ dx dy, -1 ≤ dx ∧ dx ≤ 1 → -1 ≤ dy ∧ dy ≤ 1 → ¬ (dx = 0 ∧ dy = 0) →
        w.inb (x + dx) (y + dy) = true →
        ((w.cell (x + dx) (y + dy)).type = HUMAN →
          ∃ k : Nat, w.pos ≤ k ∧ k < w1.pos ∧
            w1.cell (x + dx) (y + dy) =
              if 1 + ((w.draws k : Nat) : Int) % 100 ≤ 70 then ⟨ZOMBIE, 0⟩ else ⟨FIRE, 10⟩) ∧
        (w1.cell (x + dx) (y + dy)).type ≠ HUMAN) w := by
  unfold visit
  rw [wp_bind, wp_getUpdated, hwfu.isSomeU, hu]
  simp only [hib, true_and, Bool.false_eq_true, if_false]
  rw [wp_bind, wp_getCell, hwf.isSome]
  simp only [hib, true_and]
  rw [if_neg (by rw [hz]; simp), if_neg (by rw [hz]; simp [sandlike]),
    if_neg (by rw [hz]; simp [liquid]), if_neg (by rw [hz]; simp [gas]),
    if_neg (by rw [hz]; simp), if_neg (by rw [hz]; simp), if_neg (by rw [hz]; simp),
    if_pos hz]
  unfold zombieRule
  rw [wp_bind]
  refine wp_mono (zombieHazard_scan w hwf x y hib) ?_
  rintro _ w1 (⟨_, dy0, hdy0, dx0, hdx0, hin, hd⟩ | ⟨hw1, _⟩)
  · rw [hsafe dx0 dy0 ((mem_span 1 dx0).1 hdx0) ((mem_span 1 dy0).1 hdy0) hin] at hd
    cases hd
  rw [hw1]
  rw [wp_bind, wp_getCell, hwf.isSome]
  refine ⟨hib, ?_⟩
  rw [if_neg (fun h => h hz), wp_bind, wp_setLife, hwf.isSome]
  refine ⟨hib, ?_⟩
  generalize hL : w.put x y ⟨(w.cell x y).type, inc32 (w.cell x y).life⟩ = wL
  have hwfL : wL.WF := by rw [← hL]; exact hwf.putWF _ _ _
  have hinL : ∀ a b, wL.inb a b = w.inb a b := by intro a b; rw [← hL]; rfl
  have hposL : wL.pos = w.pos := by rw [← hL]; rfl
  have hdrL : wL.draws = w.draws := by rw [← hL]; rfl
  have hupL : wL.updated = w.updated := by rw [← hL]; rfl
  have hdimL : SameDims w wL := by rw [← hL]; exact ⟨rfl, rfl⟩
  have hcellL : ∀ a b, wL.cell a b =
      if a = x ∧ b = y then ⟨(w.cell x y).type, inc32 (w.cell x y).life⟩ else w.cell a b := by
    intro a b
    rw [← hL, cell_put hwf hib]
  rw [wp_bind]
  refine wp_mono (agentFall_stuck wL hwfL x y ?_) ?_
  · intro hb
    rw [hinL] at hb
    rw [hcellL, if_neg (by omega)]
    unfold passable empty
    have := hstand hb
    simp [this.1, this.2]
  rintro fell w2 ⟨hf, hw2⟩
  rw [hf, hw2, if_neg (by simp), wp_bind]
  refine wp_mono (seek_ro x y HUMAN wL hwfL) ?_
  intro seen w3 hw3
  rw [hw3, wp_bind]
  refine wp_mono (zombieAttack_bite wL hwfL x y) ?_
  rintro _ w4 ⟨hwf4, hB, hP⟩
  have htail : ∀ (dir : Int) (w5 : World), Bite wL w5 →
      (∀ dx ∈ span 1, ∀ dy ∈ span 1, ¬ (dx = 0 ∧ dy = 0) → w5.inb (x + dx) (y + dy) = true →
        (w5.cell (x + dx) (y + dy)).type ≠ HUMAN) →
      wp (do
        agentStep x y dir
        setUpdated x y) (fun _ w1 =>
        ∀ dx dy, -1 ≤ dx ∧ dx ≤ 1 → -1 ≤ dy ∧ dy ≤ 1 → ¬ (dx = 0 ∧ dy = 0) →
          w.inb (x + dx) (y + dy) = true →
          ((w.cell (x + dx) (y + dy)).type = HUMAN →
            ∃ k : Nat, w.pos ≤ k ∧ k < w1.pos ∧
              w1.cell (x + dx) (y + dy) =
                if 1 + ((w.draws k : Nat) : Int) % 100 ≤ 70 then ⟨ZOMBIE, 0⟩
                else ⟨FIRE, 10⟩) ∧
          (w1.cell (x + dx) (y + dy)).type ≠ HUMAN) w5 := by
    intro dir w5 hB5 hP5
    have hwf5 : w5.WF := hB5.2.1
    have hib5 : w5.inb x y = true := ((inb_dims hB5.1 x y).trans (hinL x y)).trans hib
    rw [wp_bind]
    refine wp_mono (agentStep_shift w5 hwf5 x y dir hib5) ?_
    intro _ w6 hS
    have hdim6 : SameDims w w6 :=
      ⟨(hS.1.1.trans hB5.1.1).trans hdimL.1, (hS.1.2.trans hB5.1.2).trans hdimL.2⟩
    have hwfu6 : w6.WFU := by
      unfold World.WFU
      rw [hS.2.2.1, hB5.2.2.1, hupL, hdim6.1, hdim6.2]
      exact hwfu
    rw [wp_setUpdated, hwfu6.isSomeU]
    refine ⟨(inb_dims hdim6 x y).trans hib, ?_⟩
    intro dx dy hdx hdy h0 hn
    have hne : ¬ (x + dx = x ∧ y + dy = y) := by omega
    have hn5 : w5.inb (x + dx) (y + dy) = true :=
      ((inb_dims hB5.1 _ _).trans (hinL _ _)).trans hn
    have hP5n := hP5 dx ((mem_span 1 dx).2 hdx) dy ((mem_span 1 dy).2 hdy) h0 hn5
    have hown : (w5.cell x y).type = ZOMBIE := by
      rcases hB5.2.2.2.2.2 x y with e | ⟨hh, _⟩
      · rw [e, hcellL, if_pos ⟨rfl, rfl⟩]
        exact hz
      · rw [hcellL, if_pos ⟨rfl, rfl⟩] at hh
        rw [hz] at hh
        cases hh
    rw [mark_cell]
    constructor
    · intro hh
      rcases hB5.2.2.2.2.2 (x + dx) (y + dy) with e | ⟨_, hb⟩
      · rw [e, hcellL, if_neg hne] at hP5n
        exact absurd hh hP5n
      · have hnp : passable (w5.cell (x + dx) (y + dy)) = false := by
          rcases hb.bitKind with e | e <;> rw [e] <;> rfl
        obtain ⟨k, hk1, hk2, hc⟩ := hb
        have h6 : w6.cell (x + dx) (y + dy) = w5.cell (x + dx) (y + dy) := by
          rcases hS.2.2.2.2.2 (x + dx) (y + dy) with e | ⟨hp, _⟩ | ⟨hxy, _⟩
          · exact e
          · rw [hnp] at hp
            cases hp
          · exact absurd hxy hne
        refine ⟨k, by rw [← hposL]; exact hk1, lt_of_lt_of_le hk2 hS.2.2.2.2.1, ?_⟩
        rw [h6, hc, hdrL]
    · rcases hS.2.2.2.2.2 (x + dx) (y + dy) with e | ⟨_, e⟩ | ⟨hxy, _⟩
      · rw [e]
        exact hP5n
      · rw [e, hown]
        simp
      · exact absurd hxy hne
  rw [wp_bind]
  cases seen with
  | none =>
    simp only []
    rw [wp_bind, wp_rint, wp_pure]
    exact htail _ _ hB.biteDrawn hP
  | some p =>
    obtain ⟨hx, hy⟩ := p
    simp only []
    rw [wp_pure]
    exact htail _ _ hB hP

theorem zombie_combat_witness :
    zombieAmidHumans.WF ∧ zombieAmidHumans.WFU ∧
      wp (visit 1 0) (fun _ w1 =>
        ∀ dx dy, -1 ≤ dx ∧ dx ≤ 1 → -1 ≤ dy ∧ dy ≤ 1 → ¬ (dx = 0 ∧ dy = 0) →
          zombieAmidHumans.inb (1 + dx) (0 + dy) = true →
          ((zombieAmidHumans.cell (1 + dx) (0 + dy)).type = HUMAN →
            ∃ k : Nat, zombieAmidHumans.pos ≤ k ∧ k < w1.pos ∧
              w1.cell (1 + dx) (0 + dy) =
                if 1 + ((zombieAmidHumans.draws k : Nat) : Int) % 100 ≤ 70 then ⟨ZOMBIE, 0⟩
                else ⟨FIRE, 10⟩) ∧
          (w1.cell (1 + dx) (0 + dy)).type ≠ HUMAN) zombieAmidHumans :=
  ⟨by decide, by decide,
    zombie_combat zombieAmidHumans (by decide) (by decide) 1 0 (by decide) (by decide)
      (by decide)
      (fun dx dy hdx hdy => by
        obtain ⟨h1, h2⟩ := hdx
        obtain ⟨h3, h4⟩ := hdy
        interval_cases dx <;> interval_cases dy <;> decide)
      (fun h => absurd h (by decide))⟩

/-- The attack evaluated: the left human's draw is 1 and it becomes a `ZOMBIE`, the
right human's draw is 100 and it becomes `FIRE` with life 10; the zombie then finds no
free cell to walk to. -/
theorem zombie_attack_instance :
    snapshot (visit 1 0) zombieAmidHumans =
      some ([[⟨ZOMBIE, 0⟩, ⟨ZOMBIE, 1⟩, ⟨FIRE, 10⟩]], [[false, true, false]], 3) := by
  decide

/-! ## Lightning is neither created nor moved -/

/-- An `EMPTY` cell is skipped by the sweep, whatever its life: in the column
`staleEmpty`, which holds `LIGHTNING` with life 2 over an `EMPTY` cell with life 1,
after two ticks the bolt is `EMPTY` with life 0 and the cell below still has life 1. -/
theorem stale_empty_instance :
    gridAfter (ticks 2) staleEmpty = some [[⟨EMPTY, 0⟩], [⟨EMPTY, 1⟩]] := by
  decide

/-- A bolt whose life is `INT_MIN`: the decrement `cell.life--` wraps around to
`INT_MAX`, so the cell is still `LIGHTNING` after two ticks. -/
theorem bolt_wraps :
    gridAfter (ticks 2) (World.ofGrid 1 1 [[⟨LIGHTNING, -2147483648⟩]] fun n => n) =
      some [[⟨LIGHTNING, 2147483646⟩]] := by
  decide

/-- The column `boltColumn` tick by tick: the bolt of life 2 survives one tick with
life 1, the bolt of life 1 is `EMPTY` after one tick, and after two ticks every cell is
`EMPTY` with life 0. A bolt of life 3 is still `LIGHTNING` after two ticks: the bound 2
cannot be raised. -/
theorem bolt_column_instance :
    gridAfter (ticks 1) boltColumn = some [[⟨LIGHTNING, 1⟩], [⟨EMPTY, 0⟩], [⟨EMPTY, 0⟩]] ∧
      gridAfter (ticks 2) boltColumn = some [[⟨EMPTY, 0⟩], [⟨EMPTY, 0⟩], [⟨EMPTY, 0⟩]] ∧
      gridAfter (ticks 2) longBolt = some [[⟨LIGHTNING, 1⟩], [⟨STONE, 0⟩]] := by
  decide

/-! ## A column of two liquids, for every stream -/

/-- The visit of an unflagged liquid cell is the branch `liquids`. -/
theorem visit_liquid (w : World) (hwf : w.WF) (hwfu : w.WFU) (x y : Int)
    (hib : w.inb x y = true) (hu : w.upd x y = false) (hl : liquid (w.cell x y).type = true)
    (Q : Unit → World → Prop) :
    wp (visit x y) Q w ↔ wp (liquidRule x y (w.cell x y).type) Q w := by
  have h1 : ¬ ((w.cell x y).type = EMPTY ∨ (w.cell x y).type = WALL) := by
    intro h
    rcases h with h | h <;> rw [h] at hl <;> cases hl
  have h2 : ¬ sandlike (w.cell x y).type = true := by
    intro h
    revert hl h
    cases (w.cell x y).type <;> simp [liquid, sandlike]
  unfold visit
  rw [wp_bind, wp_getUpdated, hwfu.isSomeU, hu]
  simp only [hib, true_and, Bool.false_eq_true, if_false]
  rw [wp_bind, wp_getCell, hwf.isSome]
  simp only [hib, true_and]
  rw [if_neg h1, if_neg h2, if_pos hl]

/-- Every life of `mixedLives` is nonnegative. -/
theorem mixedLives_nonNeg : NonNeg mixedLives := by
  intro x y hib
  have hb := (inb_iff mixedLives x y).1 hib
  have h1 : (0 ≤ x ∧ x < 2) ∧ 0 ≤ y ∧ y < 2 := hb
  obtain ⟨⟨h2, h3⟩, h4, h5⟩ := h1
  interval_cases x <;> interval_cases y <;> decide

/-- C31 (as stated) fails: the animation counter of an agent is incremented without a
cap (`cell.life++`), and at `INT_MAX` the increment wraps around. The 1x1 grid
`ancientHuman` has a nonnegative life, and after one tick the life of the `HUMAN` is
`INT_MIN`. -/
theorem life_never_negative_counterexample :
    ancientHuman.WF ∧ (∀ row ∈ ancientHuman.grid, ∀ c ∈ row, 0 ≤ c.life) ∧
      gridAfter step_sim ancientHuman = some [[⟨HUMAN, -2147483648⟩]] := by
  decide

/-- A tick with room for the counters: on a rectangular grid of at most `2^31 - 301`
cells whose lives are nonnegative and at most `INT_MAX - gWidth * gHeight`, `step_sim`
returns and leaves every life nonnegative. -/
theorem tick_nonNeg (w : World) (hwf : w.WF) (hn : NonNeg w)
    (hsz : w.gWidth * w.gHeight ≤ 2147483347)
    (hroom : ∀ x y, w.inb x y = true →
      (w.cell x y).life + w.gWidth * w.gHeight ≤ 2147483647) :
    wp step_sim (fun _ w1 => NonNeg w1) w := by
  refine wp_mono (step_sim_inv True False (2147483347 - w.gWidth * w.gHeight).toNat w hwf
    (fun _ => ⟨hn, fun x y hib => ?_⟩) (fun h => h.elim) (fun h => h.elim) (fun _ => ?_)) ?_
  · have := hroom x y hib
    rw [Int.toNat_of_nonneg (by omega)]
    omega
  · rw [Int.toNat_of_nonneg (by omega)]
    omega
  · rintro _ w1 ⟨hd, _, hc⟩ x y hib1
    have hib : w.inb x y = true := (inb_dims hd x y).symm.trans hib1
    by_cases hw : (w.cell x y).type = WALL
    · rw [(hc x y hib).1 hw]
      exact hn x y hib
    · exact ((hc x y hib).2 hw).2.1 trivial

/-- C31 (amended): life never goes negative while the counters have room. On every
rectangular grid whose lives are all nonnegative and for every stream:
`explode(cx, cy, r)` with `r` other than `INT_MAX` and `place_brush(cx, cy, rad, e)` with
`rad` other than `INT_MAX` or `e = LIGHTNING` (the calls whose loops end) return and
leave every life nonnegative; and if the grid has at most `2^31 - 301` cells and every
life is at most `INT_MAX - gWidth * gHeight` (so that no increment `cell.life++` of the
tick passes `INT_MAX`), `step_sim` returns and leaves every life nonnegative (the
decrements of the gas, fire, lightning, wet-dirt and charge rules included, also when
they act on the cell that was swapped into the visited position). -/
theorem life_never_negative (w : World) (hwf : w.WF) (hn : NonNeg w) :
    (w.gWidth * w.gHeight ≤ 2147483347 →
      (∀ x y, w.inb x y = true → (w.cell x y).life + w.gWidth * w.gHeight ≤ 2147483647) →
      wp step_sim (fun _ w1 => NonNeg w1) w) ∧
    (∀ cx cy r, r ≠ 2147483647 → wp (explode cx cy r) (fun _ w1 => NonNeg w1) w) ∧
    ∀ cx cy rad e, (rad ≠ 2147483647 ∨ e = LIGHTNING) →
      wp (place_brush cx cy rad e) (fun _ w1 => NonNeg w1) w := by
  refine ⟨fun hsz hroom => ?_, fun cx cy r hr => ?_, fun cx cy rad e hr => ?_⟩
  · exact tick_nonNeg w hwf hn hsz hroom
  · refine wp_mono (explode_outcome w hwf cx cy r hr) ?_
    rintro _ w1 ⟨hd, _, _, _, _, hcells⟩ x y hib1
    have hib : w.inb x y = true := (inb_dims hd x y).symm.trans hib1
    rcases hcells x y with e | ⟨_, _, k, _, _, h1, h2, h3⟩
    · rw [e]
      exact hn x y hib
    · by_cases a : 1 + ((w.draws k : Nat) : Int) % 100 ≤ 50
      · have := (h1 a).2.1
        omega
      · by_cases b : 1 + ((w.draws k : Nat) : Int) % 100 ≤ 80
        · rw [h2 (by omega) b]
          decide
        · rw [h3 (by omega)]
          decide
  · by_cases he : e = LIGHTNING
    · subst he
      cases hin : w.inb cx cy with
      | false =>
        rw [strike_oob w cx cy rad hin]
        exact hn
      | true =>
        refine wp_mono (strike_inb w hwf cx cy rad hin) ?_
        rintro _ w1 ⟨hw1, hh1, _, _, _, _, yEnd, _, _, _, _, hcells⟩ x y hib1
        have hib : w.inb x y = true :=
          (inb_dims (show SameDims w w1 from ⟨hw1, hh1⟩) x y).symm.trans hib1
        rw [hcells]
        split_ifs
        · decide
        · exact le_trans (by decide) (le_max_right _ _)
        · exact hn x y hib
    · refine wp_mono (brush_outcome w hwf cx cy rad e he (hr.resolve_right he)) ?_
      rintro _ w1 ⟨hd, _, _, _, _, hcells⟩ x y hib1
      have hib : w.inb x y = true := (inb_dims hd x y).symm.trans hib1
      by_cases ht : w.inb x y = true ∧ Painted cx cy rad x y
      · rw [(hcells x y).1 ht]
        show 0 ≤ brushLife e
        unfold brushLife
        split_ifs <;> decide
      · rw [(hcells x y).2 ht]
        exact hn x y hib

theorem life_never_negative_witness :
    mixedLives.WF ∧ NonNeg mixedLives ∧
      ((mixedLives.gWidth * mixedLives.gHeight ≤ 2147483347 →
        (∀ x y, mixedLives.inb x y = true →
          (mixedLives.cell x y).life + mixedLives.gWidth * mixedLives.gHeight ≤ 2147483647) →
        wp step_sim (fun _ w1 => NonNeg w1) mixedLives) ∧
      (∀ cx cy r, r ≠ 2147483647 → wp (explode cx cy r) (fun _ w1 => NonNeg w1) mixedLives) ∧
      ∀ cx cy rad e, (rad ≠ 2147483647 ∨ e = LIGHTNING) →
        wp (place_brush cx cy rad e) (fun _ w1 => NonNeg w1) mixedLives) :=
  ⟨by decide, mixedLives_nonNeg, life_never_negative mixedLives (by decide) mixedLives_nonNeg⟩

/-- The tick of `mixedLives` leaves every life nonnegative: the conditions on the size of
the grid and on the lives hold. -/
theorem mixedLives_tick : wp step_sim (fun _ w1 => NonNeg w1) mixedLives := by
  refine tick_nonNeg mixedLives (by decide) mixedLives_nonNeg (by decide) ?_
  intro x y hib
  have hb := (inb_iff mixedLives x y).1 hib
  have h1 : (0 ≤ x ∧ x < 2) ∧ 0 ≤ y ∧ y < 2 := hb
  obtain ⟨⟨h2, h3⟩, h4, h5⟩ := h1
  interval_cases x <;> interval_cases y <;> decide

/-- C32 (code defect): sand that falls through water charges the water. The column
`WATER`, `SAND`, `WATER` holds no `LIGHTNING`, `FIRE`, `LAVA` or gas and every life is 0.
In the tick the sand sinks into the water below it; the seaweed timer of the sand then
increments the life of `cell`, which by now denotes the water swapped into the visited
position: after the tick that water has life 1 (here for two streams). One tick later
the charge is gone again and the sand carries the count. -/
theorem water_charged_by_sand :
    (wetSand fun _ => 0).WF ∧
      gridAfter step_sim (wetSand fun _ => 0) =
        some [[⟨WATER, 0⟩], [⟨WATER, 1⟩], [⟨SAND, 0⟩]] ∧
      gridAfter step_sim (wetSand fun n => n) =
        some [[⟨WATER, 0⟩], [⟨WATER, 1⟩], [⟨SAND, 0⟩]] ∧
      gridAfter (ticks 2) (wetSand fun _ => 0) =
        some [[⟨WATER, 0⟩], [⟨WATER, 0⟩], [⟨SAND, 1⟩]] := by
  decide!

/-! ## The brush applied twice -/

/-- Two rectangular vectors of vectors of the same dimensions with the same entries are
equal. -/
theorem rect_ext {α : Type} {g1 g2 : List (List α)} {wd h : Int}
    (h1 : (g1.length : Int) = h) (r1 : ∀ row ∈ g1, (row.length : Int) = wd)
    (h2 : (g2.length : Int) = h) (r2 : ∀ row ∈ g2, (row.length : Int) = wd)
    (hc : ∀ x y, at? g1 x y = at? g2 x y) : g1 = g2 := by
  apply List.ext_get?
  intro n
  by_cases hn : n < g1.length
  · have hn2 : n < g2.length := by omega
    rw [List.get?_eq_get hn, List.get?_eq_get hn2]
    congr 1
    apply List.ext_get?
    intro m
    have hrow1 := r1 _ (List.get_mem g1 n hn)
    have hrow2 := r2 _ (List.get_mem g2 n hn2)
    have := hc (m : Int) (n : Int)
    unfold at? nth? at this
    simp only [Int.natCast_nonneg, if_true, Int.toNat_ofNat, List.get?_eq_get hn,
      List.get?_eq_get hn2, Option.some_bind] at this
    exact this
  · have hn2 : ¬ n < g2.length := by omega
    rw [List.get?_eq_none.2 (by omega), List.get?_eq_none.2 (by omega)]

/-- Two rectangular states of the same dimensions whose cells agree have the same grid. -/
theorem grid_ext {w w1 : World} (hwf : w.WF) (hwf1 : w1.WF) (hd : SameDims w w1)
    (hc : ∀ x y, w1.cell x y = w.cell x y) : w1.grid = w.grid := by
  refine rect_ext hwf1.1 hwf1.2 (hd.2 ▸ hwf.1) (hd.1 ▸ hwf.2) ?_
  intro x y
  cases hib : w.inb x y with
  | true =>
    rw [hwf.atCell hib, hwf1.atCell ((inb_dims hd x y).trans hib), hc]
  | false =>
    have e1 := hwf.isSome x y
    have e2 := hwf1.isSome x y
    rw [inb_dims hd x y, hib] at e2
    rw [hib] at e1
    cases ha : PowderSandbox.at? w.grid x y with
    | some c => rw [ha] at e1; cases e1
    | none =>
      cases hb : PowderSandbox.at? w1.grid x y with
      | some c => rw [hb] at e2; cases e2
      | none => rfl

/-- Two states with the same fields are equal. -/
theorem world_ext {w w1 : World} (h1 : w1.gWidth = w.gWidth) (h2 : w1.gHeight = w.gHeight)
    (h3 : w1.grid = w.grid) (h4 : w1.updated = w.updated) (h5 : w1.draws = w.draws)
    (h6 : w1.pos = w.pos) : w1 = w := by
  cases w
  cases w1
  simp only at h1 h2 h3 h4 h5 h6
  subst h1 h2 h3 h4 h5 h6
  rfl

/-- A computation that returns, followed by another one. -/
theorem bind_some {α β : Type} {m : SimM α} {w w1 : World} {a : α} (h : m w = some (a, w1))
    (f : α → SimM β) : (m >>= f) w = f a w1 := by
  show (match m w with
    | some (a, w1) => f a w1
    | none => none) = f a w1
  rw [h]

/-- A computation that fails, followed by another one. -/
theorem bind_none {α β : Type} {m : SimM α} {w : World} (h : m w = none)
    (f : α → SimM β) : (m >>= f) w = none := by
  show (match m w with
    | some (a, w1) => f a w1
    | none => none) = none
  rw [h]

/-- Whether the bolt passes through a cell depends on its kind only. -/
theorem passable_kind {c d : Cell} (h : c.type = d.type) : passable c = passable d := by
  unfold passable empty
  rw [h]

/-- The brush of a kind other than `LIGHTNING` applied a second time changes nothing:
the positions the loops write to do not depend on the grid (for every radius for which
the loops end, also one for which the `int` arithmetic wraps around). -/
theorem brush_twice (w : World) (hwf : w.WF) (cx cy rad : Int) (e : Element)
    (he : e ≠ LIGHTNING) (hr : rad ≠ 2147483647) :
    wp (place_brush cx cy rad e) (fun _ w1 =>
      wp (place_brush cx cy rad e) (fun _ w2 => w2 = w1) w1) w := by
  refine wp_mono (brush_outcome w hwf cx cy rad e he hr) ?_
  rintro _ w1 ⟨hd, hwf1, hu, hdr, hpos, hcells⟩
  refine wp_mono (brush_outcome w1 hwf1 cx cy rad e he hr) ?_
  rintro _ w2 ⟨hd2, hwf2, hu2, hdr2, hpos2, hcells2⟩
  refine world_ext hd2.1 hd2.2 (grid_ext hwf1 hwf2 hd2 fun x y => ?_) hu2 hdr2 hpos2
  by_cases ht : w1.inb x y = true ∧ Painted cx cy rad x y
  · rw [(hcells2 x y).1 ht, (hcells x y).1 ⟨(inb_dims hd x y).symm.trans ht.1, ht.2⟩]
  · exact (hcells2 x y).2 ht

/-- The lightning brush applied a second time changes nothing: the cell below the start
of the bolt is now `LIGHTNING` or the surface that stopped the first bolt, so the second
bolt has length 1, and the charge of the water below is already at least 8. -/
theorem strike_twice (w : World) (hwf : w.WF) (cx cy rad : Int) :
    wp (place_brush cx cy rad LIGHTNING) (fun _ w1 =>
      wp (place_brush cx cy rad LIGHTNING) (fun _ w2 => w2 = w1) w1) w := by
  cases hin : w.inb cx cy with
  | false => rw [strike_oob w cx cy rad hin, strike_oob w cx cy rad hin]
  | true =>
    refine wp_mono (strike_inb w hwf cx cy rad hin) ?_
    rintro _ w1 ⟨hw1, hh1, hwf1, hu, hdr, hpos, yEnd, hy1, hy2, hpass, hstop, hcells⟩
    have hd : SameDims w w1 := ⟨hw1, hh1⟩
    have hin1 : w1.inb cx cy = true := (inb_dims hd cx cy).trans hin
    refine wp_mono (strike_inb w1 hwf1 cx cy rad hin1) ?_
    rintro _ w2 ⟨hw2, hh2, hwf2, hu2, hdr2, hpos2, yEnd2, hz1, hz2, hpass2, hstop2, hcells2⟩
    -- the second bolt ends where it starts
    have hend : yEnd2 = cy := by
      by_contra hne
      have hp := hpass2 (cy + 1) (by omega) (by omega)
      rw [hcells] at hp
      by_cases hb : cy + 1 ≤ yEnd
      · rw [if_pos ⟨rfl, by omega, hb⟩] at hp
        exact absurd hp (by decide)
      · have hye : yEnd = cy := by omega
        have hlt : yEnd + 1 < w.gHeight := by
          rw [hh1] at hz2
          omega
        have hs := hstop hlt
        rw [hye] at hs
        rw [if_neg (by omega)] at hp
        split at hp
        · rw [passable_kind (show (⟨(w.cell cx (cy + 1)).type,
            max (w.cell cx (cy + 1)).life 8⟩ : Cell).type = (w.cell cx (cy + 1)).type from rfl),
            hs] at hp
          cases hp
        · rw [hs] at hp
          cases hp
    subst hend
    refine world_ext hw2 hh2 (grid_ext hwf1 hwf2 ⟨hw2, hh2⟩ fun x y => ?_) hu2 hdr2 hpos2
    rw [hcells2]
    by_cases h1 : x = cx ∧ yEnd2 ≤ y ∧ y ≤ yEnd2
    · rw [if_pos h1, hcells, if_pos ⟨h1.1, h1.2.1, by omega⟩]
    · rw [if_neg h1]
      split
      · rename_i h2
        obtain ⟨hx, hy, hlt, hwat⟩ := h2
        -- the cell below the start is water in `w1`: the first bolt had length 1 too
        have hc1 := hcells x y
        by_cases hb : x = cx ∧ yEnd2 ≤ y ∧ y ≤ yEnd
        · rw [if_pos hb] at hc1
          rw [hc1] at hwat
          exact absurd hwat (by decide)
        · rw [if_neg hb] at hc1
          have hye : yEnd = yEnd2 := by omega
          split at hc1
          · rename_i h3
            rw [hc1]
            simp only [max_assoc, max_self]
          · rename_i h3
            exfalso
            apply h3
            rw [hc1] at hwat
            rw [hh1] at hlt
            exact ⟨hx, by omega, by omega, hwat⟩
      · rfl

/-- C36: `place_brush` is idempotent. On every rectangular grid, for all integers `cx`,
`cy`, `rad` and every kind `e` (`LIGHTNING` included), two calls of
`place_brush(cx, cy, rad, e)` in a row have the result of one call; and unless the loops
of the brush do not end (`rad = INT_MAX` with a kind other than `LIGHTNING`, when neither
one call nor two return), `place_brush` returns, and a second call with the same
arguments returns without changing anything: the grid (and the mask and the generator)
after two calls is the one after one call. -/
theorem place_brush_idempotent (w : World) (hwf : w.WF) (cx cy rad : Int) (e : Element) :
    (do place_brush cx cy rad e; place_brush cx cy rad e) w = place_brush cx cy rad e w ∧
    ((rad ≠ 2147483647 ∨ e = LIGHTNING) →
      wp (place_brush cx cy rad e) (fun _ w1 =>
        wp (place_brush cx cy rad e) (fun _ w2 => w2 = w1 ∧ w2.grid = w1.grid) w1) w) := by
  have htwice : (rad ≠ 2147483647 ∨ e = LIGHTNING) →
      wp (place_brush cx cy rad e) (fun _ w1 =>
        wp (place_brush cx cy rad e) (fun _ w2 => w2 = w1) w1) w := by
    intro hr
    by_cases he : e = LIGHTNING
    · subst he
      exact strike_twice w hwf cx cy rad
    · exact brush_twice w hwf cx cy rad e he (hr.resolve_right he)
  constructor
  · by_cases hr : rad ≠ 2147483647 ∨ e = LIGHTNING
    · obtain ⟨⟨⟩, w1, h1, ⟨⟩, w2, h2, rfl⟩ := htwice hr
      rw [bind_some h1, h1]
      exact h2
    · have hr2 : rad = 2147483647 := by
        by_contra h
        exact hr (Or.inl h)
      have he : e ≠ LIGHTNING := fun h => hr (Or.inr h)
      subst hr2
      rw [bind_none (brush_endless w cx cy e he), brush_endless w cx cy e he]
  · intro hr
    refine wp_mono (htwice hr) fun _ w1 h1 => wp_mono h1 ?_
    rintro _ w2 rfl
    exact ⟨rfl, rfl⟩

theorem place_brush_idempotent_witness :
    pond.WF ∧
      ((do place_brush 1 0 2 LIGHTNING; place_brush 1 0 2 LIGHTNING) pond =
        place_brush 1 0 2 LIGHTNING pond ∧
      (((2 : Int) ≠ 2147483647 ∨ LIGHTNING = LIGHTNING) →
        wp (place_brush 1 0 2 LIGHTNING) (fun _ w1 =>
          wp (place_brush 1 0 2 LIGHTNING)
            (fun _ w2 => w2 = w1 ∧ w2.grid = w1.grid) w1) pond)) :=
  ⟨by decide, place_brush_idempotent pond (by decide) 1 0 2 LIGHTNING⟩

/-- The brush on the grid `pond`: the bolt from `(1, 0)` passes the smoke, stops above
the water and charges it; a second stroke gives the same grid. A stroke of `SAND` with
radius 1 at `(1, 1)` paints five cells, and again a second stroke changes nothing. -/
theorem brush_twice_instance :
    gridAfter (place_brush 1 0 2 LIGHTNING) pond =
        some [[⟨EMPTY, 0⟩, ⟨LIGHTNING, 2⟩, ⟨SAND, 0⟩], [⟨EMPTY, 0⟩, ⟨LIGHTNING, 2⟩, ⟨EMPTY, 0⟩],
          [⟨STONE, 0⟩, ⟨LIGHTNING, 2⟩, ⟨EMPTY, 0⟩], [⟨STONE, 0⟩, ⟨WATER, 8⟩, ⟨WALL, 0⟩]] ∧
      gridAfter (do place_brush 1 0 2 LIGHTNING; place_brush 1 0 2 LIGHTNING) pond =
        gridAfter (place_brush 1 0 2 LIGHTNING) pond ∧
      gridAfter (place_brush 1 1 1 SAND) pond =
        some [[⟨EMPTY, 0⟩, ⟨SAND, 0⟩, ⟨SAND, 0⟩], [⟨SAND, 0⟩, ⟨SAND, 0⟩, ⟨SAND, 0⟩],
          [⟨STONE, 0⟩, ⟨SAND, 0⟩, ⟨EMPTY, 0⟩], [⟨STONE, 0⟩, ⟨WATER, 0⟩, ⟨WALL, 0⟩]] ∧
      gridAfter (do place_brush 1 1 1 SAND; place_brush 1 1 1 SAND) pond =
        gridAfter (place_brush 1 1 1 SAND) pond := by
  decide

/-! ## The upward attempts of a gas -/

/-- Two computations that agree in a state, each followed by the same computation. -/
theorem bind_congr_at {α β : Type} {m m1 : SimM α} {w : World} (h : m w = m1 w)
    (f : α → SimM β) : (m >>= f) w = (m1 >>= f) w := by
  show (match m w with
    | some (a, w1) => f a w1
    | none => none) = (match m1 w with
    | some (a, w1) => f a w1
    | none => none)
  rw [h]

/-- An upward attempt that fails changes nothing. -/
theorem gasUp_false {x y : Int} {w w1 : World} (h : gasUp x y w = some (false, w1)) :
    w1 = w := by
  unfold gasUp at h
  rw [bind_some (show in_bounds x (y - 1) w = some (w.inb x (y - 1), w) from rfl)] at h
  cases hib : w.inb x (y - 1) with
  | false =>
    rw [hib, if_pos (by rfl)] at h
    have h1 : some (false, w) = some (false, w1) := h
    cases h1
    rfl
  | true =>
    rw [hib, if_neg (by simp)] at h
    cases hc : getCell x (y - 1) w with
    | none =>
      rw [bind_none hc] at h
      cases h
    | some p =>
      obtain ⟨c, w2⟩ := p
      have hw2 : w2 = w := by
        unfold getCell at hc
        split at hc
        · cases hc
          rfl
        · cases hc
      subst hw2
      rw [bind_some hc] at h
      by_cases he : empty c = true
      · rw [if_pos he] at h
        cases hs : swap_to x y x (y - 1) w2 with
        | none =>
          rw [bind_none hs] at h
          cases h
        | some q =>
          obtain ⟨u, w3⟩ := q
          rw [bind_some hs] at h
          have h1 : some (true, w3) = some (false, w1) := h
          cases h1
      · rw [if_neg he] at h
        have h1 : some (false, w2) = some (false, w1) := h
        cases h1
        rfl

/-- The second upward attempt has no effect: two attempts give the result of one, as a
function of the state (same result, grid, mask and generator, or the same failure). -/
theorem gasRise_twice (x y : Int) (w : World) : gasRise x y 2 w = gasRise x y 1 w := by
  have e2 : gasRise x y 2 =
      (gasUp x y >>= fun m => if m = true then pure true else gasRise x y 1) := rfl
  have e1 : gasRise x y 1 =
      (gasUp x y >>= fun m => if m = true then pure true else gasRise x y 0) := rfl
  cases h : gasUp x y w with
  | none => rw [e2, e1, bind_none h, bind_none h]
  | some p =>
    obtain ⟨m, w1⟩ := p
    cases m with
    | true =>
      rw [e2, e1, bind_some h, bind_some h]
      rfl
    | false =>
      have hw := gasUp_false h
      subst hw
      rw [e2, bind_some h, if_neg (by simp), e1, bind_some h]

/-- The movement with two upward attempts is the movement with one. -/
theorem gasMoveWith_twice (x y : Int) (w : World) :
    gasMoveWith 2 x y w = gasMoveWith 1 x y w := by
  unfold gasMoveWith
  exact bind_congr_at (gasRise_twice x y w) _

/-- The gas branch with two upward attempts is the gas branch with one. -/
theorem gasRuleWith_twice (x y : Int) (t : Element) (w : World) :
    gasRuleWith 2 x y t w = gasRuleWith 1 x y t w := by
  unfold gasRuleWith
  exact bind_congr_at (gasMoveWith_twice x y w) _

/-- The source's gas branch is the branch with 2 attempts for `HYDROGEN` and 1 otherwise. -/
theorem gasRule_tries (x y : Int) (t : Element) :
    gasRule x y t = gasRuleWith (if t = HYDROGEN then 2 else 1) x y t := rfl

/-- The visit with one upward attempt for `HYDROGEN` is the visit with two. -/
theorem visitWith_twice (x y : Int) (w : World) : visitWith 1 x y w = visitWith 2 x y w := by
  unfold visitWith
  cases hu : getUpdated x y w with
  | none => rw [bind_none hu, bind_none hu]
  | some p =>
    obtain ⟨u, w1⟩ := p
    rw [bind_some hu, bind_some hu]
    cases u with
    | true => rfl
    | false =>
      rw [if_neg (by simp), if_neg (by simp)]
      cases hc : getCell x y w1 with
      | none => rw [bind_none hc, bind_none hc]
      | some q =>
        obtain ⟨c, w2⟩ := q
        rw [bind_some hc, bind_some hc]
        by_cases hH : c.type = HYDROGEN
        · simp only [hH, reduceCtorEq, or_self, if_false, sandlike, liquid, gas,
            Bool.false_eq_true, if_true]
          exact (gasRuleWith_twice x y HYDROGEN w2).symm
        · simp only [if_neg hH]

/-- The visit of the source is the visit with two upward attempts for `HYDROGEN`. -/
theorem visitWith_source (x y : Int) : visitWith 2 x y = visit x y := rfl

/-- The state after `swap_to(nx, ny)` from the visited position `(x, y)`. -/
theorem wp_swap_to (w : World) (hwf : w.WF) (hwfu : w.WFU) (x y nx ny : Int)
    (hib : w.inb x y = true) (hn : w.inb nx ny = true) (Q : Unit → World → Prop) :
    wp (swap_to x y nx ny) Q w ↔
      Q () (((w.put nx ny (w.cell x y)).put x y (w.cell nx ny)).mark nx ny) := by
  simp only [swap_to, wp_bind, wp_getCell, wp_setCell, wp_setUpdated, isSome_put, put_updated,
    hwf.isSome, hwfu.isSomeU, hib, hn, true_and]

/-- One upward attempt of a gas: it moves into the cell above if that is `EMPTY`, and
otherwise changes nothing. -/
theorem gasUp_post (w : World) (hwf : w.WF) (hwfu : w.WFU) (x y : Int)
    (hib : w.inb x y = true) :
    wp (gasUp x y) (fun r w1 =>
      (r = false ∧ w1 = w) ∨
      (r = true ∧ w.inb x (y - 1) = true ∧ (w.cell x (y - 1)).type = EMPTY ∧
        w1 = ((w.put x (y - 1) (w.cell x y)).put x y (w.cell x (y - 1))).mark x (y - 1))) w := by
  unfold gasUp
  rw [wp_bind, wp_in_bounds]
  refine wp_cases (fun _ => (wp_pure _ _ _).2 (Or.inl ⟨rfl, rfl⟩)) (fun hn => ?_)
  have hib2 := inb_of_not hn
  rw [wp_bind, wp_getCell, hwf.isSome]
  refine ⟨hib2, ?_⟩
  refine wp_cases (fun he => ?_) (fun _ => (wp_pure _ _ _).2 (Or.inl ⟨rfl, rfl⟩))
  rw [wp_bind, wp_swap_to w hwf hwfu x y x (y - 1) hib hib2, wp_pure]
  refine Or.inr ⟨rfl, hib2, ?_, rfl⟩
  unfold empty at he
  simpa using he

/-- One sideways attempt of a gas towards column `nx`: one number is drawn, and the gas
moves into `(nx, y)` or `(nx, y - 1)` if the cell chosen is `EMPTY`. -/
theorem gasSide_post (w : World) (hwf : w.WF) (hwfu : w.WFU) (x y nx : Int)
    (hib : w.inb x y = true) :
    wp (gasSide x y nx) (fun r w1 =>
      (r = false ∧ w1 = w.draw) ∨
      (r = true ∧ ∃ b, (b = y ∨ b = y - 1) ∧ w.inb nx b = true ∧ (w.cell nx b).type = EMPTY ∧
        w1 = ((w.draw.put nx b (w.cell x y)).put x y (w.cell nx b)).mark nx b)) w := by
  unfold gasSide
  rw [wp_bind, wp_chance]
  simp only [wp_bind, wp_in_bounds]
  refine wp_cases (fun _ => (wp_pure _ _ _).2 (Or.inl ⟨rfl, rfl⟩)) (fun hn => ?_)
  have hib2 := inb_of_not hn
  rw [wp_bind, wp_getCell, (show w.draw.WF from hwf).isSome]
  refine ⟨hib2, ?_⟩
  refine wp_cases (fun he => ?_) (fun _ => (wp_pure _ _ _).2 (Or.inl ⟨rfl, rfl⟩))
  rw [wp_bind, wp_swap_to w.draw hwf hwfu x y nx _ hib hib2, wp_pure]
  refine Or.inr ⟨rfl, _, ?_, hib2, ?_, rfl⟩
  · split
    · exact Or.inr rfl
    · exact Or.inl (by omega)
  · unfold empty at he
    simpa using he

/-- The movement of a gas with one upward attempt: either nothing is exchanged, or the
gas is exchanged with one `EMPTY` cell, which lies straight above it, beside it, or
diagonally above it, and that cell is flagged. -/
theorem gasMoveWith_post (w : World) (hwf : w.WF) (hwfu : w.WFU) (x y : Int)
    (hib : w.inb x y = true) :
    wp (gasMoveWith 1 x y) (fun r w1 =>
      (r = false → w1.grid = w.grid ∧ w1.updated = w.updated) ∧
      (r = true → ∃ a b, ((a = x ∧ b = y - 1) ∨
          ((a = x - 1 ∨ a = x + 1) ∧ (b = y ∨ b = y - 1))) ∧
        w.inb a b = true ∧ (w.cell a b).type = EMPTY ∧
        w1.grid = ((w.put a b (w.cell x y)).put x y (w.cell a b)).grid ∧
        w1.updated = (w.mark a b).updated)) w := by
  have hrise : wp (gasRise x y 1) (fun r w1 =>
      (r = false ∧ w1 = w) ∨
      (r = true ∧ w.inb x (y - 1) = true ∧ (w.cell x (y - 1)).type = EMPTY ∧
        w1 = ((w.put x (y - 1) (w.cell x y)).put x y (w.cell x (y - 1))).mark x (y - 1))) w := by
    rw [show gasRise x y 1 =
      (gasUp x y >>= fun m => if m = true then pure true else pure false) from rfl, wp_bind]
    refine wp_mono (gasUp_post w hwf hwfu x y hib) ?_
    rintro r w1 (⟨hr, hw⟩ | ⟨hr, h⟩)
    · rw [hr, if_neg (by simp)]
      exact (wp_pure _ _ _).2 (Or.inl ⟨rfl, hw⟩)
    · rw [hr, if_pos rfl]
      exact (wp_pure _ _ _).2 (Or.inr ⟨rfl, h⟩)
  have hside : ∀ o : Int, (o = 1 ∨ o = -1) → ∀ v : World, v.WF → v.WFU → v.inb x y = true →
      v.grid = w.grid → v.updated = w.updated →
      wp (gasSide x y (x + o)) (fun r w1 =>
        (r = false ∧ w1.WF ∧ w1.WFU ∧ w1.inb x y = true ∧ w1.grid = w.grid ∧
          w1.updated = w.updated) ∨
        (r = true ∧ ∃ a b, ((a = x ∧ b = y - 1) ∨
            ((a = x - 1 ∨ a = x + 1) ∧ (b = y ∨ b = y - 1))) ∧
          w.inb a b = true ∧ (w.cell a b).type = EMPTY ∧
          w1.grid = ((w.put a b (w.cell x y)).put x y (w.cell a b)).grid ∧
          w1.updated = (w.mark a b).updated)) v := by
    intro o ho v hv hvu hvi hg hu
    have hcell : ∀ a b, v.cell a b = w.cell a b := by
      intro a b
      unfold World.cell
      rw [hg]
    have hinb : ∀ a b, v.inb a b = w.inb a b := by
      intro a b
      have e1 := hv.isSome a b
      have e2 := hwf.isSome a b
      rw [hg] at e1
      rw [← e1, e2]
    refine wp_mono (gasSide_post v hv hvu x y (x + o) hvi) ?_
    rintro r w1 (⟨hr, hw⟩ | ⟨hr, b, hb, h1, h2, h3⟩)
    · refine Or.inl ⟨hr, ?_, ?_, ?_, ?_, ?_⟩ <;> rw [hw]
      · exact hv
      · exact hvu
      · exact hvi
      · exact hg
      · exact hu
    · refine Or.inr ⟨hr, x + o, b, Or.inr ⟨by omega, hb⟩, ?_, ?_, ?_, ?_⟩
      · rw [← hinb]
        exact h1
      · rw [← hcell]
        exact h2
      · rw [h3, hcell, hcell]
        show setAt (setAt v.grid _ _ _) _ _ _ = setAt (setAt w.grid _ _ _) _ _ _
        rw [hg]
      · rw [h3]
        show setAt v.updated _ _ _ = setAt w.updated _ _ _
        rw [hu]
  unfold gasMoveWith
  rw [wp_bind]
  refine wp_mono hrise ?_
  rintro r w1 (⟨hr, hw⟩ | ⟨hr, h1, h2, h3⟩)
  · rw [hr, hw, if_neg (by simp), wp_bind, wp_rint]
    have ho : (if w.roll 0 1 ≠ 0 then (1 : Int) else -1) = 1 ∨
        (if w.roll 0 1 ≠ 0 then (1 : Int) else -1) = -1 := by
      split
      · exact Or.inl rfl
      · exact Or.inr rfl
    generalize (if w.roll 0 1 ≠ 0 then (1 : Int) else -1) = o at ho
    show wp (gasSide x y (x + o) >>= fun m1 =>
      if m1 = true then pure true else gasSide x y (x - o)) _ w.draw
    rw [wp_bind]
    refine wp_mono (hside o ho w.draw hwf hwfu hib rfl rfl) ?_
    rintro r1 w2 (⟨hr1, hv, hvu, hvi, hg, hu⟩ | ⟨hr1, h⟩)
    · rw [hr1, if_neg (by simp)]
      have ho2 : -o = 1 ∨ -o = -1 := by omega
      have := hside (-o) ho2 w2 hv hvu hvi hg hu
      rw [show x + -o = x - o by omega] at this
      refine wp_mono this ?_
      rintro r2 w3 (⟨hr2, _, _, _, hg3, hu3⟩ | ⟨hr2, h⟩)
      · exact ⟨fun _ => ⟨hg3, hu3⟩, fun ht => absurd (hr2.symm.trans ht) (by simp)⟩
      · exact ⟨fun hf => absurd (hr2.symm.trans hf) (by simp), fun _ => h⟩
    · rw [hr1, if_pos rfl]
      exact (wp_pure _ _ _).2 ⟨fun hf => absurd hf (by simp), fun _ => h⟩
  · rw [hr, if_pos rfl]
    refine (wp_pure _ _ _).2 ⟨fun hf => absurd hf (by simp), fun _ => ?_⟩
    exact ⟨x, y - 1, Or.inl ⟨rfl, rfl⟩, h1, h2, by rw [h3]; rfl, by rw [h3]; rfl⟩

/-- C37 (as stated) fails in its last clause: a gas can rise more than one row in a
single `step_sim`, lifted by the liquids that sink into it. In the column `OIL`, `OIL`,
`HYDROGEN` the hydrogen cannot move at its own visit, then each of the two oils falls
into it: after one tick the hydrogen is on the top row, two rows higher. -/
theorem gas_lifted_counterexample :
    gasUnderOil.WF ∧ gasUnderOil.cell 0 2 = ⟨HYDROGEN, 25⟩ ∧
      gridAfter step_sim gasUnderOil = some [[⟨HYDROGEN, 24⟩], [⟨OIL, 0⟩], [⟨OIL, 0⟩]] := by
  decide!

/-- C37 (amended): the second upward attempt of `HYDROGEN` has no effect. The visit of
the source is the visit with 2 attempts, and in every state the visit with 1 attempt
gives exactly the same result as the visit of the source: the same grid, mask and
generator, or the same failure. Consequently the movement of the visit of a gas (in a
rectangular state, at an in-bounds position) exchanges the gas with at most one `EMPTY`
cell, which lies straight above it, beside it or diagonally above it, and flags that
cell: by its own visit no gas rises more than one row, and it is not visited again at
its new position. -/
theorem hydrogen_second_try (w : World) (hwf : w.WF) (hwfu : w.WFU) (x y : Int)
    (hib : w.inb x y = true) :
    visitWith 2 x y = visit x y ∧
      (∀ v : World, visitWith 1 x y v = visit x y v) ∧
      (∀ (t : Element) (v : World), gasRuleWith 1 x y t v = gasRule x y t v) ∧
      wp (gasMoveWith 1 x y) (fun r w1 =>
        (r = false → w1.grid = w.grid ∧ w1.updated = w.updated) ∧
        (r = true → ∃ a b, ((a = x ∧ b = y - 1) ∨
            ((a = x - 1 ∨ a = x + 1) ∧ (b = y ∨ b = y - 1))) ∧
          w.inb a b = true ∧ (w.cell a b).type = EMPTY ∧
          w1.grid = ((w.put a b (w.cell x y)).put x y (w.cell a b)).grid ∧
          w1.updated = (w.mark a b).updated)) w := by
  refine ⟨rfl, fun v => visitWith_twice x y v, fun t v => ?_, gasMoveWith_post w hwf hwfu x y hib⟩
  rw [gasRule_tries]
  by_cases hH : t = HYDROGEN
  · rw [if_pos hH]
    exact (gasRuleWith_twice x y t v).symm
  · rw [if_neg hH]

theorem hydrogen_second_try_witness :
    gasBelowGap.WF ∧ gasBelowGap.WFU ∧ gasBelowGap.inb 0 1 = true ∧
      (visitWith 2 0 1 = visit 0 1 ∧
        (∀ v : World, visitWith 1 0 1 v = visit 0 1 v) ∧
        (∀ (t : Element) (v : World), gasRuleWith 1 0 1 t v = gasRule 0 1 t v) ∧
        wp (gasMoveWith 1 0 1) (fun r w1 =>
          (r = false → w1.grid = gasBelowGap.grid ∧ w1.updated = gasBelowGap.updated) ∧
          (r = true → ∃ a b, ((a = 0 ∧ b = 1 - 1) ∨
              ((a = 0 - 1 ∨ a = 0 + 1) ∧ (b = 1 ∨ b = 1 - 1))) ∧
            gasBelowGap.inb a b = true ∧ (gasBelowGap.cell a b).type = EMPTY ∧
            w1.grid = ((gasBelowGap.put a b (gasBelowGap.cell 0 1)).put 0 1
              (gasBelowGap.cell a b)).grid ∧
            w1.updated = (gasBelowGap.mark a b).updated)) gasBelowGap) :=
  ⟨by decide, by decide, by decide,
    hydrogen_second_try gasBelowGap (by decide) (by decide) 0 1 (by decide)⟩

/-- The visit of the hydrogen of `gasBelowGap`, with two attempts and with one: it rises
into the gap above it, and the two visits end in the same grid, mask and generator. -/
theorem hydrogen_visit_instance :
    snapshot (visit 0 1) gasBelowGap =
        some ([[⟨HYDROGEN, 25⟩, ⟨STONE, 0⟩], [⟨EMPTY, 0⟩, ⟨STONE, 0⟩]],
          [[true, false], [false, false]], 0) ∧
      snapshot (visitWith 1 0 1) gasBelowGap = snapshot (visit 0 1) gasBelowGap := by
  decide

/-! ## Acid clears its neighbourhood -/

theorem Eaten.eatSame {x y : Int} {w : World} (hwf : w.WF) (hwfu : w.WFU) : Eaten x y w w :=
  ⟨⟨rfl, rfl⟩, hwf, hwfu, fun _ _ _ => Or.inl rfl⟩

theorem Eaten.eatDraw {x y : Int} {w0 w : World} (h : Eaten x y w0 w) : Eaten x y w0 w.draw :=
  h

theorem Eaten.eatMark {x y : Int} {w0 w : World} (h : Eaten x y w0 w) (a b : Int) :
    Eaten x y w0 (w.mark a b) :=
  ⟨h.1, h.2.1, h.2.2.1.markWFU a b, h.2.2.2⟩

theorem Eaten.eatInb {x y : Int} {w0 w : World} (h : Eaten x y w0 w) (a b : Int) :
    w.inb a b = w0.inb a b :=
  inb_dims h.1 a b

/-- A write into the visited cell. -/
theorem Eaten.eatCentre {x y : Int} {w0 w : World} (h : Eaten x y w0 w)
    (hib : w.inb x y = true) (c : Cell) : Eaten x y w0 (w.put x y c) := by
  refine ⟨h.1, h.2.1.putWF _ _ _, h.2.2.1, fun a b hne => ?_⟩
  rw [cell_put h.2.1 hib, if_neg hne]
  exact h.2.2.2 a b hne

/-- The acid dissolves a neighbour. -/
theorem Eaten.eatDissolve {x y : Int} {w0 w : World} (h : Eaten x y w0 w) {a b : Int}
    (hib : w.inb a b = true) (hne : ¬ (a = x ∧ b = y))
    (hd : dissolvable (w.cell a b).type = true) {c : Cell}
    (hc : c = ⟨TOXIC_GAS, 25⟩ ∨ c = ⟨EMPTY, 0⟩) : Eaten x y w0 (w.put a b c) := by
  refine ⟨h.1, h.2.1.putWF _ _ _, h.2.2.1, fun a1 b1 hne1 => ?_⟩
  rw [cell_put h.2.1 hib]
  split
  · rename_i he
    obtain ⟨rfl, rfl⟩ := he
    rcases h.2.2.2 a1 b1 hne with e | ⟨_, _, e⟩ | ⟨_, e⟩
    · rw [e] at hd
      exact Or.inr (Or.inr ⟨hd, hc⟩)
    · rw [e] at hd
      cases hd
    · rcases e with e | e <;> rw [e] at hd <;> cases hd
  · exact h.2.2.2 a1 b1 hne1

/-- The acid turns a `WATER` neighbour into `STEAM`. -/
theorem Eaten.eatSteam {x y : Int} {w0 w : World} (h : Eaten x y w0 w) {a b : Int}
    (hib : w.inb a b = true) (hne : ¬ (a = x ∧ b = y))
    (hw : (w.cell a b).type = WATER) : Eaten x y w0 (w.put a b ⟨STEAM, 20⟩) := by
  refine ⟨h.1, h.2.1.putWF _ _ _, h.2.2.1, fun a1 b1 hne1 => ?_⟩
  rw [cell_put h.2.1 hib]
  split
  · rename_i he
    obtain ⟨rfl, rfl⟩ := he
    rcases h.2.2.2 a1 b1 hne with e | ⟨e1, e2, _⟩ | ⟨_, e⟩
    · rw [e] at hw
      refine Or.inr (Or.inl ⟨?_, ?_, rfl⟩)
      · rw [hw]
        rfl
      · rw [hw]
        decide
    · exact Or.inr (Or.inl ⟨e1, e2, rfl⟩)
    · rcases e with e | e <;> rw [e] at hw <;> cases hw
  · exact h.2.2.2 a1 b1 hne1

theorem Soft.softSame (x y : Int) (w : World) : Soft x y w w :=
  fun _ _ _ h => h

theorem Soft.softTrans {x y : Int} {w w1 w2 : World} (h1 : Soft x y w w1)
    (h2 : Soft x y w1 w2) : Soft x y w w2 :=
  fun a b hne h => h2 a b hne (h1 a b hne h)

theorem Soft.softDraw {x y : Int} {w w1 : World} (h : Soft x y w w1) : Soft x y w w1.draw :=
  h

theorem Soft.softMark {x y : Int} {w w1 : World} (h : Soft x y w w1) (a b : Int) :
    Soft x y w (w1.mark a b) :=
  h

/-- A write of a kind that is not dissolvable, or into the visited cell. -/
theorem Soft.softPut {x y : Int} {w w1 : World} (h : Soft x y w w1) (hwf : w1.WF) {a b : Int}
    (hib : w1.inb a b = true) {c : Cell}
    (hc : (a = x ∧ b = y) ∨ dissolvable c.type = false) : Soft x y w (w1.put a b c) := by
  intro a1 b1 hne hd
  rw [cell_put hwf hib]
  split
  · rename_i he
    rcases hc with hc | hc
    · exact absurd (he.1.trans hc.1) (fun e => hne ⟨e, he.2.trans hc.2⟩)
    · exact hc
  · exact h a1 b1 hne hd

/-- A cell that is `EMPTY`, a gas or a liquid is neither dissolvable nor a `WALL`. -/
theorem soft_of_passable {c : Cell}
    (h : (empty c || gas c.type) = true ∨ liquid c.type = true) :
    dissolvable c.type = false ∧ c.type ≠ WALL := by
  unfold empty at h
  revert h
  cases c.type <;> simp [gas, liquid, dissolvable]

/-- The exchange of the acid with a cell that is `EMPTY`, a gas or a liquid. -/
theorem swap_to_eaten {x y : Int} {w : World} (hwf : w.WF) (hwfu : w.WFU)
    (hib : w.inb x y = true) (ha : (w.cell x y).type = ACID) {nx ny : Int}
    (hn : w.inb nx ny = true)
    (hs : (empty (w.cell nx ny) || gas (w.cell nx ny).type) = true ∨
      liquid (w.cell nx ny).type = true) (Q : Unit → World → Prop)
    (hQ : ∀ w1, Eaten x y w w1 → Q () w1) : wp (swap_to x y nx ny) Q w := by
  simp only [swap_to, wp_bind, wp_getCell, wp_setCell, wp_setUpdated, isSome_put, put_updated,
    hwf.isSome, hwfu.isSomeU, hib, hn, true_and]
  apply hQ
  have hwfA : (w.put nx ny (w.cell x y)).WF := hwf.putWF _ _ _
  refine ⟨⟨rfl, rfl⟩, hwfA.putWF _ _ _,
    World.WFU.markWFU (show ((w.put nx ny (w.cell x y)).put x y (w.cell nx ny)).WFU from hwfu)
      _ _, fun a b hne => ?_⟩
  rw [mark_cell, cell_put hwfA hib, if_neg hne, cell_put hwf hn]
  split
  · rename_i he
    obtain ⟨rfl, rfl⟩ := he
    refine Or.inr (Or.inl ⟨(soft_of_passable hs).1, (soft_of_passable hs).2, ?_⟩)
    rw [ha]
    rfl
  · exact Or.inl rfl

/-- The movement of the acid keeps every other cell, except the cell the acid moves
into, which was `EMPTY`, a gas or a liquid. -/
theorem liquidMove_eaten {x y : Int} {w : World} (hwf : w.WF) (hwfu : w.WFU)
    (hib : w.inb x y = true) (ha : (w.cell x y).type = ACID) :
    wp (liquidMove x y ACID) (fun _ w1 => Eaten x y w w1) w := by
  have hdown : wp (liquidDown x y ACID) (fun r w1 =>
      (r = false → w1 = w) ∧ Eaten x y w w1) w := by
    simp only [liquidDown, wp_bind, wp_in_bounds, wp_ite, wp_pure, wp_getCell, hwf.isSome]
    split_ifs with h1 h2 h3
    · exact ⟨by simp, Eaten.eatSame hwf hwfu⟩
    · refine ⟨inb_of_not h1, swap_to_eaten hwf hwfu hib ha (inb_of_not h1) (Or.inl h2) _ ?_⟩
      intro w1 h
      exact ⟨fun hf => absurd hf (by simp), h⟩
    · refine ⟨inb_of_not h1, swap_to_eaten hwf hwfu hib ha (inb_of_not h1) (Or.inr ?_) _ ?_⟩
      · simp only [Bool.and_eq_true] at h3
        exact h3.1
      · intro w1 h
        exact ⟨fun hf => absurd hf (by simp), h⟩
    · exact ⟨inb_of_not h1, by simp, Eaten.eatSame hwf hwfu⟩
  have hside : ∀ nx (v : World), v.WF → v.WFU → v.grid = w.grid → SameDims w v →
      wp (liquidSide x y ACID nx) (fun r w1 =>
        (r = false → w1.WF ∧ w1.WFU ∧ w1.grid = w.grid ∧ SameDims w w1) ∧ Eaten x y w w1) v := by
    intro nx v hv hvu hg hd
    have hcell : ∀ a b, v.cell a b = w.cell a b := by
      intro a b
      unfold World.cell
      rw [hg]
    have hvi : v.inb x y = true := (inb_dims hd x y).trans hib
    have hva : (v.cell x y).type = ACID := by rw [hcell, ha]
    have hback : ∀ w1, Eaten x y v w1 → Eaten x y w w1 := by
      intro w1 h
      refine ⟨⟨h.1.1.trans hd.1, h.1.2.trans hd.2⟩, h.2.1, h.2.2.1, fun a b hne => ?_⟩
      have := h.2.2.2 a b hne
      rw [hcell] at this
      exact this
    have hsame : Eaten x y w v :=
      ⟨hd, hv, hvu, fun a b _ => Or.inl (hcell a b)⟩
    simp only [liquidSide, wp_bind, wp_in_bounds, wp_ite, wp_pure, wp_getCell, wp_chance,
      hv.isSome]
    split_ifs with h1 h2 h3 h4
    · exact ⟨by intros; exact ⟨hv, hvu, hg, hd⟩, hsame⟩
    · refine ⟨inb_of_not h1, swap_to_eaten hv hvu hvi hva (inb_of_not h1) (Or.inl h2) _ ?_⟩
      intro w1 h
      exact ⟨fun hf => absurd hf (by simp), hback w1 h⟩
    · refine ⟨inb_of_not h1, swap_to_eaten (show v.draw.WF from hv) hvu hvi hva (inb_of_not h1)
        (Or.inr ?_) _ ?_⟩
      · simp only [Bool.and_eq_true] at h3
        exact h3.1
      · intro w1 h
        exact ⟨fun hf => absurd hf (by simp), hback w1 h⟩
    · exact ⟨inb_of_not h1, by intros; exact ⟨hv, hvu, hg, hd⟩, hsame⟩
    · exact ⟨inb_of_not h1, by intros; exact ⟨hv, hvu, hg, hd⟩, hsame⟩
  unfold liquidMove
  rw [wp_bind]
  refine wp_mono hdown ?_
  rintro m0 w1 ⟨h1, h2⟩
  cases m0
  · rw [h1 rfl]
    simp only [Bool.false_eq_true, if_false, wp_bind, wp_rint]
    refine wp_mono (hside _ w.draw hwf hwfu rfl ⟨rfl, rfl⟩) ?_
    rintro m1 w2 ⟨h3, h4⟩
    cases m1
    · simp only [Bool.false_eq_true, if_false]
      obtain ⟨hv, hvu, hg, hd⟩ := h3 rfl
      exact wp_mono (hside _ w2 hv hvu hg hd) fun _ w3 h5 => h5.2
    · simp only [if_true, wp_pure]
      exact h4
  · simp only [if_true, wp_pure]
    exact h2

/-- The block `acid eats stuff` for one neighbour: afterwards the neighbour is not
dissolvable. -/
theorem acidReact_eaten {x y : Int} {w0 v : World} (h : Eaten x y w0 v)
    (hib : v.inb x y = true) {nx ny : Int} (hn : v.inb nx ny = true)
    (hne : ¬ (nx = x ∧ ny = y)) :
    wp (acidReact x y nx ny) (fun _ v1 => Eaten x y w0 v1 ∧ Soft x y v v1 ∧
      dissolvable (v1.cell nx ny).type = false) v := by
  have hwf := h.2.1
  have hkeep : ∀ (u : World) (c : Cell), u.WF → u.inb x y = true →
      (u.put x y c).cell nx ny = u.cell nx ny := by
    intro u c hu hi
    rw [cell_put hu hi, if_neg hne]
  have hself : ∀ (u : World) (c : Cell), u.WF → u.inb nx ny = true →
      (u.put nx ny c).cell nx ny = c := by
    intro u c hu hi
    rw [cell_put hu hi, if_pos ⟨rfl, rfl⟩]
  unfold acidReact
  rw [wp_bind, wp_getCell]
  refine ⟨by rw [hwf.isSome]; exact hn, ?_⟩
  refine wp_seq (I := fun v1 => Eaten x y w0 v1 ∧ Soft x y v v1 ∧
    dissolvable (v1.cell nx ny).type = false) ?_ ?_
  · simp only [wp_bind, wp_ite, wp_setCell, wp_chance, wp_pure,
      isSome_put, draw_grid, hwf.isSome, hib, hn, true_and]
    have hA : ∀ c : Cell, c = ⟨TOXIC_GAS, 25⟩ ∨ c = ⟨EMPTY, 0⟩ →
        dissolvable (v.cell nx ny).type = true →
        Eaten x y w0 (v.draw.put nx ny c) ∧ Soft x y v (v.draw.put nx ny c) ∧
          dissolvable ((v.draw.put nx ny c).cell nx ny).type = false := by
      intro c hc hd
      refine ⟨h.eatDraw.eatDissolve hn hne hd hc,
        (Soft.softSame x y v).softDraw.softPut hwf hn (Or.inr ?_), ?_⟩
      · rcases hc with rfl | rfl <;> rfl
      · refine (congrArg (fun d : Cell => dissolvable d.type) (hself v.draw c hwf hn)).trans ?_
        rcases hc with rfl | rfl <;> rfl
    have hB : ∀ (u : World) (c : Cell),
        (Eaten x y w0 u ∧ Soft x y v u ∧ dissolvable (u.cell nx ny).type = false) →
        Eaten x y w0 (u.draw.put x y c) ∧ Soft x y v (u.draw.put x y c) ∧
          dissolvable ((u.draw.put x y c).cell nx ny).type = false := by
      rintro u c ⟨e1, e2, e3⟩
      have hiu : u.inb x y = true := (e1.eatInb x y).trans ((h.eatInb x y).symm.trans hib)
      refine ⟨e1.eatDraw.eatCentre hiu c, e2.softDraw.softPut e1.2.1 hiu (Or.inl ⟨rfl, rfl⟩), ?_⟩
      exact (congrArg (fun d : Cell => dissolvable d.type) (hkeep u.draw c e1.2.1 hiu)).trans e3
    split_ifs with h1 h2 h3 h4
    · exact hB _ _ (hA _ (Or.inl rfl) h1)
    · exact hA _ (Or.inl rfl) h1
    · exact hB _ _ (hA _ (Or.inr rfl) h1)
    · exact hA _ (Or.inr rfl) h1
    · exact ⟨h, Soft.softSame x y v, by simpa using h1⟩
  · rintro _ v1 ⟨e1, e2, e3⟩
    have hi1 : v1.inb x y = true := (e1.eatInb x y).trans ((h.eatInb x y).symm.trans hib)
    have hn1 : v1.inb nx ny = true := (e1.eatInb nx ny).trans ((h.eatInb nx ny).symm.trans hn)
    simp only [wp_bind, wp_getCell, wp_ite, wp_setCell, wp_chance, wp_pure,
      isSome_put, draw_grid, e1.2.1.isSome, hi1, hn1, true_and]
    split_ifs with h2 h3 h4
    · refine ⟨(e1.eatDraw.eatCentre hi1 _).eatDraw.eatSteam hn1 hne ?_,
        (e2.softDraw.softPut e1.2.1 hi1 (Or.inl ⟨rfl, rfl⟩)).softDraw.softPut
          (e1.2.1.putWF _ _ _) hn1 (Or.inr rfl), ?_⟩
      · exact (congrArg Cell.type (hkeep v1.draw _ e1.2.1 hi1)).trans h2
      · exact (congrArg (fun d : Cell => dissolvable d.type)
          (hself (v1.draw.put x y ⟨SALTWATER, 0⟩).draw _ (e1.2.1.putWF _ _ _) hn1)).trans rfl
    · refine ⟨(e1.eatDraw.eatCentre hi1 _).eatDraw,
        (e2.softDraw.softPut e1.2.1 hi1 (Or.inl ⟨rfl, rfl⟩)).softDraw, ?_⟩
      exact (congrArg (fun d : Cell => dissolvable d.type) (hkeep v1.draw _ e1.2.1 hi1)).trans e3
    · exact ⟨e1.eatDraw, e2.softDraw, e3⟩
    · exact ⟨e1, e2, e3⟩

/-- The branch of the visit of an acid: the invariant `Eaten` holds at the end, and no
in-bounds neighbour is dissolvable. -/
theorem liquidRule_acid {x y : Int} {w : World} (hwf : w.WF) (hwfu : w.WFU)
    (hib : w.inb x y = true) (ha : (w.cell x y).type = ACID) :
    wp (liquidRule x y ACID) (fun _ w1 => Eaten x y w w1 ∧
      ∀ dx ∈ span 1, ∀ dy ∈ span 1, ¬ (dx = 0 ∧ dy = 0) → w.inb (x + dx) (y + dy) = true →
        dissolvable (w1.cell (x + dx) (y + dy)).type = false) w := by
  unfold liquidRule
  refine wp_seq (liquidMove_eaten hwf hwfu hib ha) ?_
  intro moved v0 h0
  refine wp_seq (I := fun v => Eaten x y w v) ?_ ?_
  · rw [wp_ite]
    split
    · rw [wp_setUpdated]
      refine ⟨?_, h0.eatMark x y⟩
      rw [h0.2.2.1.isSomeU, h0.eatInb]
      exact hib
    · exact (wp_pure _ _ _).2 h0
  · intro _ v1 h1
    refine wp_seq (I := fun v => Eaten x y w v ∧
      ∀ dx ∈ span 1, ∀ dy ∈ span 1, ¬ (dx = 0 ∧ dy = 0) → w.inb (x + dx) (y + dy) = true →
        dissolvable (v.cell (x + dx) (y + dy)).type = false) ?_ ?_
    · refine wp_mono (wp_forBox_each (fun v => Eaten x y w v) (Soft x y)
        (fun dx dy v => ¬ (dx = 0 ∧ dy = 0) → w.inb (x + dx) (y + dy) = true →
          dissolvable (v.cell (x + dx) (y + dy)).type = false)
        (fun v _ => Soft.softSame x y v) (fun _ _ _ => Soft.softTrans) ?_ 1
        (fun dx dy => liquidReact x y ACID dx dy) ?_ v1 h1) ?_
      · intro dx dy u u1 hs hP hne hin
        exact hs _ _ (by omega) (hP hne hin)
      · intro dx _ dy _ u hu
        unfold liquidReact
        rw [wp_ite]
        split
        · rename_i hc
          exact (wp_pure _ _ _).2 ⟨hu, Soft.softSame x y u, fun hne => absurd hc hne⟩
        · rename_i hc
          rw [wp_bind, wp_in_bounds, wp_ite]
          split
          · rename_i hb
            refine (wp_pure _ _ _).2 ⟨hu, Soft.softSame x y u, fun _ hin => ?_⟩
            rw [hu.eatInb, hin] at hb
            cases hb
          · rename_i hb
            have hn := inb_of_not hb
            have hiu : u.inb x y = true := (hu.eatInb x y).trans hib
            simp only [show ¬ (ACID = WATER ∨ ACID = SALTWATER) by decide,
              show ¬ (ACID = OIL ∨ ACID = ETHANOL) by decide, show ¬ (ACID = LAVA) by decide,
              if_false, if_true, wp_bind, wp_pure]
            refine wp_mono (acidReact_eaten hu hiu hn (by omega)) ?_
            rintro _ u1 ⟨e1, e2, e3⟩
            exact ⟨e1, e2, fun _ _ => e3⟩
      · rintro _ v2 ⟨e1, _, e3⟩
        exact ⟨e1, e3⟩
    · rintro _ v2 h2
      simp only [show ¬ (ACID = WATER ∨ ACID = SALTWATER) by decide,
        show ¬ (ACID = LAVA) by decide, if_false, wp_bind, wp_pure]
      exact h2

/-- C34: acid clears its whole neighbourhood in one visit. For every state of a tick
with rectangular grid and mask and every stream, the visit of an unflagged `ACID` cell
at `(x, y)` returns, and afterwards none of the in-bounds neighbours of `(x, y)` among
the 8 has a dissolvable kind; each neighbour that was dissolvable is `TOXIC_GAS` with
life 25 or `EMPTY` with life 0 (also when the acid moved or was replaced during the
visit); and no `WALL` cell of the grid is changed. -/
theorem acid_clears (w : World) (hwf : w.WF) (hwfu : w.WFU) (x y : Int)
    (hib : w.inb x y = true) (hu : w.upd x y = false) (ha : (w.cell x y).type = ACID) :
    wp (visit x y) (fun _ w1 =>
      (∀ dx dy : Int, -1 ≤ dx → dx ≤ 1 → -1 ≤ dy → dy ≤ 1 → ¬ (dx = 0 ∧ dy = 0) →
        w.inb (x + dx) (y + dy) = true →
        dissolvable (w1.cell (x + dx) (y + dy)).type = false ∧
        (dissolvable (w.cell (x + dx) (y + dy)).type = true →
          w1.cell (x + dx) (y + dy) = ⟨TOXIC_GAS, 25⟩ ∨
          w1.cell (x + dx) (y + dy) = ⟨EMPTY, 0⟩)) ∧
      ∀ a b, (w.cell a b).type = WALL → w1.cell a b = w.cell a b) w := by
  rw [visit_liquid w hwf hwfu x y hib hu (by rw [ha]; rfl), ha]
  refine wp_mono (liquidRule_acid hwf hwfu hib ha) ?_
  rintro _ w1 ⟨he, hp⟩
  refine ⟨fun dx dy h1 h2 h3 h4 hne hin => ⟨?_, fun hd => ?_⟩, fun a b hw => ?_⟩
  · exact hp dx ((mem_span 1 dx).2 ⟨h1, h2⟩) dy ((mem_span 1 dy).2 ⟨h3, h4⟩) hne hin
  · rcases he.2.2.2 (x + dx) (y + dy) (by omega) with e | ⟨e, _, _⟩ | ⟨_, e⟩
    · have := hp dx ((mem_span 1 dx).2 ⟨h1, h2⟩) dy ((mem_span 1 dy).2 ⟨h3, h4⟩) hne hin
      rw [e, hd] at this
      cases this
    · rw [hd] at e
      cases e
    · exact e
  · have hne : ¬ (a = x ∧ b = y) := by
      rintro ⟨rfl, rfl⟩
      rw [ha] at hw
      cases hw
    rcases he.2.2.2 a b hne with e | ⟨_, e, _⟩ | ⟨e, _⟩
    · exact e
    · exact absurd hw e
    · rw [hw] at e
      cases e

theorem acid_clears_witness :
    acidBath.WF ∧ acidBath.WFU ∧ acidBath.inb 1 1 = true ∧ acidBath.upd 1 1 = false ∧
      (acidBath.cell 1 1).type = ACID ∧
      wp (visit 1 1) (fun _ w1 =>
        (∀ dx dy : Int, -1 ≤ dx → dx ≤ 1 → -1 ≤ dy → dy ≤ 1 → ¬ (dx = 0 ∧ dy = 0) →
          acidBath.inb (1 + dx) (1 + dy) = true →
          dissolvable (w1.cell (1 + dx) (1 + dy)).type = false ∧
          (dissolvable (acidBath.cell (1 + dx) (1 + dy)).type = true →
            w1.cell (1 + dx) (1 + dy) = ⟨TOXIC_GAS, 25⟩ ∨
            w1.cell (1 + dx) (1 + dy) = ⟨EMPTY, 0⟩)) ∧
        ∀ a b, (acidBath.cell a b).type = WALL → w1.cell a b = acidBath.cell a b) acidBath :=
  ⟨by decide, by decide, by decide, by decide, by decide,
    acid_clears acidBath (by decide) (by decide) 1 1 (by decide) (by decide) (by decide)⟩

/-- The visit of the acid of `acidBath`: the sand and the stone become `TOXIC_GAS`, the
wood and the metal are removed, the acid itself is consumed, and the water and the floor
of `WALL` are as before. -/
theorem acid_bath_instance :
    gridAfter (visit 1 1) acidBath =
      some [[⟨TOXIC_GAS, 25⟩, ⟨TOXIC_GAS, 25⟩, ⟨WATER, 0⟩],
        [⟨EMPTY, 0⟩, ⟨EMPTY, 0⟩, ⟨EMPTY, 0⟩], [⟨WALL, 0⟩, ⟨WALL, 0⟩, ⟨WALL, 0⟩]] := by
  decide!

/-! ## Charge in an isolated conductor network -/

/-- The kinds of a network are not water, not flammable and not an explosive gas. -/
theorem netKind_facts {t : Element} (h : NetKind t) :
    ¬ (t = WATER ∨ t = SALTWATER) ∧ flammable t = false ∧ ¬ (t = HYDROGEN ∨ t = GAS) := by
  rcases h with rfl | rfl | rfl | rfl | rfl | rfl <;> exact ⟨by decide, rfl, by decide⟩

theorem Wired.inbW {q : Int} {w0 w : World} (h : Wired q w0 w) (a b : Int) :
    w.inb a b = w0.inb a b :=
  inb_dims h.dims a b

/-- Two states with the same mask have the same flags. -/
theorem upd_congr {w w1 : World} (h : w1.updated = w.updated) (a b : Int) :
    w1.upd a b = w.upd a b := by
  unfold World.upd
  rw [h]

/-- Flagging a cell whose life is at most 0. -/
theorem Wired.flagIdle {q : Int} {w0 w : World} (h : Wired q w0 w) {x y : Int}
    (hx : w.inb x y = true) (hl : (w.cell x y).life ≤ 0) : Wired q w0 (w.mark x y) := by
  refine ⟨h.one, h.net, h.dims, h.wf, h.wfu.markWFU _ _, h.pos, h.draws, fun a b hab => ?_⟩
  obtain ⟨c1, c2, c3, c4, c5⟩ := h.cells a b hab
  refine ⟨c1, c2, c3, ?_, ?_⟩
  · rw [upd_mark h.wfu hx]
    split
    · intro hf
      cases hf
    · exact c4
  · rw [upd_mark h.wfu hx]
    split
    · rename_i hxy
      obtain ⟨rfl, rfl⟩ := hxy
      intro _
      have h1 := h.one
      have hl1 : (w.cell a b).life ≤ 0 := hl
      have hl2 : ((w.mark a b).cell a b).life = (w.cell a b).life := rfl
      refine ⟨by omega, fun e => ?_⟩
      cases hu : w.upd a b with
      | false =>
        have := (c4 hu).2 e
        omega
      | true =>
        have := (c5 hu).2 e
        omega
    · exact c5

/-- A neighbour that is `WIRE` or `METAL` is raised to a life of at most `q - 1`. -/
theorem Wired.raise {q : Int} {w0 w : World} (h : Wired q w0 w) {a b : Int}
    (hab : w.inb a b = true)
    (hk : (w.cell a b).type = WIRE ∨ (w.cell a b).type = METAL) {l : Int}
    (h1 : (w.cell a b).life < l) (h2 : l ≤ q - 1) :
    Wired q w0 (w.put a b ⟨(w.cell a b).type, l⟩) := by
  refine ⟨h.one, h.net, h.dims, h.wf.putWF _ _ _, h.wfu, h.pos, h.draws, fun a1 b1 hab1 => ?_⟩
  obtain ⟨c1, c2, c3, c4, c5⟩ := h.cells a1 b1 hab1
  rw [cell_put h.wf hab]
  split
  · rename_i he
    obtain ⟨rfl, rfl⟩ := he
    refine ⟨c1, fun hnc => absurd (c1 ▸ hk) hnc, fun h0 => ?_, fun hu => ?_, fun hu => ?_⟩
    · have := c3 h0
      show 0 ≤ l
      omega
    · have := c4 hu
      refine ⟨show l ≤ q by omega, fun e => ?_⟩
      have := this.2 e
      show l = q
      omega
    · have := c5 hu
      refine ⟨h2, fun e => ?_⟩
      have := this.2 e
      show l = q - 1
      omega
  · exact ⟨c1, c2, c3, c4, c5⟩

/-- The visited conductor spends one unit of charge and is flagged. -/
theorem Wired.spend {q : Int} {w0 w : World} (h : Wired q w0 w) {x y : Int}
    (hx : w.inb x y = true) (hu : w.upd x y = false) (hl : 1 ≤ (w.cell x y).life) :
    Wired q w0 ((w.put x y ⟨(w.cell x y).type, (w.cell x y).life - 1⟩).mark x y) := by
  have hwfu : (w.put x y ⟨(w.cell x y).type, (w.cell x y).life - 1⟩).WFU := h.wfu
  refine ⟨h.one, h.net, h.dims, h.wf.putWF _ _ _, hwfu.markWFU _ _, h.pos, h.draws,
    fun a b hab => ?_⟩
  obtain ⟨c1, c2, c3, c4, c5⟩ := h.cells a b hab
  rw [mark_cell, cell_put h.wf hx, upd_mark hwfu hx]
  simp only [put_upd]
  split
  · rename_i he
    obtain ⟨rfl, rfl⟩ := he
    have b4 := c4 hu
    refine ⟨c1, fun hnc => ?_, fun _ => ?_, fun hf => ?_, fun _ => ⟨?_, fun e => ?_⟩⟩
    · exfalso
      have e0 := (h.net a b hab).2 hnc
      rw [c2 hnc] at hl
      omega
    · show 0 ≤ (w.cell a b).life - 1
      omega
    · cases hf
    · show (w.cell a b).life - 1 ≤ q - 1
      omega
    · have := b4.2 e
      show (w.cell a b).life - 1 = q - 1
      omega
  · exact ⟨c1, c2, c3, c4, c5⟩

/-- The body of the conduction loops in a network: at most the life of a `WIRE` or
`METAL` neighbour is raised, to `q1 - 1`. -/
theorem conductCell_wired {q q1 x y : Int} {w0 v : World} (h : Wired q w0 v) (hq1 : q1 ≤ q)
    (dx dy : Int) :
    wp (conductCell x y q1 dx dy) (fun _ v1 => Wired q w0 v1 ∧ v1.updated = v.updated ∧
      v1.cell x y = v.cell x y) v := by
  unfold conductCell
  rw [wp_ite]
  split
  · exact (wp_pure _ _ _).2 ⟨h, rfl, rfl⟩
  · rename_i hc
    rw [wp_bind, wp_in_bounds, wp_ite]
    split
    · exact (wp_pure _ _ _).2 ⟨h, rfl, rfl⟩
    · rename_i hb
      have hn := inb_of_not hb
      have hn0 : w0.inb (x + dx) (y + dy) = true := (h.inbW _ _).symm.trans hn
      have c1 := (h.cells _ _ hn0).1
      have hnk : NetKind (v.cell (x + dx) (y + dy)).type := by
        rw [c1]
        exact (h.net _ _ hn0).1
      obtain ⟨f1, f2, f3⟩ := netKind_facts hnk
      rw [wp_bind, wp_getCell, h.wf.isSome]
      refine ⟨hn, ?_⟩
      refine wp_seq (I := fun v1 => Wired q w0 v1 ∧ v1.updated = v.updated ∧
        v1.cell x y = v.cell x y ∧
        (v1.cell (x + dx) (y + dy)).type = (v.cell (x + dx) (y + dy)).type) ?_ ?_
      · rw [wp_ite]
        split
        · rename_i hk
          rw [wp_ite]
          split
          · rename_i hlt
            rw [wp_setLife, h.wf.isSome]
            refine ⟨hn, h.raise hn hk hlt (by omega), rfl, ?_, ?_⟩
            · rw [cell_put h.wf hn, if_neg (by omega)]
            · rw [cell_put h.wf hn, if_pos ⟨rfl, rfl⟩]
          · exact (wp_pure _ _ _).2 ⟨h, rfl, rfl, rfl⟩
        · exact (wp_pure _ _ _).2 ⟨h, rfl, rfl, rfl⟩
      · rintro _ v1 ⟨h1, e1, e2, e3⟩
        have hn1 : v1.inb (x + dx) (y + dy) = true := (h1.inbW _ _).trans hn0
        simp only [if_neg f1, f2, Bool.false_eq_true, if_false, wp_bind, wp_pure, wp_getCell,
          wp_ite, h1.wf.isSome, hn1, true_and, e3, if_neg f3]
        exact ⟨h1, e1, e2⟩

/-- The branch of a `WIRE` or `METAL` cell in a network. -/
theorem wireRule_wired {q : Int} {w0 w : World} (h : Wired q w0 w) {x y : Int}
    (hx : w.inb x y = true) (hu : w.upd x y = false) :
    wp (wireRule x y) (fun _ w1 => Wired q w0 w1 ∧ Kept w w1 ∧ w1.upd x y = true) w := by
  have hx0 : w0.inb x y = true := (h.inbW x y).symm.trans hx
  have hle := ((h.cells x y hx0).2.2.2.1 hu).1
  unfold wireRule
  rw [wp_bind, wp_getCell, h.wf.isSome]
  refine ⟨hx, ?_⟩
  by_cases hq : (w.cell x y).life > 0
  · rw [if_pos hq, wp_bind, wp_bind]
    refine wp_mono (wp_forBox (fun v => Wired q w0 v ∧ v.updated = w.updated ∧
      v.cell x y = w.cell x y) 1 _ ?_ w ⟨h, rfl, rfl⟩) ?_
    · intro dx _ dy _ v hv
      refine wp_mono (conductCell_wired hv.1 hle dx dy) ?_
      rintro _ v1 ⟨g1, g2, g3⟩
      exact ⟨g1, g2.trans hv.2.1, g3.trans hv.2.2⟩
    · rintro _ v ⟨g1, g2, g3⟩
      have hxv : v.inb x y = true := (g1.inbW x y).trans hx0
      have huv : v.upd x y = false := (upd_congr g2 x y).trans hu
      have hlv : 1 ≤ (v.cell x y).life := by
        rw [g3]
        omega
      have hnf : ¬ (v.cell x y).life - 1 < 0 := by omega
      simp only [wp_bind, wp_getCell, wp_setLife, wp_ite, wp_pure, wp_setUpdated, isSome_put,
        put_updated, g1.wf.isSome, g1.wfu.isSomeU, hxv, true_and, cell_put g1.wf hxv, and_self,
        if_true, if_neg hnf]
      refine ⟨g1.spend hxv huv hlv, fun a b hab => ?_, ?_⟩
      · rw [upd_mark (show (v.put x y ⟨(v.cell x y).type, (v.cell x y).life - 1⟩).WFU from g1.wfu)
          hxv]
        split
        · rfl
        · exact (upd_congr g2 a b).trans hab
      · rw [upd_mark (show (v.put x y ⟨(v.cell x y).type, (v.cell x y).life - 1⟩).WFU from g1.wfu)
          hxv, if_pos ⟨rfl, rfl⟩]
  · rw [if_neg hq, wp_bind, wp_pure, wp_setUpdated, h.wfu.isSomeU]
    refine ⟨hx, h.flagIdle hx (by omega), fun a b hab => ?_, ?_⟩
    · rw [upd_mark h.wfu hx]
      split
      · rfl
      · exact hab
    · rw [upd_mark h.wfu hx, if_pos ⟨rfl, rfl⟩]

/-- The visit of a cell of a network keeps the invariant `Wired`, clears no flag and
leaves the visited cell flagged. -/
theorem visit_wired {q : Int} {w0 w : World} (h : Wired q w0 w) {x y : Int}
    (hx : w.inb x y = true) :
    wp (visit x y) (fun _ w1 => Wired q w0 w1 ∧ Kept w w1 ∧ w1.upd x y = true) w := by
  have hx0 : w0.inb x y = true := (h.inbW x y).symm.trans hx
  obtain ⟨c1, c2, _, _, _⟩ := h.cells x y hx0
  have hnk : NetKind (w.cell x y).type := by
    rw [c1]
    exact (h.net x y hx0).1
  have hzero : ¬ ((w.cell x y).type = WIRE ∨ (w.cell x y).type = METAL) →
      (w.cell x y).life ≤ 0 := by
    intro hnc
    rw [c1] at hnc
    rw [c2 hnc, (h.net x y hx0).2 hnc]
  have hmark : (w.cell x y).life ≤ 0 →
      wp (setUpdated x y) (fun _ w1 => Wired q w0 w1 ∧ Kept w w1 ∧ w1.upd x y = true) w := by
    intro hl
    rw [wp_setUpdated, h.wfu.isSomeU]
    refine ⟨hx, h.flagIdle hx hl, fun a b hab => ?_, ?_⟩
    · rw [upd_mark h.wfu hx]
      split
      · rfl
      · exact hab
    · rw [upd_mark h.wfu hx, if_pos ⟨rfl, rfl⟩]
  unfold visit
  rw [wp_bind, wp_getUpdated, h.wfu.isSomeU]
  refine ⟨hx, ?_⟩
  cases hu : w.upd x y with
  | true =>
    rw [if_pos rfl, wp_pure]
    exact ⟨h, fun _ _ e => e, hu⟩
  | false =>
    rw [if_neg (by simp), wp_bind, wp_getCell, h.wf.isSome]
    refine ⟨hx, ?_⟩
    rcases hnk with k | k | k | k | k | k
    · simp only [k, reduceCtorEq, or_self, or_false, false_or, if_false, sandlike, liquid, gas,
        Bool.false_eq_true, if_true, true_or, or_true]
      exact wireRule_wired h hx hu
    · simp only [k, reduceCtorEq, or_self, or_false, false_or, if_false, sandlike, liquid, gas,
        Bool.false_eq_true, if_true, true_or, or_true]
      exact wireRule_wired h hx hu
    · simp only [k, reduceCtorEq, or_self, or_false, false_or, if_false, sandlike, liquid, gas,
        Bool.false_eq_true, if_true, true_or, or_true]
      exact hmark (hzero (by rw [k]; decide))
    · simp only [k, reduceCtorEq, or_self, or_false, false_or, if_false, sandlike, liquid, gas,
        Bool.false_eq_true, if_true, true_or, or_true]
      exact hmark (hzero (by rw [k]; decide))
    · simp only [k, reduceCtorEq, or_self, or_false, false_or, if_false, sandlike, liquid, gas,
        Bool.false_eq_true, if_true, true_or, or_true]
      exact hmark (hzero (by rw [k]; decide))
    · simp only [k, reduceCtorEq, or_self, or_false, false_or, if_false, sandlike, liquid, gas,
        Bool.false_eq_true, if_true, true_or, or_true]
      exact hmark (hzero (by rw [k]; decide))

/-- The two loops of `step_sim` on a network: afterwards every cell is flagged. -/
theorem sweep_wired {q : Int} {w0 : World} (w : World) (h : Wired q w0 w) :
    wp (forEach (irange 0 (w0.gHeight - 1)).reverse fun y =>
        forEach (irange 0 (w0.gWidth - 1)) fun x => visit x y)
      (fun _ w1 => Wired q w0 w1 ∧ ∀ x y, w0.inb x y = true → w1.upd x y = true) w := by
  refine wp_mono (wp_forEach_each (fun w1 => Wired q w0 w1) Kept
    (fun y w1 => ∀ x ∈ irange 0 (w0.gWidth - 1), w1.upd x y = true)
    (fun _ _ => fun _ _ e => e) (fun _ _ _ h1 h2 => fun a b e => h2 a b (h1 a b e))
    (fun y w1 w2 hK hP x hxm => hK x y (hP x hxm))
    (irange 0 (w0.gHeight - 1)).reverse _ ?_ w h) ?_
  · intro y hy w1 h1
    refine wp_forEach_each (fun w2 => Wired q w0 w2) Kept
      (fun x w2 => w2.upd x y = true)
      (fun _ _ => fun _ _ e => e) (fun _ _ _ h2 h3 => fun a b e => h3 a b (h2 a b e))
      (fun x w2 w3 hK hP => hK x y hP)
      (irange 0 (w0.gWidth - 1)) _ ?_ w1 h1
    intro x hxm w2 h2
    have hy2 := (mem_irange _ _ _).1 (List.mem_reverse.1 hy)
    have hx2 := (mem_irange _ _ _).1 hxm
    refine visit_wired h2 ?_
    rw [h2.inbW]
    exact (inb_iff w0 x y).2 (by omega)
  · rintro _ w1 ⟨hA, _, hP⟩
    refine ⟨hA, fun x y hib => ?_⟩
    have hxy := (inb_iff w0 x y).1 hib
    exact hP y (List.mem_reverse.2 ((mem_irange _ _ _).2 (by omega))) x
      ((mem_irange _ _ _).2 (by omega))

/-- One tick on a network whose lives are at most `q`, with `q ≥ 1`: no number is drawn,
no kind changes, only `WIRE` and `METAL` cells change, no life becomes negative, and
afterwards every life is at most `q - 1`, with equality where the life was `q`. -/
theorem wire_tick (w : World) (hwf : w.WF) (hnet : Network w) (q : Int) (hq : 1 ≤ q)
    (hle : ∀ x y, w.inb x y = true → (w.cell x y).life ≤ q) :
    wp step_sim (fun _ w1 => SameDims w w1 ∧ w1.WF ∧ w1.pos = w.pos ∧ w1.draws = w.draws ∧
      ∀ a b, w.inb a b = true →
        (w1.cell a b).type = (w.cell a b).type ∧
        (¬ ((w.cell a b).type = WIRE ∨ (w.cell a b).type = METAL) →
          w1.cell a b = w.cell a b) ∧
        (0 ≤ (w.cell a b).life → 0 ≤ (w1.cell a b).life) ∧
        (w1.cell a b).life ≤ q - 1 ∧
        ((w.cell a b).life = q → (w1.cell a b).life = q - 1)) w := by
  unfold step_sim
  rw [wp_bind, wp_getWidth, wp_bind, wp_getHeight]
  refine wp_cases (fun hdim => ?_) (fun hdim => ?_)
  · rw [wp_pure]
    refine ⟨⟨rfl, rfl⟩, hwf, rfl, rfl, fun a b hab => ?_⟩
    have := (inb_iff w a b).1 hab
    omega
  · rw [wp_bind, wp_allocUpdated]
    have h0 : Wired q w
        { w with updated :=
          List.replicate w.gHeight.toNat (List.replicate w.gWidth.toNat false) } := by
      refine ⟨hq, hnet, ⟨rfl, rfl⟩, hwf, rect_replicate _ _ (by omega) (by omega), rfl, rfl,
        fun a b hab => ⟨rfl, fun _ => rfl, fun e => e, fun _ => ⟨hle a b hab, fun e => e⟩,
          fun hu => ?_⟩⟩
      rw [upd_alloc w a b] at hu
      cases hu
    refine wp_mono (sweep_wired _ h0) ?_
    rintro _ w1 ⟨hA, hP⟩
    refine ⟨hA.dims, hA.wf, hA.pos, hA.draws, fun a b hab => ?_⟩
    obtain ⟨c1, c2, c3, _, c5⟩ := hA.cells a b hab
    exact ⟨c1, c2, c3, (c5 (hP a b hab)).1, (c5 (hP a b hab)).2⟩

/-- A tick on a network all of whose lives are 0 leaves the grid as it is. -/
theorem wire_rest (w : World) (hwf : w.WF) (hnet : Network w)
    (hz : ∀ x y, w.inb x y = true → (w.cell x y).life = 0) :
    wp step_sim (fun _ w1 => w1.grid = w.grid) w := by
  refine wp_mono (wire_tick w hwf hnet 1 (by omega) (fun x y hxy => by rw [hz x y hxy]; omega)) ?_
  rintro _ w1 ⟨hd, hwf1, _, _, hc⟩
  refine grid_ext hwf hwf1 hd fun x y => ?_
  cases hxy : w.inb x y with
  | false => rw [cell_oob hwf hxy, cell_oob hwf1 ((inb_dims hd x y).trans hxy)]
  | true =>
    obtain ⟨c1, _, c3, c4, _⟩ := hc x y hxy
    have h0 := hz x y hxy
    have h1 : (w1.cell x y).life = (w.cell x y).life := by
      have := c3 (by omega)
      omega
    revert c1 h1
    cases w1.cell x y
    cases w.cell x y
    rintro rfl rfl
    rfl

/-- After `n` ticks a network whose lives lie between 0 and `n` has every life 0. -/
theorem wire_ticks (n : Nat) : ∀ (w : World), w.WF → Network w → NonNeg w →
    (∀ x y, w.inb x y = true → (w.cell x y).life ≤ (n : Int)) →
    wp (ticks n) (fun _ w1 => SameDims w w1 ∧ w1.WF ∧ Network w1 ∧
      ∀ x y, w.inb x y = true →
        (w1.cell x y).type = (w.cell x y).type ∧ (w1.cell x y).life = 0) w := by
  induction n with
  | zero =>
    intro w hwf hnet hnn hle
    rw [wp_ticks_zero]
    refine ⟨⟨rfl, rfl⟩, hwf, hnet, fun x y hxy => ⟨rfl, ?_⟩⟩
    have h1 := hle x y hxy
    have h2 := hnn x y hxy
    simp only [Nat.cast_zero] at h1
    omega
  | succ n ih =>
    intro w hwf hnet hnn hle
    rw [wp_ticks_succ]
    refine wp_mono (wire_tick w hwf hnet (n + 1) (by omega) (fun x y hxy => by
      have := hle x y hxy
      simp only [Nat.cast_add, Nat.cast_one] at this
      exact this)) ?_
    rintro _ w1 ⟨hd, hwf1, _, _, hc⟩
    have hinb : ∀ x y, w1.inb x y = true → w.inb x y = true :=
      fun x y h => (inb_dims hd x y).symm.trans h
    have hnet1 : Network w1 := by
      intro x y hxy
      obtain ⟨c1, c2, _, _, _⟩ := hc x y (hinb x y hxy)
      refine ⟨by rw [c1]; exact (hnet x y (hinb x y hxy)).1, fun hnc => ?_⟩
      rw [c1] at hnc
      rw [c2 hnc]
      exact (hnet x y (hinb x y hxy)).2 hnc
    have hnn1 : NonNeg w1 := fun x y hxy =>
      (hc x y (hinb x y hxy)).2.2.1 (hnn x y (hinb x y hxy))
    have hle1 : ∀ x y, w1.inb x y = true → (w1.cell x y).life ≤ (n : Int) := by
      intro x y hxy
      have := (hc x y (hinb x y hxy)).2.2.2.1
      omega
    refine wp_mono (ih w1 hwf1 hnet1 hnn1 hle1) ?_
    rintro _ w2 ⟨hd2, hwf2, hnet2, hc2⟩
    refine ⟨⟨hd2.1.trans hd.1, hd2.2.trans hd.2⟩, hwf2, hnet2, fun x y hxy => ?_⟩
    obtain ⟨e1, e2⟩ := hc2 x y ((inb_dims hd x y).trans hxy)
    exact ⟨e1.trans (hc x y hxy).1, e2⟩

/-- A `WIRE` whose life is negative, a value no rule of the program writes into a
conductor, is never reset: in the column `strayWire` the wire at the bottom still has
life -1 after one tick (the rule acts only when `cell.life > 0`), and so it has after
one more tick. -/
theorem stray_wire_instance :
    strayWire.WF ∧ strayWire.cell 0 0 = ⟨WIRE, 1⟩ ∧ strayWire.cell 0 1 = ⟨EMPTY, 0⟩ ∧
      strayWire.cell 0 2 = ⟨WIRE, -1⟩ ∧
      gridAfter (ticks 1) strayWire = some [[⟨WIRE, 0⟩], [⟨EMPTY, 0⟩], [⟨WIRE, -1⟩]] ∧
      gridAfter (ticks 2) strayWire = some [[⟨WIRE, 0⟩], [⟨EMPTY, 0⟩], [⟨WIRE, -1⟩]] := by
  decide!

/-- C35: charge in an isolated conductor network dies out. On every rectangular grid
whose cells are only `WIRE`, `METAL`, `EMPTY`, `WALL`, `STONE` or `GLASS`, with life 0
on every cell that is not `WIRE` or `METAL` and maximum life `q ≥ 1`, one `step_sim`
returns, changes no kind and leaves the maximum life over all cells at exactly `q - 1`;
hence, the lives being nonnegative (as they are in every state the program reaches: all
writes to the life of a conductor are `max(life, 5)`, `max(life, 12)`, a positive charge
`q - 1`, or the decrement clamped at 0), after `q` ticks every cell has its kind and
life 0, and the grid is a fixed point of `step_sim`. -/
theorem charge_dies_out (w : World) (hwf : w.WF) (hnet : Network w) (q : Int) (hq : 1 ≤ q)
    (hle : ∀ x y, w.inb x y = true → (w.cell x y).life ≤ q)
    (hmax : ∃ x y, w.inb x y = true ∧ (w.cell x y).life = q) :
    wp step_sim (fun _ w1 => SameDims w w1 ∧
      (∀ x y, w1.inb x y = true → (w1.cell x y).type = (w.cell x y).type) ∧
      (∀ x y, w1.inb x y = true → (w1.cell x y).life ≤ q - 1) ∧
      ∃ x y, w1.inb x y = true ∧ (w1.cell x y).life = q - 1) w ∧
    (NonNeg w →
      wp (ticks q.toNat) (fun _ w1 => SameDims w w1 ∧
        (∀ x y, w1.inb x y = true →
          (w1.cell x y).type = (w.cell x y).type ∧ (w1.cell x y).life = 0) ∧
        wp step_sim (fun _ w2 => w2.grid = w1.grid) w1) w) := by
  refine ⟨?_, fun hnn => ?_⟩
  · refine wp_mono (wire_tick w hwf hnet q hq hle) ?_
    rintro _ w1 ⟨hd, _, _, _, hc⟩
    have hinb : ∀ x y, w1.inb x y = true → w.inb x y = true :=
      fun x y h => (inb_dims hd x y).symm.trans h
    obtain ⟨mx, my, hm1, hm2⟩ := hmax
    exact ⟨hd, fun x y hxy => (hc x y (hinb x y hxy)).1,
      fun x y hxy => (hc x y (hinb x y hxy)).2.2.2.1,
      mx, my, (inb_dims hd mx my).trans hm1, (hc mx my hm1).2.2.2.2 hm2⟩
  · refine wp_mono (wire_ticks q.toNat w hwf hnet hnn (fun x y hxy => by
      rw [Int.toNat_of_nonneg (by omega)]
      exact hle x y hxy)) ?_
    rintro _ w1 ⟨hd, hwf1, hnet1, hc⟩
    have hinb : ∀ x y, w1.inb x y = true → w.inb x y = true :=
      fun x y h => (inb_dims hd x y).symm.trans h
    exact ⟨hd, fun x y hxy => hc x y (hinb x y hxy),
      wire_rest w1 hwf1 hnet1 fun x y hxy => (hc x y (hinb x y hxy)).2⟩

/-- The grid `circuit` is a network with nonnegative lives of at most 2. -/
theorem circuit_network :
    Network circuit ∧ NonNeg circuit ∧
      ∀ x y, circuit.inb x y = true → (circuit.cell x y).life ≤ 2 := by
  refine ⟨fun x y hxy => ?_, fun x y hxy => ?_, fun x y hxy => ?_⟩ <;>
  · obtain ⟨⟨hx0, hx1⟩, hy0, hy1⟩ := (inb_iff _ x y).1 hxy
    have hx2 : x < 3 := hx1
    have hy2 : y < 2 := hy1
    interval_cases x <;> interval_cases y <;>
      first | decide | exact ⟨by unfold NetKind; decide, by decide⟩

theorem charge_dies_out_witness :
    circuit.WF ∧ Network circuit ∧ (1 : Int) ≤ 2 ∧ NonNeg circuit ∧
      (wp step_sim (fun _ w1 => SameDims circuit w1 ∧
        (∀ x y, w1.inb x y = true → (w1.cell x y).type = (circuit.cell x y).type) ∧
        (∀ x y, w1.inb x y = true → (w1.cell x y).life ≤ 2 - 1) ∧
        ∃ x y, w1.inb x y = true ∧ (w1.cell x y).life = 2 - 1) circuit ∧
      (NonNeg circuit →
        wp (ticks (2 : Int).toNat) (fun _ w1 => SameDims circuit w1 ∧
          (∀ x y, w1.inb x y = true →
            (w1.cell x y).type = (circuit.cell x y).type ∧ (w1.cell x y).life = 0) ∧
          wp step_sim (fun _ w2 => w2.grid = w1.grid) w1) circuit)) :=
  ⟨by decide, circuit_network.1, by decide, circuit_network.2.1,
    charge_dies_out circuit (by decide) circuit_network.1 2 (by decide) circuit_network.2.2
      ⟨0, 0, by decide, by decide⟩⟩

/-- The ticks of `circuit`: the wire spends its charge while it raises the metal next
to it; after two ticks every life is 0 and a third tick changes nothing. -/
theorem circuit_instance :
    gridAfter (ticks 1) circuit =
        some [[⟨WIRE, 1⟩, ⟨METAL, 0⟩, ⟨STONE, 0⟩], [⟨WALL, 0⟩, ⟨EMPTY, 0⟩, ⟨GLASS, 0⟩]] ∧
      gridAfter (ticks 2) circuit =
        some [[⟨WIRE, 0⟩, ⟨METAL, 0⟩, ⟨STONE, 0⟩], [⟨WALL, 0⟩, ⟨EMPTY, 0⟩, ⟨GLASS, 0⟩]] ∧
      gridAfter (ticks 3) circuit = gridAfter (ticks 2) circuit := by
  decide!

/-! ## A lone fire -/

/-- The two loops of `step_sim`, started with a clear mask on a grid holding a lone fire
that is not on the top row: the cells before the fire in the sweep are skipped, the fire
is visited alone, and the cells after it are `EMPTY` or, for the cell the fire rose
into, flagged. -/
theorem fire_sweep {w : World} (hwf : w.WF) (hwfu : w.WFU) (hu : ∀ x y, w.upd x y = false)
    {sx sy L : Int} (hib : w.inb sx sy = true) (hib2 : w.inb sx (sy - 1) = true)
    (hl : Lone ⟨FIRE, L⟩ sx sy w) :
    wp (forEach (irange 0 (w.gHeight - 1)).reverse fun y =>
        forEach (irange 0 (w.gWidth - 1)) fun x => visit x y)
      (fun _ w1 => SameDims w w1 ∧ w1.WF ∧ w1.pos = w.pos + 1 ∧ w1.draws = w.draws ∧
        ∀ a b, w.inb a b = true → w1.cell a b =
          if w.roll 1 100 ≤ 50 then
            (if a = sx ∧ b = sy then ⟨SMOKE, 15⟩
              else if a = sx ∧ b = sy - 1 then ⟨FIRE, L⟩ else ⟨EMPTY, 0⟩)
          else
            (if a = sx ∧ b = sy then (if dec32 L ≤ 0 then ⟨SMOKE, 15⟩ else ⟨FIRE, dec32 L⟩)
              else ⟨EMPTY, 0⟩)) w := by
  obtain ⟨⟨hx0, hx1⟩, hy0, hy1⟩ := (inb_iff w sx sy).1 hib
  have hempty : ∀ x y, w.inb x y = true → ¬ (x = sx ∧ y = sy) → w.cell x y = ⟨EMPTY, 0⟩ := by
    intro x y hxy hne
    rw [hl x y hxy, if_neg hne]
  refine sweep_upto hwf hwfu hib ?_ _ ?_
  · intro x y hxy hlt
    right; left
    rw [hempty x y hxy (by omega)]
  intro w1 h1
  refine wp_mono (visit_fire_alone (L := L) (h1.wf hwf) h1.2.2.2.2.1 ((h1.inbC _ _).trans hib)
    ((h1.inbC _ _).trans hib2) ?_ ?_ ?_) ?_
  · rw [h1.2.2.2.2.2.2 sx sy (by omega)]
    exact hu sx sy
  · rw [h1.cell, hl sx sy hib, if_pos ⟨rfl, rfl⟩]
  · intro dx dy hbd h0 hb
    rw [h1.cell]
    exact hempty _ _ ((h1.inbC _ _).symm.trans hb) (by omega)
  rintro _ w2 ⟨d2, wf2, wfu2, p2, dr2, c2, u2⟩
  have hd2 : SameDims w w2 := ⟨d2.1.trans h1.1.1, d2.2.trans h1.1.2⟩
  have hr1 : w1.roll 1 100 = w.roll 1 100 := by
    unfold World.roll
    rw [h1.2.2.1, h1.2.2.2.1]
  rw [hr1] at c2 u2
  refine sweep_rest wf2 wfu2 hd2.1 (by omega) hy0 (by rw [hd2.2]; exact hy1) ?_ _ ?_
  · intro x y hxy hlt
    have hxy0 : w.inb x y = true := (inb_dims hd2 x y).symm.trans hxy
    have hE := hempty x y hxy0 (by omega)
    by_cases hup : w2.upd x y = true
    · exact Or.inl hup
    · right; left
      have hnr : ¬ (w.roll 1 100 ≤ 50 ∧ x = sx ∧ y = sy - 1) := by
        intro hh
        apply hup
        rw [u2, if_pos (Or.inr hh)]
      have e2 : w2.cell x y = ⟨EMPTY, 0⟩ := by
        rw [c2, h1.cell]
        split_ifs <;> first | rfl | exact hE | (exfalso; omega)
      rw [e2]
  · intro w3 h3
    refine ⟨⟨h3.1.1.trans hd2.1, h3.1.2.trans hd2.2⟩, h3.wf wf2, ?_, ?_, ?_⟩
    · rw [h3.2.2.2.1, p2, h1.2.2.2.1]
    · rw [h3.2.2.1, dr2, h1.2.2.1]
    · intro a b hab
      rw [h3.cell, c2, h1.cell]
      by_cases h5 : a = sx ∧ b = sy
      · simp only [h5, and_self, if_true]
      · simp only [if_neg h5, hempty a b hab h5]

/-- C33: outcome of a lone fire. On every rectangular grid whose only non-`EMPTY` cell
is a `FIRE` with life `L ≥ 1` at `(x, y)` with `y > 0`, every other cell being `EMPTY`
with life 0, and for every stream, one `step_sim` returns, draws exactly one number, and
yields one of two grids, chosen by that draw: when the roll is at most 50 (rise) `FIRE`
with life `L` at `(x, y - 1)` and `SMOKE` with life 15 at `(x, y)`; otherwise (stay)
at `(x, y)` `FIRE` with life `L - 1` when `L > 1` and `SMOKE` with life 15 when `L = 1`;
every other cell is `EMPTY` with life 0. -/
theorem lone_fire (w : World) (hwf : w.WF) (x y L : Int) (hib : w.inb x y = true)
    (hy : 0 < y) (hL : 1 ≤ L) (hl : Lone ⟨FIRE, L⟩ x y w) :
    wp step_sim (fun _ w1 => SameDims w w1 ∧ w1.WF ∧ w1.pos = w.pos + 1 ∧
      w1.draws = w.draws ∧
      ((w.roll 1 100 ≤ 50 ∧ ∀ a b, w1.inb a b = true → w1.cell a b =
          if a = x ∧ b = y then ⟨SMOKE, 15⟩
          else if a = x ∧ b = y - 1 then ⟨FIRE, L⟩ else ⟨EMPTY, 0⟩) ∨
        (¬ w.roll 1 100 ≤ 50 ∧ ∀ a b, w1.inb a b = true → w1.cell a b =
          if a = x ∧ b = y then (if L = 1 then ⟨SMOKE, 15⟩ else ⟨FIRE, L - 1⟩)
          else ⟨EMPTY, 0⟩))) w := by
  obtain ⟨⟨hx0, hx1⟩, hy0, hy1⟩ := (inb_iff w x y).1 hib
  have hib2 : w.inb x (y - 1) = true := (inb_iff w x (y - 1)).2 (by omega)
  unfold step_sim
  rw [wp_bind, wp_getWidth, wp_bind, wp_getHeight, if_neg (by omega), wp_bind, wp_allocUpdated]
  refine wp_mono (fire_sweep
    (w := ({ w with updated :=
      List.replicate w.gHeight.toNat (List.replicate w.gWidth.toNat false) } : World))
    hwf (rect_replicate w.gWidth w.gHeight (by omega) (by omega)) (upd_alloc w) hib hib2 hl) ?_
  rintro _ w1 ⟨hd, hwf1, hp, hdr, hc0⟩
  rw [dec32_of (show -2147483648 < L by omega)] at hc0
  have hc : ∀ a b, w.inb a b = true → w1.cell a b =
      if w.roll 1 100 ≤ 50 then
        (if a = x ∧ b = y then ⟨SMOKE, 15⟩
          else if a = x ∧ b = y - 1 then ⟨FIRE, L⟩ else ⟨EMPTY, 0⟩)
      else
        (if a = x ∧ b = y then (if L - 1 ≤ 0 then ⟨SMOKE, 15⟩ else ⟨FIRE, L - 1⟩)
          else ⟨EMPTY, 0⟩) := hc0
  have hd1 : SameDims w w1 := hd
  refine ⟨hd1, hwf1, hp, hdr, ?_⟩
  by_cases hr : w.roll 1 100 ≤ 50
  · refine Or.inl ⟨hr, fun a b hab => ?_⟩
    rw [hc a b ((inb_dims hd1 a b).symm.trans hab), if_pos hr]
  · refine Or.inr ⟨hr, fun a b hab => ?_⟩
    rw [hc a b ((inb_dims hd1 a b).symm.trans hab), if_neg hr]
    have e : L - 1 ≤ 0 ↔ L = 1 := by omega
    simp only [e]

/-- The grid `campfire L d` holds a lone fire at `(1, 1)`. -/
theorem campfire_lone (L : Int) (d : Nat → Nat) : Lone ⟨FIRE, L⟩ 1 1 (campfire L d) := by
  intro x y hxy
  obtain ⟨⟨hx0, hx1⟩, hy0, hy1⟩ := (inb_iff _ x y).1 hxy
  have hx2 : x < 3 := hx1
  have hy2 : y < 3 := hy1
  interval_cases x <;> interval_cases y <;> rfl

theorem lone_fire_witness :
    (campfire 1 fun n => 60 * n).WF ∧ (campfire 1 fun n => 60 * n).inb 1 1 = true ∧
      (0 : Int) < 1 ∧ (1 : Int) ≤ 1 ∧
      wp step_sim (fun _ w1 => SameDims (campfire 1 fun n => 60 * n) w1 ∧ w1.WF ∧
        w1.pos = (campfire 1 fun n => 60 * n).pos + 1 ∧
        w1.draws = (campfire 1 fun n => 60 * n).draws ∧
        (((campfire 1 fun n => 60 * n).roll 1 100 ≤ 50 ∧
            ∀ a b, w1.inb a b = true → w1.cell a b =
              if a = 1 ∧ b = 1 then ⟨SMOKE, 15⟩
              else if a = 1 ∧ b = 1 - 1 then ⟨FIRE, 1⟩ else ⟨EMPTY, 0⟩) ∨
          (¬ (campfire 1 fun n => 60 * n).roll 1 100 ≤ 50 ∧
            ∀ a b, w1.inb a b = true → w1.cell a b =
              if a = 1 ∧ b = 1 then (if (1 : Int) = 1 then ⟨SMOKE, 15⟩ else ⟨FIRE, 1 - 1⟩)
              else ⟨EMPTY, 0⟩))) (campfire 1 fun n => 60 * n) :=
  ⟨by decide, by decide, by decide, by decide,
    lone_fire _ (by decide) 1 1 1 (by decide) (by decide) (by decide) (campfire_lone 1 _)⟩

/-- The two outcomes on the 3x3 grid: with a roll of 1 the fire rises and leaves smoke;
with a roll of 100 a fire of life 5 stays with life 4 and a fire of life 1 turns into
smoke. -/
theorem campfire_instance :
    gridAfter step_sim (campfire 5 fun _ => 0) =
        some [[⟨EMPTY, 0⟩, ⟨FIRE, 5⟩, ⟨EMPTY, 0⟩], [⟨EMPTY, 0⟩, ⟨SMOKE, 15⟩, ⟨EMPTY, 0⟩],
          [⟨EMPTY, 0⟩, ⟨EMPTY, 0⟩, ⟨EMPTY, 0⟩]] ∧
      gridAfter step_sim (campfire 5 fun _ => 99) =
        some [[⟨EMPTY, 0⟩, ⟨EMPTY, 0⟩, ⟨EMPTY, 0⟩], [⟨EMPTY, 0⟩, ⟨FIRE, 4⟩, ⟨EMPTY, 0⟩],
          [⟨EMPTY, 0⟩, ⟨EMPTY, 0⟩, ⟨EMPTY, 0⟩]] ∧
      gridAfter step_sim (campfire 1 fun _ => 99) =
        some [[⟨EMPTY, 0⟩, ⟨EMPTY, 0⟩, ⟨EMPTY, 0⟩], [⟨EMPTY, 0⟩, ⟨SMOKE, 15⟩, ⟨EMPTY, 0⟩],
          [⟨EMPTY, 0⟩, ⟨EMPTY, 0⟩, ⟨EMPTY, 0⟩]] := by
  decide!

end PowderSandbox
